import Mathlib

/-!
# NV-Dedup write path (`dedup.c`): shallow embedding and verified properties

The embedding follows `src/dedup.c` function by function and keeps its names.

* Persistent and in-memory state reachable from `struct nova_sb_info` is the
  record `nova_sb_info`: the metadata entry table (`pentries`), the two hash
  tables (a bucket is the list of its nodes, head first), the reverse map
  `blocknr_to_entry`, the data blocks, and the controller fields.
* Everything the file calls but does not define (the two allocators, the random
  source) is passed in per call as a record `Ext` holding the values those
  calls return; the fingerprint functions and the constants of the headers are
  the fields of `Config`.
* `u32` fields are natural numbers and every `++` on them is taken modulo
  `2 ^ 32`.
* A ghost event trace records lock, unlock, flush, entry-store, allocator and
  wake-up calls in program order.
-/

namespace NvDedup

/-! ## Data model -/

/-- A data chunk: the `PAGE_SIZE` bytes behind `data_buffer`, or the content of a block. -/
abbrev Chunk := List Nat

/-- Modelled from the spec: `struct nova_fp_strong` is declared in `dedup.h`, which is not
among the sources; the code reads exactly the four words `u64s[0..3]`. -/
structure nova_fp_strong where
  u64s0 : Nat
  u64s1 : Nat
  u64s2 : Nat
  u64s3 : Nat
deriving DecidableEq

/-- The value `{0}` of a strong fingerprint. -/
def nova_fp_strong.zero : nova_fp_strong := ⟨0, 0, 0, 0⟩

/-- Modelled from the spec: `struct nova_pmm_entry` is declared in a header that is not among
the sources; the fields are those the code accesses, `fp_weak` standing for `fp_weak.u32`;
the spec gives `refcount` as a `u32`. -/
structure nova_pmm_entry where
  flag : Nat
  blocknr : Nat
  refcount : Nat
  fp_weak : Nat
  fp_strong : nova_fp_strong
deriving DecidableEq

/-- The entry left by `memset_nt(pentry, 0, sizeof(*pentry))`. -/
def nova_pmm_entry.zero : nova_pmm_entry := ⟨0, 0, 0, 0, nova_fp_strong.zero⟩

/-- An index node (`struct nova_hentry`): the code uses its `entrynr` and its list linkage. -/
structure nova_hentry where
  entrynr : Nat
deriving DecidableEq

/-- Ghost events, appended to the trace in program order. -/
inductive Event where
  | weak_lock (i : Nat)
  | weak_unlock (i : Nat)
  | strong_lock (i : Nat)
  | strong_unlock (i : Nat)
  | store (entrynr : Nat)
  | flush (entrynr : Nat)
  | alloc_entry
  | alloc_block
  | wakeup
deriving DecidableEq

/-- The part of `struct nova_sb_info` (and of the persistent memory behind it) that
`dedup.c` reads or writes. The structure is declared in `nova.h`, which is not among the
sources; `dedup_mode`, `cur_block` and `dup_block` are taken as `u32`, the type of the local
copies `u32 dup_mode` and `u32 dup_block` in `nova_dedup_new_write`. `trace` is the ghost
trace. -/
structure nova_sb_info where
  num_entries_bits : Nat
  pentries : Nat → nova_pmm_entry
  weak_hash_table : Nat → List nova_hentry
  strong_hash_table : Nat → List nova_hentry
  blocknr_to_entry : Nat → Nat
  blocks : Nat → Chunk
  dedup_mode : Nat
  cur_block : Nat
  dup_block : Nat
  trace : List Event

/-- Constants and functions that `dedup.c` takes from `dedup.h`, `nova.h` and the fingerprint
code, none of which is among the sources. -/
structure Config where
  NON_FIN : Nat
  WEAK_STR_FIN : Nat
  STR_FIN : Nat
  SAMPLE_BLOCK : Nat
  STR_FIN_THRESH : Nat
  NON_FIN_THRESH : Nat
  FP_STRONG_FLAG : Nat
  FP_WEAK_FLAG : Nat
  NON_FIN_FLAG : Nat
  HASH_TABLE_LOCK_NUM : Nat
  nova_fp_weak_calc : Chunk → Nat
  nova_fp_strong_calc : Chunk → nova_fp_strong

/-- What the external calls of one write return: `nova_alloc_entry`, `nova_new_data_block`
(its return value and the block number it leaves in `*blocknr`) and `get_random_bytes`.
Each of them is called at most once per write. -/
structure Ext where
  alloc_entry : Nat
  allocated : Int
  blocknr : Nat
  randomNum : Nat
deriving DecidableEq

/-- Result of a write: the state after it, the content of `*blocknr`, the returned `int`. -/
structure Ret where
  sbi : nova_sb_info
  blocknr : Nat
  allocated : Int

/-- The errno `ESRCH` of the kernel headers. -/
def ESRCH : Int := 3

/-- Modulus of a `u32` field: `++` on `refcount`, `dup_block` and `cur_block` wraps here. -/
def U32_MOD : Nat := 2 ^ 32

/-- Pointwise update of a table indexed by numbers. -/
def upd {α : Type} (f : Nat → α) (k : Nat) (v : α) : Nat → α :=
  fun i => if i = k then v else f i

namespace nova_sb_info

/-- Append a ghost event. -/
def log (sbi : nova_sb_info) (e : Event) : nova_sb_info :=
  { sbi with trace := sbi.trace ++ [e] }

/-- Stores to fields of `pentries[entrynr]`. -/
def set_entry (sbi : nova_sb_info) (entrynr : Nat) (p : nova_pmm_entry) : nova_sb_info :=
  { sbi with pentries := upd sbi.pentries entrynr p, trace := sbi.trace ++ [Event.store entrynr] }

/-- The call `hlist_add_head(&hentry->node, &sbi->weak_hash_table[idx])` for a fresh node. -/
def weak_add_head (sbi : nova_sb_info) (idx : Nat) (entrynr : Nat) : nova_sb_info :=
  { sbi with weak_hash_table := upd sbi.weak_hash_table idx (⟨entrynr⟩ :: sbi.weak_hash_table idx) }

/-- The call `hlist_add_head(&hentry->node, &sbi->strong_hash_table[idx])` for a fresh node. -/
def strong_add_head (sbi : nova_sb_info) (idx : Nat) (entrynr : Nat) : nova_sb_info :=
  { sbi with
    strong_hash_table := upd sbi.strong_hash_table idx (⟨entrynr⟩ :: sbi.strong_hash_table idx) }

/-- The statement `++sbi->dup_block`. -/
def inc_dup_block (sbi : nova_sb_info) : nova_sb_info :=
  { sbi with dup_block := (sbi.dup_block + 1) % U32_MOD }

/-- The statement `sbi->blocknr_to_entry[blocknr] = entrynr`. -/
def map_block (sbi : nova_sb_info) (blocknr entrynr : Nat) : nova_sb_info :=
  { sbi with blocknr_to_entry := upd sbi.blocknr_to_entry blocknr entrynr }

end nova_sb_info

/-- The bucket index `fp & ((1 << num_entries_bits) - 1)` (as in C for `num_entries_bits < 31`). -/
def bucket_idx (sbi : nova_sb_info) (fp : Nat) : Nat :=
  fp &&& ((1 <<< sbi.num_entries_bits) - 1)

/-! ## Functions of `dedup.c` -/

/-- Lines 17-20. -/
def cmp_fp_strong (dst src : nova_fp_strong) : Bool :=
  dst.u64s0 == src.u64s0 && dst.u64s1 == src.u64s1
    && dst.u64s2 == src.u64s2 && dst.u64s3 == src.u64s3

/-- Lines 22-52: allocate one block and copy the chunk into it; on a negative return of the
allocator nothing is copied. -/
def nova_alloc_block_write (sbi : nova_sb_info) (x : Ext) (data_buffer : Chunk) : Ret :=
  let sbi := sbi.log Event.alloc_block
  let allocated := x.allocated
  let blocknr := x.blocknr
  if allocated < 0 then
    ⟨sbi, blocknr, allocated⟩
  else
    ⟨{ sbi with blocks := upd sbi.blocks blocknr data_buffer }, blocknr, allocated⟩

/-- The call `nova_alloc_entry(sb)`: the entry number comes from the environment. -/
def nova_alloc_entry (sbi : nova_sb_info) (x : Ext) : nova_sb_info × Nat :=
  (sbi.log Event.alloc_entry, x.alloc_entry)

/-- Lines 68-82: the first node of the bucket whose entry has the given weak fingerprint.
The first argument is the entry table `pentries` that the function obtains from `sb`. -/
def nova_find_in_weak_hlist (pentries : Nat → nova_pmm_entry) :
    List nova_hentry → Nat → Option nova_hentry
  | [], _ => none
  | hentry :: rest, fp_weak =>
    if (pentries hentry.entrynr).fp_weak = fp_weak then some hentry
    else nova_find_in_weak_hlist pentries rest fp_weak

/-- Lines 84-98: the first node of the bucket whose entry has the given strong fingerprint.
The first argument is the entry table `pentries` that the function obtains from `sb`. -/
def nova_find_in_strong_hlist (pentries : Nat → nova_pmm_entry) :
    List nova_hentry → nova_fp_strong → Option nova_hentry
  | [], _ => none
  | hentry :: rest, fp_strong =>
    if cmp_fp_strong (pentries hentry.entrynr).fp_strong fp_strong then some hentry
    else nova_find_in_strong_hlist pentries rest fp_strong

/-- Lines 238-241 of `nova_dedup_str_fin`: label `out`. -/
def str_fin_out (cfg : Config) (sbi : nova_sb_info) (weak_idx strong_idx : Nat)
    (blocknr : Nat) (allocated : Int) : Ret :=
  let sbi := sbi.log (Event.weak_unlock (weak_idx % cfg.HASH_TABLE_LOCK_NUM))
  let sbi := sbi.log (Event.strong_unlock (strong_idx % cfg.HASH_TABLE_LOCK_NUM))
  ⟨sbi, blocknr, allocated⟩

/-- Lines 228-241 of `nova_dedup_str_fin`: flush `pentry`, add the weak node when the weak
lookup found none, then label `out`. On every path that reaches line 228 `pentry` is
`pentries + strong_find_entry`. -/
def str_fin_finish (cfg : Config) (sbi : nova_sb_info) (weak_find_hentry : Option nova_hentry)
    (weak_idx strong_idx : Nat) (strong_find_entry : Nat) (blocknr : Nat) (allocated : Int) :
    Ret :=
  let sbi := sbi.log (Event.flush strong_find_entry)
  let sbi := match weak_find_hentry with
    | some _ => sbi
    | none => sbi.weak_add_head weak_idx strong_find_entry
  str_fin_out cfg sbi weak_idx strong_idx blocknr allocated

/-- Lines 184-202 and 206-224 of `nova_dedup_str_fin` (the two copies are identical):
allocate an entry and a block; on failure go to `out`, otherwise fill the entry, add the
strong node and record the block-to-entry mapping. -/
def str_fin_alloc (cfg : Config) (sbi : nova_sb_info) (x : Ext) (data_buffer : Chunk)
    (fp_weak : Nat) (fp_strong : nova_fp_strong) (weak_find_hentry : Option nova_hentry)
    (weak_idx strong_idx : Nat) : Ret :=
  let (sbi, alloc_entry) := nova_alloc_entry sbi x
  let r := nova_alloc_block_write sbi x data_buffer
  if r.allocated < 0 then
    str_fin_out cfg r.sbi weak_idx strong_idx r.blocknr r.allocated
  else
    let sbi := r.sbi.set_entry alloc_entry
      { r.sbi.pentries alloc_entry with
        flag := cfg.FP_STRONG_FLAG, blocknr := r.blocknr, fp_strong := fp_strong,
        fp_weak := fp_weak, refcount := 1 }
    let sbi := sbi.strong_add_head strong_idx alloc_entry
    let sbi := sbi.map_block r.blocknr alloc_entry
    str_fin_finish cfg sbi weak_find_hentry weak_idx strong_idx alloc_entry r.blocknr r.allocated

/-- Lines 101-242. -/
def nova_dedup_str_fin (cfg : Config) (sbi : nova_sb_info) (x : Ext) (data_buffer : Chunk)
    (_blocknr : Nat) : Ret :=
  let fp_weak := cfg.nova_fp_weak_calc data_buffer
  let fp_strong := cfg.nova_fp_strong_calc data_buffer
  let weak_idx := bucket_idx sbi fp_weak
  let sbi := sbi.log (Event.weak_lock (weak_idx % cfg.HASH_TABLE_LOCK_NUM))
  let weak_find_hentry :=
    nova_find_in_weak_hlist sbi.pentries (sbi.weak_hash_table weak_idx) fp_weak
  let strong_idx := bucket_idx sbi fp_strong.u64s0
  let sbi := sbi.log (Event.strong_lock (strong_idx % cfg.HASH_TABLE_LOCK_NUM))
  let strong_find_hentry :=
    nova_find_in_strong_hlist sbi.pentries (sbi.strong_hash_table strong_idx) fp_strong
  match strong_find_hentry with
  | some sh =>
    let pentry := sbi.pentries sh.entrynr
    let sbi := sbi.set_entry sh.entrynr
      { pentry with
        refcount := (pentry.refcount + 1) % U32_MOD, fp_weak := fp_weak,
        flag := cfg.FP_STRONG_FLAG }
    let sbi := sbi.inc_dup_block
    str_fin_finish cfg sbi weak_find_hentry weak_idx strong_idx sh.entrynr pentry.blocknr 1
  | none =>
    match weak_find_hentry with
    | some wh =>
      let pentry := sbi.pentries wh.entrynr
      let entry_fp_strong := cfg.nova_fp_strong_calc (sbi.blocks pentry.blocknr)
      if cmp_fp_strong entry_fp_strong fp_strong then
        let sbi := sbi.set_entry wh.entrynr
          { pentry with
            fp_strong := entry_fp_strong, refcount := (pentry.refcount + 1) % U32_MOD,
            flag := cfg.FP_STRONG_FLAG }
        let sbi := sbi.inc_dup_block
        let sbi := sbi.strong_add_head strong_idx wh.entrynr
        str_fin_finish cfg sbi weak_find_hentry weak_idx strong_idx wh.entrynr pentry.blocknr 1
      else
        str_fin_alloc cfg sbi x data_buffer fp_weak fp_strong weak_find_hentry
          weak_idx strong_idx
    | none =>
      str_fin_alloc cfg sbi x data_buffer fp_weak fp_strong weak_find_hentry
        weak_idx strong_idx

/-- Lines 410-412 of `nova_dedup_weak_str_fin`: label `out`. -/
def weak_str_fin_out (cfg : Config) (sbi : nova_sb_info) (weak_idx : Nat)
    (blocknr : Nat) (allocated : Int) : Ret :=
  ⟨sbi.log (Event.weak_unlock (weak_idx % cfg.HASH_TABLE_LOCK_NUM)), blocknr, allocated⟩

/-- Lines 377-380 and 410-412 of `nova_dedup_weak_str_fin`: the conditional flush of
`weak_entry`, then label `out`. -/
def weak_str_fin_finish (cfg : Config) (sbi : nova_sb_info) (weak_idx : Nat)
    (weak_entrynr : Nat) (flush_entry : Bool) (blocknr : Nat) (allocated : Int) : Ret :=
  let sbi := if flush_entry then sbi.log (Event.flush weak_entrynr) else sbi
  weak_str_fin_out cfg sbi weak_idx blocknr allocated

/-- Lines 286-316 of `nova_dedup_weak_str_fin`: the reference strong fingerprint of the entry
found by the weak lookup. A `FP_STRONG_FLAG` entry gives its stored fingerprint; a
`FP_WEAK_FLAG` entry is upgraded (fingerprint of its block computed and stored, strong node
added under the strong bucket lock); any other flag leaves `entry_fp_strong` at `{0}`.
Returns the state, `entry_fp_strong` and `flush_entry`. -/
def weak_str_fin_reference (cfg : Config) (sbi : nova_sb_info) (weak_entrynr : Nat) :
    nova_sb_info × nova_fp_strong × Bool :=
  let weak_entry := sbi.pentries weak_entrynr
  if weak_entry.flag = cfg.FP_STRONG_FLAG then
    (sbi, weak_entry.fp_strong, false)
  else if weak_entry.flag = cfg.FP_WEAK_FLAG then
    let entry_fp_strong := cfg.nova_fp_strong_calc (sbi.blocks weak_entry.blocknr)
    let sbi := sbi.set_entry weak_entrynr
      { weak_entry with flag := cfg.FP_STRONG_FLAG, fp_strong := entry_fp_strong }
    let strong_idx := bucket_idx sbi entry_fp_strong.u64s0
    let sbi := sbi.log (Event.strong_lock (strong_idx % cfg.HASH_TABLE_LOCK_NUM))
    let sbi := sbi.strong_add_head strong_idx weak_entrynr
    let sbi := sbi.log (Event.strong_unlock (strong_idx % cfg.HASH_TABLE_LOCK_NUM))
    (sbi, entry_fp_strong, true)
  else
    (sbi, nova_fp_strong.zero, false)

/-- Lines 331-375 of `nova_dedup_weak_str_fin`: the incoming strong fingerprint differs from
the reference one; look it up in the strong table, bump the entry found or allocate. -/
def weak_str_fin_collision (cfg : Config) (sbi : nova_sb_info) (x : Ext) (data_buffer : Chunk)
    (fp_weak : Nat) (fp_strong : nova_fp_strong) (weak_idx : Nat) (weak_entrynr : Nat)
    (flush_entry : Bool) : Ret :=
  let strong_idx := bucket_idx sbi fp_strong.u64s0
  let sbi := sbi.log (Event.strong_lock (strong_idx % cfg.HASH_TABLE_LOCK_NUM))
  let strong_find_hentry :=
    nova_find_in_strong_hlist sbi.pentries (sbi.strong_hash_table strong_idx) fp_strong
  match strong_find_hentry with
  | some sh =>
    let strong_entry := sbi.pentries sh.entrynr
    let sbi := sbi.set_entry sh.entrynr
      { strong_entry with refcount := (strong_entry.refcount + 1) % U32_MOD }
    let sbi := sbi.log (Event.flush sh.entrynr)
    let sbi := sbi.inc_dup_block
    let sbi := sbi.log (Event.strong_unlock (strong_idx % cfg.HASH_TABLE_LOCK_NUM))
    weak_str_fin_finish cfg sbi weak_idx weak_entrynr flush_entry strong_entry.blocknr 1
  | none =>
    let (sbi, alloc_entry) := nova_alloc_entry sbi x
    let r := nova_alloc_block_write sbi x data_buffer
    if r.allocated < 0 then
      let sbi := r.sbi.log (Event.strong_unlock (strong_idx % cfg.HASH_TABLE_LOCK_NUM))
      weak_str_fin_out cfg sbi weak_idx r.blocknr r.allocated
    else
      let sbi := r.sbi.set_entry alloc_entry
        { r.sbi.pentries alloc_entry with
          flag := cfg.FP_STRONG_FLAG, fp_weak := fp_weak, fp_strong := fp_strong,
          blocknr := r.blocknr, refcount := 1 }
      let sbi := sbi.log (Event.flush alloc_entry)
      let sbi := sbi.strong_add_head strong_idx alloc_entry
      let sbi := sbi.map_block r.blocknr alloc_entry
      let sbi := sbi.log (Event.strong_unlock (strong_idx % cfg.HASH_TABLE_LOCK_NUM))
      weak_str_fin_finish cfg sbi weak_idx weak_entrynr flush_entry r.blocknr r.allocated

/-- Lines 244-413. -/
def nova_dedup_weak_str_fin (cfg : Config) (sbi : nova_sb_info) (x : Ext) (data_buffer : Chunk)
    (_blocknr : Nat) : Ret :=
  let fp_weak := cfg.nova_fp_weak_calc data_buffer
  let weak_idx := bucket_idx sbi fp_weak
  let sbi := sbi.log (Event.weak_lock (weak_idx % cfg.HASH_TABLE_LOCK_NUM))
  let weak_find_hentry :=
    nova_find_in_weak_hlist sbi.pentries (sbi.weak_hash_table weak_idx) fp_weak
  match weak_find_hentry with
  | some wh =>
    let ref := weak_str_fin_reference cfg sbi wh.entrynr
    let sbi := ref.1
    let entry_fp_strong := ref.2.1
    let flush_entry := ref.2.2
    let fp_strong := cfg.nova_fp_strong_calc data_buffer
    if cmp_fp_strong fp_strong entry_fp_strong then
      let weak_entry := sbi.pentries wh.entrynr
      let sbi := sbi.set_entry wh.entrynr
        { weak_entry with refcount := (weak_entry.refcount + 1) % U32_MOD }
      let sbi := sbi.inc_dup_block
      weak_str_fin_finish cfg sbi weak_idx wh.entrynr true weak_entry.blocknr 1
    else
      weak_str_fin_collision cfg sbi x data_buffer fp_weak fp_strong weak_idx wh.entrynr
        flush_entry
  | none =>
    let (sbi, alloc_entry) := nova_alloc_entry sbi x
    let r := nova_alloc_block_write sbi x data_buffer
    if r.allocated < 0 then
      weak_str_fin_out cfg r.sbi weak_idx r.blocknr r.allocated
    else
      let sbi := r.sbi.set_entry alloc_entry
        { nova_pmm_entry.zero with
          flag := cfg.FP_WEAK_FLAG, fp_weak := fp_weak, blocknr := r.blocknr, refcount := 1 }
      let sbi := sbi.log (Event.flush alloc_entry)
      let sbi := sbi.weak_add_head weak_idx alloc_entry
      let sbi := sbi.map_block r.blocknr alloc_entry
      weak_str_fin_out cfg sbi weak_idx r.blocknr r.allocated

/-- Lines 415-441. -/
def nova_dedup_non_fin (_cfg : Config) (sbi : nova_sb_info) (x : Ext) (data_buffer : Chunk)
    (_blocknr : Nat) : Ret :=
  let (sbi, alloc_entry) := nova_alloc_entry sbi x
  let r := nova_alloc_block_write sbi x data_buffer
  if r.allocated < 0 then
    r
  else
    let sbi := r.sbi.set_entry alloc_entry
      { nova_pmm_entry.zero with
        blocknr := r.blocknr, flag := _cfg.NON_FIN_FLAG, refcount := 1 }
    let sbi := sbi.log (Event.flush alloc_entry)
    let sbi := sbi.map_block r.blocknr alloc_entry
    ⟨sbi, r.blocknr, r.allocated⟩

/-- Lines 460-481 of `nova_dedup_new_write`: count the write and, when the sampling window
is full, choose the next mode and reset the two counters. -/
def nova_dedup_new_write_sample (cfg : Config) (sbi : nova_sb_info) (x : Ext) : nova_sb_info :=
  let sbi := { sbi with cur_block := (sbi.cur_block + 1) % U32_MOD }
  if sbi.cur_block ≥ cfg.SAMPLE_BLOCK then
    let sbi := if sbi.dedup_mode = cfg.NON_FIN then sbi.log Event.wakeup else sbi
    let dup_block := sbi.dup_block
    let sbi :=
      if dup_block > cfg.STR_FIN_THRESH then
        { sbi with dedup_mode := cfg.STR_FIN }
      else if dup_block > cfg.NON_FIN_THRESH then
        { sbi with dedup_mode := cfg.WEAK_STR_FIN }
      else if x.randomNum &&& 1 ≠ 0 then
        { sbi with dedup_mode := cfg.NON_FIN }
      else
        { sbi with dedup_mode := cfg.WEAK_STR_FIN }
    { sbi with cur_block := 0, dup_block := 0 }
  else
    sbi

/-- Lines 483-503 of `nova_dedup_new_write`: the dispatch on `sbi->dedup_mode`. -/
def nova_dedup_new_write_dispatch (cfg : Config) (sbi : nova_sb_info) (x : Ext)
    (data_buffer : Chunk) (blocknr : Nat) : Ret :=
  let dup_mode := sbi.dedup_mode
  if dup_mode &&& cfg.NON_FIN ≠ 0 then
    nova_dedup_non_fin cfg sbi x data_buffer blocknr
  else if dup_mode &&& cfg.WEAK_STR_FIN ≠ 0 then
    nova_dedup_weak_str_fin cfg sbi x data_buffer blocknr
  else if dup_mode &&& cfg.STR_FIN ≠ 0 then
    nova_dedup_str_fin cfg sbi x data_buffer blocknr
  else
    ⟨sbi, blocknr, -ESRCH⟩

/-- Lines 451-504. -/
def nova_dedup_new_write (cfg : Config) (sbi : nova_sb_info) (x : Ext) (data_buffer : Chunk)
    (blocknr : Nat) : Ret :=
  nova_dedup_new_write_dispatch cfg (nova_dedup_new_write_sample cfg sbi x) x data_buffer blocknr

/-! ## Names for what a call computes first -/

/-- The weak bucket index that a write of `data` computes. -/
def weak_idx_of (cfg : Config) (sbi : nova_sb_info) (data : Chunk) : Nat :=
  bucket_idx sbi (cfg.nova_fp_weak_calc data)

/-- The strong bucket index that a write of `data` computes. -/
def strong_idx_of (cfg : Config) (sbi : nova_sb_info) (data : Chunk) : Nat :=
  bucket_idx sbi (cfg.nova_fp_strong_calc data).u64s0

/-- The weak lookup that a write of `data` performs in state `sbi`. -/
def weak_lookup (cfg : Config) (sbi : nova_sb_info) (data : Chunk) : Option nova_hentry :=
  nova_find_in_weak_hlist sbi.pentries (sbi.weak_hash_table (weak_idx_of cfg sbi data))
    (cfg.nova_fp_weak_calc data)

/-- The strong lookup that a write of `data` performs in state `sbi`. -/
def strong_lookup (cfg : Config) (sbi : nova_sb_info) (data : Chunk) : Option nova_hentry :=
  nova_find_in_strong_hlist sbi.pentries (sbi.strong_hash_table (strong_idx_of cfg sbi data))
    (cfg.nova_fp_strong_calc data)

/-- A bucket table after `hlist_add_head` of a node for `entrynr` at `idx`. -/
def add_head (tbl : Nat → List nova_hentry) (idx entrynr : Nat) : Nat → List nova_hentry :=
  upd tbl idx (⟨entrynr⟩ :: tbl idx)

/-- The weak table after lines 232-236 of `nova_dedup_str_fin`. -/
def weak_table_after (weak_find : Option nova_hentry) (tbl : Nat → List nova_hentry)
    (idx entrynr : Nat) : Nat → List nova_hentry :=
  match weak_find with
  | some _ => tbl
  | none => add_head tbl idx entrynr

/-- The entry that `nova_dedup_str_fin` reuses for `data` in state `sbi` (a dedup hit): the one
found by the strong lookup, else the one found by the weak lookup when the fingerprint of its
block equals the incoming strong fingerprint; `none` when the write allocates. -/
def str_fin_match (cfg : Config) (sbi : nova_sb_info) (data : Chunk) : Option Nat :=
  match strong_lookup cfg sbi data with
  | some sh => some sh.entrynr
  | none =>
    match weak_lookup cfg sbi data with
    | some wh =>
      if cmp_fp_strong (cfg.nova_fp_strong_calc (sbi.blocks (sbi.pentries wh.entrynr).blocknr))
          (cfg.nova_fp_strong_calc data) then some wh.entrynr
      else none
    | none => none

/-- The reference fingerprint `entry_fp_strong` that lines 286-316 obtain for the entry
`entrynr` found by the weak lookup. -/
def ref_fp (cfg : Config) (sbi : nova_sb_info) (entrynr : Nat) : nova_fp_strong :=
  if (sbi.pentries entrynr).flag = cfg.FP_STRONG_FLAG then (sbi.pentries entrynr).fp_strong
  else if (sbi.pentries entrynr).flag = cfg.FP_WEAK_FLAG then
    cfg.nova_fp_strong_calc (sbi.blocks (sbi.pentries entrynr).blocknr)
  else nova_fp_strong.zero

/-- Whether lines 298-316 upgrade the entry `entrynr` (its flag is `FP_WEAK_FLAG`, not
`FP_STRONG_FLAG`). -/
def ref_upgrades (cfg : Config) (sbi : nova_sb_info) (entrynr : Nat) : Bool :=
  decide ((sbi.pentries entrynr).flag ≠ cfg.FP_STRONG_FLAG ∧
    (sbi.pentries entrynr).flag = cfg.FP_WEAK_FLAG)

/-- The entry table after lines 286-316. -/
def ref_pentries (cfg : Config) (sbi : nova_sb_info) (entrynr : Nat) : Nat → nova_pmm_entry :=
  if ref_upgrades cfg sbi entrynr then
    upd sbi.pentries entrynr
      { sbi.pentries entrynr with
        flag := cfg.FP_STRONG_FLAG,
        fp_strong := cfg.nova_fp_strong_calc (sbi.blocks (sbi.pentries entrynr).blocknr) }
  else sbi.pentries

/-- The strong table after lines 286-316. -/
def ref_strong_table (cfg : Config) (sbi : nova_sb_info) (entrynr : Nat) :
    Nat → List nova_hentry :=
  if ref_upgrades cfg sbi entrynr then
    add_head sbi.strong_hash_table
      (bucket_idx sbi
        (cfg.nova_fp_strong_calc (sbi.blocks (sbi.pentries entrynr).blocknr)).u64s0)
      entrynr
  else sbi.strong_hash_table

/-- The strong lookup of lines 332-336 of `nova_dedup_weak_str_fin`, done after the entry
`entrynr` found by the weak lookup was handled by lines 286-316. -/
def collision_lookup (cfg : Config) (sbi : nova_sb_info) (data : Chunk) (entrynr : Nat) :
    Option nova_hentry :=
  nova_find_in_strong_hlist (ref_pentries cfg sbi entrynr)
    (ref_strong_table cfg sbi entrynr (strong_idx_of cfg sbi data))
    (cfg.nova_fp_strong_calc data)

/-- The entry that `nova_dedup_weak_str_fin` reuses for `data` in state `sbi` (a dedup hit):
the one found by the weak lookup when its reference fingerprint equals the incoming strong
fingerprint, else the one found by the strong lookup after such a weak collision; `none`
when the write allocates. -/
def weak_str_fin_match (cfg : Config) (sbi : nova_sb_info) (data : Chunk) : Option Nat :=
  match weak_lookup cfg sbi data with
  | some wh =>
    if cmp_fp_strong (cfg.nova_fp_strong_calc data) (ref_fp cfg sbi wh.entrynr) then
      some wh.entrynr
    else
      match collision_lookup cfg sbi data wh.entrynr with
      | some sh => some sh.entrynr
      | none => none
  | none => none

/-- Number of calls of the block allocator (`nova_alloc_block_write`) recorded in a trace. -/
def allocator_calls (t : List Event) : Nat :=
  t.count Event.alloc_block

/-- An entry number is referenced by the index: some node of some bucket of the weak or of the
strong table carries it. -/
def referenced (sbi : nova_sb_info) (e : Nat) : Prop :=
  ∃ b n, (n ∈ sbi.weak_hash_table b ∨ n ∈ sbi.strong_hash_table b) ∧ n.entrynr = e

/-! ## Concrete data on which the definitions are evaluated -/

/-- A configuration: three distinct mode bits, three distinct flags, a window of four writes,
and toy fingerprints (the byte sum as weak fingerprint; first byte, byte sum and length as
strong fingerprint). -/
def exampleConfig : Config where
  NON_FIN := 1
  WEAK_STR_FIN := 2
  STR_FIN := 4
  SAMPLE_BLOCK := 4
  STR_FIN_THRESH := 2
  NON_FIN_THRESH := 1
  FP_STRONG_FLAG := 2
  FP_WEAK_FLAG := 1
  NON_FIN_FLAG := 4
  HASH_TABLE_LOCK_NUM := 2
  nova_fp_weak_calc := fun d => d.sum % 2 ^ 32
  nova_fp_strong_calc := fun d => ⟨d.headD 0, d.sum, d.length, 0⟩

/-- A state with an empty index (eight buckets per table), zeroed entries and blocks, the
given mode and window counters. -/
def exampleState (mode cur dup : Nat) : nova_sb_info where
  num_entries_bits := 3
  pentries := fun _ => nova_pmm_entry.zero
  weak_hash_table := fun _ => []
  strong_hash_table := fun _ => []
  blocknr_to_entry := fun _ => 0
  blocks := fun _ => []
  dedup_mode := mode
  cur_block := cur
  dup_block := dup
  trace := []

/-- Chunk A of the examples. -/
def chunkA : Chunk := [1, 2]

/-- Chunk B of the examples: the weak fingerprint of A, another strong fingerprint. -/
def chunkB : Chunk := [2, 1]

/-- Environment values of the examples: entry `n`, block `10 + n`, allocation succeeding,
random value `n`. -/
def exampleExt (n : Nat) : Ext := ⟨n, 1, 10 + n, n⟩

/-- What an allocation failure must leave alone, `r` being the result of the failed write from
state `sbi` with environment values `x`: the allocator's value is returned, the block
allocator was called once, the weak table is as it was and no entry number came to be
referenced by the index, no entry changed its refcount or block number, and `dup_block` and
the block-to-entry map are as they were. -/
def unchanged_on_failure (sbi : nova_sb_info) (x : Ext) (r : Ret) : Prop :=
  r.allocated = x.allocated ∧
  allocator_calls r.sbi.trace = allocator_calls sbi.trace + 1 ∧
  r.sbi.weak_hash_table = sbi.weak_hash_table ∧
  (∀ e, referenced r.sbi e → referenced sbi e) ∧
  (∀ e, (r.sbi.pentries e).refcount = (sbi.pentries e).refcount ∧
    (r.sbi.pentries e).blocknr = (sbi.pentries e).blocknr) ∧
  r.sbi.dup_block = sbi.dup_block ∧
  r.sbi.blocknr_to_entry = sbi.blocknr_to_entry ∧
  r.sbi.blocks = sbi.blocks

/-- Environment values of the examples with a failing block allocator (`-ENOSPC`). -/
def failingExt (n : Nat) : Ext := ⟨n, -28, 0, n⟩

/-! ## Sequences of writes -/

/-- The state after a sequence of writes through `step` (one of the three algorithms or
`nova_dedup_new_write`), each write with its environment values and its chunk; `b` is the
content of the caller's `blocknr` variable before the first write. -/
def run_state (step : nova_sb_info → Ext → Chunk → Nat → Ret) :
    nova_sb_info → Nat → List (Ext × Chunk) → nova_sb_info
  | sbi, _, [] => sbi
  | sbi, b, w :: ws =>
    run_state step (step sbi w.1 w.2 b).sbi (step sbi w.1 w.2 b).blocknr ws

/-- The pairs (block number, returned value) of the writes of such a sequence, in order. -/
def run_rets (step : nova_sb_info → Ext → Chunk → Nat → Ret) :
    nova_sb_info → Nat → List (Ext × Chunk) → List (Nat × Int)
  | _, _, [] => []
  | sbi, b, w :: ws =>
    ((step sbi w.1 w.2 b).blocknr, (step sbi w.1 w.2 b).allocated) ::
      run_rets step (step sbi w.1 w.2 b).sbi (step sbi w.1 w.2 b).blocknr ws

/-- The content of the caller's `blocknr` variable after such a sequence. -/
def run_blocknr (step : nova_sb_info → Ext → Chunk → Nat → Ret) :
    nova_sb_info → Nat → List (Ext × Chunk) → Nat
  | _, b, [] => b
  | sbi, b, w :: ws =>
    run_blocknr step (step sbi w.1 w.2 b).sbi (step sbi w.1 w.2 b).blocknr ws

/-- The fingerprint index is empty: every bucket of both tables is the empty list. -/
def index_empty (sbi : nova_sb_info) : Prop :=
  ∀ b, sbi.weak_hash_table b = [] ∧ sbi.strong_hash_table b = []

/-- Weak-collision safety of a write function `step` for chunk A written with environment
values `xA` and then chunk B with `xB` from state `sbi`, followed by the writes `later`: the
two writes return the block numbers of their own allocations; afterwards the entries of A
and of B are two distinct entries with distinct block numbers and distinct strong
fingerprints, and the index references these two entries only; the block number and the
refcount 1 that A's entry had after the first write are still there after the write of B;
and every one of the later writes returns the block number of A's entry if it writes A and
that of B's entry otherwise. -/
def collision_safe (cfg : Config) (step : nova_sb_info → Ext → Chunk → Nat → Ret)
    (sbi : nova_sb_info) (b : Nat) (A B : Chunk) (xA xB : Ext) (later : List (Ext × Chunk)) :
    Prop :=
  run_rets step sbi b [(xA, A), (xB, B)]
    = [(xA.blocknr, xA.allocated), (xB.blocknr, xB.allocated)] ∧
  xA.alloc_entry ≠ xB.alloc_entry ∧
  ((run_state step sbi b [(xA, A), (xB, B)]).pentries xA.alloc_entry).blocknr
    ≠ ((run_state step sbi b [(xA, A), (xB, B)]).pentries xB.alloc_entry).blocknr ∧
  ((run_state step sbi b [(xA, A), (xB, B)]).pentries xA.alloc_entry).fp_strong
    ≠ ((run_state step sbi b [(xA, A), (xB, B)]).pentries xB.alloc_entry).fp_strong ∧
  ((run_state step sbi b [(xA, A), (xB, B)]).pentries xA.alloc_entry).fp_strong
    = cfg.nova_fp_strong_calc A ∧
  ((run_state step sbi b [(xA, A), (xB, B)]).pentries xB.alloc_entry).fp_strong
    = cfg.nova_fp_strong_calc B ∧
  (∀ e, referenced (run_state step sbi b [(xA, A), (xB, B)]) e →
    e = xA.alloc_entry ∨ e = xB.alloc_entry) ∧
  ((step sbi xA A b).sbi.pentries xA.alloc_entry).blocknr = xA.blocknr ∧
  ((step sbi xA A b).sbi.pentries xA.alloc_entry).refcount = 1 ∧
  ((run_state step sbi b [(xA, A), (xB, B)]).pentries xA.alloc_entry).blocknr = xA.blocknr ∧
  ((run_state step sbi b [(xA, A), (xB, B)]).pentries xA.alloc_entry).refcount = 1 ∧
  ((run_state step sbi b [(xA, A), (xB, B)]).pentries xB.alloc_entry).blocknr = xB.blocknr ∧
  ((run_state step sbi b [(xA, A), (xB, B)]).pentries xB.alloc_entry).refcount = 1 ∧
  (run_rets step (run_state step sbi b [(xA, A), (xB, B)])
      (run_blocknr step sbi b [(xA, A), (xB, B)]) later).map Prod.fst
    = later.map (fun w => if w.2 = A then xA.blocknr else xB.blocknr)

/-! ## Soundness of the index -/

/-- Entry `e` was handed out by the entry allocator (`E`), its block by the block allocator
(`K`), and the content of that block is one of the chunks written (`C`). -/
def entry_backed (p : Nat → nova_pmm_entry) (blk : Nat → Chunk) (E K : List Nat)
    (C : List Chunk) (e : Nat) : Prop :=
  e ∈ E ∧ (p e).blocknr ∈ K ∧ blk (p e).blocknr ∈ C

/-- The strong fingerprint stored in entry `e` is the fingerprint of the content of its
block. -/
def fp_valid (cfg : Config) (p : Nat → nova_pmm_entry) (blk : Nat → Chunk) (e : Nat) : Prop :=
  (p e).fp_strong = cfg.nova_fp_strong_calc (blk (p e).blocknr)

/-- Soundness of an index over an entry table and a block store: every node of the strong
table references a backed entry whose stored strong fingerprint is valid; every node of the
weak table references a backed entry that either has flag `FP_STRONG_FLAG` and a valid
stored strong fingerprint, or has flag `FP_WEAK_FLAG`. -/
def tables_sound (cfg : Config) (p : Nat → nova_pmm_entry) (w s : Nat → List nova_hentry)
    (blk : Nat → Chunk) (E K : List Nat) (C : List Chunk) : Prop :=
  (∀ b n, n ∈ s b → entry_backed p blk E K C n.entrynr ∧ fp_valid cfg p blk n.entrynr) ∧
  (∀ b n, n ∈ w b → entry_backed p blk E K C n.entrynr ∧
    (((p n.entrynr).flag = cfg.FP_STRONG_FLAG ∧ fp_valid cfg p blk n.entrynr) ∨
      ((p n.entrynr).flag ≠ cfg.FP_STRONG_FLAG ∧ (p n.entrynr).flag = cfg.FP_WEAK_FLAG)))

/-- Soundness of the index of a state. -/
def index_sound (cfg : Config) (sbi : nova_sb_info) (E K : List Nat) (C : List Chunk) : Prop :=
  tables_sound cfg sbi.pentries sbi.weak_hash_table sbi.strong_hash_table sbi.blocks E K C

/-! ## The three algorithms under one name -/

/-- The three deduplication algorithms of `dedup.c`. -/
inductive Algo where
  | non_fin
  | weak_str_fin
  | str_fin
  deriving DecidableEq, Repr

/-- One write through the given algorithm. -/
def run_algo (cfg : Config) : Algo → nova_sb_info → Ext → Chunk → Nat → Ret
  | Algo.non_fin => nova_dedup_non_fin cfg
  | Algo.weak_str_fin => nova_dedup_weak_str_fin cfg
  | Algo.str_fin => nova_dedup_str_fin cfg

/-- The entry that a write of `data` through the given algorithm reuses (a dedup hit); `none`
when the write allocates. `nova_dedup_non_fin` always allocates. -/
def algo_match (cfg : Config) : Algo → nova_sb_info → Chunk → Option Nat
  | Algo.non_fin, _, _ => none
  | Algo.weak_str_fin, sbi, data => weak_str_fin_match cfg sbi data
  | Algo.str_fin, sbi, data => str_fin_match cfg sbi data

/-- The effect of a dedup hit on entry `e`: one block is reported, the block of `e` is
returned, the reference count of `e` goes up by one (as a u32), no other reference count and
no block number changes, no block is written, and `dup_block` goes up by one (as a u32). -/
def hit_effect (sbi : nova_sb_info) (e : Nat) (r : Ret) : Prop :=
  r.allocated = 1 ∧
  r.blocknr = (sbi.pentries e).blocknr ∧
  (r.sbi.pentries e).refcount = ((sbi.pentries e).refcount + 1) % U32_MOD ∧
  (∀ k, k ≠ e → (r.sbi.pentries k).refcount = (sbi.pentries k).refcount) ∧
  (∀ k, (r.sbi.pentries k).blocknr = (sbi.pentries k).blocknr) ∧
  r.sbi.blocks = sbi.blocks ∧
  r.sbi.dup_block = (sbi.dup_block + 1) % U32_MOD

/-- The effect of a write that allocates with success: the allocator's values are returned,
the entry `x.alloc_entry` gets reference count 1 and the new block number, no other reference
count or block number changes, the data is written to the new block, and `dup_block` stays. -/
def create_effect (sbi : nova_sb_info) (x : Ext) (data : Chunk) (r : Ret) : Prop :=
  r.allocated = x.allocated ∧
  r.blocknr = x.blocknr ∧
  (r.sbi.pentries x.alloc_entry).refcount = 1 ∧
  (r.sbi.pentries x.alloc_entry).blocknr = x.blocknr ∧
  (∀ k, k ≠ x.alloc_entry →
    (r.sbi.pentries k).refcount = (sbi.pentries k).refcount ∧
    (r.sbi.pentries k).blocknr = (sbi.pentries k).blocknr) ∧
  r.sbi.blocks = upd sbi.blocks x.blocknr data ∧
  r.sbi.dup_block = sbi.dup_block

/-- The effect of a write whose block allocation fails: the error is returned and no reference
count, block number, block or `dup_block` changes. -/
def fail_effect (sbi : nova_sb_info) (x : Ext) (r : Ret) : Prop :=
  r.allocated = x.allocated ∧
  (∀ k, (r.sbi.pentries k).refcount = (sbi.pentries k).refcount ∧
    (r.sbi.pentries k).blocknr = (sbi.pentries k).blocknr) ∧
  r.sbi.blocks = sbi.blocks ∧
  r.sbi.dup_block = sbi.dup_block

/-! ## Several insertions into one weak bucket -/

/-- The state after nodes for the entries `es` were inserted, in that order, into the weak
bucket `idx`, each by `hlist_add_head` as at lines 232-236. -/
def insert_weak_nodes (sbi : nova_sb_info) (idx : Nat) (es : List Nat) : nova_sb_info :=
  es.foldl (fun s e => s.weak_add_head idx e) sbi

/-- An example state whose entries all carry the weak fingerprint 3 (entry `e` has block
`10 + e`), with an empty index. -/
def sameWeakState : nova_sb_info :=
  { exampleState 4 0 0 with
    pentries := fun e => ⟨1, 10 + e, 1, 3, nova_fp_strong.zero⟩ }

/-! ## The events of one call -/

/-- The events that a call added to the trace of the state it started from. -/
def call_events (sbi : nova_sb_info) (r : Ret) : List Event :=
  r.sbi.trace.drop sbi.trace.length

/-- The events of lines 298-316 for the entry `entrynr` found by the weak lookup: when the
entry is upgraded, the store to it and the insertion of its strong node under the lock of
that node's bucket. -/
def ref_events (cfg : Config) (sbi : nova_sb_info) (entrynr : Nat) : List Event :=
  if ref_upgrades cfg sbi entrynr then
    [Event.store entrynr,
     Event.strong_lock
      (bucket_idx sbi (cfg.nova_fp_strong_calc (sbi.blocks (sbi.pentries entrynr).blocknr)).u64s0
        % cfg.HASH_TABLE_LOCK_NUM),
     Event.strong_unlock
      (bucket_idx sbi (cfg.nova_fp_strong_calc (sbi.blocks (sbi.pentries entrynr).blocknr)).u64s0
        % cfg.HASH_TABLE_LOCK_NUM)]
  else []

/-- The events of the conditional flush of line 378 when `flush_entry` was set by lines
298-316. -/
def ref_flush (cfg : Config) (sbi : nova_sb_info) (entrynr : Nat) : List Event :=
  if ref_upgrades cfg sbi entrynr then [Event.flush entrynr] else []

/-- The events of a call of `nova_dedup_str_fin`, by path. -/
def str_fin_events (cfg : Config) (sbi : nova_sb_info) (x : Ext) (data : Chunk) : List Event :=
  [Event.weak_lock (weak_idx_of cfg sbi data % cfg.HASH_TABLE_LOCK_NUM),
   Event.strong_lock (strong_idx_of cfg sbi data % cfg.HASH_TABLE_LOCK_NUM)] ++
  (match str_fin_match cfg sbi data with
   | some e => [Event.store e, Event.flush e]
   | none =>
     if x.allocated < 0 then [Event.alloc_entry, Event.alloc_block]
     else [Event.alloc_entry, Event.alloc_block, Event.store x.alloc_entry,
       Event.flush x.alloc_entry]) ++
  [Event.weak_unlock (weak_idx_of cfg sbi data % cfg.HASH_TABLE_LOCK_NUM),
   Event.strong_unlock (strong_idx_of cfg sbi data % cfg.HASH_TABLE_LOCK_NUM)]

/-- The events of lines 331-375 of `nova_dedup_weak_str_fin` (a weak collision on the entry
`entrynr`) up to the release of the strong bucket lock, and whether line 378 is reached. -/
def collision_events (cfg : Config) (sbi : nova_sb_info) (x : Ext) (data : Chunk)
    (entrynr : Nat) : List Event × Bool :=
  match collision_lookup cfg sbi data entrynr with
  | some sh =>
    ([Event.strong_lock (strong_idx_of cfg sbi data % cfg.HASH_TABLE_LOCK_NUM),
      Event.store sh.entrynr, Event.flush sh.entrynr,
      Event.strong_unlock (strong_idx_of cfg sbi data % cfg.HASH_TABLE_LOCK_NUM)], true)
  | none =>
    if x.allocated < 0 then
      ([Event.strong_lock (strong_idx_of cfg sbi data % cfg.HASH_TABLE_LOCK_NUM),
        Event.alloc_entry, Event.alloc_block,
        Event.strong_unlock (strong_idx_of cfg sbi data % cfg.HASH_TABLE_LOCK_NUM)], false)
    else
      ([Event.strong_lock (strong_idx_of cfg sbi data % cfg.HASH_TABLE_LOCK_NUM),
        Event.alloc_entry, Event.alloc_block, Event.store x.alloc_entry,
        Event.flush x.alloc_entry,
        Event.strong_unlock (strong_idx_of cfg sbi data % cfg.HASH_TABLE_LOCK_NUM)], true)

/-- The events of a call of `nova_dedup_weak_str_fin`, by path. -/
def weak_str_fin_events (cfg : Config) (sbi : nova_sb_info) (x : Ext) (data : Chunk) :
    List Event :=
  [Event.weak_lock (weak_idx_of cfg sbi data % cfg.HASH_TABLE_LOCK_NUM)] ++
  (match weak_lookup cfg sbi data with
   | none =>
     if x.allocated < 0 then [Event.alloc_entry, Event.alloc_block]
     else [Event.alloc_entry, Event.alloc_block, Event.store x.alloc_entry,
       Event.flush x.alloc_entry]
   | some wh =>
     ref_events cfg sbi wh.entrynr ++
     (if cmp_fp_strong (cfg.nova_fp_strong_calc data) (ref_fp cfg sbi wh.entrynr) then
        [Event.store wh.entrynr, Event.flush wh.entrynr]
      else
        (collision_events cfg sbi x data wh.entrynr).1 ++
        (if (collision_events cfg sbi x data wh.entrynr).2 then ref_flush cfg sbi wh.entrynr
         else []))) ++
  [Event.weak_unlock (weak_idx_of cfg sbi data % cfg.HASH_TABLE_LOCK_NUM)]

/-- The entries with a store that no later flush of the same entry follows, in a list of
events. -/
def unflushed : List Event → List Nat
  | [] => []
  | Event.store e :: rest =>
    if Event.flush e ∈ rest then unflushed rest else e :: unflushed rest
  | _ :: rest => unflushed rest

/-- A lock of one of the two lock arrays. -/
inductive LockId where
  | weak (i : Nat)
  | strong (i : Nat)
  deriving DecidableEq, Repr

/-- One event against the list of locks held, for a call whose weak bucket lock has index `w`:
`none` when the event acquires a lock that is held, acquires a strong bucket lock while the
weak bucket lock `w` is not held, or releases a lock that is not held. -/
def lock_step (w : Nat) (held : List LockId) : Event → Option (List LockId)
  | Event.weak_lock i =>
    if LockId.weak i ∈ held then none else some (LockId.weak i :: held)
  | Event.strong_lock i =>
    if LockId.strong i ∈ held then none
    else if LockId.weak w ∈ held then some (LockId.strong i :: held)
    else none
  | Event.weak_unlock i =>
    if LockId.weak i ∈ held then some (held.erase (LockId.weak i)) else none
  | Event.strong_unlock i =>
    if LockId.strong i ∈ held then some (held.erase (LockId.strong i)) else none
  | _ => some held

/-- The locks held after a list of events, `none` when some event breaks the discipline of
`lock_step`. -/
def lock_run (w : Nat) : List LockId → List Event → Option (List LockId)
  | held, [] => some held
  | held, e :: rest =>
    match lock_step w held e with
    | none => none
    | some held' => lock_run w held' rest

/-- The lock events of a list of events. -/
def lock_events (evs : List Event) : List Event :=
  evs.filter (fun e =>
    match e with
    | Event.weak_lock _ => true
    | Event.strong_lock _ => true
    | Event.weak_unlock _ => true
    | Event.strong_unlock _ => true
    | _ => false)

/-! ## Sequences of writes through any of the algorithms -/

/-- The state after a sequence of writes, each through its own algorithm, with its
environment values and its chunk; `b` is the content of the caller's `blocknr` variable before
the first write. -/
def mixed_state (cfg : Config) : nova_sb_info → Nat → List (Algo × Ext × Chunk) → nova_sb_info
  | sbi, _, [] => sbi
  | sbi, b, w :: ws =>
    mixed_state cfg (run_algo cfg w.1 sbi w.2.1 w.2.2 b).sbi
      (run_algo cfg w.1 sbi w.2.1 w.2.2 b).blocknr ws

/-- The pairs (block number, returned value) of the writes of such a sequence, in order. -/
def mixed_rets (cfg : Config) :
    nova_sb_info → Nat → List (Algo × Ext × Chunk) → List (Nat × Int)
  | _, _, [] => []
  | sbi, b, w :: ws =>
    ((run_algo cfg w.1 sbi w.2.1 w.2.2 b).blocknr, (run_algo cfg w.1 sbi w.2.1 w.2.2 b).allocated)
      :: mixed_rets cfg (run_algo cfg w.1 sbi w.2.1 w.2.2 b).sbi
          (run_algo cfg w.1 sbi w.2.1 w.2.2 b).blocknr ws

/-- The entry a write creates: the one handed out by the entry allocator when the write is no
dedup hit and its block allocation succeeds; nothing otherwise. -/
def write_creates (cfg : Config) (a : Algo) (sbi : nova_sb_info) (x : Ext) (data : Chunk) :
    List Nat :=
  if algo_match cfg a sbi data = none ∧ ¬ x.allocated < 0 then [x.alloc_entry] else []

/-- The entries created by the writes of such a sequence, in order. -/
def mixed_created (cfg : Config) : nova_sb_info → Nat → List (Algo × Ext × Chunk) → List Nat
  | _, _, [] => []
  | sbi, b, w :: ws =>
    write_creates cfg w.1 sbi w.2.1 w.2.2 ++
      mixed_created cfg (run_algo cfg w.1 sbi w.2.1 w.2.2 b).sbi
        (run_algo cfg w.1 sbi w.2.1 w.2.2 b).blocknr ws

/-- The number of successful writes (returned value not negative) in a list of
(block number, returned value) pairs. -/
def successes (H : List (Nat × Int)) : Nat :=
  H.countP (fun r => decide (0 ≤ r.2))

/-- The number of successful writes that returned the block number `k`. -/
def returns_of (H : List (Nat × Int)) (k : Nat) : Nat :=
  H.countP (fun r => decide (0 ≤ r.2) && decide (r.1 = k))

/-- The reference counts of a state account for a history `H` of writes: the entries `E`
(created so far, pairwise distinct) are the only ones the index references, they have
pairwise distinct block numbers, all in `K`; the reference count of each is the number of
successful writes of `H` that returned its block number, as a u32; and every successful write
of `H` returned the block number of one of them. -/
def accounted (sbi : nova_sb_info) (E K : List Nat) (H : List (Nat × Int)) : Prop :=
  E.Nodup ∧
  (∀ e, referenced sbi e → e ∈ E) ∧
  (∀ e ∈ E, (sbi.pentries e).blocknr ∈ K) ∧
  (∀ e ∈ E, ∀ e' ∈ E, (sbi.pentries e).blocknr = (sbi.pentries e').blocknr → e = e') ∧
  (∀ e ∈ E, (sbi.pentries e).refcount = returns_of H (sbi.pentries e).blocknr % U32_MOD) ∧
  (∀ r ∈ H, 0 ≤ r.2 → ∃ e ∈ E, (sbi.pentries e).blocknr = r.1)

/-! ## The strong index -/

/-- The bucket index of a fingerprint word for tables of `2 ^ bits` buckets, as computed at
lines 146, 310 and 332. -/
def bucket_of (bits fp : Nat) : Nat :=
  fp &&& ((1 <<< bits) - 1)

/-- The strong-index invariant of a state: every node of strong bucket `b` references an entry
whose flag is `FP_STRONG_FLAG` and whose stored strong fingerprint selects bucket `b`, and
every entry whose flag is `FP_STRONG_FLAG` is referenced by a node of the strong bucket that
its stored strong fingerprint selects. -/
def strong_index_inv (cfg : Config) (sbi : nova_sb_info) : Prop :=
  (∀ b n, n ∈ sbi.strong_hash_table b →
    (sbi.pentries n.entrynr).flag = cfg.FP_STRONG_FLAG ∧
    bucket_idx sbi (sbi.pentries n.entrynr).fp_strong.u64s0 = b) ∧
  (∀ e, (sbi.pentries e).flag = cfg.FP_STRONG_FLAG →
    ∃ n ∈ sbi.strong_hash_table (bucket_idx sbi (sbi.pentries e).fp_strong.u64s0),
      n.entrynr = e)

/-- The strong-index invariant over the parts of a state, together with what its preservation
rests on: the stored strong fingerprint of every `FP_STRONG_FLAG` entry is that of the content
of its block, and every entry a node references was handed out by the entry allocator (`E`)
and has a block handed out by the block allocator (`K`). -/
def strong_inv (cfg : Config) (bits : Nat) (p : Nat → nova_pmm_entry)
    (w s : Nat → List nova_hentry) (blk : Nat → Chunk) (E K : List Nat) : Prop :=
  (∀ b n, n ∈ s b →
    (p n.entrynr).flag = cfg.FP_STRONG_FLAG ∧
    bucket_of bits (p n.entrynr).fp_strong.u64s0 = b) ∧
  (∀ e, (p e).flag = cfg.FP_STRONG_FLAG →
    ∃ n ∈ s (bucket_of bits (p e).fp_strong.u64s0), n.entrynr = e) ∧
  (∀ e, (p e).flag = cfg.FP_STRONG_FLAG → fp_valid cfg p blk e) ∧
  (∀ b n, n ∈ w b ∨ n ∈ s b → n.entrynr ∈ E ∧ (p n.entrynr).blocknr ∈ K)

/-! ## The weak index -/

/-- The weak-index invariant over the parts of a state, together with what its preservation
rests on: every node of weak bucket `b` references an entry whose stored weak fingerprint
selects bucket `b`; the stored weak fingerprints of the entries referenced from one weak
bucket are pairwise distinct, node by node; the stored weak fingerprint of every entry a node
references is that of the content of its block; the stored strong fingerprint of every entry
a strong node references is that of the content of its block; and every entry a node
references was handed out by the entry allocator (`E`), with a block handed out by the block
allocator (`K`) whose content is one of the chunks written (`C`). -/
def weak_inv (cfg : Config) (bits : Nat) (p : Nat → nova_pmm_entry)
    (w s : Nat → List nova_hentry) (blk : Nat → Chunk) (E K : List Nat) (C : List Chunk) :
    Prop :=
  (∀ b n, n ∈ w b → bucket_of bits (p n.entrynr).fp_weak = b) ∧
  (∀ b, ((w b).map (fun n => (p n.entrynr).fp_weak)).Nodup) ∧
  (∀ b n, n ∈ w b ∨ n ∈ s b →
    (p n.entrynr).fp_weak = cfg.nova_fp_weak_calc (blk (p n.entrynr).blocknr)) ∧
  (∀ b n, n ∈ s b → fp_valid cfg p blk n.entrynr) ∧
  (∀ b n, n ∈ w b ∨ n ∈ s b → entry_backed p blk E K C n.entrynr)

/-! # Theorems -/

/-! ## Basic facts -/

@[simp] theorem upd_same {α : Type} (f : Nat → α) (k : Nat) (v : α) : upd f k v k = v := by
  simp [upd]

theorem upd_other {α : Type} (f : Nat → α) {k i : Nat} (v : α) (h : i ≠ k) :
    upd f k v i = f i := by
  simp [upd, h]

theorem cmp_fp_strong_iff (a b : nova_fp_strong) :
    cmp_fp_strong a b = true ↔
      a.u64s0 = b.u64s0 ∧ a.u64s1 = b.u64s1 ∧ a.u64s2 = b.u64s2 ∧ a.u64s3 = b.u64s3 := by
  simp [cmp_fp_strong, and_assoc]

theorem cmp_fp_strong_eq (a b : nova_fp_strong) : cmp_fp_strong a b = true ↔ a = b := by
  rw [cmp_fp_strong_iff]
  cases a; cases b; simp

theorem cmp_fp_strong_self (a : nova_fp_strong) : cmp_fp_strong a a = true :=
  (cmp_fp_strong_eq a a).2 rfl

theorem cmp_fp_strong_false {a b : nova_fp_strong} (h : a ≠ b) : cmp_fp_strong a b = false := by
  cases hc : cmp_fp_strong a b
  · rfl
  · exact absurd ((cmp_fp_strong_eq a b).1 hc) h

namespace nova_sb_info

@[simp] theorem log_pentries (s : nova_sb_info) (e : Event) : (s.log e).pentries = s.pentries :=
  rfl
@[simp] theorem log_weak (s : nova_sb_info) (e : Event) :
    (s.log e).weak_hash_table = s.weak_hash_table := rfl
@[simp] theorem log_strong (s : nova_sb_info) (e : Event) :
    (s.log e).strong_hash_table = s.strong_hash_table := rfl
@[simp] theorem log_blocks (s : nova_sb_info) (e : Event) : (s.log e).blocks = s.blocks := rfl
@[simp] theorem log_map (s : nova_sb_info) (e : Event) :
    (s.log e).blocknr_to_entry = s.blocknr_to_entry := rfl
@[simp] theorem log_dup (s : nova_sb_info) (e : Event) : (s.log e).dup_block = s.dup_block := rfl
@[simp] theorem log_cur (s : nova_sb_info) (e : Event) : (s.log e).cur_block = s.cur_block := rfl
@[simp] theorem log_mode (s : nova_sb_info) (e : Event) : (s.log e).dedup_mode = s.dedup_mode :=
  rfl
@[simp] theorem log_bits (s : nova_sb_info) (e : Event) :
    (s.log e).num_entries_bits = s.num_entries_bits := rfl
@[simp] theorem log_trace (s : nova_sb_info) (e : Event) : (s.log e).trace = s.trace ++ [e] := rfl

end nova_sb_info

@[simp] theorem bucket_idx_log (s : nova_sb_info) (e : Event) (fp : Nat) :
    bucket_idx (s.log e) fp = bucket_idx s fp := rfl

/-! ## What each path of `nova_dedup_str_fin` does -/

theorem str_fin_strong_hit (cfg : Config) (sbi : nova_sb_info) (x : Ext) (data : Chunk)
    (b : Nat) (sh : nova_hentry) (h : strong_lookup cfg sbi data = some sh)
    (r : Ret) (hr : r = nova_dedup_str_fin cfg sbi x data b) :
    r.allocated = 1 ∧
    r.blocknr = (sbi.pentries sh.entrynr).blocknr ∧
    r.sbi.pentries =
      upd sbi.pentries sh.entrynr
        { sbi.pentries sh.entrynr with
          refcount := ((sbi.pentries sh.entrynr).refcount + 1) % U32_MOD,
          fp_weak := cfg.nova_fp_weak_calc data, flag := cfg.FP_STRONG_FLAG } ∧
    r.sbi.weak_hash_table =
      weak_table_after (weak_lookup cfg sbi data) sbi.weak_hash_table
        (weak_idx_of cfg sbi data) sh.entrynr ∧
    r.sbi.strong_hash_table = sbi.strong_hash_table ∧
    r.sbi.blocks = sbi.blocks ∧
    r.sbi.blocknr_to_entry = sbi.blocknr_to_entry ∧
    r.sbi.dup_block = (sbi.dup_block + 1) % U32_MOD := by
  subst hr
  unfold strong_lookup strong_idx_of at h
  unfold nova_dedup_str_fin
  simp only [nova_sb_info.log_pentries, nova_sb_info.log_strong, nova_sb_info.log_weak,
    bucket_idx_log, h]
  unfold weak_lookup weak_idx_of
  cases nova_find_in_weak_hlist sbi.pentries
      (sbi.weak_hash_table (bucket_idx sbi (cfg.nova_fp_weak_calc data)))
      (cfg.nova_fp_weak_calc data) <;>
    simp [str_fin_finish, str_fin_out, nova_sb_info.set_entry, nova_sb_info.inc_dup_block,
      nova_sb_info.log, nova_sb_info.weak_add_head, weak_table_after, add_head]

theorem str_fin_weak_verified (cfg : Config) (sbi : nova_sb_info) (x : Ext) (data : Chunk)
    (b : Nat) (wh : nova_hentry) (hs : strong_lookup cfg sbi data = none)
    (hw : weak_lookup cfg sbi data = some wh)
    (hc : cmp_fp_strong (cfg.nova_fp_strong_calc (sbi.blocks (sbi.pentries wh.entrynr).blocknr))
      (cfg.nova_fp_strong_calc data) = true)
    (r : Ret) (hr : r = nova_dedup_str_fin cfg sbi x data b) :
    r.allocated = 1 ∧
    r.blocknr = (sbi.pentries wh.entrynr).blocknr ∧
    r.sbi.pentries =
      upd sbi.pentries wh.entrynr
        { sbi.pentries wh.entrynr with
          fp_strong := cfg.nova_fp_strong_calc (sbi.blocks (sbi.pentries wh.entrynr).blocknr),
          refcount := ((sbi.pentries wh.entrynr).refcount + 1) % U32_MOD,
          flag := cfg.FP_STRONG_FLAG } ∧
    r.sbi.weak_hash_table = sbi.weak_hash_table ∧
    r.sbi.strong_hash_table =
      add_head sbi.strong_hash_table (strong_idx_of cfg sbi data) wh.entrynr ∧
    r.sbi.blocks = sbi.blocks ∧
    r.sbi.blocknr_to_entry = sbi.blocknr_to_entry ∧
    r.sbi.dup_block = (sbi.dup_block + 1) % U32_MOD := by
  subst hr
  unfold strong_lookup strong_idx_of at hs
  unfold weak_lookup weak_idx_of at hw
  unfold nova_dedup_str_fin
  simp only [nova_sb_info.log_pentries, nova_sb_info.log_strong, nova_sb_info.log_weak,
    nova_sb_info.log_blocks, bucket_idx_log, hs, hw, hc, if_true]
  simp [str_fin_finish, str_fin_out, nova_sb_info.set_entry, nova_sb_info.inc_dup_block,
    nova_sb_info.log, nova_sb_info.strong_add_head, add_head, strong_idx_of]

theorem str_fin_match_none {cfg : Config} {sbi : nova_sb_info} {data : Chunk}
    (h : str_fin_match cfg sbi data = none) :
    strong_lookup cfg sbi data = none ∧
      (weak_lookup cfg sbi data = none ∨
        ∃ wh, weak_lookup cfg sbi data = some wh ∧
          cmp_fp_strong
            (cfg.nova_fp_strong_calc (sbi.blocks (sbi.pentries wh.entrynr).blocknr))
            (cfg.nova_fp_strong_calc data) = false) := by
  unfold str_fin_match at h
  cases hs : strong_lookup cfg sbi data with
  | some sh => simp [hs] at h
  | none =>
    refine ⟨rfl, ?_⟩
    cases hw : weak_lookup cfg sbi data with
    | none => exact Or.inl rfl
    | some wh =>
      right
      refine ⟨wh, rfl, ?_⟩
      simp only [hs, hw] at h
      by_contra hne
      simp only [Bool.not_eq_false] at hne
      simp [hne] at h

theorem str_fin_alloc_fail (cfg : Config) (sbi : nova_sb_info) (x : Ext) (data : Chunk)
    (b : Nat) (hm : str_fin_match cfg sbi data = none) (hx : x.allocated < 0)
    (r : Ret) (hr : r = nova_dedup_str_fin cfg sbi x data b) :
    r.allocated = x.allocated ∧
    r.blocknr = x.blocknr ∧
    r.sbi.pentries = sbi.pentries ∧
    r.sbi.weak_hash_table = sbi.weak_hash_table ∧
    r.sbi.strong_hash_table = sbi.strong_hash_table ∧
    r.sbi.blocks = sbi.blocks ∧
    r.sbi.blocknr_to_entry = sbi.blocknr_to_entry ∧
    r.sbi.dup_block = sbi.dup_block := by
  subst hr
  obtain ⟨hs, hw⟩ := str_fin_match_none hm
  unfold strong_lookup strong_idx_of at hs
  unfold weak_lookup weak_idx_of at hw
  unfold nova_dedup_str_fin
  rcases hw with hw | ⟨wh, hw, hc⟩
  · simp only [nova_sb_info.log_pentries, nova_sb_info.log_strong, nova_sb_info.log_weak,
      nova_sb_info.log_blocks, bucket_idx_log, hs, hw]
    simp [str_fin_alloc, nova_alloc_entry, nova_alloc_block_write, hx, str_fin_out]
  · simp only [nova_sb_info.log_pentries, nova_sb_info.log_strong, nova_sb_info.log_weak,
      nova_sb_info.log_blocks, bucket_idx_log, hs, hw, hc]
    simp [str_fin_alloc, nova_alloc_entry, nova_alloc_block_write, hx, str_fin_out]

theorem str_fin_alloc_ok (cfg : Config) (sbi : nova_sb_info) (x : Ext) (data : Chunk)
    (b : Nat) (hm : str_fin_match cfg sbi data = none) (hx : ¬ x.allocated < 0)
    (r : Ret) (hr : r = nova_dedup_str_fin cfg sbi x data b) :
    r.allocated = x.allocated ∧
    r.blocknr = x.blocknr ∧
    r.sbi.pentries =
      upd sbi.pentries x.alloc_entry
        ⟨cfg.FP_STRONG_FLAG, x.blocknr, 1, cfg.nova_fp_weak_calc data,
          cfg.nova_fp_strong_calc data⟩ ∧
    r.sbi.weak_hash_table =
      weak_table_after (weak_lookup cfg sbi data) sbi.weak_hash_table
        (weak_idx_of cfg sbi data) x.alloc_entry ∧
    r.sbi.strong_hash_table =
      add_head sbi.strong_hash_table (strong_idx_of cfg sbi data) x.alloc_entry ∧
    r.sbi.blocks = upd sbi.blocks x.blocknr data ∧
    r.sbi.blocknr_to_entry = upd sbi.blocknr_to_entry x.blocknr x.alloc_entry ∧
    r.sbi.dup_block = sbi.dup_block := by
  subst hr
  obtain ⟨hs, hw⟩ := str_fin_match_none hm
  have hw0 := hw
  unfold strong_lookup strong_idx_of at hs
  unfold weak_lookup weak_idx_of at hw
  unfold nova_dedup_str_fin
  rcases hw with hw | ⟨wh, hw, hc⟩
  · simp only [nova_sb_info.log_pentries, nova_sb_info.log_strong, nova_sb_info.log_weak,
      nova_sb_info.log_blocks, bucket_idx_log, hs, hw]
    simp [str_fin_alloc, nova_alloc_entry, nova_alloc_block_write, hx, str_fin_out,
      str_fin_finish, nova_sb_info.set_entry, nova_sb_info.log, nova_sb_info.strong_add_head,
      nova_sb_info.map_block, nova_sb_info.weak_add_head, weak_table_after, add_head,
      weak_lookup, weak_idx_of, strong_idx_of, hw]
  · simp only [nova_sb_info.log_pentries, nova_sb_info.log_strong, nova_sb_info.log_weak,
      nova_sb_info.log_blocks, bucket_idx_log, hs, hw, hc]
    simp [str_fin_alloc, nova_alloc_entry, nova_alloc_block_write, hx, str_fin_out,
      str_fin_finish, nova_sb_info.set_entry, nova_sb_info.log, nova_sb_info.strong_add_head,
      nova_sb_info.map_block, nova_sb_info.weak_add_head, weak_table_after, add_head,
      weak_lookup, weak_idx_of, strong_idx_of, hw]

/-! ## What each path of `nova_dedup_weak_str_fin` does -/

theorem weak_str_fin_reference_spec (cfg : Config) (sbi : nova_sb_info) (e : Nat) :
    (weak_str_fin_reference cfg sbi e).1.pentries = ref_pentries cfg sbi e ∧
    (weak_str_fin_reference cfg sbi e).1.strong_hash_table = ref_strong_table cfg sbi e ∧
    (weak_str_fin_reference cfg sbi e).1.weak_hash_table = sbi.weak_hash_table ∧
    (weak_str_fin_reference cfg sbi e).1.blocks = sbi.blocks ∧
    (weak_str_fin_reference cfg sbi e).1.blocknr_to_entry = sbi.blocknr_to_entry ∧
    (weak_str_fin_reference cfg sbi e).1.dup_block = sbi.dup_block ∧
    (weak_str_fin_reference cfg sbi e).1.num_entries_bits = sbi.num_entries_bits ∧
    (weak_str_fin_reference cfg sbi e).1.cur_block = sbi.cur_block ∧
    (weak_str_fin_reference cfg sbi e).1.dedup_mode = sbi.dedup_mode ∧
    (weak_str_fin_reference cfg sbi e).2.1 = ref_fp cfg sbi e ∧
    (weak_str_fin_reference cfg sbi e).2.2 = ref_upgrades cfg sbi e := by
  unfold weak_str_fin_reference ref_pentries ref_strong_table ref_fp ref_upgrades
  by_cases h1 : (sbi.pentries e).flag = cfg.FP_STRONG_FLAG
  · simp [h1]
  · by_cases h2 : (sbi.pentries e).flag = cfg.FP_WEAK_FLAG
    · have h3 : ¬ cfg.FP_WEAK_FLAG = cfg.FP_STRONG_FLAG := h2 ▸ h1
      simp [h2, h3, nova_sb_info.set_entry, nova_sb_info.log, nova_sb_info.strong_add_head,
        add_head, bucket_idx]
    · simp [h1, h2]

theorem ref_pentries_blocknr (cfg : Config) (sbi : nova_sb_info) (e k : Nat) :
    (ref_pentries cfg sbi e k).blocknr = (sbi.pentries k).blocknr := by
  unfold ref_pentries
  split
  · by_cases hk : k = e
    · subst hk; simp
    · simp [upd_other _ _ hk]
  · rfl

theorem ref_pentries_refcount (cfg : Config) (sbi : nova_sb_info) (e k : Nat) :
    (ref_pentries cfg sbi e k).refcount = (sbi.pentries k).refcount := by
  unfold ref_pentries
  split
  · by_cases hk : k = e
    · subst hk; simp
    · simp [upd_other _ _ hk]
  · rfl

theorem ref_pentries_fp_weak (cfg : Config) (sbi : nova_sb_info) (e k : Nat) :
    (ref_pentries cfg sbi e k).fp_weak = (sbi.pentries k).fp_weak := by
  unfold ref_pentries
  split
  · by_cases hk : k = e
    · subst hk; simp
    · simp [upd_other _ _ hk]
  · rfl

theorem ref_pentries_other (cfg : Config) (sbi : nova_sb_info) {e k : Nat} (hk : k ≠ e) :
    ref_pentries cfg sbi e k = sbi.pentries k := by
  unfold ref_pentries
  split
  · exact upd_other _ _ hk
  · rfl

theorem weak_str_fin_miss_fail (cfg : Config) (sbi : nova_sb_info) (x : Ext) (data : Chunk)
    (b : Nat) (hw : weak_lookup cfg sbi data = none) (hx : x.allocated < 0)
    (r : Ret) (hr : r = nova_dedup_weak_str_fin cfg sbi x data b) :
    r.allocated = x.allocated ∧
    r.blocknr = x.blocknr ∧
    r.sbi.pentries = sbi.pentries ∧
    r.sbi.weak_hash_table = sbi.weak_hash_table ∧
    r.sbi.strong_hash_table = sbi.strong_hash_table ∧
    r.sbi.blocks = sbi.blocks ∧
    r.sbi.blocknr_to_entry = sbi.blocknr_to_entry ∧
    r.sbi.dup_block = sbi.dup_block := by
  subst hr
  unfold weak_lookup weak_idx_of at hw
  unfold nova_dedup_weak_str_fin
  simp only [nova_sb_info.log_pentries, nova_sb_info.log_weak, bucket_idx_log, hw]
  simp [nova_alloc_entry, nova_alloc_block_write, hx, weak_str_fin_out]

theorem weak_str_fin_miss_ok (cfg : Config) (sbi : nova_sb_info) (x : Ext) (data : Chunk)
    (b : Nat) (hw : weak_lookup cfg sbi data = none) (hx : ¬ x.allocated < 0)
    (r : Ret) (hr : r = nova_dedup_weak_str_fin cfg sbi x data b) :
    r.allocated = x.allocated ∧
    r.blocknr = x.blocknr ∧
    r.sbi.pentries =
      upd sbi.pentries x.alloc_entry
        ⟨cfg.FP_WEAK_FLAG, x.blocknr, 1, cfg.nova_fp_weak_calc data, nova_fp_strong.zero⟩ ∧
    r.sbi.weak_hash_table =
      add_head sbi.weak_hash_table (weak_idx_of cfg sbi data) x.alloc_entry ∧
    r.sbi.strong_hash_table = sbi.strong_hash_table ∧
    r.sbi.blocks = upd sbi.blocks x.blocknr data ∧
    r.sbi.blocknr_to_entry = upd sbi.blocknr_to_entry x.blocknr x.alloc_entry ∧
    r.sbi.dup_block = sbi.dup_block := by
  subst hr
  unfold weak_lookup weak_idx_of at hw
  unfold nova_dedup_weak_str_fin
  simp only [nova_sb_info.log_pentries, nova_sb_info.log_weak, bucket_idx_log, hw]
  simp [nova_alloc_entry, nova_alloc_block_write, hx, weak_str_fin_out,
    nova_sb_info.set_entry, nova_sb_info.log, nova_sb_info.weak_add_head,
    nova_sb_info.map_block, add_head, weak_idx_of, nova_pmm_entry.zero]

theorem weak_str_fin_reference_log (cfg : Config) (sbi : nova_sb_info) (ev : Event) (e : Nat) :
    (weak_str_fin_reference cfg (sbi.log ev) e).1.pentries = ref_pentries cfg sbi e ∧
    (weak_str_fin_reference cfg (sbi.log ev) e).1.strong_hash_table
      = ref_strong_table cfg sbi e ∧
    (weak_str_fin_reference cfg (sbi.log ev) e).1.weak_hash_table = sbi.weak_hash_table ∧
    (weak_str_fin_reference cfg (sbi.log ev) e).1.blocks = sbi.blocks ∧
    (weak_str_fin_reference cfg (sbi.log ev) e).1.blocknr_to_entry = sbi.blocknr_to_entry ∧
    (weak_str_fin_reference cfg (sbi.log ev) e).1.dup_block = sbi.dup_block ∧
    (weak_str_fin_reference cfg (sbi.log ev) e).1.num_entries_bits = sbi.num_entries_bits ∧
    (weak_str_fin_reference cfg (sbi.log ev) e).1.cur_block = sbi.cur_block ∧
    (weak_str_fin_reference cfg (sbi.log ev) e).1.dedup_mode = sbi.dedup_mode ∧
    (weak_str_fin_reference cfg (sbi.log ev) e).2.1 = ref_fp cfg sbi e ∧
    (weak_str_fin_reference cfg (sbi.log ev) e).2.2 = ref_upgrades cfg sbi e :=
  weak_str_fin_reference_spec cfg (sbi.log ev) e

theorem weak_str_fin_dup (cfg : Config) (sbi : nova_sb_info) (x : Ext) (data : Chunk)
    (b : Nat) (wh : nova_hentry) (hw : weak_lookup cfg sbi data = some wh)
    (hc : cmp_fp_strong (cfg.nova_fp_strong_calc data) (ref_fp cfg sbi wh.entrynr) = true)
    (r : Ret) (hr : r = nova_dedup_weak_str_fin cfg sbi x data b) :
    r.allocated = 1 ∧
    r.blocknr = (sbi.pentries wh.entrynr).blocknr ∧
    r.sbi.pentries =
      upd (ref_pentries cfg sbi wh.entrynr) wh.entrynr
        { ref_pentries cfg sbi wh.entrynr wh.entrynr with
          refcount := ((sbi.pentries wh.entrynr).refcount + 1) % U32_MOD } ∧
    r.sbi.weak_hash_table = sbi.weak_hash_table ∧
    r.sbi.strong_hash_table = ref_strong_table cfg sbi wh.entrynr ∧
    r.sbi.blocks = sbi.blocks ∧
    r.sbi.blocknr_to_entry = sbi.blocknr_to_entry ∧
    r.sbi.dup_block = (sbi.dup_block + 1) % U32_MOD := by
  subst hr
  unfold weak_lookup weak_idx_of at hw
  unfold nova_dedup_weak_str_fin
  simp only [nova_sb_info.log_pentries, nova_sb_info.log_weak, bucket_idx_log, hw]
  obtain ⟨h1, h2, h3, h4, h5, h6, -, -, -, h7, h8⟩ :=
    weak_str_fin_reference_log cfg sbi
      (Event.weak_lock (bucket_idx sbi (cfg.nova_fp_weak_calc data)
        % cfg.HASH_TABLE_LOCK_NUM)) wh.entrynr
  simp only [h7, hc, if_true]
  generalize weak_str_fin_reference cfg
    (sbi.log (Event.weak_lock (bucket_idx sbi (cfg.nova_fp_weak_calc data)
      % cfg.HASH_TABLE_LOCK_NUM))) wh.entrynr = q at h1 h2 h3 h4 h5 h6 h7 h8 ⊢
  simp [weak_str_fin_finish, weak_str_fin_out, nova_sb_info.set_entry, nova_sb_info.log,
    nova_sb_info.inc_dup_block, h1, h2, h3, h4, h5, h6, ref_pentries_blocknr,
    ref_pentries_refcount]

theorem weak_str_fin_collision_hit (cfg : Config) (sbi : nova_sb_info) (x : Ext) (data : Chunk)
    (b : Nat) (wh sh : nova_hentry) (hw : weak_lookup cfg sbi data = some wh)
    (hc : cmp_fp_strong (cfg.nova_fp_strong_calc data) (ref_fp cfg sbi wh.entrynr) = false)
    (hs : collision_lookup cfg sbi data wh.entrynr = some sh)
    (r : Ret) (hr : r = nova_dedup_weak_str_fin cfg sbi x data b) :
    r.allocated = 1 ∧
    r.blocknr = (sbi.pentries sh.entrynr).blocknr ∧
    r.sbi.pentries =
      upd (ref_pentries cfg sbi wh.entrynr) sh.entrynr
        { ref_pentries cfg sbi wh.entrynr sh.entrynr with
          refcount := ((sbi.pentries sh.entrynr).refcount + 1) % U32_MOD } ∧
    r.sbi.weak_hash_table = sbi.weak_hash_table ∧
    r.sbi.strong_hash_table = ref_strong_table cfg sbi wh.entrynr ∧
    r.sbi.blocks = sbi.blocks ∧
    r.sbi.blocknr_to_entry = sbi.blocknr_to_entry ∧
    r.sbi.dup_block = (sbi.dup_block + 1) % U32_MOD := by
  subst hr
  unfold weak_lookup weak_idx_of at hw
  unfold collision_lookup strong_idx_of at hs
  unfold nova_dedup_weak_str_fin
  simp only [nova_sb_info.log_pentries, nova_sb_info.log_weak, bucket_idx_log, hw]
  obtain ⟨h1, h2, h3, h4, h5, h6, hb, -, -, h7, h8⟩ :=
    weak_str_fin_reference_log cfg sbi
      (Event.weak_lock (bucket_idx sbi (cfg.nova_fp_weak_calc data)
        % cfg.HASH_TABLE_LOCK_NUM)) wh.entrynr
  simp only [h7, hc]
  unfold weak_str_fin_collision
  generalize weak_str_fin_reference cfg
    (sbi.log (Event.weak_lock (bucket_idx sbi (cfg.nova_fp_weak_calc data)
      % cfg.HASH_TABLE_LOCK_NUM))) wh.entrynr = q at h1 h2 h3 h4 h5 h6 hb h7 h8 ⊢
  simp only [nova_sb_info.log_pentries, nova_sb_info.log_strong, bucket_idx_log, bucket_idx,
    h1, h2, hb]
  simp only [bucket_idx] at hs
  simp only [hs]
  simp [weak_str_fin_finish, weak_str_fin_out, nova_sb_info.set_entry, nova_sb_info.log,
    nova_sb_info.inc_dup_block, h1, h2, h3, h4, h5, h6, ref_pentries_blocknr,
    ref_pentries_refcount]
  split <;> simp [h1, h2, h3, h4, h5, h6, nova_sb_info.log]

theorem weak_str_fin_collision_fail (cfg : Config) (sbi : nova_sb_info) (x : Ext)
    (data : Chunk) (b : Nat) (wh : nova_hentry) (hw : weak_lookup cfg sbi data = some wh)
    (hc : cmp_fp_strong (cfg.nova_fp_strong_calc data) (ref_fp cfg sbi wh.entrynr) = false)
    (hs : collision_lookup cfg sbi data wh.entrynr = none) (hx : x.allocated < 0)
    (r : Ret) (hr : r = nova_dedup_weak_str_fin cfg sbi x data b) :
    r.allocated = x.allocated ∧
    r.blocknr = x.blocknr ∧
    r.sbi.pentries = ref_pentries cfg sbi wh.entrynr ∧
    r.sbi.weak_hash_table = sbi.weak_hash_table ∧
    r.sbi.strong_hash_table = ref_strong_table cfg sbi wh.entrynr ∧
    r.sbi.blocks = sbi.blocks ∧
    r.sbi.blocknr_to_entry = sbi.blocknr_to_entry ∧
    r.sbi.dup_block = sbi.dup_block := by
  subst hr
  unfold weak_lookup weak_idx_of at hw
  unfold collision_lookup strong_idx_of at hs
  unfold nova_dedup_weak_str_fin
  simp only [nova_sb_info.log_pentries, nova_sb_info.log_weak, bucket_idx_log, hw]
  obtain ⟨h1, h2, h3, h4, h5, h6, hb, -, -, h7, h8⟩ :=
    weak_str_fin_reference_log cfg sbi
      (Event.weak_lock (bucket_idx sbi (cfg.nova_fp_weak_calc data)
        % cfg.HASH_TABLE_LOCK_NUM)) wh.entrynr
  simp only [h7, hc]
  unfold weak_str_fin_collision
  generalize weak_str_fin_reference cfg
    (sbi.log (Event.weak_lock (bucket_idx sbi (cfg.nova_fp_weak_calc data)
      % cfg.HASH_TABLE_LOCK_NUM))) wh.entrynr = q at h1 h2 h3 h4 h5 h6 hb h7 h8 ⊢
  simp only [nova_sb_info.log_pentries, nova_sb_info.log_strong, bucket_idx_log, bucket_idx,
    h1, h2, hb]
  simp only [bucket_idx] at hs
  simp only [hs]
  simp [nova_alloc_entry, nova_alloc_block_write, hx, weak_str_fin_out, nova_sb_info.log,
    h1, h2, h3, h4, h5, h6]

theorem weak_str_fin_collision_ok (cfg : Config) (sbi : nova_sb_info) (x : Ext)
    (data : Chunk) (b : Nat) (wh : nova_hentry) (hw : weak_lookup cfg sbi data = some wh)
    (hc : cmp_fp_strong (cfg.nova_fp_strong_calc data) (ref_fp cfg sbi wh.entrynr) = false)
    (hs : collision_lookup cfg sbi data wh.entrynr = none) (hx : ¬ x.allocated < 0)
    (r : Ret) (hr : r = nova_dedup_weak_str_fin cfg sbi x data b) :
    r.allocated = x.allocated ∧
    r.blocknr = x.blocknr ∧
    r.sbi.pentries =
      upd (ref_pentries cfg sbi wh.entrynr) x.alloc_entry
        ⟨cfg.FP_STRONG_FLAG, x.blocknr, 1, cfg.nova_fp_weak_calc data,
          cfg.nova_fp_strong_calc data⟩ ∧
    r.sbi.weak_hash_table = sbi.weak_hash_table ∧
    r.sbi.strong_hash_table =
      add_head (ref_strong_table cfg sbi wh.entrynr) (strong_idx_of cfg sbi data)
        x.alloc_entry ∧
    r.sbi.blocks = upd sbi.blocks x.blocknr data ∧
    r.sbi.blocknr_to_entry = upd sbi.blocknr_to_entry x.blocknr x.alloc_entry ∧
    r.sbi.dup_block = sbi.dup_block := by
  subst hr
  unfold weak_lookup weak_idx_of at hw
  unfold collision_lookup strong_idx_of at hs
  unfold nova_dedup_weak_str_fin
  simp only [nova_sb_info.log_pentries, nova_sb_info.log_weak, bucket_idx_log, hw]
  obtain ⟨h1, h2, h3, h4, h5, h6, hb, -, -, h7, h8⟩ :=
    weak_str_fin_reference_log cfg sbi
      (Event.weak_lock (bucket_idx sbi (cfg.nova_fp_weak_calc data)
        % cfg.HASH_TABLE_LOCK_NUM)) wh.entrynr
  simp only [h7, hc]
  unfold weak_str_fin_collision
  generalize weak_str_fin_reference cfg
    (sbi.log (Event.weak_lock (bucket_idx sbi (cfg.nova_fp_weak_calc data)
      % cfg.HASH_TABLE_LOCK_NUM))) wh.entrynr = q at h1 h2 h3 h4 h5 h6 hb h7 h8 ⊢
  simp only [nova_sb_info.log_pentries, nova_sb_info.log_strong, bucket_idx_log, bucket_idx,
    h1, h2, hb]
  simp only [bucket_idx] at hs
  simp only [hs]
  simp [nova_alloc_entry, nova_alloc_block_write, hx, weak_str_fin_out, nova_sb_info.log,
    weak_str_fin_finish, nova_sb_info.set_entry, nova_sb_info.strong_add_head,
    nova_sb_info.map_block, add_head, strong_idx_of, bucket_idx, h1, h2, h3, h4, h5, h6, hb]
  split <;> simp [h1, h2, h3, h4, h5, h6, hb, nova_sb_info.log]

/-! ## What each path of `nova_dedup_non_fin` does -/

theorem non_fin_fail (cfg : Config) (sbi : nova_sb_info) (x : Ext) (data : Chunk)
    (b : Nat) (hx : x.allocated < 0)
    (r : Ret) (hr : r = nova_dedup_non_fin cfg sbi x data b) :
    r.allocated = x.allocated ∧
    r.blocknr = x.blocknr ∧
    r.sbi.pentries = sbi.pentries ∧
    r.sbi.weak_hash_table = sbi.weak_hash_table ∧
    r.sbi.strong_hash_table = sbi.strong_hash_table ∧
    r.sbi.blocks = sbi.blocks ∧
    r.sbi.blocknr_to_entry = sbi.blocknr_to_entry ∧
    r.sbi.dup_block = sbi.dup_block := by
  subst hr
  simp [nova_dedup_non_fin, nova_alloc_entry, nova_alloc_block_write, hx]

theorem non_fin_ok (cfg : Config) (sbi : nova_sb_info) (x : Ext) (data : Chunk)
    (b : Nat) (hx : ¬ x.allocated < 0)
    (r : Ret) (hr : r = nova_dedup_non_fin cfg sbi x data b) :
    r.allocated = x.allocated ∧
    r.blocknr = x.blocknr ∧
    r.sbi.pentries =
      upd sbi.pentries x.alloc_entry ⟨cfg.NON_FIN_FLAG, x.blocknr, 1, 0, nova_fp_strong.zero⟩ ∧
    r.sbi.weak_hash_table = sbi.weak_hash_table ∧
    r.sbi.strong_hash_table = sbi.strong_hash_table ∧
    r.sbi.blocks = upd sbi.blocks x.blocknr data ∧
    r.sbi.blocknr_to_entry = upd sbi.blocknr_to_entry x.blocknr x.alloc_entry ∧
    r.sbi.dup_block = sbi.dup_block := by
  subst hr
  simp [nova_dedup_non_fin, nova_alloc_entry, nova_alloc_block_write, hx,
    nova_sb_info.set_entry, nova_sb_info.log, nova_sb_info.map_block, nova_pmm_entry.zero]

/-! ## The algorithms leave the controller's mode and window counter alone -/

theorem non_fin_ctrl (cfg : Config) (sbi : nova_sb_info) (x : Ext) (data : Chunk) (b : Nat) :
    (nova_dedup_non_fin cfg sbi x data b).sbi.dedup_mode = sbi.dedup_mode ∧
    (nova_dedup_non_fin cfg sbi x data b).sbi.cur_block = sbi.cur_block ∧
    (nova_dedup_non_fin cfg sbi x data b).sbi.num_entries_bits = sbi.num_entries_bits := by
  unfold nova_dedup_non_fin
  by_cases hx : x.allocated < 0 <;>
    simp [nova_alloc_entry, nova_alloc_block_write, hx, nova_sb_info.set_entry,
      nova_sb_info.log, nova_sb_info.map_block]

theorem str_fin_finish_ctrl (cfg : Config) (sbi : nova_sb_info) (w : Option nova_hentry)
    (wi si e bn : Nat) (a : Int) :
    (str_fin_finish cfg sbi w wi si e bn a).sbi.dedup_mode = sbi.dedup_mode ∧
    (str_fin_finish cfg sbi w wi si e bn a).sbi.cur_block = sbi.cur_block ∧
    (str_fin_finish cfg sbi w wi si e bn a).sbi.num_entries_bits = sbi.num_entries_bits := by
  cases w <;>
    simp [str_fin_finish, str_fin_out, nova_sb_info.log, nova_sb_info.weak_add_head]

theorem str_fin_alloc_ctrl (cfg : Config) (sbi : nova_sb_info) (x : Ext) (data : Chunk)
    (fw : Nat) (fs : nova_fp_strong) (w : Option nova_hentry) (wi si : Nat) :
    (str_fin_alloc cfg sbi x data fw fs w wi si).sbi.dedup_mode = sbi.dedup_mode ∧
    (str_fin_alloc cfg sbi x data fw fs w wi si).sbi.cur_block = sbi.cur_block ∧
    (str_fin_alloc cfg sbi x data fw fs w wi si).sbi.num_entries_bits
      = sbi.num_entries_bits := by
  unfold str_fin_alloc
  by_cases hx : x.allocated < 0
  · simp [nova_alloc_entry, nova_alloc_block_write, hx, str_fin_out, nova_sb_info.log]
  · simp only [nova_alloc_entry, nova_alloc_block_write, hx, if_false]
    refine ⟨(str_fin_finish_ctrl ..).1.trans ?_, (str_fin_finish_ctrl ..).2.1.trans ?_,
      (str_fin_finish_ctrl ..).2.2.trans ?_⟩ <;> rfl

theorem str_fin_ctrl (cfg : Config) (sbi : nova_sb_info) (x : Ext) (data : Chunk) (b : Nat) :
    (nova_dedup_str_fin cfg sbi x data b).sbi.dedup_mode = sbi.dedup_mode ∧
    (nova_dedup_str_fin cfg sbi x data b).sbi.cur_block = sbi.cur_block ∧
    (nova_dedup_str_fin cfg sbi x data b).sbi.num_entries_bits = sbi.num_entries_bits := by
  unfold nova_dedup_str_fin
  simp only []
  split
  · refine ⟨(str_fin_finish_ctrl ..).1.trans ?_, (str_fin_finish_ctrl ..).2.1.trans ?_,
      (str_fin_finish_ctrl ..).2.2.trans ?_⟩ <;> rfl
  · split
    · split
      · refine ⟨(str_fin_finish_ctrl ..).1.trans ?_, (str_fin_finish_ctrl ..).2.1.trans ?_,
          (str_fin_finish_ctrl ..).2.2.trans ?_⟩ <;> rfl
      · refine ⟨(str_fin_alloc_ctrl ..).1.trans ?_, (str_fin_alloc_ctrl ..).2.1.trans ?_,
          (str_fin_alloc_ctrl ..).2.2.trans ?_⟩ <;> rfl
    · refine ⟨(str_fin_alloc_ctrl ..).1.trans ?_, (str_fin_alloc_ctrl ..).2.1.trans ?_,
        (str_fin_alloc_ctrl ..).2.2.trans ?_⟩ <;> rfl

theorem weak_str_fin_finish_ctrl (cfg : Config) (sbi : nova_sb_info) (wi e : Nat) (f : Bool)
    (bn : Nat) (a : Int) :
    (weak_str_fin_finish cfg sbi wi e f bn a).sbi.dedup_mode = sbi.dedup_mode ∧
    (weak_str_fin_finish cfg sbi wi e f bn a).sbi.cur_block = sbi.cur_block ∧
    (weak_str_fin_finish cfg sbi wi e f bn a).sbi.num_entries_bits = sbi.num_entries_bits := by
  cases f <;> simp [weak_str_fin_finish, weak_str_fin_out, nova_sb_info.log]

theorem weak_str_fin_collision_ctrl (cfg : Config) (sbi : nova_sb_info) (x : Ext)
    (data : Chunk) (fw : Nat) (fs : nova_fp_strong) (wi e : Nat) (f : Bool) :
    (weak_str_fin_collision cfg sbi x data fw fs wi e f).sbi.dedup_mode = sbi.dedup_mode ∧
    (weak_str_fin_collision cfg sbi x data fw fs wi e f).sbi.cur_block = sbi.cur_block ∧
    (weak_str_fin_collision cfg sbi x data fw fs wi e f).sbi.num_entries_bits
      = sbi.num_entries_bits := by
  unfold weak_str_fin_collision
  simp only []
  split
  · refine ⟨(weak_str_fin_finish_ctrl ..).1.trans ?_, (weak_str_fin_finish_ctrl ..).2.1.trans ?_,
      (weak_str_fin_finish_ctrl ..).2.2.trans ?_⟩ <;> rfl
  · by_cases hx : x.allocated < 0
    · simp [nova_alloc_entry, nova_alloc_block_write, hx, weak_str_fin_out, nova_sb_info.log]
    · simp only [nova_alloc_entry, nova_alloc_block_write, hx, if_false]
      refine ⟨(weak_str_fin_finish_ctrl ..).1.trans ?_,
        (weak_str_fin_finish_ctrl ..).2.1.trans ?_,
        (weak_str_fin_finish_ctrl ..).2.2.trans ?_⟩ <;> rfl

theorem weak_str_fin_ctrl (cfg : Config) (sbi : nova_sb_info) (x : Ext) (data : Chunk)
    (b : Nat) :
    (nova_dedup_weak_str_fin cfg sbi x data b).sbi.dedup_mode = sbi.dedup_mode ∧
    (nova_dedup_weak_str_fin cfg sbi x data b).sbi.cur_block = sbi.cur_block ∧
    (nova_dedup_weak_str_fin cfg sbi x data b).sbi.num_entries_bits
      = sbi.num_entries_bits := by
  unfold nova_dedup_weak_str_fin
  simp only []
  split
  · rename_i wh _
    obtain ⟨-, -, -, -, -, -, hb, hcur, hmode, -, -⟩ :=
      weak_str_fin_reference_log cfg sbi
        (Event.weak_lock (bucket_idx sbi (cfg.nova_fp_weak_calc data)
          % cfg.HASH_TABLE_LOCK_NUM)) wh.entrynr
    split
    · refine ⟨(weak_str_fin_finish_ctrl ..).1.trans ?_,
        (weak_str_fin_finish_ctrl ..).2.1.trans ?_,
        (weak_str_fin_finish_ctrl ..).2.2.trans ?_⟩
      · exact hmode
      · exact hcur
      · exact hb
    · refine ⟨(weak_str_fin_collision_ctrl ..).1.trans ?_,
        (weak_str_fin_collision_ctrl ..).2.1.trans ?_,
        (weak_str_fin_collision_ctrl ..).2.2.trans ?_⟩
      · exact hmode
      · exact hcur
      · exact hb
  · by_cases hx : x.allocated < 0
    · simp [nova_alloc_entry, nova_alloc_block_write, hx, weak_str_fin_out, nova_sb_info.log]
    · simp [nova_alloc_entry, nova_alloc_block_write, hx, weak_str_fin_out, nova_sb_info.log,
        nova_sb_info.set_entry, nova_sb_info.weak_add_head, nova_sb_info.map_block]

/-! ## The two lookups -/

theorem find_weak_mem {p : Nat → nova_pmm_entry} {l : List nova_hentry} {fp : Nat}
    {h : nova_hentry} (hf : nova_find_in_weak_hlist p l fp = some h) :
    h ∈ l ∧ (p h.entrynr).fp_weak = fp := by
  induction l with
  | nil => simp [nova_find_in_weak_hlist] at hf
  | cons a rest ih =>
    unfold nova_find_in_weak_hlist at hf
    split at hf
    · cases hf; simp_all
    · have := ih hf; simp_all

theorem find_strong_mem {p : Nat → nova_pmm_entry} {l : List nova_hentry}
    {fp : nova_fp_strong} {h : nova_hentry}
    (hf : nova_find_in_strong_hlist p l fp = some h) :
    h ∈ l ∧ (p h.entrynr).fp_strong = fp := by
  induction l with
  | nil => simp [nova_find_in_strong_hlist] at hf
  | cons a rest ih =>
    unfold nova_find_in_strong_hlist at hf
    split at hf
    · rename_i hc
      cases hf
      exact ⟨List.mem_cons_self _ _, (cmp_fp_strong_eq _ _).1 hc⟩
    · have := ih hf; simp_all

theorem find_weak_none {p : Nat → nova_pmm_entry} {l : List nova_hentry} {fp : Nat} :
    nova_find_in_weak_hlist p l fp = none ↔ ∀ h ∈ l, (p h.entrynr).fp_weak ≠ fp := by
  induction l with
  | nil => simp [nova_find_in_weak_hlist]
  | cons a rest ih =>
    unfold nova_find_in_weak_hlist
    by_cases ha : (p a.entrynr).fp_weak = fp
    · simp [ha]
    · simp [ha, ih]

theorem find_strong_none {p : Nat → nova_pmm_entry} {l : List nova_hentry}
    {fp : nova_fp_strong} :
    nova_find_in_strong_hlist p l fp = none ↔ ∀ h ∈ l, (p h.entrynr).fp_strong ≠ fp := by
  induction l with
  | nil => simp [nova_find_in_strong_hlist]
  | cons a rest ih =>
    unfold nova_find_in_strong_hlist
    by_cases ha : (p a.entrynr).fp_strong = fp
    · simp [ha, cmp_fp_strong_self]
    · simp [ha, ih, cmp_fp_strong_false ha]

theorem find_weak_some (p : Nat → nova_pmm_entry) (hlist : List nova_hentry) (fp : Nat)
    (h : nova_hentry) :
    nova_find_in_weak_hlist p hlist fp = some h ↔
      ∃ i : Nat, hlist[i]? = some h ∧ (p h.entrynr).fp_weak = fp ∧
        ∀ j : Nat, j < i → ∀ h' : nova_hentry, hlist[j]? = some h' →
          (p h'.entrynr).fp_weak ≠ fp := by
  induction hlist with
  | nil => simp [nova_find_in_weak_hlist]
  | cons a rest ih =>
    unfold nova_find_in_weak_hlist
    by_cases ha : (p a.entrynr).fp_weak = fp
    · simp only [ha, if_true]
      constructor
      · intro e
        cases e
        exact ⟨0, by simp, ha, by intro j hj; omega⟩
      · rintro ⟨i, hi, _, hfirst⟩
        cases i with
        | zero => simpa using hi
        | succ i => exact absurd ha (hfirst 0 (by omega) a (by simp))
    · simp only [ha, if_false, ih]
      constructor
      · rintro ⟨i, hi, hm, hfirst⟩
        refine ⟨i + 1, by simpa using hi, hm, ?_⟩
        intro j hj h' hj'
        cases j with
        | zero =>
          simp at hj'
          subst hj'
          exact ha
        | succ j => exact hfirst j (by omega) h' (by simpa using hj')
      · rintro ⟨i, hi, hm, hfirst⟩
        cases i with
        | zero =>
          simp at hi
          subst hi
          exact absurd hm ha
        | succ i =>
          refine ⟨i, by simpa using hi, hm, ?_⟩
          intro j hj h' hj'
          exact hfirst (j + 1) (by omega) h' (by simpa using hj')

theorem find_strong_some (p : Nat → nova_pmm_entry) (hlist : List nova_hentry)
    (fp : nova_fp_strong) (h : nova_hentry) :
    nova_find_in_strong_hlist p hlist fp = some h ↔
      ∃ i : Nat, hlist[i]? = some h ∧ cmp_fp_strong (p h.entrynr).fp_strong fp = true ∧
        ∀ j : Nat, j < i → ∀ h' : nova_hentry, hlist[j]? = some h' →
          cmp_fp_strong (p h'.entrynr).fp_strong fp = false := by
  induction hlist with
  | nil => simp [nova_find_in_strong_hlist]
  | cons a rest ih =>
    unfold nova_find_in_strong_hlist
    by_cases ha : cmp_fp_strong (p a.entrynr).fp_strong fp = true
    · rw [if_pos ha]
      constructor
      · intro e
        cases e
        exact ⟨0, by simp, ha, by intro j hj; omega⟩
      · rintro ⟨i, hi, _, hfirst⟩
        cases i with
        | zero => simpa using hi
        | succ i =>
          have := hfirst 0 (by omega) a (by simp)
          rw [ha] at this
          cases this
    · rw [if_neg ha, ih]
      simp only [Bool.not_eq_true] at ha
      constructor
      · rintro ⟨i, hi, hm, hfirst⟩
        refine ⟨i + 1, by simpa using hi, hm, ?_⟩
        intro j hj h' hj'
        cases j with
        | zero =>
          simp at hj'
          subst hj'
          exact ha
        | succ j => exact hfirst j (by omega) h' (by simpa using hj')
      · rintro ⟨i, hi, hm, hfirst⟩
        cases i with
        | zero =>
          simp at hi
          subst hi
          rw [ha] at hm
          cases hm
        | succ i =>
          refine ⟨i, by simpa using hi, hm, ?_⟩
          intro j hj h' hj'
          exact hfirst (j + 1) (by omega) h' (by simpa using hj')

/-- The weak lookup reads only the `fp_weak` fields of the entries the bucket references. -/
theorem find_weak_congr {p q : Nat → nova_pmm_entry} {l : List nova_hentry} (fp : Nat)
    (h : ∀ n ∈ l, (p n.entrynr).fp_weak = (q n.entrynr).fp_weak) :
    nova_find_in_weak_hlist p l fp = nova_find_in_weak_hlist q l fp := by
  induction l with
  | nil => rfl
  | cons a rest ih =>
    unfold nova_find_in_weak_hlist
    rw [h a (List.mem_cons_self _ _), ih (fun n hn => h n (List.mem_cons_of_mem _ hn))]

/-- The strong lookup reads only the `fp_strong` fields of the entries the bucket references. -/
theorem find_strong_congr {p q : Nat → nova_pmm_entry} {l : List nova_hentry}
    (fp : nova_fp_strong)
    (h : ∀ n ∈ l, (p n.entrynr).fp_strong = (q n.entrynr).fp_strong) :
    nova_find_in_strong_hlist p l fp = nova_find_in_strong_hlist q l fp := by
  induction l with
  | nil => rfl
  | cons a rest ih =>
    unfold nova_find_in_strong_hlist
    rw [h a (List.mem_cons_self _ _), ih (fun n hn => h n (List.mem_cons_of_mem _ hn))]

/-! ## Calls of the block allocator -/

theorem weak_str_fin_match_some_iff {cfg : Config} {sbi : nova_sb_info} {data : Chunk} :
    (weak_str_fin_match cfg sbi data).isSome = true ↔
      ∃ wh, weak_lookup cfg sbi data = some wh ∧
        (cmp_fp_strong (cfg.nova_fp_strong_calc data) (ref_fp cfg sbi wh.entrynr) = true ∨
          (collision_lookup cfg sbi data wh.entrynr).isSome = true) := by
  unfold weak_str_fin_match
  cases hw : weak_lookup cfg sbi data with
  | none => simp
  | some wh =>
    by_cases hc : cmp_fp_strong (cfg.nova_fp_strong_calc data) (ref_fp cfg sbi wh.entrynr) = true
    · simp [hc]
    · cases hs : collision_lookup cfg sbi data wh.entrynr <;> simp [hc, hs]

theorem str_fin_allocator_calls (cfg : Config) (sbi : nova_sb_info) (x : Ext) (data : Chunk)
    (b : Nat) :
    allocator_calls (nova_dedup_str_fin cfg sbi x data b).sbi.trace =
      allocator_calls sbi.trace + (if (str_fin_match cfg sbi data).isSome then 0 else 1) := by
  unfold str_fin_match strong_lookup weak_lookup weak_idx_of strong_idx_of nova_dedup_str_fin
  simp only [nova_sb_info.log_pentries, nova_sb_info.log_strong, nova_sb_info.log_weak,
    nova_sb_info.log_blocks, bucket_idx_log]
  cases nova_find_in_strong_hlist sbi.pentries
      (sbi.strong_hash_table (bucket_idx sbi (cfg.nova_fp_strong_calc data).u64s0))
      (cfg.nova_fp_strong_calc data) with
  | some sh =>
    cases nova_find_in_weak_hlist sbi.pentries
        (sbi.weak_hash_table (bucket_idx sbi (cfg.nova_fp_weak_calc data)))
        (cfg.nova_fp_weak_calc data) <;>
      simp [str_fin_finish, str_fin_out, nova_sb_info.set_entry, nova_sb_info.inc_dup_block,
        nova_sb_info.log, nova_sb_info.weak_add_head, allocator_calls, List.count_append,
        List.count_cons]
  | none =>
    cases nova_find_in_weak_hlist sbi.pentries
        (sbi.weak_hash_table (bucket_idx sbi (cfg.nova_fp_weak_calc data)))
        (cfg.nova_fp_weak_calc data) with
    | none =>
      by_cases hx : x.allocated < 0 <;>
        simp [str_fin_alloc, str_fin_finish, str_fin_out, nova_sb_info.set_entry,
          nova_sb_info.log, nova_sb_info.weak_add_head, nova_sb_info.strong_add_head,
          nova_sb_info.map_block, nova_alloc_entry, nova_alloc_block_write, hx,
          allocator_calls, List.count_append, List.count_cons]
    | some wh =>
      by_cases hc : cmp_fp_strong
          (cfg.nova_fp_strong_calc (sbi.blocks (sbi.pentries wh.entrynr).blocknr))
          (cfg.nova_fp_strong_calc data) = true
      · simp [hc, str_fin_finish, str_fin_out, nova_sb_info.set_entry,
          nova_sb_info.inc_dup_block, nova_sb_info.log, nova_sb_info.strong_add_head,
          allocator_calls, List.count_append, List.count_cons]
      · by_cases hx : x.allocated < 0 <;>
          simp [hc, str_fin_alloc, str_fin_finish, str_fin_out, nova_sb_info.set_entry,
            nova_sb_info.log, nova_sb_info.weak_add_head, nova_sb_info.strong_add_head,
            nova_sb_info.map_block, nova_alloc_entry, nova_alloc_block_write, hx,
            allocator_calls, List.count_append, List.count_cons]

theorem weak_str_fin_reference_calls (cfg : Config) (sbi : nova_sb_info) (e : Nat) :
    allocator_calls (weak_str_fin_reference cfg sbi e).1.trace = allocator_calls sbi.trace := by
  unfold weak_str_fin_reference
  by_cases h1 : (sbi.pentries e).flag = cfg.FP_STRONG_FLAG
  · simp [h1]
  · by_cases h2 : (sbi.pentries e).flag = cfg.FP_WEAK_FLAG
    · have h3 : ¬ cfg.FP_WEAK_FLAG = cfg.FP_STRONG_FLAG := h2 ▸ h1
      simp [h2, h3, nova_sb_info.set_entry, nova_sb_info.log, nova_sb_info.strong_add_head,
        allocator_calls, List.count_append, List.count_cons]
    · simp [h1, h2]

theorem weak_str_fin_allocator_calls (cfg : Config) (sbi : nova_sb_info) (x : Ext)
    (data : Chunk) (b : Nat) :
    allocator_calls (nova_dedup_weak_str_fin cfg sbi x data b).sbi.trace =
      allocator_calls sbi.trace
        + (if (weak_str_fin_match cfg sbi data).isSome then 0 else 1) := by
  unfold weak_str_fin_match weak_lookup weak_idx_of collision_lookup strong_idx_of
    nova_dedup_weak_str_fin
  simp only [nova_sb_info.log_pentries, nova_sb_info.log_strong, nova_sb_info.log_weak,
    nova_sb_info.log_blocks, bucket_idx_log]
  cases nova_find_in_weak_hlist sbi.pentries
      (sbi.weak_hash_table (bucket_idx sbi (cfg.nova_fp_weak_calc data)))
      (cfg.nova_fp_weak_calc data) with
  | none =>
    by_cases hx : x.allocated < 0 <;>
      simp [weak_str_fin_out, nova_sb_info.set_entry,
        nova_sb_info.log, nova_sb_info.weak_add_head,
        nova_sb_info.map_block, nova_alloc_entry, nova_alloc_block_write, hx,
        allocator_calls, List.count_append, List.count_cons]
  | some wh =>
    obtain ⟨h1, h2, -, -, -, -, hb, -, -, h7, -⟩ :=
      weak_str_fin_reference_log cfg sbi
        (Event.weak_lock (bucket_idx sbi (cfg.nova_fp_weak_calc data)
          % cfg.HASH_TABLE_LOCK_NUM)) wh.entrynr
    have ht := weak_str_fin_reference_calls cfg
      (sbi.log (Event.weak_lock (bucket_idx sbi (cfg.nova_fp_weak_calc data)
          % cfg.HASH_TABLE_LOCK_NUM))) wh.entrynr
    have ht' : allocator_calls (sbi.log (Event.weak_lock
        (bucket_idx sbi (cfg.nova_fp_weak_calc data) % cfg.HASH_TABLE_LOCK_NUM))).trace
        = allocator_calls sbi.trace := by
      simp [allocator_calls, List.count_append, List.count_cons]
    rw [ht'] at ht
    simp only [h7]
    generalize weak_str_fin_reference cfg
      (sbi.log (Event.weak_lock (bucket_idx sbi (cfg.nova_fp_weak_calc data)
        % cfg.HASH_TABLE_LOCK_NUM))) wh.entrynr = q at h1 h2 hb h7 ht ⊢
    by_cases hc : cmp_fp_strong (cfg.nova_fp_strong_calc data) (ref_fp cfg sbi wh.entrynr) = true
    · simp only [hc, if_true]
      simp [weak_str_fin_finish, weak_str_fin_out, nova_sb_info.set_entry,
        nova_sb_info.inc_dup_block, nova_sb_info.log, allocator_calls, List.count_append,
        List.count_cons]
      exact ht
    · simp only [hc]
      unfold weak_str_fin_collision
      simp only [nova_sb_info.log_pentries, nova_sb_info.log_strong, bucket_idx_log,
        bucket_idx, h1, h2, hb]
      cases nova_find_in_strong_hlist (ref_pentries cfg sbi wh.entrynr)
        (ref_strong_table cfg sbi wh.entrynr
          ((cfg.nova_fp_strong_calc data).u64s0 &&& 1 <<< sbi.num_entries_bits - 1))
        (cfg.nova_fp_strong_calc data) with
      | some sh =>
        cases hq : q.2.2 <;>
        simp [weak_str_fin_finish, weak_str_fin_out, nova_sb_info.set_entry,
          nova_sb_info.inc_dup_block, nova_sb_info.log, allocator_calls, List.count_append,
          List.count_cons, hq] <;> exact ht
      | none =>
        by_cases hx : x.allocated < 0
        · simp [weak_str_fin_out, nova_sb_info.log, nova_alloc_entry, nova_alloc_block_write,
            hx, allocator_calls, List.count_append, List.count_cons]
          exact ht
        · cases hq : q.2.2 <;>
          simp [weak_str_fin_finish, weak_str_fin_out, nova_sb_info.set_entry,
            nova_sb_info.log, nova_sb_info.strong_add_head, nova_sb_info.map_block,
            nova_alloc_entry, nova_alloc_block_write, hx, allocator_calls, List.count_append,
            List.count_cons, hq] <;> exact ht

/-! ## Dedup hits -/

theorem str_fin_match_referenced {cfg : Config} {sbi : nova_sb_info} {data : Chunk} {e : Nat}
    (h : str_fin_match cfg sbi data = some e) : referenced sbi e := by
  unfold str_fin_match at h
  cases hs : strong_lookup cfg sbi data with
  | some sh =>
    simp only [hs, Option.some.injEq] at h
    exact ⟨_, sh, Or.inr (find_strong_mem hs).1, h⟩
  | none =>
    cases hw : weak_lookup cfg sbi data with
    | none => simp [hs, hw] at h
    | some wh =>
      simp only [hs, hw] at h
      split at h
      · simp only [Option.some.injEq] at h
        exact ⟨_, wh, Or.inl (find_weak_mem hw).1, h⟩
      · cases h

theorem mem_add_head {tbl : Nat → List nova_hentry} {idx e b : Nat} {n : nova_hentry}
    (h : n ∈ add_head tbl idx e b) : n ∈ tbl b ∨ (b = idx ∧ n = ⟨e⟩) := by
  unfold add_head upd at h
  split at h
  · rename_i hb
    subst hb
    rcases List.mem_cons.1 h with h | h
    · exact Or.inr ⟨rfl, h⟩
    · exact Or.inl h
  · exact Or.inl h

theorem mem_ref_strong_table {cfg : Config} {sbi : nova_sb_info} {e b : Nat} {n : nova_hentry}
    (h : n ∈ ref_strong_table cfg sbi e b) :
    n ∈ sbi.strong_hash_table b ∨ (ref_upgrades cfg sbi e = true ∧ n = ⟨e⟩) := by
  unfold ref_strong_table at h
  split at h
  · rename_i hu
    rcases mem_add_head h with h | ⟨-, h⟩
    · exact Or.inl h
    · exact Or.inr ⟨hu, h⟩
  · exact Or.inl h

theorem weak_str_fin_match_referenced {cfg : Config} {sbi : nova_sb_info} {data : Chunk}
    {e : Nat} (h : weak_str_fin_match cfg sbi data = some e) : referenced sbi e := by
  unfold weak_str_fin_match at h
  cases hw : weak_lookup cfg sbi data with
  | none => simp [hw] at h
  | some wh =>
    simp only [hw] at h
    split at h
    · simp only [Option.some.injEq] at h
      exact ⟨_, wh, Or.inl (find_weak_mem hw).1, h⟩
    · cases hs : collision_lookup cfg sbi data wh.entrynr with
      | none => simp [hs] at h
      | some sh =>
        simp only [hs, Option.some.injEq] at h
        rcases mem_ref_strong_table (find_strong_mem hs).1 with hm | ⟨-, hm⟩
        · exact ⟨_, sh, Or.inr hm, h⟩
        · refine ⟨_, wh, Or.inl (find_weak_mem hw).1, ?_⟩
          rw [← h, hm]

/-- What a write through `nova_dedup_str_fin` returns, by kind of write. -/
theorem str_fin_returns (cfg : Config) (sbi : nova_sb_info) (x : Ext) (data : Chunk)
    (b : Nat) :
    (∀ e, str_fin_match cfg sbi data = some e →
      (nova_dedup_str_fin cfg sbi x data b).allocated = 1 ∧
      (nova_dedup_str_fin cfg sbi x data b).blocknr = (sbi.pentries e).blocknr ∧
      (nova_dedup_str_fin cfg sbi x data b).sbi.blocks = sbi.blocks) ∧
    (str_fin_match cfg sbi data = none →
      (nova_dedup_str_fin cfg sbi x data b).allocated = x.allocated ∧
      (nova_dedup_str_fin cfg sbi x data b).blocknr = x.blocknr) := by
  constructor
  · intro e he
    unfold str_fin_match at he
    cases hs : strong_lookup cfg sbi data with
    | some sh =>
      simp only [hs, Option.some.injEq] at he
      obtain ⟨h1, h2, -, -, -, h6, -, -⟩ := str_fin_strong_hit cfg sbi x data b sh hs _ rfl
      exact ⟨h1, he ▸ h2, h6⟩
    | none =>
      cases hw : weak_lookup cfg sbi data with
      | none => simp [hs, hw] at he
      | some wh =>
        simp only [hs, hw] at he
        split at he
        · rename_i hc
          simp only [Option.some.injEq] at he
          obtain ⟨h1, h2, -, -, -, h6, -, -⟩ :=
            str_fin_weak_verified cfg sbi x data b wh hs hw hc _ rfl
          exact ⟨h1, he ▸ h2, h6⟩
        · cases he
  · intro hm
    by_cases hx : x.allocated < 0
    · obtain ⟨h1, h2, -⟩ := str_fin_alloc_fail cfg sbi x data b hm hx _ rfl
      exact ⟨h1, h2⟩
    · obtain ⟨h1, h2, -⟩ := str_fin_alloc_ok cfg sbi x data b hm hx _ rfl
      exact ⟨h1, h2⟩

/-- What a write through `nova_dedup_weak_str_fin` returns, by kind of write. -/
theorem weak_str_fin_returns (cfg : Config) (sbi : nova_sb_info) (x : Ext) (data : Chunk)
    (b : Nat) :
    (∀ e, weak_str_fin_match cfg sbi data = some e →
      (nova_dedup_weak_str_fin cfg sbi x data b).allocated = 1 ∧
      (nova_dedup_weak_str_fin cfg sbi x data b).blocknr = (sbi.pentries e).blocknr ∧
      (nova_dedup_weak_str_fin cfg sbi x data b).sbi.blocks = sbi.blocks) ∧
    (weak_str_fin_match cfg sbi data = none →
      (nova_dedup_weak_str_fin cfg sbi x data b).allocated = x.allocated ∧
      (nova_dedup_weak_str_fin cfg sbi x data b).blocknr = x.blocknr) := by
  constructor
  · intro e he
    unfold weak_str_fin_match at he
    cases hw : weak_lookup cfg sbi data with
    | none => simp [hw] at he
    | some wh =>
      simp only [hw] at he
      split at he
      · rename_i hc
        simp only [Option.some.injEq] at he
        obtain ⟨h1, h2, -, -, -, h6, -, -⟩ := weak_str_fin_dup cfg sbi x data b wh hw hc _ rfl
        exact ⟨h1, he ▸ h2, h6⟩
      · rename_i hc
        simp only [Bool.not_eq_true] at hc
        cases hs : collision_lookup cfg sbi data wh.entrynr with
        | none => simp [hs] at he
        | some sh =>
          simp only [hs, Option.some.injEq] at he
          obtain ⟨h1, h2, -, -, -, h6, -, -⟩ :=
            weak_str_fin_collision_hit cfg sbi x data b wh sh hw hc hs _ rfl
          exact ⟨h1, he ▸ h2, h6⟩
  · intro hm
    unfold weak_str_fin_match at hm
    cases hw : weak_lookup cfg sbi data with
    | none =>
      by_cases hx : x.allocated < 0
      · obtain ⟨h1, h2, -⟩ := weak_str_fin_miss_fail cfg sbi x data b hw hx _ rfl
        exact ⟨h1, h2⟩
      · obtain ⟨h1, h2, -⟩ := weak_str_fin_miss_ok cfg sbi x data b hw hx _ rfl
        exact ⟨h1, h2⟩
    | some wh =>
      simp only [hw] at hm
      split at hm
      · cases hm
      · rename_i hc
        simp only [Bool.not_eq_true] at hc
        cases hs : collision_lookup cfg sbi data wh.entrynr with
        | some sh => simp [hs] at hm
        | none =>
          by_cases hx : x.allocated < 0
          · obtain ⟨h1, h2, -⟩ :=
              weak_str_fin_collision_fail cfg sbi x data b wh hw hc hs hx _ rfl
            exact ⟨h1, h2⟩
          · obtain ⟨h1, h2, -⟩ :=
              weak_str_fin_collision_ok cfg sbi x data b wh hw hc hs hx _ rfl
            exact ⟨h1, h2⟩

/-! ## The controller -/

theorem dispatch_cases (cfg : Config) (sbi : nova_sb_info) (x : Ext) (data : Chunk) (b : Nat) :
    nova_dedup_new_write_dispatch cfg sbi x data b = nova_dedup_non_fin cfg sbi x data b ∨
    nova_dedup_new_write_dispatch cfg sbi x data b = nova_dedup_weak_str_fin cfg sbi x data b ∨
    nova_dedup_new_write_dispatch cfg sbi x data b = nova_dedup_str_fin cfg sbi x data b ∨
    nova_dedup_new_write_dispatch cfg sbi x data b = ⟨sbi, b, -ESRCH⟩ := by
  unfold nova_dedup_new_write_dispatch
  simp only []
  split
  · exact Or.inl rfl
  · split
    · exact Or.inr (Or.inl rfl)
    · split
      · exact Or.inr (Or.inr (Or.inl rfl))
      · exact Or.inr (Or.inr (Or.inr rfl))

theorem dispatch_ctrl (cfg : Config) (sbi : nova_sb_info) (x : Ext) (data : Chunk) (b : Nat) :
    (nova_dedup_new_write_dispatch cfg sbi x data b).sbi.dedup_mode = sbi.dedup_mode ∧
    (nova_dedup_new_write_dispatch cfg sbi x data b).sbi.cur_block = sbi.cur_block ∧
    (nova_dedup_new_write_dispatch cfg sbi x data b).sbi.num_entries_bits
      = sbi.num_entries_bits := by
  rcases dispatch_cases cfg sbi x data b with h | h | h | h <;> rw [h]
  · exact non_fin_ctrl cfg sbi x data b
  · exact weak_str_fin_ctrl cfg sbi x data b
  · exact str_fin_ctrl cfg sbi x data b
  · exact ⟨rfl, rfl, rfl⟩

theorem sample_window (cfg : Config) (sbi : nova_sb_info) (x : Ext)
    (h : cfg.SAMPLE_BLOCK ≤ (sbi.cur_block + 1) % U32_MOD) :
    (nova_dedup_new_write_sample cfg sbi x).dedup_mode =
      (if sbi.dup_block > cfg.STR_FIN_THRESH then cfg.STR_FIN
        else if sbi.dup_block > cfg.NON_FIN_THRESH then cfg.WEAK_STR_FIN
        else if x.randomNum &&& 1 ≠ 0 then cfg.NON_FIN else cfg.WEAK_STR_FIN) ∧
    (nova_dedup_new_write_sample cfg sbi x).cur_block = 0 ∧
    (nova_dedup_new_write_sample cfg sbi x).dup_block = 0 := by
  unfold nova_dedup_new_write_sample
  simp only [ge_iff_le, h, if_true]
  by_cases hm : sbi.dedup_mode = cfg.NON_FIN <;>
  by_cases h1 : sbi.dup_block > cfg.STR_FIN_THRESH <;>
  by_cases h2 : sbi.dup_block > cfg.NON_FIN_THRESH <;>
  by_cases h3 : x.randomNum &&& 1 = 0 <;>
  simp only [hm, h1, h2, h3, if_true, if_false, nova_sb_info.log, and_self, ne_eq,
    not_false_eq_true, not_true_eq_false]

theorem sample_no_window (cfg : Config) (sbi : nova_sb_info) (x : Ext)
    (h : ¬ cfg.SAMPLE_BLOCK ≤ (sbi.cur_block + 1) % U32_MOD) :
    nova_dedup_new_write_sample cfg sbi x
      = { sbi with cur_block := (sbi.cur_block + 1) % U32_MOD } := by
  unfold nova_dedup_new_write_sample
  simp only [ge_iff_le, h, if_false]

theorem sample_frame (cfg : Config) (sbi : nova_sb_info) (x : Ext) :
    (nova_dedup_new_write_sample cfg sbi x).pentries = sbi.pentries ∧
    (nova_dedup_new_write_sample cfg sbi x).weak_hash_table = sbi.weak_hash_table ∧
    (nova_dedup_new_write_sample cfg sbi x).strong_hash_table = sbi.strong_hash_table ∧
    (nova_dedup_new_write_sample cfg sbi x).blocks = sbi.blocks ∧
    (nova_dedup_new_write_sample cfg sbi x).blocknr_to_entry = sbi.blocknr_to_entry ∧
    (nova_dedup_new_write_sample cfg sbi x).num_entries_bits = sbi.num_entries_bits ∧
    allocator_calls (nova_dedup_new_write_sample cfg sbi x).trace
      = allocator_calls sbi.trace := by
  by_cases h : cfg.SAMPLE_BLOCK ≤ (sbi.cur_block + 1) % U32_MOD
  · unfold nova_dedup_new_write_sample
    simp only [ge_iff_le, h, if_true]
    by_cases hm : sbi.dedup_mode = cfg.NON_FIN <;>
    by_cases h1 : sbi.dup_block > cfg.STR_FIN_THRESH <;>
    by_cases h2 : sbi.dup_block > cfg.NON_FIN_THRESH <;>
    by_cases h3 : x.randomNum &&& 1 = 0 <;>
    simp only [hm, h1, h2, h3, if_true, if_false, nova_sb_info.log, ne_eq,
      not_false_eq_true, not_true_eq_false] <;>
    simp [allocator_calls, List.count_append, List.count_cons]
  · rw [sample_no_window cfg sbi x h]
    exact ⟨rfl, rfl, rfl, rfl, rfl, rfl, rfl⟩

theorem sample_entry_calls (cfg : Config) (sbi : nova_sb_info) (x : Ext) :
    (nova_dedup_new_write_sample cfg sbi x).trace.count Event.alloc_entry
      = sbi.trace.count Event.alloc_entry := by
  by_cases h : cfg.SAMPLE_BLOCK ≤ (sbi.cur_block + 1) % U32_MOD
  · unfold nova_dedup_new_write_sample
    simp only [ge_iff_le, h, if_true]
    by_cases hm : sbi.dedup_mode = cfg.NON_FIN <;>
    by_cases h1 : sbi.dup_block > cfg.STR_FIN_THRESH <;>
    by_cases h2 : sbi.dup_block > cfg.NON_FIN_THRESH <;>
    by_cases h3 : x.randomNum &&& 1 = 0 <;>
    simp only [hm, h1, h2, h3, if_true, if_false, nova_sb_info.log, ne_eq,
      not_false_eq_true, not_true_eq_false] <;>
    simp [List.count_append, List.count_cons]
  · rw [sample_no_window cfg sbi x h]

/-! ## Allocation failure -/

theorem non_fin_allocator_calls (cfg : Config) (sbi : nova_sb_info) (x : Ext) (data : Chunk)
    (b : Nat) :
    allocator_calls (nova_dedup_non_fin cfg sbi x data b).sbi.trace
      = allocator_calls sbi.trace + 1 := by
  unfold nova_dedup_non_fin
  by_cases hx : x.allocated < 0 <;>
    simp [nova_alloc_entry, nova_alloc_block_write, hx, nova_sb_info.set_entry,
      nova_sb_info.log, nova_sb_info.map_block, allocator_calls, List.count_append,
      List.count_cons]

theorem referenced_of_tables {s t : nova_sb_info}
    (hw : t.weak_hash_table = s.weak_hash_table)
    (hs : t.strong_hash_table = s.strong_hash_table) (e : Nat) (h : referenced t e) :
    referenced s e := by
  obtain ⟨b, n, hn, he⟩ := h
  rw [hw, hs] at hn
  exact ⟨b, n, hn, he⟩

theorem non_fin_failure (cfg : Config) (sbi : nova_sb_info) (x : Ext) (data : Chunk) (b : Nat)
    (hx : x.allocated < 0) :
    unchanged_on_failure sbi x (nova_dedup_non_fin cfg sbi x data b) := by
  obtain ⟨h1, -, h3, h4, h5, h6, h7, h8⟩ := non_fin_fail cfg sbi x data b hx _ rfl
  refine ⟨h1, non_fin_allocator_calls cfg sbi x data b, h4, referenced_of_tables h4 h5,
    ?_, h8, h7, h6⟩
  intro e
  rw [h3]
  exact ⟨rfl, rfl⟩

theorem str_fin_failure (cfg : Config) (sbi : nova_sb_info) (x : Ext) (data : Chunk) (b : Nat)
    (hx : x.allocated < 0) (hm : str_fin_match cfg sbi data = none) :
    unchanged_on_failure sbi x (nova_dedup_str_fin cfg sbi x data b) := by
  obtain ⟨h1, -, h3, h4, h5, h6, h7, h8⟩ := str_fin_alloc_fail cfg sbi x data b hm hx _ rfl
  refine ⟨h1, ?_, h4, referenced_of_tables h4 h5, ?_, h8, h7, h6⟩
  · rw [str_fin_allocator_calls, hm]; rfl
  · intro e
    rw [h3]
    exact ⟨rfl, rfl⟩

theorem weak_str_fin_failure (cfg : Config) (sbi : nova_sb_info) (x : Ext) (data : Chunk)
    (b : Nat) (hx : x.allocated < 0) (hm : weak_str_fin_match cfg sbi data = none) :
    unchanged_on_failure sbi x (nova_dedup_weak_str_fin cfg sbi x data b) := by
  have hcalls : allocator_calls (nova_dedup_weak_str_fin cfg sbi x data b).sbi.trace
      = allocator_calls sbi.trace + 1 := by
    rw [weak_str_fin_allocator_calls, hm]; rfl
  unfold weak_str_fin_match at hm
  cases hw : weak_lookup cfg sbi data with
  | none =>
    obtain ⟨h1, -, h3, h4, h5, h6, h7, h8⟩ := weak_str_fin_miss_fail cfg sbi x data b hw hx _ rfl
    refine ⟨h1, hcalls, h4, referenced_of_tables h4 h5, ?_, h8, h7, h6⟩
    intro e
    rw [h3]
    exact ⟨rfl, rfl⟩
  | some wh =>
    simp only [hw] at hm
    split at hm
    · cases hm
    · rename_i hc
      simp only [Bool.not_eq_true] at hc
      cases hs : collision_lookup cfg sbi data wh.entrynr with
      | some sh => simp [hs] at hm
      | none =>
        obtain ⟨h1, -, h3, h4, h5, h6, h7, h8⟩ :=
          weak_str_fin_collision_fail cfg sbi x data b wh hw hc hs hx _ rfl
        refine ⟨h1, hcalls, h4, ?_, ?_, h8, h7, h6⟩
        · rintro e ⟨bk, n, hn, he⟩
          rw [h4, h5] at hn
          rcases hn with hn | hn
          · exact ⟨bk, n, Or.inl hn, he⟩
          · rcases mem_ref_strong_table hn with hn | ⟨-, hn⟩
            · exact ⟨bk, n, Or.inr hn, he⟩
            · refine ⟨_, wh, Or.inl (find_weak_mem hw).1, ?_⟩
              rw [← he, hn]
        · intro e
          rw [h3]
          exact ⟨ref_pentries_refcount cfg sbi wh.entrynr e,
            ref_pentries_blocknr cfg sbi wh.entrynr e⟩

/-! ## No-fingerprint writes -/

theorem non_fin_run (cfg : Config) (data : Chunk) (xs : List Ext) :
    ∀ (sbi : nova_sb_info) (b : Nat), (∀ x ∈ xs, 0 ≤ x.allocated) →
      (xs.map (fun x => x.alloc_entry)).Nodup → (xs.map (fun x => x.blocknr)).Nodup →
      run_rets (nova_dedup_non_fin cfg) sbi b (xs.map (fun x => (x, data)))
        = xs.map (fun x => (x.blocknr, x.allocated)) ∧
      (∀ x ∈ xs,
        (run_state (nova_dedup_non_fin cfg) sbi b (xs.map (fun x => (x, data)))).pentries
            x.alloc_entry = ⟨cfg.NON_FIN_FLAG, x.blocknr, 1, 0, nova_fp_strong.zero⟩ ∧
        (run_state (nova_dedup_non_fin cfg) sbi b
            (xs.map (fun x => (x, data)))).blocknr_to_entry x.blocknr = x.alloc_entry) ∧
      (∀ e, e ∉ xs.map (fun x => x.alloc_entry) →
        (run_state (nova_dedup_non_fin cfg) sbi b (xs.map (fun x => (x, data)))).pentries e
          = sbi.pentries e) ∧
      (∀ k, k ∉ xs.map (fun x => x.blocknr) →
        (run_state (nova_dedup_non_fin cfg) sbi b
            (xs.map (fun x => (x, data)))).blocknr_to_entry k = sbi.blocknr_to_entry k) := by
  induction xs with
  | nil =>
    intro sbi b _ _ _
    simp [run_rets, run_state]
  | cons x rest ih =>
    intro sbi b hs hE hB
    have hx : ¬ x.allocated < 0 := by
      have := hs x (List.mem_cons_self _ _)
      omega
    obtain ⟨h1, h2, h3, -, -, -, h7, -⟩ := non_fin_ok cfg sbi x data b hx _ rfl
    rw [List.map_cons, List.nodup_cons] at hE hB
    obtain ⟨i1, i2, i3, i4⟩ := ih (nova_dedup_non_fin cfg sbi x data b).sbi
      (nova_dedup_non_fin cfg sbi x data b).blocknr
      (fun y hy => hs y (List.mem_cons_of_mem _ hy)) hE.2 hB.2
    simp only [List.map_cons, run_rets, run_state]
    refine ⟨?_, ?_, ?_, ?_⟩
    · rw [i1, h1, h2]
    · intro y hy
      rcases List.mem_cons.1 hy with hy | hy
      · subst hy
        rw [i3 _ hE.1, i4 _ hB.1, h3, h7]
        simp
      · exact i2 y hy
    · intro e he
      rw [List.mem_cons, not_or] at he
      rw [i3 e he.2, h3, upd_other _ _ he.1]
    · intro k hk
      rw [List.mem_cons, not_or] at hk
      rw [i4 k hk.2, h7, upd_other _ _ hk.1]

/-! ## Writing the same chunk again and again -/

theorem strong_idx_of_eq {cfg : Config} {s t : nova_sb_info} (data : Chunk)
    (h : t.num_entries_bits = s.num_entries_bits) :
    strong_idx_of cfg t data = strong_idx_of cfg s data := by
  unfold strong_idx_of bucket_idx
  rw [h]

theorem weak_idx_of_eq {cfg : Config} {s t : nova_sb_info} (data : Chunk)
    (h : t.num_entries_bits = s.num_entries_bits) :
    weak_idx_of cfg t data = weak_idx_of cfg s data := by
  unfold weak_idx_of bucket_idx
  rw [h]

theorem upd_apply {α : Type} (f : Nat → α) (k : Nat) (v : α) (i : Nat) :
    upd f k v i = if i = k then v else f i := rfl

theorem str_fin_match_empty {cfg : Config} {sbi : nova_sb_info} (data : Chunk)
    (hs : sbi.strong_hash_table (strong_idx_of cfg sbi data) = [])
    (hw : sbi.weak_hash_table (weak_idx_of cfg sbi data) = []) :
    str_fin_match cfg sbi data = none ∧ weak_lookup cfg sbi data = none := by
  unfold str_fin_match strong_lookup weak_lookup
  rw [hs, hw]
  exact ⟨rfl, rfl⟩

/-- First write of a chunk through `nova_dedup_str_fin` when its two buckets are empty. -/
theorem str_fin_first (cfg : Config) (sbi : nova_sb_info) (x : Ext) (data : Chunk) (b : Nat)
    (hs : sbi.strong_hash_table (strong_idx_of cfg sbi data) = [])
    (hw : sbi.weak_hash_table (weak_idx_of cfg sbi data) = [])
    (hx : ¬ x.allocated < 0) :
    (nova_dedup_str_fin cfg sbi x data b).allocated = x.allocated ∧
    (nova_dedup_str_fin cfg sbi x data b).blocknr = x.blocknr ∧
    strong_lookup cfg (nova_dedup_str_fin cfg sbi x data b).sbi data = some ⟨x.alloc_entry⟩ ∧
    (nova_dedup_str_fin cfg sbi x data b).sbi.pentries x.alloc_entry
      = ⟨cfg.FP_STRONG_FLAG, x.blocknr, 1, cfg.nova_fp_weak_calc data,
          cfg.nova_fp_strong_calc data⟩ ∧
    (nova_dedup_str_fin cfg sbi x data b).sbi.blocknr_to_entry x.blocknr = x.alloc_entry := by
  obtain ⟨hm, -⟩ := str_fin_match_empty data hs hw
  obtain ⟨h1, h2, h3, -, h5, -, h7, -⟩ := str_fin_alloc_ok cfg sbi x data b hm hx _ rfl
  refine ⟨h1, h2, ?_, ?_, ?_⟩
  · unfold strong_lookup
    rw [strong_idx_of_eq data (str_fin_ctrl cfg sbi x data b).2.2, h5, h3]
    unfold add_head
    rw [upd_same, hs]
    unfold nova_find_in_strong_hlist
    rw [upd_same, if_pos (cmp_fp_strong_self _)]
  · rw [h3, upd_same]
  · rw [h7, upd_same]

/-- A strong hit in `nova_dedup_str_fin` leaves the strong lookup of the chunk as it was. -/
theorem str_fin_again (cfg : Config) (sbi : nova_sb_info) (x : Ext) (data : Chunk) (b : Nat)
    (sh : nova_hentry) (h : strong_lookup cfg sbi data = some sh) :
    (nova_dedup_str_fin cfg sbi x data b).allocated = 1 ∧
    (nova_dedup_str_fin cfg sbi x data b).blocknr = (sbi.pentries sh.entrynr).blocknr ∧
    strong_lookup cfg (nova_dedup_str_fin cfg sbi x data b).sbi data = some sh ∧
    ((nova_dedup_str_fin cfg sbi x data b).sbi.pentries sh.entrynr).blocknr
      = (sbi.pentries sh.entrynr).blocknr ∧
    ((nova_dedup_str_fin cfg sbi x data b).sbi.pentries sh.entrynr).refcount
      = ((sbi.pentries sh.entrynr).refcount + 1) % U32_MOD ∧
    (nova_dedup_str_fin cfg sbi x data b).sbi.blocknr_to_entry = sbi.blocknr_to_entry := by
  obtain ⟨h1, h2, h3, -, h5, -, h7, -⟩ := str_fin_strong_hit cfg sbi x data b sh h _ rfl
  refine ⟨h1, h2, ?_, ?_, ?_, h7⟩
  · rw [← h]
    unfold strong_lookup
    rw [strong_idx_of_eq data (str_fin_ctrl cfg sbi x data b).2.2, h5, h3]
    apply find_strong_congr
    intro n _
    rw [upd_apply]
    split
    · rename_i hn
      rw [hn]
    · rfl
  · rw [h3, upd_same]
  · rw [h3, upd_same]

theorem str_fin_repeat (cfg : Config) (data : Chunk) (sh : nova_hentry) (xs : List Ext) :
    ∀ (sbi : nova_sb_info) (b k : Nat), strong_lookup cfg sbi data = some sh →
      (sbi.pentries sh.entrynr).refcount = k % U32_MOD →
      (∀ r ∈ run_rets (nova_dedup_str_fin cfg) sbi b (xs.map (fun x => (x, data))),
        r = ((sbi.pentries sh.entrynr).blocknr, 1)) ∧
      ((run_state (nova_dedup_str_fin cfg) sbi b
        (xs.map (fun x => (x, data)))).pentries sh.entrynr).refcount
          = (k + xs.length) % U32_MOD ∧
      ((run_state (nova_dedup_str_fin cfg) sbi b
        (xs.map (fun x => (x, data)))).pentries sh.entrynr).blocknr
          = (sbi.pentries sh.entrynr).blocknr ∧
      (run_state (nova_dedup_str_fin cfg) sbi b
        (xs.map (fun x => (x, data)))).blocknr_to_entry = sbi.blocknr_to_entry := by
  induction xs with
  | nil =>
    intro sbi b k _ hk
    simp [run_rets, run_state, hk]
  | cons x rest ih =>
    intro sbi b k h hk
    obtain ⟨h1, h2, h3, h4, h5, h6⟩ := str_fin_again cfg sbi x data b sh h
    have hk' : ((nova_dedup_str_fin cfg sbi x data b).sbi.pentries sh.entrynr).refcount
        = (k + 1) % U32_MOD := by
      rw [h5, hk, Nat.mod_add_mod]
    obtain ⟨i1, i2, i3, i4⟩ := ih (nova_dedup_str_fin cfg sbi x data b).sbi
      (nova_dedup_str_fin cfg sbi x data b).blocknr (k + 1) h3 hk'
    simp only [List.map_cons, run_rets, run_state, List.length_cons]
    refine ⟨?_, ?_, ?_, ?_⟩
    · intro r hr
      rcases List.mem_cons.1 hr with hr | hr
      · rw [hr, h1, h2]
      · rw [i1 r hr, h4]
    · rw [i2]
      congr 1
      omega
    · rw [i3, h4]
    · rw [i4, h6]
/-- First write of a chunk through `nova_dedup_weak_str_fin` when its weak bucket is empty. -/
theorem weak_str_fin_first (cfg : Config) (sbi : nova_sb_info) (x : Ext) (data : Chunk)
    (b : Nat) (hflag : cfg.FP_WEAK_FLAG ≠ cfg.FP_STRONG_FLAG)
    (hw : sbi.weak_hash_table (weak_idx_of cfg sbi data) = [])
    (hx : ¬ x.allocated < 0) :
    (nova_dedup_weak_str_fin cfg sbi x data b).allocated = x.allocated ∧
    (nova_dedup_weak_str_fin cfg sbi x data b).blocknr = x.blocknr ∧
    weak_lookup cfg (nova_dedup_weak_str_fin cfg sbi x data b).sbi data
      = some ⟨x.alloc_entry⟩ ∧
    (nova_dedup_weak_str_fin cfg sbi x data b).sbi.pentries x.alloc_entry
      = ⟨cfg.FP_WEAK_FLAG, x.blocknr, 1, cfg.nova_fp_weak_calc data, nova_fp_strong.zero⟩ ∧
    ref_fp cfg (nova_dedup_weak_str_fin cfg sbi x data b).sbi x.alloc_entry
      = cfg.nova_fp_strong_calc data ∧
    (nova_dedup_weak_str_fin cfg sbi x data b).sbi.blocknr_to_entry x.blocknr
      = x.alloc_entry := by
  have hl : weak_lookup cfg sbi data = none := by
    unfold weak_lookup
    rw [hw]
    rfl
  obtain ⟨h1, h2, h3, h4, -, h6, h7, -⟩ := weak_str_fin_miss_ok cfg sbi x data b hl hx _ rfl
  refine ⟨h1, h2, ?_, ?_, ?_, ?_⟩
  · unfold weak_lookup
    rw [weak_idx_of_eq data (weak_str_fin_ctrl cfg sbi x data b).2.2, h4, h3]
    unfold add_head
    rw [upd_same, hw]
    unfold nova_find_in_weak_hlist
    rw [upd_same, if_pos rfl]
  · rw [h3, upd_same]
  · unfold ref_fp
    rw [h3, h6, upd_same]
    simp [hflag]
  · rw [h7, upd_same]

/-- A verified weak hit in `nova_dedup_weak_str_fin` leaves the weak lookup of the chunk and
the reference fingerprint of the entry as they were. -/
theorem weak_str_fin_again (cfg : Config) (sbi : nova_sb_info) (x : Ext) (data : Chunk)
    (b : Nat) (wh : nova_hentry) (h : weak_lookup cfg sbi data = some wh)
    (hr : ref_fp cfg sbi wh.entrynr = cfg.nova_fp_strong_calc data) :
    (nova_dedup_weak_str_fin cfg sbi x data b).allocated = 1 ∧
    (nova_dedup_weak_str_fin cfg sbi x data b).blocknr = (sbi.pentries wh.entrynr).blocknr ∧
    weak_lookup cfg (nova_dedup_weak_str_fin cfg sbi x data b).sbi data = some wh ∧
    ref_fp cfg (nova_dedup_weak_str_fin cfg sbi x data b).sbi wh.entrynr
      = cfg.nova_fp_strong_calc data ∧
    ((nova_dedup_weak_str_fin cfg sbi x data b).sbi.pentries wh.entrynr).blocknr
      = (sbi.pentries wh.entrynr).blocknr ∧
    ((nova_dedup_weak_str_fin cfg sbi x data b).sbi.pentries wh.entrynr).refcount
      = ((sbi.pentries wh.entrynr).refcount + 1) % U32_MOD ∧
    (nova_dedup_weak_str_fin cfg sbi x data b).sbi.blocknr_to_entry
      = sbi.blocknr_to_entry := by
  have hc : cmp_fp_strong (cfg.nova_fp_strong_calc data) (ref_fp cfg sbi wh.entrynr) = true := by
    rw [hr]
    exact cmp_fp_strong_self _
  obtain ⟨h1, h2, h3, h4, -, h6, h7, -⟩ := weak_str_fin_dup cfg sbi x data b wh h hc _ rfl
  refine ⟨h1, h2, ?_, ?_, ?_, ?_, h7⟩
  · rw [← h]
    unfold weak_lookup
    rw [weak_idx_of_eq data (weak_str_fin_ctrl cfg sbi x data b).2.2, h4, h3]
    apply find_weak_congr
    intro n _
    rw [upd_apply]
    split
    · rename_i hn
      rw [hn]
      exact ref_pentries_fp_weak cfg sbi wh.entrynr wh.entrynr
    · exact ref_pentries_fp_weak cfg sbi wh.entrynr n.entrynr
  · rw [← hr]
    unfold ref_fp
    rw [h3, h6, upd_same]
    simp only []
    unfold ref_pentries ref_upgrades
    by_cases f1 : (sbi.pentries wh.entrynr).flag = cfg.FP_STRONG_FLAG
    · simp [f1]
    · by_cases f2 : (sbi.pentries wh.entrynr).flag = cfg.FP_WEAK_FLAG
      · have f3 : ¬ cfg.FP_WEAK_FLAG = cfg.FP_STRONG_FLAG := f2 ▸ f1
        simp [f2, f3, ref_pentries_blocknr]
      · simp [f1, f2]
  · rw [h3, upd_same]
    exact ref_pentries_blocknr cfg sbi wh.entrynr wh.entrynr
  · rw [h3, upd_same]

theorem weak_str_fin_repeat (cfg : Config) (data : Chunk) (wh : nova_hentry) (xs : List Ext) :
    ∀ (sbi : nova_sb_info) (b k : Nat), weak_lookup cfg sbi data = some wh →
      ref_fp cfg sbi wh.entrynr = cfg.nova_fp_strong_calc data →
      (sbi.pentries wh.entrynr).refcount = k % U32_MOD →
      (∀ r ∈ run_rets (nova_dedup_weak_str_fin cfg) sbi b (xs.map (fun x => (x, data))),
        r = ((sbi.pentries wh.entrynr).blocknr, 1)) ∧
      ((run_state (nova_dedup_weak_str_fin cfg) sbi b
        (xs.map (fun x => (x, data)))).pentries wh.entrynr).refcount
          = (k + xs.length) % U32_MOD ∧
      ((run_state (nova_dedup_weak_str_fin cfg) sbi b
        (xs.map (fun x => (x, data)))).pentries wh.entrynr).blocknr
          = (sbi.pentries wh.entrynr).blocknr ∧
      (run_state (nova_dedup_weak_str_fin cfg) sbi b
        (xs.map (fun x => (x, data)))).blocknr_to_entry = sbi.blocknr_to_entry := by
  induction xs with
  | nil =>
    intro sbi b k _ _ hk
    simp [run_rets, run_state, hk]
  | cons x rest ih =>
    intro sbi b k h hr hk
    obtain ⟨h1, h2, h3, h3', h4, h5, h6⟩ := weak_str_fin_again cfg sbi x data b wh h hr
    have hk' : ((nova_dedup_weak_str_fin cfg sbi x data b).sbi.pentries wh.entrynr).refcount
        = (k + 1) % U32_MOD := by
      rw [h5, hk, Nat.mod_add_mod]
    obtain ⟨i1, i2, i3, i4⟩ := ih (nova_dedup_weak_str_fin cfg sbi x data b).sbi
      (nova_dedup_weak_str_fin cfg sbi x data b).blocknr (k + 1) h3 h3' hk'
    simp only [List.map_cons, run_rets, run_state, List.length_cons]
    refine ⟨?_, ?_, ?_, ?_⟩
    · intro r hr
      rcases List.mem_cons.1 hr with hr | hr
      · rw [hr, h1, h2]
      · rw [i1 r hr, h4]
    · rw [i2]
      congr 1
      omega
    · rw [i3, h4]
    · rw [i4, h6]
theorem one_mod_u32 : 1 = 1 % U32_MOD := by
  unfold U32_MOD
  rfl

/-- N = `xs.length + 1` writes of one chunk through `nova_dedup_str_fin`, the first into empty
buckets with a successful allocation. -/
theorem str_fin_same_chunk (cfg : Config) (sbi : nova_sb_info) (b : Nat) (data : Chunk)
    (x : Ext) (xs : List Ext)
    (hs : sbi.strong_hash_table (strong_idx_of cfg sbi data) = [])
    (hw : sbi.weak_hash_table (weak_idx_of cfg sbi data) = [])
    (hx : 0 ≤ x.allocated) :
    (∀ r ∈ run_rets (nova_dedup_str_fin cfg) sbi b ((x :: xs).map (fun y => (y, data))),
      r.1 = x.blocknr ∧ 0 ≤ r.2) ∧
    ((run_state (nova_dedup_str_fin cfg) sbi b
      ((x :: xs).map (fun y => (y, data)))).pentries x.alloc_entry).refcount
        = (xs.length + 1) % U32_MOD ∧
    ((run_state (nova_dedup_str_fin cfg) sbi b
      ((x :: xs).map (fun y => (y, data)))).pentries x.alloc_entry).blocknr = x.blocknr ∧
    (run_state (nova_dedup_str_fin cfg) sbi b
      ((x :: xs).map (fun y => (y, data)))).blocknr_to_entry x.blocknr = x.alloc_entry := by
  obtain ⟨h1, h2, h3, h4, h5⟩ := str_fin_first cfg sbi x data b hs hw (by omega)
  have hk : ((nova_dedup_str_fin cfg sbi x data b).sbi.pentries
      (⟨x.alloc_entry⟩ : nova_hentry).entrynr).refcount = 1 % U32_MOD := by
    rw [h4]
    exact one_mod_u32
  obtain ⟨i1, i2, i3, i4⟩ := str_fin_repeat cfg data ⟨x.alloc_entry⟩ xs
    (nova_dedup_str_fin cfg sbi x data b).sbi (nova_dedup_str_fin cfg sbi x data b).blocknr 1
    h3 hk
  simp only [List.map_cons, run_rets, run_state]
  simp only [h4] at i1 i3
  refine ⟨?_, ?_, ?_, ?_⟩
  · intro r hr
    rcases List.mem_cons.1 hr with hr | hr
    · rw [hr, h1, h2]
      exact ⟨rfl, hx⟩
    · rw [i1 r hr]
      exact ⟨rfl, Int.one_nonneg⟩
  · rw [i2, Nat.add_comm]
  · exact i3
  · rw [i4, h5]

/-- N = `xs.length + 1` writes of one chunk through `nova_dedup_weak_str_fin`, the first into
an empty weak bucket with a successful allocation. -/
theorem weak_str_fin_same_chunk (cfg : Config) (sbi : nova_sb_info) (b : Nat) (data : Chunk)
    (x : Ext) (xs : List Ext) (hflag : cfg.FP_WEAK_FLAG ≠ cfg.FP_STRONG_FLAG)
    (hw : sbi.weak_hash_table (weak_idx_of cfg sbi data) = [])
    (hx : 0 ≤ x.allocated) :
    (∀ r ∈ run_rets (nova_dedup_weak_str_fin cfg) sbi b ((x :: xs).map (fun y => (y, data))),
      r.1 = x.blocknr ∧ 0 ≤ r.2) ∧
    ((run_state (nova_dedup_weak_str_fin cfg) sbi b
      ((x :: xs).map (fun y => (y, data)))).pentries x.alloc_entry).refcount
        = (xs.length + 1) % U32_MOD ∧
    ((run_state (nova_dedup_weak_str_fin cfg) sbi b
      ((x :: xs).map (fun y => (y, data)))).pentries x.alloc_entry).blocknr = x.blocknr ∧
    (run_state (nova_dedup_weak_str_fin cfg) sbi b
      ((x :: xs).map (fun y => (y, data)))).blocknr_to_entry x.blocknr = x.alloc_entry := by
  obtain ⟨h1, h2, h3, h4, h4', h5⟩ := weak_str_fin_first cfg sbi x data b hflag hw (by omega)
  have hk : ((nova_dedup_weak_str_fin cfg sbi x data b).sbi.pentries
      (⟨x.alloc_entry⟩ : nova_hentry).entrynr).refcount = 1 % U32_MOD := by
    rw [h4]
    exact one_mod_u32
  obtain ⟨i1, i2, i3, i4⟩ := weak_str_fin_repeat cfg data ⟨x.alloc_entry⟩ xs
    (nova_dedup_weak_str_fin cfg sbi x data b).sbi
    (nova_dedup_weak_str_fin cfg sbi x data b).blocknr 1 h3 h4' hk
  simp only [List.map_cons, run_rets, run_state]
  simp only [h4] at i1 i3
  refine ⟨?_, ?_, ?_, ?_⟩
  · intro r hr
    rcases List.mem_cons.1 hr with hr | hr
    · rw [hr, h1, h2]
      exact ⟨rfl, hx⟩
    · rw [i1 r hr]
      exact ⟨rfl, Int.one_nonneg⟩
  · rw [i2, Nat.add_comm]
  · exact i3
  · rw [i4, h5]

/-! ## Two chunks with one weak fingerprint -/

theorem find_strong_add_head_skip {p : Nat → nova_pmm_entry} {tbl : Nat → List nova_hentry}
    {idx e b : Nat} {fp : nova_fp_strong} (h : (p e).fp_strong ≠ fp) :
    nova_find_in_strong_hlist p (add_head tbl idx e b) fp
      = nova_find_in_strong_hlist p (tbl b) fp := by
  unfold add_head
  rw [upd_apply]
  split
  · rename_i hb
    subst hb
    simp [nova_find_in_strong_hlist, cmp_fp_strong_false h]
  · rfl

theorem find_strong_add_head_hit {p : Nat → nova_pmm_entry} {tbl : Nat → List nova_hentry}
    {idx e : Nat} {fp : nova_fp_strong} (h : (p e).fp_strong = fp) :
    nova_find_in_strong_hlist p (add_head tbl idx e idx) fp = some ⟨e⟩ := by
  unfold add_head
  rw [upd_same]
  unfold nova_find_in_strong_hlist
  rw [if_pos (by rw [h]; exact cmp_fp_strong_self _)]

theorem find_weak_add_head_hit {p : Nat → nova_pmm_entry} {tbl : Nat → List nova_hentry}
    {idx e : Nat} {fp : Nat} (h : (p e).fp_weak = fp) :
    nova_find_in_weak_hlist p (add_head tbl idx e idx) fp = some ⟨e⟩ := by
  unfold add_head
  rw [upd_same]
  unfold nova_find_in_weak_hlist
  rw [if_pos h]

/-- The state after chunk A and then chunk B (same weak fingerprint, another strong one) went
through `nova_dedup_str_fin` into an empty index. -/
theorem str_fin_two_chunks (cfg : Config) (sbi : nova_sb_info) (b : Nat) (A B : Chunk)
    (xA xB : Ext) (hempty : index_empty sbi)
    (hweak : cfg.nova_fp_weak_calc A = cfg.nova_fp_weak_calc B)
    (hstrong : cfg.nova_fp_strong_calc A ≠ cfg.nova_fp_strong_calc B)
    (hA : 0 ≤ xA.allocated) (hB : 0 ≤ xB.allocated) :
    run_rets (nova_dedup_str_fin cfg) sbi b [(xA, A), (xB, B)]
      = [(xA.blocknr, xA.allocated), (xB.blocknr, xB.allocated)] ∧
    (nova_dedup_str_fin cfg sbi xA A b).sbi.pentries
      = upd sbi.pentries xA.alloc_entry
          ⟨cfg.FP_STRONG_FLAG, xA.blocknr, 1, cfg.nova_fp_weak_calc A,
            cfg.nova_fp_strong_calc A⟩ ∧
    (run_state (nova_dedup_str_fin cfg) sbi b [(xA, A), (xB, B)]).pentries
      = upd (upd sbi.pentries xA.alloc_entry
          ⟨cfg.FP_STRONG_FLAG, xA.blocknr, 1, cfg.nova_fp_weak_calc A,
            cfg.nova_fp_strong_calc A⟩) xB.alloc_entry
          ⟨cfg.FP_STRONG_FLAG, xB.blocknr, 1, cfg.nova_fp_weak_calc B,
            cfg.nova_fp_strong_calc B⟩ ∧
    (run_state (nova_dedup_str_fin cfg) sbi b [(xA, A), (xB, B)]).weak_hash_table
      = add_head sbi.weak_hash_table (weak_idx_of cfg sbi A) xA.alloc_entry ∧
    (run_state (nova_dedup_str_fin cfg) sbi b [(xA, A), (xB, B)]).strong_hash_table
      = add_head (add_head sbi.strong_hash_table (strong_idx_of cfg sbi A) xA.alloc_entry)
          (strong_idx_of cfg sbi B) xB.alloc_entry ∧
    (run_state (nova_dedup_str_fin cfg) sbi b [(xA, A), (xB, B)]).blocknr_to_entry
      = upd (upd sbi.blocknr_to_entry xA.blocknr xA.alloc_entry) xB.blocknr xB.alloc_entry ∧
    (run_state (nova_dedup_str_fin cfg) sbi b [(xA, A), (xB, B)]).num_entries_bits
      = sbi.num_entries_bits := by
  obtain ⟨hm, hwl⟩ := @str_fin_match_empty cfg sbi A (hempty _).2 (hempty _).1
  obtain ⟨a1, a2, a3, a4, a5, a6, a7, -⟩ :=
    str_fin_alloc_ok cfg sbi xA A b hm (by omega) _ rfl
  have abits := (str_fin_ctrl cfg sbi xA A b).2.2
  rw [hwl] at a4
  simp only [weak_table_after] at a4
  -- the second write: strong miss, weak hit, fingerprints differ
  have hs2 : strong_lookup cfg (nova_dedup_str_fin cfg sbi xA A b).sbi B = none := by
    unfold strong_lookup
    rw [strong_idx_of_eq B abits, a5, a3,
      find_strong_add_head_skip (by rw [upd_same]; exact hstrong), (hempty _).2]
    rfl
  have hw2 : weak_lookup cfg (nova_dedup_str_fin cfg sbi xA A b).sbi B
      = some ⟨xA.alloc_entry⟩ := by
    unfold weak_lookup
    have hi : weak_idx_of cfg (nova_dedup_str_fin cfg sbi xA A b).sbi B
        = weak_idx_of cfg sbi A := by
      rw [weak_idx_of_eq B abits]
      unfold weak_idx_of
      rw [hweak]
    rw [hi, a4, a3]
    exact find_weak_add_head_hit (by rw [upd_same, hweak])
  have hm2 : str_fin_match cfg (nova_dedup_str_fin cfg sbi xA A b).sbi B = none := by
    unfold str_fin_match
    rw [hs2, hw2]
    simp only []
    rw [a3, a6, upd_same]
    simp only [upd_same]
    rw [if_neg (by rw [cmp_fp_strong_false hstrong]; decide)]
  obtain ⟨b1, b2, b3, b4, b5, -, b7, -⟩ :=
    str_fin_alloc_ok cfg (nova_dedup_str_fin cfg sbi xA A b).sbi xB B
      (nova_dedup_str_fin cfg sbi xA A b).blocknr hm2 (by omega) _ rfl
  have bbits := (str_fin_ctrl cfg (nova_dedup_str_fin cfg sbi xA A b).sbi xB B
      (nova_dedup_str_fin cfg sbi xA A b).blocknr).2.2
  rw [hw2] at b4
  simp only [weak_table_after] at b4
  simp only [run_rets, run_state]
  refine ⟨?_, a3, ?_, ?_, ?_, ?_, ?_⟩
  · rw [b1, b2, a1, a2]
  · rw [b3, a3]
  · rw [b4, a4]
  · rw [b5, a5, strong_idx_of_eq B abits]
  · rw [b7, a7]
  · rw [bbits, abits]
/-- The state after chunk A and then chunk B (same weak fingerprint, another strong one) went
through `nova_dedup_weak_str_fin` into an empty index. -/
theorem weak_str_fin_two_chunks (cfg : Config) (sbi : nova_sb_info) (b : Nat) (A B : Chunk)
    (xA xB : Ext) (hempty : index_empty sbi)
    (hweak : cfg.nova_fp_weak_calc A = cfg.nova_fp_weak_calc B)
    (hstrong : cfg.nova_fp_strong_calc A ≠ cfg.nova_fp_strong_calc B)
    (hA : 0 ≤ xA.allocated) (hB : 0 ≤ xB.allocated)
    (hflag : cfg.FP_WEAK_FLAG ≠ cfg.FP_STRONG_FLAG) :
    run_rets (nova_dedup_weak_str_fin cfg) sbi b [(xA, A), (xB, B)]
      = [(xA.blocknr, xA.allocated), (xB.blocknr, xB.allocated)] ∧
    (nova_dedup_weak_str_fin cfg sbi xA A b).sbi.pentries
      = upd sbi.pentries xA.alloc_entry
          ⟨cfg.FP_WEAK_FLAG, xA.blocknr, 1, cfg.nova_fp_weak_calc A, nova_fp_strong.zero⟩ ∧
    (run_state (nova_dedup_weak_str_fin cfg) sbi b [(xA, A), (xB, B)]).pentries
      = upd (upd (upd sbi.pentries xA.alloc_entry
            ⟨cfg.FP_WEAK_FLAG, xA.blocknr, 1, cfg.nova_fp_weak_calc A, nova_fp_strong.zero⟩)
          xA.alloc_entry
          ⟨cfg.FP_STRONG_FLAG, xA.blocknr, 1, cfg.nova_fp_weak_calc A,
            cfg.nova_fp_strong_calc A⟩) xB.alloc_entry
          ⟨cfg.FP_STRONG_FLAG, xB.blocknr, 1, cfg.nova_fp_weak_calc B,
            cfg.nova_fp_strong_calc B⟩ ∧
    (run_state (nova_dedup_weak_str_fin cfg) sbi b [(xA, A), (xB, B)]).weak_hash_table
      = add_head sbi.weak_hash_table (weak_idx_of cfg sbi A) xA.alloc_entry ∧
    (run_state (nova_dedup_weak_str_fin cfg) sbi b [(xA, A), (xB, B)]).strong_hash_table
      = add_head (add_head sbi.strong_hash_table (strong_idx_of cfg sbi A) xA.alloc_entry)
          (strong_idx_of cfg sbi B) xB.alloc_entry ∧
    (run_state (nova_dedup_weak_str_fin cfg) sbi b [(xA, A), (xB, B)]).blocknr_to_entry
      = upd (upd sbi.blocknr_to_entry xA.blocknr xA.alloc_entry) xB.blocknr xB.alloc_entry ∧
    (run_state (nova_dedup_weak_str_fin cfg) sbi b [(xA, A), (xB, B)]).num_entries_bits
      = sbi.num_entries_bits := by
  have hwl : weak_lookup cfg sbi A = none := by
    unfold weak_lookup
    rw [(hempty _).1]
    rfl
  obtain ⟨a1, a2, a3, a4, a5, a6, a7, -⟩ :=
    weak_str_fin_miss_ok cfg sbi xA A b hwl (by omega) _ rfl
  have abits := (weak_str_fin_ctrl cfg sbi xA A b).2.2
  have hpA : (nova_dedup_weak_str_fin cfg sbi xA A b).sbi.pentries xA.alloc_entry
      = ⟨cfg.FP_WEAK_FLAG, xA.blocknr, 1, cfg.nova_fp_weak_calc A, nova_fp_strong.zero⟩ := by
    rw [a3, upd_same]
  have hbA : (nova_dedup_weak_str_fin cfg sbi xA A b).sbi.blocks xA.blocknr = A := by
    rw [a6, upd_same]
  -- the second write: weak hit on A's entry, which is upgraded; strong miss
  have hw2 : weak_lookup cfg (nova_dedup_weak_str_fin cfg sbi xA A b).sbi B
      = some ⟨xA.alloc_entry⟩ := by
    unfold weak_lookup
    have hi : weak_idx_of cfg (nova_dedup_weak_str_fin cfg sbi xA A b).sbi B
        = weak_idx_of cfg sbi A := by
      rw [weak_idx_of_eq B abits]
      unfold weak_idx_of
      rw [hweak]
    rw [hi, a4]
    exact find_weak_add_head_hit (by rw [hpA, hweak])
  have hup : ref_upgrades cfg (nova_dedup_weak_str_fin cfg sbi xA A b).sbi xA.alloc_entry
      = true := by
    unfold ref_upgrades
    rw [hpA]
    simp [hflag]
  have hrf : ref_fp cfg (nova_dedup_weak_str_fin cfg sbi xA A b).sbi xA.alloc_entry
      = cfg.nova_fp_strong_calc A := by
    unfold ref_fp
    rw [hpA]
    simp only [if_neg hflag, if_true, hbA]
  have hrp : ref_pentries cfg (nova_dedup_weak_str_fin cfg sbi xA A b).sbi xA.alloc_entry
      = upd (upd sbi.pentries xA.alloc_entry
            ⟨cfg.FP_WEAK_FLAG, xA.blocknr, 1, cfg.nova_fp_weak_calc A, nova_fp_strong.zero⟩)
          xA.alloc_entry
          ⟨cfg.FP_STRONG_FLAG, xA.blocknr, 1, cfg.nova_fp_weak_calc A,
            cfg.nova_fp_strong_calc A⟩ := by
    unfold ref_pentries
    rw [hup, if_pos rfl, hpA]
    simp only []
    rw [hbA, a3]
  have hrs : ref_strong_table cfg (nova_dedup_weak_str_fin cfg sbi xA A b).sbi xA.alloc_entry
      = add_head sbi.strong_hash_table (strong_idx_of cfg sbi A) xA.alloc_entry := by
    unfold ref_strong_table
    rw [hup, if_pos rfl, hpA]
    simp only []
    rw [hbA, a5]
    unfold strong_idx_of bucket_idx
    rw [abits]
  have hc : cmp_fp_strong (cfg.nova_fp_strong_calc B)
      (ref_fp cfg (nova_dedup_weak_str_fin cfg sbi xA A b).sbi xA.alloc_entry) = false := by
    rw [hrf]
    exact cmp_fp_strong_false (fun h => hstrong h.symm)
  have hcl : collision_lookup cfg (nova_dedup_weak_str_fin cfg sbi xA A b).sbi B
      xA.alloc_entry = none := by
    unfold collision_lookup
    rw [hrs, hrp, find_strong_add_head_skip (by rw [upd_same]; exact hstrong), (hempty _).2]
    rfl
  obtain ⟨b1, b2, b3, b4, b5, -, b7, -⟩ :=
    weak_str_fin_collision_ok cfg (nova_dedup_weak_str_fin cfg sbi xA A b).sbi xB B
      (nova_dedup_weak_str_fin cfg sbi xA A b).blocknr ⟨xA.alloc_entry⟩ hw2 hc hcl
      (by omega) _ rfl
  have bbits := (weak_str_fin_ctrl cfg (nova_dedup_weak_str_fin cfg sbi xA A b).sbi xB B
      (nova_dedup_weak_str_fin cfg sbi xA A b).blocknr).2.2
  simp only [run_rets, run_state]
  refine ⟨?_, a3, ?_, ?_, ?_, ?_, ?_⟩
  · rw [b1, b2, a1, a2]
  · rw [b3, hrp]
  · rw [b4, a4]
  · rw [b5, hrs, strong_idx_of_eq B abits]
  · rw [b7, a7]
  · rw [bbits, abits]
theorem referenced_two {s : nova_sb_info} {w0 s0 : Nat → List nova_hentry} {wi si sj eA eB : Nat}
    (hw0 : ∀ b, w0 b = []) (hs0 : ∀ b, s0 b = [])
    (hw : s.weak_hash_table = add_head w0 wi eA)
    (hs : s.strong_hash_table = add_head (add_head s0 si eA) sj eB) (e : Nat)
    (h : referenced s e) : e = eA ∨ e = eB := by
  obtain ⟨b, n, hn, he⟩ := h
  rw [hw, hs] at hn
  rcases hn with hn | hn
  · rcases mem_add_head hn with hn | ⟨-, hn⟩
    · rw [hw0] at hn
      cases hn
    · left
      rw [← he, hn]
  · rcases mem_add_head hn with hn | ⟨-, hn⟩
    · rcases mem_add_head hn with hn | ⟨-, hn⟩
      · rw [hs0] at hn
        cases hn
      · left
        rw [← he, hn]
    · right
      rw [← he, hn]

/-! ## Soundness of the index is kept by every write -/

theorem tables_sound_mono {cfg : Config} {p : Nat → nova_pmm_entry}
    {w s : Nat → List nova_hentry} {blk : Nat → Chunk} {E K E' K' : List Nat}
    {C C' : List Chunk} (h : tables_sound cfg p w s blk E K C)
    (hE : ∀ e ∈ E, e ∈ E') (hK : ∀ k ∈ K, k ∈ K') (hC : ∀ c ∈ C, c ∈ C') :
    tables_sound cfg p w s blk E' K' C' := by
  refine ⟨fun b n hn => ?_, fun b n hn => ?_⟩
  · obtain ⟨⟨h1, h2, h3⟩, h4⟩ := h.1 b n hn
    exact ⟨⟨hE _ h1, hK _ h2, hC _ h3⟩, h4⟩
  · obtain ⟨⟨h1, h2, h3⟩, h4⟩ := h.2 b n hn
    exact ⟨⟨hE _ h1, hK _ h2, hC _ h3⟩, h4⟩

/-- Rewriting an entry in place: the block number stays, and either flag and strong
fingerprint stay or the flag becomes `FP_STRONG_FLAG` with a valid fingerprint. -/
theorem tables_sound_set {cfg : Config} {p : Nat → nova_pmm_entry}
    {w s : Nat → List nova_hentry} {blk : Nat → Chunk} {E K : List Nat} {C : List Chunk}
    (h : tables_sound cfg p w s blk E K C) (e : Nat) (v : nova_pmm_entry)
    (hb : v.blocknr = (p e).blocknr)
    (hv : (v.flag = (p e).flag ∧ v.fp_strong = (p e).fp_strong) ∨
      (v.flag = cfg.FP_STRONG_FLAG ∧
        v.fp_strong = cfg.nova_fp_strong_calc (blk (p e).blocknr))) :
    tables_sound cfg (upd p e v) w s blk E K C := by
  have key : ∀ k, entry_backed p blk E K C k → entry_backed (upd p e v) blk E K C k := by
    intro k hk
    unfold entry_backed at *
    by_cases hke : k = e
    · subst hke
      rw [upd_same, hb]
      exact hk
    · rw [upd_other _ _ hke]
      exact hk
  refine ⟨fun b n hn => ?_, fun b n hn => ?_⟩
  · obtain ⟨h1, h2⟩ := h.1 b n hn
    refine ⟨key _ h1, ?_⟩
    unfold fp_valid at *
    by_cases hke : n.entrynr = e
    · rw [hke, upd_same, hb]
      rcases hv with ⟨-, hv⟩ | ⟨-, hv⟩
      · rw [hv, ← hke]
        exact h2
      · exact hv
    · rw [upd_other _ _ hke]
      exact h2
  · obtain ⟨h1, h2⟩ := h.2 b n hn
    refine ⟨key _ h1, ?_⟩
    unfold fp_valid at *
    by_cases hke : n.entrynr = e
    · rw [hke, upd_same, hb]
      rw [hke] at h2
      rcases hv with ⟨hf, hv⟩ | ⟨hf, hv⟩
      · rw [hf, hv]
        exact h2
      · exact Or.inl ⟨hf, hv⟩
    · rw [upd_other _ _ hke]
      exact h2

theorem tables_sound_add_strong {cfg : Config} {p : Nat → nova_pmm_entry}
    {w s : Nat → List nova_hentry} {blk : Nat → Chunk} {E K : List Nat} {C : List Chunk}
    (h : tables_sound cfg p w s blk E K C) (idx e : Nat)
    (he : entry_backed p blk E K C e) (hv : fp_valid cfg p blk e) :
    tables_sound cfg p w (add_head s idx e) blk E K C := by
  refine ⟨fun b n hn => ?_, h.2⟩
  rcases mem_add_head hn with hn | ⟨-, hn⟩
  · exact h.1 b n hn
  · rw [hn]
    exact ⟨he, hv⟩

theorem tables_sound_add_weak {cfg : Config} {p : Nat → nova_pmm_entry}
    {w s : Nat → List nova_hentry} {blk : Nat → Chunk} {E K : List Nat} {C : List Chunk}
    (h : tables_sound cfg p w s blk E K C) (idx e : Nat)
    (he : entry_backed p blk E K C e)
    (hv : ((p e).flag = cfg.FP_STRONG_FLAG ∧ fp_valid cfg p blk e) ∨
      ((p e).flag ≠ cfg.FP_STRONG_FLAG ∧ (p e).flag = cfg.FP_WEAK_FLAG)) :
    tables_sound cfg p (add_head w idx e) s blk E K C := by
  refine ⟨h.1, fun b n hn => ?_⟩
  rcases mem_add_head hn with hn | ⟨-, hn⟩
  · exact h.2 b n hn
  · rw [hn]
    exact ⟨he, hv⟩

/-- A fresh entry and a fresh block do not disturb what the index references. -/
theorem tables_sound_fresh {cfg : Config} {p : Nat → nova_pmm_entry}
    {w s : Nat → List nova_hentry} {blk : Nat → Chunk} {E K : List Nat} {C : List Chunk}
    (h : tables_sound cfg p w s blk E K C) (e0 k0 : Nat) (v : nova_pmm_entry) (data : Chunk)
    (hE : e0 ∉ E) (hK : k0 ∉ K) :
    tables_sound cfg (upd p e0 v) w s (upd blk k0 data) (e0 :: E) (k0 :: K) (data :: C) := by
  have key : ∀ k, entry_backed p blk E K C k →
      upd p e0 v k = p k ∧ upd blk k0 data (p k).blocknr = blk (p k).blocknr ∧
      entry_backed (upd p e0 v) (upd blk k0 data) (e0 :: E) (k0 :: K) (data :: C) k := by
    intro k hk
    obtain ⟨h1, h2, h3⟩ := hk
    have hk1 : k ≠ e0 := fun hke => hE (hke ▸ h1)
    have hk2 : (p k).blocknr ≠ k0 := fun hke => hK (hke ▸ h2)
    refine ⟨upd_other _ _ hk1, upd_other _ _ hk2, ?_⟩
    unfold entry_backed
    rw [upd_other _ _ hk1, upd_other _ _ hk2]
    exact ⟨List.mem_cons_of_mem _ h1, List.mem_cons_of_mem _ h2, List.mem_cons_of_mem _ h3⟩
  refine ⟨fun b n hn => ?_, fun b n hn => ?_⟩
  · obtain ⟨h1, h2⟩ := h.1 b n hn
    obtain ⟨k1, k2, k3⟩ := key _ h1
    refine ⟨k3, ?_⟩
    unfold fp_valid at *
    rw [k1, k2]
    exact h2
  · obtain ⟨h1, h2⟩ := h.2 b n hn
    obtain ⟨k1, k2, k3⟩ := key _ h1
    refine ⟨k3, ?_⟩
    unfold fp_valid at *
    rw [k1, k2]
    exact h2

/-- The fresh entry itself, once filled with the block just written. -/
theorem fresh_entry_backed (p : Nat → nova_pmm_entry) (blk : Nat → Chunk) (E K : List Nat)
    (C : List Chunk) (e0 k0 : Nat) (v : nova_pmm_entry) (data : Chunk)
    (hv : v.blocknr = k0) :
    entry_backed (upd p e0 v) (upd blk k0 data) (e0 :: E) (k0 :: K) (data :: C) e0 ∧
    upd blk k0 data (upd p e0 v e0).blocknr = data := by
  unfold entry_backed
  rw [upd_same, hv, upd_same]
  exact ⟨⟨List.mem_cons_self _ _, List.mem_cons_self _ _, List.mem_cons_self _ _⟩, rfl⟩

theorem entry_backed_set {p : Nat → nova_pmm_entry} {blk : Nat → Chunk} {E K : List Nat}
    {C : List Chunk} {e : Nat} (v : nova_pmm_entry) (hb : v.blocknr = (p e).blocknr)
    (h : entry_backed p blk E K C e) : entry_backed (upd p e v) blk E K C e := by
  unfold entry_backed at *
  rw [upd_same, hb]
  exact h

theorem fp_valid_set {cfg : Config} {p : Nat → nova_pmm_entry} {blk : Nat → Chunk} {e : Nat}
    (v : nova_pmm_entry) (hb : v.blocknr = (p e).blocknr)
    (hv : v.fp_strong = cfg.nova_fp_strong_calc (blk (p e).blocknr)) :
    fp_valid cfg (upd p e v) blk e := by
  unfold fp_valid
  rw [upd_same, hb]
  exact hv

theorem tables_sound_weak_after {cfg : Config} {p : Nat → nova_pmm_entry}
    {w s : Nat → List nova_hentry} {blk : Nat → Chunk} {E K : List Nat} {C : List Chunk}
    (h : tables_sound cfg p w s blk E K C) (f : Option nova_hentry) (idx e : Nat)
    (he : entry_backed p blk E K C e)
    (hv : (p e).flag = cfg.FP_STRONG_FLAG ∧ fp_valid cfg p blk e) :
    tables_sound cfg p (weak_table_after f w idx e) s blk E K C := by
  cases f with
  | some _ => exact h
  | none => exact tables_sound_add_weak h idx e he (Or.inl hv)

theorem str_fin_sound_alloc (cfg : Config) (sbi : nova_sb_info) (x : Ext) (data : Chunk)
    (b : Nat) (E K : List Nat) (C : List Chunk)
    (h : tables_sound cfg sbi.pentries sbi.weak_hash_table sbi.strong_hash_table sbi.blocks
      E K C)
    (hE : x.alloc_entry ∉ E) (hK : x.blocknr ∉ K)
    (hm : str_fin_match cfg sbi data = none) :
    tables_sound cfg (nova_dedup_str_fin cfg sbi x data b).sbi.pentries
      (nova_dedup_str_fin cfg sbi x data b).sbi.weak_hash_table
      (nova_dedup_str_fin cfg sbi x data b).sbi.strong_hash_table
      (nova_dedup_str_fin cfg sbi x data b).sbi.blocks
      (x.alloc_entry :: E) (x.blocknr :: K) (data :: C) ∧
    (0 ≤ (nova_dedup_str_fin cfg sbi x data b).allocated →
      (nova_dedup_str_fin cfg sbi x data b).sbi.blocks
        (nova_dedup_str_fin cfg sbi x data b).blocknr = data) := by
  by_cases hx : x.allocated < 0
  · obtain ⟨r1, -, r3, r4, r5, r6, -, -⟩ := str_fin_alloc_fail cfg sbi x data b hm hx _ rfl
    rw [r1, r3, r4, r5, r6]
    exact ⟨tables_sound_mono h (fun _ => List.mem_cons_of_mem _)
      (fun _ => List.mem_cons_of_mem _) (fun _ => List.mem_cons_of_mem _),
      fun h0 => absurd h0 (by omega)⟩
  · obtain ⟨-, r2, r3, r4, r5, r6, -, -⟩ := str_fin_alloc_ok cfg sbi x data b hm hx _ rfl
    rw [r2, r3, r4, r5, r6]
    have hf := tables_sound_fresh h x.alloc_entry x.blocknr
      ⟨cfg.FP_STRONG_FLAG, x.blocknr, 1, cfg.nova_fp_weak_calc data,
        cfg.nova_fp_strong_calc data⟩ data hE hK
    obtain ⟨hb, hd⟩ := fresh_entry_backed sbi.pentries sbi.blocks E K C x.alloc_entry
      x.blocknr ⟨cfg.FP_STRONG_FLAG, x.blocknr, 1, cfg.nova_fp_weak_calc data,
        cfg.nova_fp_strong_calc data⟩ data rfl
    have hv : fp_valid cfg (upd sbi.pentries x.alloc_entry
        ⟨cfg.FP_STRONG_FLAG, x.blocknr, 1, cfg.nova_fp_weak_calc data,
          cfg.nova_fp_strong_calc data⟩) (upd sbi.blocks x.blocknr data) x.alloc_entry := by
      unfold fp_valid
      rw [hd, upd_same]
    constructor
    · apply tables_sound_weak_after
      · exact tables_sound_add_strong hf _ _ hb hv
      · exact hb
      · exact ⟨by rw [upd_same], hv⟩
    · intro _
      rw [upd_same]
/-- Every path of `nova_dedup_str_fin` keeps the index sound, and a write that does not fail
returns a block that holds the chunk, equal strong fingerprints of written chunks implying
equal content. -/
theorem str_fin_sound (cfg : Config) (sbi : nova_sb_info) (x : Ext) (data : Chunk) (b : Nat)
    (E K : List Nat) (C : List Chunk) (h : index_sound cfg sbi E K C)
    (hE : x.alloc_entry ∉ E) (hK : x.blocknr ∉ K)
    (hpol : ∀ c ∈ C, cfg.nova_fp_strong_calc c = cfg.nova_fp_strong_calc data → c = data) :
    index_sound cfg (nova_dedup_str_fin cfg sbi x data b).sbi
      (x.alloc_entry :: E) (x.blocknr :: K) (data :: C) ∧
    (0 ≤ (nova_dedup_str_fin cfg sbi x data b).allocated →
      (nova_dedup_str_fin cfg sbi x data b).sbi.blocks
        (nova_dedup_str_fin cfg sbi x data b).blocknr = data) := by
  unfold index_sound at *
  have mono : ∀ {p w s blk}, tables_sound cfg p w s blk E K C →
      tables_sound cfg p w s blk (x.alloc_entry :: E) (x.blocknr :: K) (data :: C) :=
    fun hh => tables_sound_mono hh (fun _ => List.mem_cons_of_mem _)
      (fun _ => List.mem_cons_of_mem _) (fun _ => List.mem_cons_of_mem _)
  cases hs : strong_lookup cfg sbi data with
  | some sh =>
    obtain ⟨-, r2, r3, r4, r5, r6, -, -⟩ := str_fin_strong_hit cfg sbi x data b sh hs _ rfl
    obtain ⟨hmem, hfp⟩ := find_strong_mem hs
    obtain ⟨hback, hval⟩ := h.1 _ _ hmem
    rw [r2, r3, r4, r5, r6]
    constructor
    · apply mono
      apply tables_sound_weak_after
      · exact tables_sound_set h _ _ rfl (Or.inr ⟨rfl, hval⟩)
      · exact entry_backed_set _ rfl hback
      · exact ⟨by rw [upd_same], fp_valid_set _ rfl hval⟩
    · intro _
      apply hpol _ hback.2.2
      rw [← hval, hfp]
  | none =>
    cases hw : weak_lookup cfg sbi data with
    | some wh =>
      obtain ⟨hmem, -⟩ := find_weak_mem hw
      obtain ⟨hback, -⟩ := h.2 _ _ hmem
      by_cases hc : cmp_fp_strong
          (cfg.nova_fp_strong_calc (sbi.blocks (sbi.pentries wh.entrynr).blocknr))
          (cfg.nova_fp_strong_calc data) = true
      · obtain ⟨-, r2, r3, r4, r5, r6, -, -⟩ :=
          str_fin_weak_verified cfg sbi x data b wh hs hw hc _ rfl
        rw [r2, r3, r4, r5, r6]
        constructor
        · apply mono
          apply tables_sound_add_strong
          · exact tables_sound_set h _ _ rfl (Or.inr ⟨rfl, rfl⟩)
          · exact entry_backed_set _ rfl hback
          · exact fp_valid_set _ rfl rfl
        · intro _
          exact hpol _ hback.2.2 ((cmp_fp_strong_eq _ _).1 hc)
      · have hm : str_fin_match cfg sbi data = none := by
          unfold str_fin_match
          rw [hs, hw]
          simp only []
          rw [if_neg hc]
        exact str_fin_sound_alloc cfg sbi x data b E K C h hE hK hm
    | none =>
      have hm : str_fin_match cfg sbi data = none := by
        unfold str_fin_match
        rw [hs, hw]
      exact str_fin_sound_alloc cfg sbi x data b E K C h hE hK hm
/-- Lines 286-316 keep the index sound, and the reference fingerprint they produce for an
entry of the weak table is the fingerprint of the content of its block. -/
theorem reference_sound {cfg : Config} {sbi : nova_sb_info} {E K : List Nat} {C : List Chunk}
    (h : index_sound cfg sbi E K C) {bk : Nat} {wh : nova_hentry}
    (hmem : wh ∈ sbi.weak_hash_table bk) :
    tables_sound cfg (ref_pentries cfg sbi wh.entrynr) sbi.weak_hash_table
      (ref_strong_table cfg sbi wh.entrynr) sbi.blocks E K C ∧
    ref_fp cfg sbi wh.entrynr
      = cfg.nova_fp_strong_calc (sbi.blocks (sbi.pentries wh.entrynr).blocknr) := by
  unfold index_sound at h
  obtain ⟨hback, hflags⟩ := h.2 _ _ hmem
  unfold ref_pentries ref_strong_table ref_fp ref_upgrades
  rcases hflags with ⟨hf, hv⟩ | ⟨hf1, hf2⟩
  · simp only [hf, ne_eq, not_true_eq_false, false_and, decide_False, Bool.false_eq_true,
      if_false, if_true]
    exact ⟨h, hv⟩
  · have hne : ¬ cfg.FP_WEAK_FLAG = cfg.FP_STRONG_FLAG := hf2 ▸ hf1
    simp only [hf2, hne, ne_eq, not_false_eq_true, and_self, decide_True, if_true, if_false]
    refine ⟨?_, trivial⟩
    apply tables_sound_add_strong
    · exact tables_sound_set h _ _ rfl (Or.inr ⟨rfl, rfl⟩)
    · exact entry_backed_set _ rfl hback
    · exact fp_valid_set _ rfl rfl

/-- Every path of `nova_dedup_weak_str_fin` keeps the index sound, and a write that does not
fail returns a block that holds the chunk, equal strong fingerprints of written chunks
implying equal content. -/
theorem weak_str_fin_sound (cfg : Config) (sbi : nova_sb_info) (x : Ext) (data : Chunk)
    (b : Nat) (E K : List Nat) (C : List Chunk)
    (hflag : cfg.FP_WEAK_FLAG ≠ cfg.FP_STRONG_FLAG) (h : index_sound cfg sbi E K C)
    (hE : x.alloc_entry ∉ E) (hK : x.blocknr ∉ K)
    (hpol : ∀ c ∈ C, cfg.nova_fp_strong_calc c = cfg.nova_fp_strong_calc data → c = data) :
    index_sound cfg (nova_dedup_weak_str_fin cfg sbi x data b).sbi
      (x.alloc_entry :: E) (x.blocknr :: K) (data :: C) ∧
    (0 ≤ (nova_dedup_weak_str_fin cfg sbi x data b).allocated →
      (nova_dedup_weak_str_fin cfg sbi x data b).sbi.blocks
        (nova_dedup_weak_str_fin cfg sbi x data b).blocknr = data) := by
  have mono : ∀ {p w s blk}, tables_sound cfg p w s blk E K C →
      tables_sound cfg p w s blk (x.alloc_entry :: E) (x.blocknr :: K) (data :: C) :=
    fun hh => tables_sound_mono hh (fun _ => List.mem_cons_of_mem _)
      (fun _ => List.mem_cons_of_mem _) (fun _ => List.mem_cons_of_mem _)
  cases hw : weak_lookup cfg sbi data with
  | none =>
    unfold index_sound at *
    by_cases hx : x.allocated < 0
    · obtain ⟨r1, -, r3, r4, r5, r6, -, -⟩ :=
        weak_str_fin_miss_fail cfg sbi x data b hw hx _ rfl
      rw [r1, r3, r4, r5, r6]
      exact ⟨mono h, fun h0 => absurd h0 (by omega)⟩
    · obtain ⟨-, r2, r3, r4, r5, r6, -, -⟩ :=
        weak_str_fin_miss_ok cfg sbi x data b hw hx _ rfl
      rw [r2, r3, r4, r5, r6]
      have hf := tables_sound_fresh h x.alloc_entry x.blocknr
        ⟨cfg.FP_WEAK_FLAG, x.blocknr, 1, cfg.nova_fp_weak_calc data, nova_fp_strong.zero⟩
        data hE hK
      obtain ⟨hb, -⟩ := fresh_entry_backed sbi.pentries sbi.blocks E K C x.alloc_entry
        x.blocknr ⟨cfg.FP_WEAK_FLAG, x.blocknr, 1, cfg.nova_fp_weak_calc data,
          nova_fp_strong.zero⟩ data rfl
      constructor
      · apply tables_sound_add_weak hf _ _ hb
        right
        rw [upd_same]
        exact ⟨hflag, rfl⟩
      · intro _
        rw [upd_same]
  | some wh =>
    obtain ⟨hmem, -⟩ := find_weak_mem hw
    obtain ⟨hback, -⟩ := h.2 _ _ hmem
    obtain ⟨href, hfp⟩ := reference_sound h hmem
    unfold index_sound
    by_cases hc : cmp_fp_strong (cfg.nova_fp_strong_calc data) (ref_fp cfg sbi wh.entrynr)
        = true
    · obtain ⟨-, r2, r3, r4, r5, r6, -, -⟩ := weak_str_fin_dup cfg sbi x data b wh hw hc _ rfl
      rw [r2, r3, r4, r5, r6]
      constructor
      · apply mono
        exact tables_sound_set href _ _ rfl (Or.inl ⟨rfl, rfl⟩)
      · intro _
        apply hpol _ hback.2.2
        rw [← hfp]
        exact ((cmp_fp_strong_eq _ _).1 hc).symm
    · simp only [Bool.not_eq_true] at hc
      cases hs : collision_lookup cfg sbi data wh.entrynr with
      | some sh =>
        obtain ⟨-, r2, r3, r4, r5, r6, -, -⟩ :=
          weak_str_fin_collision_hit cfg sbi x data b wh sh hw hc hs _ rfl
        obtain ⟨hsm, hsf⟩ := find_strong_mem hs
        obtain ⟨⟨-, -, hsb⟩, hsv⟩ := href.1 _ _ hsm
        rw [r2, r3, r4, r5, r6]
        constructor
        · apply mono
          exact tables_sound_set href _ _ rfl (Or.inl ⟨rfl, rfl⟩)
        · intro _
          rw [← ref_pentries_blocknr cfg sbi wh.entrynr sh.entrynr]
          apply hpol _ hsb
          unfold fp_valid at hsv
          rw [← hsv, hsf]
      | none =>
        by_cases hx : x.allocated < 0
        · obtain ⟨r1, -, r3, r4, r5, r6, -, -⟩ :=
            weak_str_fin_collision_fail cfg sbi x data b wh hw hc hs hx _ rfl
          rw [r1, r3, r4, r5, r6]
          exact ⟨mono href, fun h0 => absurd h0 (by omega)⟩
        · obtain ⟨-, r2, r3, r4, r5, r6, -, -⟩ :=
            weak_str_fin_collision_ok cfg sbi x data b wh hw hc hs hx _ rfl
          rw [r2, r3, r4, r5, r6]
          have hf := tables_sound_fresh href x.alloc_entry x.blocknr
            ⟨cfg.FP_STRONG_FLAG, x.blocknr, 1, cfg.nova_fp_weak_calc data,
              cfg.nova_fp_strong_calc data⟩ data hE hK
          obtain ⟨hb, hd⟩ := fresh_entry_backed (ref_pentries cfg sbi wh.entrynr) sbi.blocks
            E K C x.alloc_entry x.blocknr ⟨cfg.FP_STRONG_FLAG, x.blocknr, 1,
              cfg.nova_fp_weak_calc data, cfg.nova_fp_strong_calc data⟩ data rfl
          constructor
          · apply tables_sound_add_strong hf _ _ hb
            unfold fp_valid
            rw [hd, upd_same]
          · intro _
            rw [upd_same]

/-- Every path of `nova_dedup_non_fin` keeps the index sound, and a write that does not fail
returns a block that holds the chunk. -/
theorem non_fin_sound (cfg : Config) (sbi : nova_sb_info) (x : Ext) (data : Chunk)
    (b : Nat) (E K : List Nat) (C : List Chunk) (h : index_sound cfg sbi E K C)
    (hE : x.alloc_entry ∉ E) (hK : x.blocknr ∉ K) :
    index_sound cfg (nova_dedup_non_fin cfg sbi x data b).sbi
      (x.alloc_entry :: E) (x.blocknr :: K) (data :: C) ∧
    (0 ≤ (nova_dedup_non_fin cfg sbi x data b).allocated →
      (nova_dedup_non_fin cfg sbi x data b).sbi.blocks
        (nova_dedup_non_fin cfg sbi x data b).blocknr = data) := by
  unfold index_sound at *
  by_cases hx : x.allocated < 0
  · obtain ⟨r1, -, r3, r4, r5, r6, -, -⟩ := non_fin_fail cfg sbi x data b hx _ rfl
    rw [r1, r3, r4, r5, r6]
    exact ⟨tables_sound_mono h (fun _ => List.mem_cons_of_mem _)
      (fun _ => List.mem_cons_of_mem _) (fun _ => List.mem_cons_of_mem _),
      fun h0 => absurd h0 (by omega)⟩
  · obtain ⟨-, r2, r3, r4, r5, r6, -, -⟩ := non_fin_ok cfg sbi x data b hx _ rfl
    rw [r2, r3, r4, r5, r6]
    exact ⟨tables_sound_fresh h _ _ _ _ hE hK, fun _ => by rw [upd_same]⟩

/-- The same for `nova_dedup_new_write`, whatever the mode. -/
theorem new_write_sound (cfg : Config) (sbi : nova_sb_info) (x : Ext) (data : Chunk)
    (b : Nat) (E K : List Nat) (C : List Chunk)
    (hflag : cfg.FP_WEAK_FLAG ≠ cfg.FP_STRONG_FLAG) (h : index_sound cfg sbi E K C)
    (hE : x.alloc_entry ∉ E) (hK : x.blocknr ∉ K)
    (hpol : ∀ c ∈ C, cfg.nova_fp_strong_calc c = cfg.nova_fp_strong_calc data → c = data) :
    index_sound cfg (nova_dedup_new_write cfg sbi x data b).sbi
      (x.alloc_entry :: E) (x.blocknr :: K) (data :: C) ∧
    (0 ≤ (nova_dedup_new_write cfg sbi x data b).allocated →
      (nova_dedup_new_write cfg sbi x data b).sbi.blocks
        (nova_dedup_new_write cfg sbi x data b).blocknr = data) := by
  obtain ⟨f1, f2, f3, f4, -, -, -⟩ := sample_frame cfg sbi x
  have h' : index_sound cfg (nova_dedup_new_write_sample cfg sbi x) E K C := by
    unfold index_sound at *
    rw [f1, f2, f3, f4]
    exact h
  unfold nova_dedup_new_write
  rcases dispatch_cases cfg (nova_dedup_new_write_sample cfg sbi x) x data b with
    hd | hd | hd | hd <;> rw [hd]
  · exact non_fin_sound cfg _ x data b E K C h' hE hK
  · exact weak_str_fin_sound cfg _ x data b E K C hflag h' hE hK hpol
  · exact str_fin_sound cfg _ x data b E K C h' hE hK hpol
  · refine ⟨?_, fun h0 => absurd h0 (by simp [ESRCH])⟩
    exact tables_sound_mono h' (fun _ => List.mem_cons_of_mem _)
      (fun _ => List.mem_cons_of_mem _) (fun _ => List.mem_cons_of_mem _)

theorem index_sound_of_empty (cfg : Config) (sbi : nova_sb_info) (h : index_empty sbi) :
    index_sound cfg sbi [] [] [] := by
  refine ⟨fun b n hn => ?_, fun b n hn => ?_⟩
  · rw [(h b).2] at hn
    cases hn
  · rw [(h b).1] at hn
    cases hn

theorem mem_shift {α : Type} {a : α} {l E : List α} {e : α} (h : e ∈ l ++ a :: E) :
    e ∈ (a :: l) ++ E := by
  rcases List.mem_append.1 h with h | h
  · exact List.mem_append_left _ (List.mem_cons_of_mem _ h)
  · rcases List.mem_cons.1 h with h | h
    · rw [h]
      exact List.mem_append_left _ (List.mem_cons_self _ _)
    · exact List.mem_append_right _ h

theorem run_sound (cfg : Config) (hflag : cfg.FP_WEAK_FLAG ≠ cfg.FP_STRONG_FLAG)
    (ws : List (Ext × Chunk)) :
    ∀ (sbi : nova_sb_info) (b : Nat) (E K : List Nat) (C : List Chunk),
      index_sound cfg sbi E K C →
      (ws.map (fun w => w.1.alloc_entry)).Nodup → (∀ w ∈ ws, w.1.alloc_entry ∉ E) →
      (ws.map (fun w => w.1.blocknr)).Nodup → (∀ w ∈ ws, w.1.blocknr ∉ K) →
      (∀ c, c ∈ C ∨ c ∈ ws.map Prod.snd → ∀ d, d ∈ C ∨ d ∈ ws.map Prod.snd →
        cfg.nova_fp_strong_calc c = cfg.nova_fp_strong_calc d → c = d) →
      index_sound cfg (run_state (nova_dedup_new_write cfg) sbi b ws)
        (ws.map (fun w => w.1.alloc_entry) ++ E) (ws.map (fun w => w.1.blocknr) ++ K)
        (ws.map Prod.snd ++ C) := by
  induction ws with
  | nil =>
    intro sbi b E K C h _ _ _ _ _
    exact h
  | cons w rest ih =>
    intro sbi b E K C h hE hE' hK hK' hpol
    rw [List.map_cons, List.nodup_cons] at hE hK
    obtain ⟨h1, -⟩ := new_write_sound cfg sbi w.1 w.2 b E K C hflag h
      (hE' w (List.mem_cons_self _ _)) (hK' w (List.mem_cons_self _ _))
      (fun c hc => hpol c (Or.inl hc) w.2 (Or.inr (by simp)))
    have h2 := ih (nova_dedup_new_write cfg sbi w.1 w.2 b).sbi
      (nova_dedup_new_write cfg sbi w.1 w.2 b).blocknr
      (w.1.alloc_entry :: E) (w.1.blocknr :: K) (w.2 :: C) h1 hE.2
      (by
        intro w' hw' hmem
        rcases List.mem_cons.1 hmem with hm | hm
        · exact hE.1 (List.mem_map.2 ⟨w', hw', hm⟩)
        · exact hE' w' (List.mem_cons_of_mem _ hw') hm)
      hK.2
      (by
        intro w' hw' hmem
        rcases List.mem_cons.1 hmem with hm | hm
        · exact hK.1 (List.mem_map.2 ⟨w', hw', hm⟩)
        · exact hK' w' (List.mem_cons_of_mem _ hw') hm)
      (by
        intro c hc d hd
        apply hpol
        · rcases hc with hc | hc
          · rcases List.mem_cons.1 hc with hc | hc
            · exact Or.inr (by rw [hc]; simp)
            · exact Or.inl hc
          · exact Or.inr (by simp [hc])
        · rcases hd with hd | hd
          · rcases List.mem_cons.1 hd with hd | hd
            · exact Or.inr (by rw [hd]; simp)
            · exact Or.inl hd
          · exact Or.inr (by simp [hd]))
    simp only [run_state]
    exact tables_sound_mono h2 (fun _ => mem_shift) (fun _ => mem_shift) (fun _ => mem_shift)

/-! ## Any number of later writes of the two chunks -/

/-- A strong hit of `nova_dedup_str_fin` leaves every strong lookup and every block number as
they were. -/
theorem str_fin_hit_frame (cfg : Config) (sbi : nova_sb_info) (x : Ext) (data : Chunk)
    (b : Nat) (sh : nova_hentry) (h : strong_lookup cfg sbi data = some sh) :
    (∀ d, strong_lookup cfg (nova_dedup_str_fin cfg sbi x data b).sbi d
      = strong_lookup cfg sbi d) ∧
    (∀ e, ((nova_dedup_str_fin cfg sbi x data b).sbi.pentries e).blocknr
      = (sbi.pentries e).blocknr) := by
  obtain ⟨-, -, h3, -, h5, -, -, -⟩ := str_fin_strong_hit cfg sbi x data b sh h _ rfl
  constructor
  · intro d
    unfold strong_lookup
    rw [strong_idx_of_eq d (str_fin_ctrl cfg sbi x data b).2.2, h5, h3]
    apply find_strong_congr
    intro n _
    rw [upd_apply]
    split
    · rename_i hn
      rw [hn]
    · rfl
  · intro e
    rw [h3, upd_apply]
    split
    · rename_i he
      rw [he]
    · rfl

theorem str_fin_later_writes (cfg : Config) (A B : Chunk) (eA eB : Nat)
    (hAB : A ≠ B) (ws : List (Ext × Chunk)) :
    ∀ (sbi : nova_sb_info) (b : Nat), (∀ w ∈ ws, w.2 = A ∨ w.2 = B) →
      strong_lookup cfg sbi A = some ⟨eA⟩ → strong_lookup cfg sbi B = some ⟨eB⟩ →
      (run_rets (nova_dedup_str_fin cfg) sbi b ws).map Prod.fst
        = ws.map (fun w => if w.2 = A then (sbi.pentries eA).blocknr
            else (sbi.pentries eB).blocknr) := by
  induction ws with
  | nil =>
    intro sbi b _ _ _
    rfl
  | cons w rest ih =>
    intro sbi b hw hA hB
    have hrest : ∀ w' ∈ rest, w'.2 = A ∨ w'.2 = B :=
      fun w' hw' => hw w' (List.mem_cons_of_mem _ hw')
    simp only [run_rets, List.map_cons]
    rcases hw w (List.mem_cons_self _ _) with hwA | hwB
    · obtain ⟨f1, f2⟩ := str_fin_hit_frame cfg sbi w.1 w.2 b ⟨eA⟩ (hwA ▸ hA)
      obtain ⟨-, r2, -⟩ := str_fin_strong_hit cfg sbi w.1 w.2 b ⟨eA⟩ (hwA ▸ hA) _ rfl
      rw [ih _ _ hrest ((f1 A).trans hA) ((f1 B).trans hB), r2, if_pos hwA, f2, f2]
    · obtain ⟨f1, f2⟩ := str_fin_hit_frame cfg sbi w.1 w.2 b ⟨eB⟩ (hwB ▸ hB)
      obtain ⟨-, r2, -⟩ := str_fin_strong_hit cfg sbi w.1 w.2 b ⟨eB⟩ (hwB ▸ hB) _ rfl
      rw [ih _ _ hrest ((f1 A).trans hA) ((f1 B).trans hB), r2,
        if_neg (fun h => hAB (h.symm.trans hwB)), f2, f2]

/-- An update of one entry that keeps its flag, block number and fingerprints (a refcount
increment) leaves the lookups and the upgrade step of lines 286-316 as they were. -/
theorem refcount_only_frame (cfg : Config) (s t : nova_sb_info) (e : Nat) (r : Nat)
    (hp : t.pentries = upd s.pentries e { s.pentries e with refcount := r })
    (hw : t.weak_hash_table = s.weak_hash_table)
    (hs : t.strong_hash_table = s.strong_hash_table)
    (hb : t.num_entries_bits = s.num_entries_bits) :
    (∀ d, weak_lookup cfg t d = weak_lookup cfg s d) ∧
    (∀ d, strong_lookup cfg t d = strong_lookup cfg s d) ∧
    (∀ k, (t.pentries k).flag = (s.pentries k).flag ∧
      (t.pentries k).fp_strong = (s.pentries k).fp_strong ∧
      (t.pentries k).blocknr = (s.pentries k).blocknr) := by
  have hk : ∀ k, (t.pentries k).flag = (s.pentries k).flag ∧
      (t.pentries k).fp_strong = (s.pentries k).fp_strong ∧
      (t.pentries k).blocknr = (s.pentries k).blocknr ∧
      (t.pentries k).fp_weak = (s.pentries k).fp_weak := by
    intro k
    rw [hp, upd_apply]
    split
    · rename_i he
      rw [he]
      exact ⟨rfl, rfl, rfl, rfl⟩
    · exact ⟨rfl, rfl, rfl, rfl⟩
  refine ⟨?_, ?_, fun k => ⟨(hk k).1, (hk k).2.1, (hk k).2.2.1⟩⟩
  · intro d
    unfold weak_lookup
    rw [weak_idx_of_eq d hb, hw]
    exact find_weak_congr _ (fun n _ => (hk n.entrynr).2.2.2)
  · intro d
    unfold strong_lookup
    rw [strong_idx_of_eq d hb, hs]
    exact find_strong_congr _ (fun n _ => (hk n.entrynr).2.1)

theorem ref_of_strong_flag {cfg : Config} {sbi : nova_sb_info} {e : Nat}
    (hf : (sbi.pentries e).flag = cfg.FP_STRONG_FLAG) :
    ref_fp cfg sbi e = (sbi.pentries e).fp_strong ∧
    ref_pentries cfg sbi e = sbi.pentries ∧
    ref_strong_table cfg sbi e = sbi.strong_hash_table := by
  unfold ref_fp ref_pentries ref_strong_table ref_upgrades
  simp [hf]

theorem weak_str_fin_later_writes (cfg : Config) (A B : Chunk) (eA eB : Nat)
    (hstrong : cfg.nova_fp_strong_calc A ≠ cfg.nova_fp_strong_calc B)
    (ws : List (Ext × Chunk)) :
    ∀ (sbi : nova_sb_info) (b : Nat), (∀ w ∈ ws, w.2 = A ∨ w.2 = B) →
      weak_lookup cfg sbi A = some ⟨eA⟩ → weak_lookup cfg sbi B = some ⟨eA⟩ →
      (sbi.pentries eA).flag = cfg.FP_STRONG_FLAG →
      (sbi.pentries eA).fp_strong = cfg.nova_fp_strong_calc A →
      strong_lookup cfg sbi B = some ⟨eB⟩ →
      (run_rets (nova_dedup_weak_str_fin cfg) sbi b ws).map Prod.fst
        = ws.map (fun w => if w.2 = A then (sbi.pentries eA).blocknr
            else (sbi.pentries eB).blocknr) := by
  have hAB : A ≠ B := fun h => hstrong (h ▸ rfl)
  induction ws with
  | nil =>
    intro sbi b _ _ _ _ _ _
    rfl
  | cons w rest ih =>
    intro sbi b hw hA hB hf hfp hS
    have hrest : ∀ w' ∈ rest, w'.2 = A ∨ w'.2 = B :=
      fun w' hw' => hw w' (List.mem_cons_of_mem _ hw')
    obtain ⟨q1, q2, q3⟩ := @ref_of_strong_flag cfg sbi eA hf
    simp only [run_rets, List.map_cons]
    rcases hw w (List.mem_cons_self _ _) with hwA | hwB
    · have hc : cmp_fp_strong (cfg.nova_fp_strong_calc w.2)
          (ref_fp cfg sbi (⟨eA⟩ : nova_hentry).entrynr) = true := by
        rw [q1, hfp, hwA]
        exact cmp_fp_strong_self _
      obtain ⟨-, r2, r3, r4, r5, -, -, -⟩ :=
        weak_str_fin_dup cfg sbi w.1 w.2 b ⟨eA⟩ (hwA ▸ hA) hc _ rfl
      simp only [q2, q3] at r3 r5
      obtain ⟨f1, f2, f3⟩ := refcount_only_frame cfg sbi
        (nova_dedup_weak_str_fin cfg sbi w.1 w.2 b).sbi eA _ r3 r4 r5
        (weak_str_fin_ctrl cfg sbi w.1 w.2 b).2.2
      rw [ih _ _ hrest ((f1 A).trans hA) ((f1 B).trans hB) ((f3 eA).1.trans hf)
        ((f3 eA).2.1.trans hfp) ((f2 B).trans hS), r2, if_pos hwA, (f3 eA).2.2,
        (f3 eB).2.2]
    · have hc : cmp_fp_strong (cfg.nova_fp_strong_calc w.2)
          (ref_fp cfg sbi (⟨eA⟩ : nova_hentry).entrynr) = false := by
        rw [q1, hfp, hwB]
        exact cmp_fp_strong_false (fun h => hstrong h.symm)
      have hcl : collision_lookup cfg sbi w.2 (⟨eA⟩ : nova_hentry).entrynr = some ⟨eB⟩ := by
        unfold collision_lookup
        rw [q2, q3, hwB]
        exact hS
      obtain ⟨-, r2, r3, r4, r5, -, -, -⟩ :=
        weak_str_fin_collision_hit cfg sbi w.1 w.2 b ⟨eA⟩ ⟨eB⟩ (hwB ▸ hB) hc hcl _ rfl
      simp only [q2, q3] at r3 r5
      obtain ⟨f1, f2, f3⟩ := refcount_only_frame cfg sbi
        (nova_dedup_weak_str_fin cfg sbi w.1 w.2 b).sbi eB _ r3 r4 r5
        (weak_str_fin_ctrl cfg sbi w.1 w.2 b).2.2
      rw [ih _ _ hrest ((f1 A).trans hA) ((f1 B).trans hB) ((f3 eA).1.trans hf)
        ((f3 eA).2.1.trans hfp) ((f2 B).trans hS), r2,
        if_neg (fun h => hAB (h.symm.trans hwB)), (f3 eA).2.2, (f3 eB).2.2]
/-- After A then B through `nova_dedup_str_fin`, each chunk is found by the strong lookup at
its own entry. -/
theorem str_fin_two_chunks_lookups (cfg : Config) (sbi : nova_sb_info) (b : Nat) (A B : Chunk)
    (xA xB : Ext) (hempty : index_empty sbi)
    (hweak : cfg.nova_fp_weak_calc A = cfg.nova_fp_weak_calc B)
    (hstrong : cfg.nova_fp_strong_calc A ≠ cfg.nova_fp_strong_calc B)
    (hA : 0 ≤ xA.allocated) (hB : 0 ≤ xB.allocated)
    (hE : xA.alloc_entry ≠ xB.alloc_entry) :
    (run_state (nova_dedup_str_fin cfg) sbi b [(xA, A), (xB, B)]).pentries xA.alloc_entry
      = ⟨cfg.FP_STRONG_FLAG, xA.blocknr, 1, cfg.nova_fp_weak_calc A,
          cfg.nova_fp_strong_calc A⟩ ∧
    (run_state (nova_dedup_str_fin cfg) sbi b [(xA, A), (xB, B)]).pentries xB.alloc_entry
      = ⟨cfg.FP_STRONG_FLAG, xB.blocknr, 1, cfg.nova_fp_weak_calc B,
          cfg.nova_fp_strong_calc B⟩ ∧
    strong_lookup cfg (run_state (nova_dedup_str_fin cfg) sbi b [(xA, A), (xB, B)]) A
      = some ⟨xA.alloc_entry⟩ ∧
    strong_lookup cfg (run_state (nova_dedup_str_fin cfg) sbi b [(xA, A), (xB, B)]) B
      = some ⟨xB.alloc_entry⟩ := by
  obtain ⟨-, -, h3, -, h5, -, hb⟩ :=
    str_fin_two_chunks cfg sbi b A B xA xB hempty hweak hstrong hA hB
  have hpA : (run_state (nova_dedup_str_fin cfg) sbi b [(xA, A), (xB, B)]).pentries
      xA.alloc_entry = ⟨cfg.FP_STRONG_FLAG, xA.blocknr, 1, cfg.nova_fp_weak_calc A,
        cfg.nova_fp_strong_calc A⟩ := by
    rw [h3, upd_other _ _ hE, upd_same]
  have hpB : (run_state (nova_dedup_str_fin cfg) sbi b [(xA, A), (xB, B)]).pentries
      xB.alloc_entry = ⟨cfg.FP_STRONG_FLAG, xB.blocknr, 1, cfg.nova_fp_weak_calc B,
        cfg.nova_fp_strong_calc B⟩ := by
    rw [h3, upd_same]
  refine ⟨hpA, hpB, ?_, ?_⟩
  · unfold strong_lookup
    rw [strong_idx_of_eq A hb, h5,
      find_strong_add_head_skip (by rw [hpB]; exact fun h => hstrong h.symm)]
    exact find_strong_add_head_hit (by rw [hpA])
  · unfold strong_lookup
    rw [strong_idx_of_eq B hb, h5]
    exact find_strong_add_head_hit (by rw [hpB])

/-- After A then B through `nova_dedup_weak_str_fin`, both chunks are found by the weak lookup
at A's entry, which is upgraded, and B is found by the strong lookup at its own entry. -/
theorem weak_str_fin_two_chunks_lookups (cfg : Config) (sbi : nova_sb_info) (b : Nat)
    (A B : Chunk) (xA xB : Ext) (hempty : index_empty sbi)
    (hweak : cfg.nova_fp_weak_calc A = cfg.nova_fp_weak_calc B)
    (hstrong : cfg.nova_fp_strong_calc A ≠ cfg.nova_fp_strong_calc B)
    (hA : 0 ≤ xA.allocated) (hB : 0 ≤ xB.allocated)
    (hflag : cfg.FP_WEAK_FLAG ≠ cfg.FP_STRONG_FLAG)
    (hE : xA.alloc_entry ≠ xB.alloc_entry) :
    (run_state (nova_dedup_weak_str_fin cfg) sbi b [(xA, A), (xB, B)]).pentries
      xA.alloc_entry = ⟨cfg.FP_STRONG_FLAG, xA.blocknr, 1, cfg.nova_fp_weak_calc A,
        cfg.nova_fp_strong_calc A⟩ ∧
    (run_state (nova_dedup_weak_str_fin cfg) sbi b [(xA, A), (xB, B)]).pentries
      xB.alloc_entry = ⟨cfg.FP_STRONG_FLAG, xB.blocknr, 1, cfg.nova_fp_weak_calc B,
        cfg.nova_fp_strong_calc B⟩ ∧
    weak_lookup cfg (run_state (nova_dedup_weak_str_fin cfg) sbi b [(xA, A), (xB, B)]) A
      = some ⟨xA.alloc_entry⟩ ∧
    weak_lookup cfg (run_state (nova_dedup_weak_str_fin cfg) sbi b [(xA, A), (xB, B)]) B
      = some ⟨xA.alloc_entry⟩ ∧
    strong_lookup cfg (run_state (nova_dedup_weak_str_fin cfg) sbi b [(xA, A), (xB, B)]) B
      = some ⟨xB.alloc_entry⟩ := by
  obtain ⟨-, -, h3, h4, h5, -, hb⟩ :=
    weak_str_fin_two_chunks cfg sbi b A B xA xB hempty hweak hstrong hA hB hflag
  have hpA : (run_state (nova_dedup_weak_str_fin cfg) sbi b [(xA, A), (xB, B)]).pentries
      xA.alloc_entry = ⟨cfg.FP_STRONG_FLAG, xA.blocknr, 1, cfg.nova_fp_weak_calc A,
        cfg.nova_fp_strong_calc A⟩ := by
    rw [h3, upd_other _ _ hE, upd_same]
  have hpB : (run_state (nova_dedup_weak_str_fin cfg) sbi b [(xA, A), (xB, B)]).pentries
      xB.alloc_entry = ⟨cfg.FP_STRONG_FLAG, xB.blocknr, 1, cfg.nova_fp_weak_calc B,
        cfg.nova_fp_strong_calc B⟩ := by
    rw [h3, upd_same]
  refine ⟨hpA, hpB, ?_, ?_, ?_⟩
  · unfold weak_lookup
    rw [weak_idx_of_eq A hb, h4]
    exact find_weak_add_head_hit (by rw [hpA])
  · unfold weak_lookup
    have hi : weak_idx_of cfg
        (run_state (nova_dedup_weak_str_fin cfg) sbi b [(xA, A), (xB, B)]) B
        = weak_idx_of cfg sbi A := by
      rw [weak_idx_of_eq B hb]
      unfold weak_idx_of
      rw [hweak]
    rw [hi, h4]
    exact find_weak_add_head_hit (by rw [hpA, hweak])
  · unfold strong_lookup
    rw [strong_idx_of_eq B hb, h5]
    exact find_strong_add_head_hit (by rw [hpB])

/-! ## What a write does to reference counts, block numbers and the duplicate counter -/

theorem hit_effect_of_upd {sbi : nova_sb_info} {e : Nat} {r : Ret} {p : Nat → nova_pmm_entry}
    {q : nova_pmm_entry}
    (h1 : r.allocated = 1) (h2 : r.blocknr = (sbi.pentries e).blocknr)
    (h3 : r.sbi.pentries = upd p e q)
    (hq : q.refcount = ((sbi.pentries e).refcount + 1) % U32_MOD)
    (hb : q.blocknr = (sbi.pentries e).blocknr)
    (hp : ∀ k, (p k).refcount = (sbi.pentries k).refcount ∧
      (p k).blocknr = (sbi.pentries k).blocknr)
    (h6 : r.sbi.blocks = sbi.blocks)
    (h8 : r.sbi.dup_block = (sbi.dup_block + 1) % U32_MOD) :
    hit_effect sbi e r := by
  refine ⟨h1, h2, ?_, ?_, ?_, h6, h8⟩
  · rw [h3, upd_same, hq]
  · intro k hk
    rw [h3, upd_other _ _ hk, (hp k).1]
  · intro k
    rw [h3, upd_apply]
    split
    · rename_i hk
      rw [hb, hk]
    · exact (hp k).2

theorem str_fin_hit_effect (cfg : Config) (sbi : nova_sb_info) (x : Ext) (data : Chunk)
    (b e : Nat) (hm : str_fin_match cfg sbi data = some e) :
    hit_effect sbi e (nova_dedup_str_fin cfg sbi x data b) := by
  unfold str_fin_match at hm
  cases hs : strong_lookup cfg sbi data with
  | some sh =>
    simp only [hs, Option.some.injEq] at hm
    subst hm
    obtain ⟨h1, h2, h3, -, -, h6, -, h8⟩ := str_fin_strong_hit cfg sbi x data b sh hs _ rfl
    exact hit_effect_of_upd h1 h2 h3 rfl rfl (fun _ => ⟨rfl, rfl⟩) h6 h8
  | none =>
    cases hw : weak_lookup cfg sbi data with
    | none => simp [hs, hw] at hm
    | some wh =>
      simp only [hs, hw] at hm
      split at hm
      · rename_i hc
        simp only [Option.some.injEq] at hm
        subst hm
        obtain ⟨h1, h2, h3, -, -, h6, -, h8⟩ :=
          str_fin_weak_verified cfg sbi x data b wh hs hw hc _ rfl
        exact hit_effect_of_upd h1 h2 h3 rfl rfl (fun _ => ⟨rfl, rfl⟩) h6 h8
      · cases hm

theorem weak_str_fin_hit_effect (cfg : Config) (sbi : nova_sb_info) (x : Ext) (data : Chunk)
    (b e : Nat) (hm : weak_str_fin_match cfg sbi data = some e) :
    hit_effect sbi e (nova_dedup_weak_str_fin cfg sbi x data b) := by
  unfold weak_str_fin_match at hm
  cases hw : weak_lookup cfg sbi data with
  | none => simp [hw] at hm
  | some wh =>
    simp only [hw] at hm
    split at hm
    · rename_i hc
      simp only [Option.some.injEq] at hm
      subst hm
      obtain ⟨h1, h2, h3, -, -, h6, -, h8⟩ := weak_str_fin_dup cfg sbi x data b wh hw hc _ rfl
      exact hit_effect_of_upd h1 h2 h3 rfl (ref_pentries_blocknr cfg sbi _ _)
        (fun k => ⟨ref_pentries_refcount cfg sbi _ k, ref_pentries_blocknr cfg sbi _ k⟩) h6 h8
    · rename_i hc
      simp only [Bool.not_eq_true] at hc
      cases hs : collision_lookup cfg sbi data wh.entrynr with
      | none => simp [hs] at hm
      | some sh =>
        simp only [hs, Option.some.injEq] at hm
        subst hm
        obtain ⟨h1, h2, h3, -, -, h6, -, h8⟩ :=
          weak_str_fin_collision_hit cfg sbi x data b wh sh hw hc hs _ rfl
        exact hit_effect_of_upd h1 h2 h3 rfl (ref_pentries_blocknr cfg sbi _ _)
          (fun k => ⟨ref_pentries_refcount cfg sbi _ k, ref_pentries_blocknr cfg sbi _ k⟩) h6 h8

theorem create_effect_of_upd {sbi : nova_sb_info} {x : Ext} {data : Chunk} {r : Ret}
    {p : Nat → nova_pmm_entry} {q : nova_pmm_entry}
    (h1 : r.allocated = x.allocated) (h2 : r.blocknr = x.blocknr)
    (h3 : r.sbi.pentries = upd p x.alloc_entry q)
    (hq : q.refcount = 1) (hb : q.blocknr = x.blocknr)
    (hp : ∀ k, (p k).refcount = (sbi.pentries k).refcount ∧
      (p k).blocknr = (sbi.pentries k).blocknr)
    (h6 : r.sbi.blocks = upd sbi.blocks x.blocknr data)
    (h8 : r.sbi.dup_block = sbi.dup_block) :
    create_effect sbi x data r := by
  refine ⟨h1, h2, ?_, ?_, ?_, h6, h8⟩
  · rw [h3, upd_same, hq]
  · rw [h3, upd_same, hb]
  · intro k hk
    rw [h3, upd_other _ _ hk]
    exact hp k

theorem str_fin_create_effect (cfg : Config) (sbi : nova_sb_info) (x : Ext) (data : Chunk)
    (b : Nat) (hm : str_fin_match cfg sbi data = none) (hx : ¬ x.allocated < 0) :
    create_effect sbi x data (nova_dedup_str_fin cfg sbi x data b) := by
  obtain ⟨h1, h2, h3, -, -, h6, -, h8⟩ := str_fin_alloc_ok cfg sbi x data b hm hx _ rfl
  exact create_effect_of_upd h1 h2 h3 rfl rfl (fun _ => ⟨rfl, rfl⟩) h6 h8

theorem str_fin_fail_effect (cfg : Config) (sbi : nova_sb_info) (x : Ext) (data : Chunk)
    (b : Nat) (hm : str_fin_match cfg sbi data = none) (hx : x.allocated < 0) :
    fail_effect sbi x (nova_dedup_str_fin cfg sbi x data b) := by
  obtain ⟨h1, -, h3, -, -, h6, -, h8⟩ := str_fin_alloc_fail cfg sbi x data b hm hx _ rfl
  exact ⟨h1, fun k => by rw [h3]; exact ⟨rfl, rfl⟩, h6, h8⟩

theorem weak_str_fin_match_none {cfg : Config} {sbi : nova_sb_info} {data : Chunk}
    (hm : weak_str_fin_match cfg sbi data = none) :
    weak_lookup cfg sbi data = none ∨
    ∃ wh, weak_lookup cfg sbi data = some wh ∧
      cmp_fp_strong (cfg.nova_fp_strong_calc data) (ref_fp cfg sbi wh.entrynr) = false ∧
      collision_lookup cfg sbi data wh.entrynr = none := by
  unfold weak_str_fin_match at hm
  cases hw : weak_lookup cfg sbi data with
  | none => exact Or.inl rfl
  | some wh =>
    right
    simp only [hw] at hm
    split at hm
    · cases hm
    · rename_i hc
      simp only [Bool.not_eq_true] at hc
      cases hs : collision_lookup cfg sbi data wh.entrynr with
      | some sh => simp [hs] at hm
      | none => exact ⟨wh, rfl, hc, hs⟩

theorem weak_str_fin_create_effect (cfg : Config) (sbi : nova_sb_info) (x : Ext)
    (data : Chunk) (b : Nat) (hm : weak_str_fin_match cfg sbi data = none)
    (hx : ¬ x.allocated < 0) :
    create_effect sbi x data (nova_dedup_weak_str_fin cfg sbi x data b) := by
  rcases weak_str_fin_match_none hm with hw | ⟨wh, hw, hc, hs⟩
  · obtain ⟨h1, h2, h3, -, -, h6, -, h8⟩ := weak_str_fin_miss_ok cfg sbi x data b hw hx _ rfl
    exact create_effect_of_upd h1 h2 h3 rfl rfl (fun _ => ⟨rfl, rfl⟩) h6 h8
  · obtain ⟨h1, h2, h3, -, -, h6, -, h8⟩ :=
      weak_str_fin_collision_ok cfg sbi x data b wh hw hc hs hx _ rfl
    exact create_effect_of_upd h1 h2 h3 rfl rfl
      (fun k => ⟨ref_pentries_refcount cfg sbi _ k, ref_pentries_blocknr cfg sbi _ k⟩) h6 h8

theorem weak_str_fin_fail_effect (cfg : Config) (sbi : nova_sb_info) (x : Ext)
    (data : Chunk) (b : Nat) (hm : weak_str_fin_match cfg sbi data = none)
    (hx : x.allocated < 0) :
    fail_effect sbi x (nova_dedup_weak_str_fin cfg sbi x data b) := by
  rcases weak_str_fin_match_none hm with hw | ⟨wh, hw, hc, hs⟩
  · obtain ⟨h1, -, h3, -, -, h6, -, h8⟩ := weak_str_fin_miss_fail cfg sbi x data b hw hx _ rfl
    exact ⟨h1, fun k => by rw [h3]; exact ⟨rfl, rfl⟩, h6, h8⟩
  · obtain ⟨h1, -, h3, -, -, h6, -, h8⟩ :=
      weak_str_fin_collision_fail cfg sbi x data b wh hw hc hs hx _ rfl
    exact ⟨h1, fun k => by
      rw [h3]; exact ⟨ref_pentries_refcount cfg sbi _ k, ref_pentries_blocknr cfg sbi _ k⟩,
      h6, h8⟩

/-- Every write through any algorithm is a hit, a successful allocation or a failed one. -/
theorem algo_effect (cfg : Config) (a : Algo) (sbi : nova_sb_info) (x : Ext) (data : Chunk)
    (b : Nat) :
    (∀ e, algo_match cfg a sbi data = some e → hit_effect sbi e (run_algo cfg a sbi x data b)) ∧
    (algo_match cfg a sbi data = none → ¬ x.allocated < 0 →
      create_effect sbi x data (run_algo cfg a sbi x data b)) ∧
    (algo_match cfg a sbi data = none → x.allocated < 0 →
      fail_effect sbi x (run_algo cfg a sbi x data b)) := by
  cases a with
  | non_fin =>
    refine ⟨fun e he => by simp [algo_match] at he, fun _ hx => ?_, fun _ hx => ?_⟩
    · obtain ⟨h1, h2, h3, -, -, h6, -, h8⟩ := non_fin_ok cfg sbi x data b hx _ rfl
      exact create_effect_of_upd h1 h2 h3 rfl rfl (fun _ => ⟨rfl, rfl⟩) h6 h8
    · obtain ⟨h1, -, h3, -, -, h6, -, h8⟩ := non_fin_fail cfg sbi x data b hx _ rfl
      exact ⟨h1, fun k => by
        show ((nova_dedup_non_fin cfg sbi x data b).sbi.pentries k).refcount = _ ∧
          ((nova_dedup_non_fin cfg sbi x data b).sbi.pentries k).blocknr = _
        rw [h3]; exact ⟨rfl, rfl⟩, h6, h8⟩
  | weak_str_fin =>
    exact ⟨fun e he => weak_str_fin_hit_effect cfg sbi x data b e he,
      fun hm hx => weak_str_fin_create_effect cfg sbi x data b hm hx,
      fun hm hx => weak_str_fin_fail_effect cfg sbi x data b hm hx⟩
  | str_fin =>
    exact ⟨fun e he => str_fin_hit_effect cfg sbi x data b e he,
      fun hm hx => str_fin_create_effect cfg sbi x data b hm hx,
      fun hm hx => str_fin_fail_effect cfg sbi x data b hm hx⟩

/-! ## The weak lookup after a write through `nova_dedup_str_fin` -/

/-- A weak lookup that found a node still finds one after the entries changed, when no entry
lost the fingerprint looked for. -/
theorem find_weak_still {p q : Nat → nova_pmm_entry} {l : List nova_hentry} {fp : Nat}
    {h : nova_hentry} (hf : nova_find_in_weak_hlist p l fp = some h)
    (hq : ∀ k, (p k).fp_weak = fp → (q k).fp_weak = fp) :
    nova_find_in_weak_hlist q l fp ≠ none := by
  intro hn
  obtain ⟨hm, hfp⟩ := find_weak_mem hf
  exact (find_weak_none.1 hn) h hm (hq _ hfp)

theorem upd_keeps_fp_weak (p : Nat → nova_pmm_entry) (e : Nat) (q : nova_pmm_entry) (fp : Nat)
    (hq : (p e).fp_weak = fp → q.fp_weak = fp) :
    ∀ k, (p k).fp_weak = fp → (upd p e q k).fp_weak = fp := by
  intro k hk
  rw [upd_apply]
  split
  · rename_i he
    subst he
    exact hq hk
  · exact hk

/-- The weak table, the entry the new weak node (if any) refers to, and the weak lookup after a
successful write through `nova_dedup_str_fin`. -/
theorem str_fin_weak_after (cfg : Config) (sbi : nova_sb_info) (x : Ext) (data : Chunk)
    (b : Nat) (hok : 0 ≤ (nova_dedup_str_fin cfg sbi x data b).allocated) :
    ∃ e,
      ((∃ sh, strong_lookup cfg sbi data = some sh ∧ e = sh.entrynr) ∨
        (∃ wh, weak_lookup cfg sbi data = some wh ∧ e = wh.entrynr) ∨
        (str_fin_match cfg sbi data = none ∧ e = x.alloc_entry)) ∧
      (nova_dedup_str_fin cfg sbi x data b).sbi.weak_hash_table
        = weak_table_after (weak_lookup cfg sbi data) sbi.weak_hash_table
            (weak_idx_of cfg sbi data) e ∧
      ((nova_dedup_str_fin cfg sbi x data b).sbi.pentries e).blocknr
        = (nova_dedup_str_fin cfg sbi x data b).blocknr ∧
      ((nova_dedup_str_fin cfg sbi x data b).sbi.pentries e).fp_weak
        = cfg.nova_fp_weak_calc data ∧
      (∀ k, (sbi.pentries k).fp_weak = cfg.nova_fp_weak_calc data →
        ((nova_dedup_str_fin cfg sbi x data b).sbi.pentries k).fp_weak
          = cfg.nova_fp_weak_calc data) := by
  cases hs : strong_lookup cfg sbi data with
  | some sh =>
    obtain ⟨-, h2, h3, h4, -⟩ := str_fin_strong_hit cfg sbi x data b sh hs _ rfl
    refine ⟨sh.entrynr, Or.inl ⟨sh, rfl, rfl⟩, h4, ?_, ?_, ?_⟩
    · rw [h3, upd_same, h2]
    · rw [h3, upd_same]
    · rw [h3]
      exact upd_keeps_fp_weak _ _ _ _ (fun _ => rfl)
  | none =>
    by_cases hm : str_fin_match cfg sbi data = none
    · by_cases hx : x.allocated < 0
      · obtain ⟨h1, -⟩ := str_fin_alloc_fail cfg sbi x data b hm hx _ rfl
        rw [h1] at hok
        omega
      · obtain ⟨-, h2, h3, h4, -⟩ := str_fin_alloc_ok cfg sbi x data b hm hx _ rfl
        refine ⟨x.alloc_entry, Or.inr (Or.inr ⟨hm, rfl⟩), h4, ?_, ?_, ?_⟩
        · rw [h3, upd_same, h2]
        · rw [h3, upd_same]
        · rw [h3]
          exact upd_keeps_fp_weak _ _ _ _ (fun _ => rfl)
    · unfold str_fin_match at hm
      simp only [hs] at hm
      cases hw : weak_lookup cfg sbi data with
      | none => simp [hw] at hm
      | some wh =>
        simp only [hw] at hm
        by_cases hc : cmp_fp_strong
            (cfg.nova_fp_strong_calc (sbi.blocks (sbi.pentries wh.entrynr).blocknr))
            (cfg.nova_fp_strong_calc data) = true
        · obtain ⟨-, h2, h3, h4, -⟩ :=
            str_fin_weak_verified cfg sbi x data b wh hs hw hc _ rfl
          have hfp : (sbi.pentries wh.entrynr).fp_weak = cfg.nova_fp_weak_calc data := by
            unfold weak_lookup at hw
            exact (find_weak_mem hw).2
          refine ⟨wh.entrynr, Or.inr (Or.inl ⟨wh, rfl, rfl⟩), h4, ?_, ?_, ?_⟩
          · rw [h3, upd_same, h2]
          · rw [h3, upd_same]
            exact hfp
          · rw [h3]
            exact upd_keeps_fp_weak _ _ _ _ (fun h => h)
        · simp [hc] at hm

/-! ## Several insertions into one weak bucket -/

theorem insert_weak_nodes_pentries (sbi : nova_sb_info) (idx : Nat) (es : List Nat) :
    (insert_weak_nodes sbi idx es).pentries = sbi.pentries := by
  induction es generalizing sbi with
  | nil => rfl
  | cons e rest ih =>
    show (insert_weak_nodes (sbi.weak_add_head idx e) idx rest).pentries = sbi.pentries
    rw [ih]
    rfl

theorem insert_weak_nodes_bucket (sbi : nova_sb_info) (idx : Nat) (es : List Nat) :
    (insert_weak_nodes sbi idx es).weak_hash_table idx
      = (es.reverse.map nova_hentry.mk) ++ sbi.weak_hash_table idx := by
  induction es generalizing sbi with
  | nil => rfl
  | cons e rest ih =>
    show (insert_weak_nodes (sbi.weak_add_head idx e) idx rest).weak_hash_table idx = _
    rw [ih]
    simp [nova_sb_info.weak_add_head, upd]

/-! ## The events of one call, by path -/

theorem call_events_of_trace {sbi : nova_sb_info} {r : Ret} {evs : List Event}
    (h : r.sbi.trace = sbi.trace ++ evs) : call_events sbi r = evs := by
  unfold call_events
  rw [h, List.drop_left]

theorem str_fin_trace (cfg : Config) (sbi : nova_sb_info) (x : Ext) (data : Chunk) (b : Nat) :
    (nova_dedup_str_fin cfg sbi x data b).sbi.trace
      = sbi.trace ++ str_fin_events cfg sbi x data := by
  unfold str_fin_events str_fin_match strong_lookup weak_lookup weak_idx_of strong_idx_of
    nova_dedup_str_fin
  simp only [nova_sb_info.log_pentries, nova_sb_info.log_strong, nova_sb_info.log_weak,
    nova_sb_info.log_blocks, bucket_idx_log]
  cases nova_find_in_strong_hlist sbi.pentries
      (sbi.strong_hash_table (bucket_idx sbi (cfg.nova_fp_strong_calc data).u64s0))
      (cfg.nova_fp_strong_calc data) with
  | some sh =>
    cases nova_find_in_weak_hlist sbi.pentries
        (sbi.weak_hash_table (bucket_idx sbi (cfg.nova_fp_weak_calc data)))
        (cfg.nova_fp_weak_calc data) <;>
      simp [str_fin_finish, str_fin_out, nova_sb_info.set_entry, nova_sb_info.inc_dup_block,
        nova_sb_info.log, nova_sb_info.weak_add_head]
  | none =>
    cases nova_find_in_weak_hlist sbi.pentries
        (sbi.weak_hash_table (bucket_idx sbi (cfg.nova_fp_weak_calc data)))
        (cfg.nova_fp_weak_calc data) with
    | none =>
      by_cases hx : x.allocated < 0 <;>
        simp [str_fin_alloc, str_fin_finish, str_fin_out, nova_sb_info.set_entry,
          nova_sb_info.log, nova_sb_info.weak_add_head, nova_sb_info.strong_add_head,
          nova_sb_info.map_block, nova_alloc_entry, nova_alloc_block_write, hx]
    | some wh =>
      by_cases hc : cmp_fp_strong
          (cfg.nova_fp_strong_calc (sbi.blocks (sbi.pentries wh.entrynr).blocknr))
          (cfg.nova_fp_strong_calc data) = true
      · simp [hc, str_fin_finish, str_fin_out, nova_sb_info.set_entry,
          nova_sb_info.inc_dup_block, nova_sb_info.log, nova_sb_info.strong_add_head]
      · by_cases hx : x.allocated < 0 <;>
          simp [hc, str_fin_alloc, str_fin_finish, str_fin_out, nova_sb_info.set_entry,
            nova_sb_info.log, nova_sb_info.weak_add_head, nova_sb_info.strong_add_head,
            nova_sb_info.map_block, nova_alloc_entry, nova_alloc_block_write, hx]
theorem weak_str_fin_reference_trace (cfg : Config) (sbi : nova_sb_info) (e : Nat) :
    (weak_str_fin_reference cfg sbi e).1.trace = sbi.trace ++ ref_events cfg sbi e := by
  unfold weak_str_fin_reference ref_events ref_upgrades
  by_cases h1 : (sbi.pentries e).flag = cfg.FP_STRONG_FLAG
  · simp [h1]
  · by_cases h2 : (sbi.pentries e).flag = cfg.FP_WEAK_FLAG
    · have h3 : ¬ cfg.FP_WEAK_FLAG = cfg.FP_STRONG_FLAG := h2 ▸ h1
      simp [h2, h3, nova_sb_info.set_entry, nova_sb_info.log, nova_sb_info.strong_add_head,
        bucket_idx]
    · simp [h1, h2]

theorem weak_str_fin_trace (cfg : Config) (sbi : nova_sb_info) (x : Ext) (data : Chunk)
    (b : Nat) :
    (nova_dedup_weak_str_fin cfg sbi x data b).sbi.trace
      = sbi.trace ++ weak_str_fin_events cfg sbi x data := by
  unfold weak_str_fin_events collision_events weak_lookup weak_idx_of collision_lookup
    strong_idx_of nova_dedup_weak_str_fin
  simp only [nova_sb_info.log_pentries, nova_sb_info.log_strong, nova_sb_info.log_weak,
    nova_sb_info.log_blocks, bucket_idx_log]
  cases nova_find_in_weak_hlist sbi.pentries
      (sbi.weak_hash_table (bucket_idx sbi (cfg.nova_fp_weak_calc data)))
      (cfg.nova_fp_weak_calc data) with
  | none =>
    by_cases hx : x.allocated < 0 <;>
      simp [weak_str_fin_out, nova_sb_info.set_entry,
        nova_sb_info.log, nova_sb_info.weak_add_head,
        nova_sb_info.map_block, nova_alloc_entry, nova_alloc_block_write, hx]
  | some wh =>
    obtain ⟨h1, h2, -, -, -, -, hb, -, -, h7, h8⟩ :=
      weak_str_fin_reference_log cfg sbi
        (Event.weak_lock (bucket_idx sbi (cfg.nova_fp_weak_calc data)
          % cfg.HASH_TABLE_LOCK_NUM)) wh.entrynr
    have ht := weak_str_fin_reference_trace cfg
      (sbi.log (Event.weak_lock (bucket_idx sbi (cfg.nova_fp_weak_calc data)
          % cfg.HASH_TABLE_LOCK_NUM))) wh.entrynr
    have hre : ref_events cfg (sbi.log (Event.weak_lock
        (bucket_idx sbi (cfg.nova_fp_weak_calc data) % cfg.HASH_TABLE_LOCK_NUM))) wh.entrynr
        = ref_events cfg sbi wh.entrynr := rfl
    rw [hre, nova_sb_info.log_trace] at ht
    simp only [h7]
    generalize weak_str_fin_reference cfg
      (sbi.log (Event.weak_lock (bucket_idx sbi (cfg.nova_fp_weak_calc data)
        % cfg.HASH_TABLE_LOCK_NUM))) wh.entrynr = q at h1 h2 hb h7 h8 ht ⊢
    by_cases hc : cmp_fp_strong (cfg.nova_fp_strong_calc data) (ref_fp cfg sbi wh.entrynr) = true
    · simp only [hc, if_true]
      simp [weak_str_fin_finish, weak_str_fin_out, nova_sb_info.set_entry,
        nova_sb_info.inc_dup_block, nova_sb_info.log, ht]
    · simp only [hc]
      unfold weak_str_fin_collision
      simp only [nova_sb_info.log_pentries, nova_sb_info.log_strong, bucket_idx_log,
        bucket_idx, h1, h2, hb]
      cases nova_find_in_strong_hlist (ref_pentries cfg sbi wh.entrynr)
        (ref_strong_table cfg sbi wh.entrynr
          ((cfg.nova_fp_strong_calc data).u64s0 &&& 1 <<< sbi.num_entries_bits - 1))
        (cfg.nova_fp_strong_calc data) with
      | some sh =>
        cases hq : ref_upgrades cfg sbi wh.entrynr <;>
        simp [weak_str_fin_finish, weak_str_fin_out, nova_sb_info.set_entry,
          nova_sb_info.inc_dup_block, nova_sb_info.log, hq, h8, ht, ref_flush, bucket_idx]
      | none =>
        by_cases hx : x.allocated < 0
        · simp [weak_str_fin_out, nova_sb_info.log, nova_alloc_entry, nova_alloc_block_write,
            hx, ht, bucket_idx]
        · cases hq : ref_upgrades cfg sbi wh.entrynr <;>
          simp [weak_str_fin_finish, weak_str_fin_out, nova_sb_info.set_entry,
            nova_sb_info.log, nova_sb_info.strong_add_head, nova_sb_info.map_block,
            nova_alloc_entry, nova_alloc_block_write, hx, hq, h8, ht, ref_flush, bucket_idx]

/-! ## The lock events of one call -/

theorem lock_run_append (w : Nat) (held : List LockId) (a b : List Event) :
    lock_run w held (a ++ b)
      = (lock_run w held a).bind (fun held' => lock_run w held' b) := by
  induction a generalizing held with
  | nil => rfl
  | cons e rest ih =>
    show (match lock_step w held e with
      | none => none
      | some held' => lock_run w held' (rest ++ b)) = _
    cases hstep : lock_step w held e with
    | none => simp [lock_run, hstep]
    | some h' => simp [lock_run, hstep, ih]

theorem lock_events_append (a b : List Event) :
    lock_events (a ++ b) = lock_events a ++ lock_events b := by
  unfold lock_events
  rw [List.filter_append]

theorem str_fin_lock_run (cfg : Config) (sbi : nova_sb_info) (x : Ext) (data : Chunk) :
    lock_run (weak_idx_of cfg sbi data % cfg.HASH_TABLE_LOCK_NUM) []
      (str_fin_events cfg sbi x data) = some [] := by
  unfold str_fin_events
  cases str_fin_match cfg sbi data with
  | some e => simp [lock_run, lock_step]
  | none => by_cases hx : x.allocated < 0 <;> simp [hx, lock_run, lock_step]

theorem str_fin_lock_events (cfg : Config) (sbi : nova_sb_info) (x : Ext) (data : Chunk) :
    lock_events (str_fin_events cfg sbi x data)
      = [Event.weak_lock (weak_idx_of cfg sbi data % cfg.HASH_TABLE_LOCK_NUM),
         Event.strong_lock (strong_idx_of cfg sbi data % cfg.HASH_TABLE_LOCK_NUM),
         Event.weak_unlock (weak_idx_of cfg sbi data % cfg.HASH_TABLE_LOCK_NUM),
         Event.strong_unlock (strong_idx_of cfg sbi data % cfg.HASH_TABLE_LOCK_NUM)] := by
  unfold str_fin_events
  cases str_fin_match cfg sbi data with
  | some e => simp [lock_events]
  | none => by_cases hx : x.allocated < 0 <;> simp [hx, lock_events]
theorem ref_events_lock_run (cfg : Config) (sbi : nova_sb_info) (e w : Nat) :
    lock_run w [LockId.weak w] (ref_events cfg sbi e) = some [LockId.weak w] := by
  unfold ref_events
  split <;> simp [lock_run, lock_step]

theorem ref_flush_lock_run (cfg : Config) (sbi : nova_sb_info) (e w : Nat) :
    lock_run w [LockId.weak w] (ref_flush cfg sbi e) = some [LockId.weak w] := by
  unfold ref_flush
  split <;> simp [lock_run, lock_step]

theorem collision_events_lock_run (cfg : Config) (sbi : nova_sb_info) (x : Ext) (data : Chunk)
    (e w : Nat) :
    lock_run w [LockId.weak w] (collision_events cfg sbi x data e).1 = some [LockId.weak w] := by
  unfold collision_events
  cases collision_lookup cfg sbi data e with
  | some sh => simp [lock_run, lock_step]
  | none => by_cases hx : x.allocated < 0 <;> simp [hx, lock_run, lock_step]

theorem weak_str_fin_lock_run (cfg : Config) (sbi : nova_sb_info) (x : Ext) (data : Chunk) :
    lock_run (weak_idx_of cfg sbi data % cfg.HASH_TABLE_LOCK_NUM) []
      (weak_str_fin_events cfg sbi x data) = some [] := by
  unfold weak_str_fin_events
  rw [List.append_assoc, lock_run_append]
  have h0 : lock_run (weak_idx_of cfg sbi data % cfg.HASH_TABLE_LOCK_NUM) []
      [Event.weak_lock (weak_idx_of cfg sbi data % cfg.HASH_TABLE_LOCK_NUM)]
      = some [LockId.weak (weak_idx_of cfg sbi data % cfg.HASH_TABLE_LOCK_NUM)] := by
    simp [lock_run, lock_step]
  rw [h0, Option.some_bind, lock_run_append]
  have hmid : ∀ (mid : List Event), lock_run (weak_idx_of cfg sbi data % cfg.HASH_TABLE_LOCK_NUM)
      [LockId.weak (weak_idx_of cfg sbi data % cfg.HASH_TABLE_LOCK_NUM)] mid
      = some [LockId.weak (weak_idx_of cfg sbi data % cfg.HASH_TABLE_LOCK_NUM)] →
      (lock_run (weak_idx_of cfg sbi data % cfg.HASH_TABLE_LOCK_NUM)
        [LockId.weak (weak_idx_of cfg sbi data % cfg.HASH_TABLE_LOCK_NUM)] mid).bind
        (fun held' => lock_run (weak_idx_of cfg sbi data % cfg.HASH_TABLE_LOCK_NUM) held'
          [Event.weak_unlock (weak_idx_of cfg sbi data % cfg.HASH_TABLE_LOCK_NUM)])
      = some [] := by
    intro mid hm
    rw [hm]
    simp [lock_run, lock_step]
  apply hmid
  cases weak_lookup cfg sbi data with
  | none => by_cases hx : x.allocated < 0 <;> simp [hx, lock_run, lock_step]
  | some wh =>
    show lock_run _ _ (ref_events cfg sbi wh.entrynr ++ _) = _
    rw [lock_run_append, ref_events_lock_run, Option.some_bind]
    by_cases hc : cmp_fp_strong (cfg.nova_fp_strong_calc data) (ref_fp cfg sbi wh.entrynr) = true
    · simp [hc, lock_run, lock_step]
    · rw [if_neg hc, lock_run_append, collision_events_lock_run, Option.some_bind]
      split
      · exact ref_flush_lock_run cfg sbi _ _
      · rfl

theorem ref_events_lock_events (cfg : Config) (sbi : nova_sb_info) (e : Nat) :
    lock_events (ref_events cfg sbi e)
      = if ref_upgrades cfg sbi e then
          [Event.strong_lock
            (bucket_idx sbi
              (cfg.nova_fp_strong_calc (sbi.blocks (sbi.pentries e).blocknr)).u64s0
              % cfg.HASH_TABLE_LOCK_NUM),
           Event.strong_unlock
            (bucket_idx sbi
              (cfg.nova_fp_strong_calc (sbi.blocks (sbi.pentries e).blocknr)).u64s0
              % cfg.HASH_TABLE_LOCK_NUM)]
        else [] := by
  unfold ref_events
  split <;> simp [lock_events]

theorem collision_events_lock_events (cfg : Config) (sbi : nova_sb_info) (x : Ext)
    (data : Chunk) (e : Nat) :
    lock_events (collision_events cfg sbi x data e).1
      = [Event.strong_lock (strong_idx_of cfg sbi data % cfg.HASH_TABLE_LOCK_NUM),
         Event.strong_unlock (strong_idx_of cfg sbi data % cfg.HASH_TABLE_LOCK_NUM)] := by
  unfold collision_events
  cases collision_lookup cfg sbi data e with
  | some sh => simp [lock_events]
  | none => by_cases hx : x.allocated < 0 <;> simp [hx, lock_events]

theorem ref_flush_lock_events (cfg : Config) (sbi : nova_sb_info) (e : Nat) :
    lock_events (ref_flush cfg sbi e) = [] := by
  unfold ref_flush
  split <;> simp [lock_events]

theorem weak_str_fin_lock_events (cfg : Config) (sbi : nova_sb_info) (x : Ext)
    (data : Chunk) :
    lock_events (weak_str_fin_events cfg sbi x data)
      = [Event.weak_lock (weak_idx_of cfg sbi data % cfg.HASH_TABLE_LOCK_NUM)] ++
        (match weak_lookup cfg sbi data with
         | none => []
         | some wh =>
           (if ref_upgrades cfg sbi wh.entrynr then
              [Event.strong_lock
                (bucket_idx sbi
                  (cfg.nova_fp_strong_calc
                    (sbi.blocks (sbi.pentries wh.entrynr).blocknr)).u64s0
                  % cfg.HASH_TABLE_LOCK_NUM),
               Event.strong_unlock
                (bucket_idx sbi
                  (cfg.nova_fp_strong_calc
                    (sbi.blocks (sbi.pentries wh.entrynr).blocknr)).u64s0
                  % cfg.HASH_TABLE_LOCK_NUM)]
            else []) ++
           (if cmp_fp_strong (cfg.nova_fp_strong_calc data) (ref_fp cfg sbi wh.entrynr) then []
            else
              [Event.strong_lock (strong_idx_of cfg sbi data % cfg.HASH_TABLE_LOCK_NUM),
               Event.strong_unlock (strong_idx_of cfg sbi data % cfg.HASH_TABLE_LOCK_NUM)])) ++
        [Event.weak_unlock (weak_idx_of cfg sbi data % cfg.HASH_TABLE_LOCK_NUM)] := by
  unfold weak_str_fin_events
  rw [lock_events_append, lock_events_append]
  congr 1
  congr 1
  cases weak_lookup cfg sbi data with
  | none => by_cases hx : x.allocated < 0 <;> simp [hx, lock_events]
  | some wh =>
    show lock_events (ref_events cfg sbi wh.entrynr ++ _) = _
    rw [lock_events_append, ref_events_lock_events]
    congr 1
    by_cases hc : cmp_fp_strong (cfg.nova_fp_strong_calc data) (ref_fp cfg sbi wh.entrynr) = true
    · simp [hc, lock_events]
    · rw [if_neg hc, if_neg hc, lock_events_append, collision_events_lock_events]
      split
      · rw [ref_flush_lock_events]
        rfl
      · rfl
/-! ## The buckets a call changes are those whose lock it takes -/

theorem add_head_changed {tbl : Nat → List nova_hentry} {idx e i : Nat}
    (h : add_head tbl idx e i ≠ tbl i) : i = idx := by
  by_contra hne
  apply h
  unfold add_head
  rw [upd_other _ _ hne]

theorem weak_table_after_changed {w : Option nova_hentry} {tbl : Nat → List nova_hentry}
    {idx e i : Nat} (h : weak_table_after w tbl idx e i ≠ tbl i) : i = idx := by
  cases w with
  | some _ => exact absurd rfl h
  | none => exact add_head_changed h

theorem str_fin_tables_changed (cfg : Config) (sbi : nova_sb_info) (x : Ext) (data : Chunk)
    (b i : Nat) :
    ((nova_dedup_str_fin cfg sbi x data b).sbi.weak_hash_table i ≠ sbi.weak_hash_table i →
      i = weak_idx_of cfg sbi data) ∧
    ((nova_dedup_str_fin cfg sbi x data b).sbi.strong_hash_table i ≠ sbi.strong_hash_table i →
      i = strong_idx_of cfg sbi data) := by
  cases hs : strong_lookup cfg sbi data with
  | some sh =>
    obtain ⟨-, -, -, h4, h5, -⟩ := str_fin_strong_hit cfg sbi x data b sh hs _ rfl
    rw [h4, h5]
    exact ⟨weak_table_after_changed, fun h => absurd rfl h⟩
  | none =>
    by_cases hm : str_fin_match cfg sbi data = none
    · by_cases hx : x.allocated < 0
      · obtain ⟨-, -, -, h4, h5, -⟩ := str_fin_alloc_fail cfg sbi x data b hm hx _ rfl
        rw [h4, h5]
        exact ⟨fun h => absurd rfl h, fun h => absurd rfl h⟩
      · obtain ⟨-, -, -, h4, h5, -⟩ := str_fin_alloc_ok cfg sbi x data b hm hx _ rfl
        rw [h4, h5]
        exact ⟨weak_table_after_changed, add_head_changed⟩
    · unfold str_fin_match at hm
      simp only [hs] at hm
      cases hw : weak_lookup cfg sbi data with
      | none => simp [hw] at hm
      | some wh =>
        simp only [hw] at hm
        by_cases hc : cmp_fp_strong
            (cfg.nova_fp_strong_calc (sbi.blocks (sbi.pentries wh.entrynr).blocknr))
            (cfg.nova_fp_strong_calc data) = true
        · obtain ⟨-, -, -, h4, h5, -⟩ :=
            str_fin_weak_verified cfg sbi x data b wh hs hw hc _ rfl
          rw [h4, h5]
          exact ⟨fun h => absurd rfl h, add_head_changed⟩
        · simp [hc] at hm

theorem ref_strong_table_changed {cfg : Config} {sbi : nova_sb_info} {e i : Nat}
    (h : ref_strong_table cfg sbi e i ≠ sbi.strong_hash_table i) :
    Event.strong_lock (i % cfg.HASH_TABLE_LOCK_NUM) ∈ ref_events cfg sbi e := by
  unfold ref_strong_table at h
  unfold ref_events
  split at h
  · rename_i hu
    rw [if_pos hu, add_head_changed h]
    simp
  · exact absurd rfl h

theorem collision_events_lock (cfg : Config) (sbi : nova_sb_info) (x : Ext) (data : Chunk)
    (e : Nat) :
    Event.strong_lock (strong_idx_of cfg sbi data % cfg.HASH_TABLE_LOCK_NUM)
      ∈ (collision_events cfg sbi x data e).1 := by
  unfold collision_events
  cases collision_lookup cfg sbi data e with
  | some sh => simp
  | none => by_cases hx : x.allocated < 0 <;> simp [hx]

theorem mem_weak_str_fin_events_ref {cfg : Config} {sbi : nova_sb_info} {x : Ext}
    {data : Chunk} {wh : nova_hentry} {ev : Event} (hw : weak_lookup cfg sbi data = some wh)
    (h : ev ∈ ref_events cfg sbi wh.entrynr) : ev ∈ weak_str_fin_events cfg sbi x data := by
  unfold weak_str_fin_events
  simp only [hw, List.mem_append]
  exact Or.inl (Or.inr (Or.inl h))

theorem mem_weak_str_fin_events_collision {cfg : Config} {sbi : nova_sb_info} {x : Ext}
    {data : Chunk} {wh : nova_hentry} {ev : Event} (hw : weak_lookup cfg sbi data = some wh)
    (hc : cmp_fp_strong (cfg.nova_fp_strong_calc data) (ref_fp cfg sbi wh.entrynr) = false)
    (h : ev ∈ (collision_events cfg sbi x data wh.entrynr).1) :
    ev ∈ weak_str_fin_events cfg sbi x data := by
  have hc' : ¬ cmp_fp_strong (cfg.nova_fp_strong_calc data) (ref_fp cfg sbi wh.entrynr) = true := by
    rw [hc]
    exact Bool.false_ne_true
  unfold weak_str_fin_events
  simp only [hw]
  rw [if_neg hc']
  simp only [List.mem_append]
  exact Or.inl (Or.inr (Or.inr (Or.inl h)))

theorem weak_str_fin_tables_changed (cfg : Config) (sbi : nova_sb_info) (x : Ext)
    (data : Chunk) (b i : Nat) :
    ((nova_dedup_weak_str_fin cfg sbi x data b).sbi.weak_hash_table i ≠ sbi.weak_hash_table i →
      i = weak_idx_of cfg sbi data) ∧
    ((nova_dedup_weak_str_fin cfg sbi x data b).sbi.strong_hash_table i
        ≠ sbi.strong_hash_table i →
      Event.strong_lock (i % cfg.HASH_TABLE_LOCK_NUM) ∈ weak_str_fin_events cfg sbi x data) := by
  cases hw : weak_lookup cfg sbi data with
  | none =>
    by_cases hx : x.allocated < 0
    · obtain ⟨-, -, -, h4, h5, -⟩ := weak_str_fin_miss_fail cfg sbi x data b hw hx _ rfl
      rw [h4, h5]
      exact ⟨fun h => absurd rfl h, fun h => absurd rfl h⟩
    · obtain ⟨-, -, -, h4, h5, -⟩ := weak_str_fin_miss_ok cfg sbi x data b hw hx _ rfl
      rw [h4, h5]
      exact ⟨add_head_changed, fun h => absurd rfl h⟩
  | some wh =>
    by_cases hc : cmp_fp_strong (cfg.nova_fp_strong_calc data) (ref_fp cfg sbi wh.entrynr) = true
    · obtain ⟨-, -, -, h4, h5, -⟩ := weak_str_fin_dup cfg sbi x data b wh hw hc _ rfl
      rw [h4, h5]
      exact ⟨fun h => absurd rfl h,
        fun h => mem_weak_str_fin_events_ref hw (ref_strong_table_changed h)⟩
    · simp only [Bool.not_eq_true] at hc
      cases hs : collision_lookup cfg sbi data wh.entrynr with
      | some sh =>
        obtain ⟨-, -, -, h4, h5, -⟩ :=
          weak_str_fin_collision_hit cfg sbi x data b wh sh hw hc hs _ rfl
        rw [h4, h5]
        exact ⟨fun h => absurd rfl h,
          fun h => mem_weak_str_fin_events_ref hw (ref_strong_table_changed h)⟩
      | none =>
        by_cases hx : x.allocated < 0
        · obtain ⟨-, -, -, h4, h5, -⟩ :=
            weak_str_fin_collision_fail cfg sbi x data b wh hw hc hs hx _ rfl
          rw [h4, h5]
          exact ⟨fun h => absurd rfl h,
            fun h => mem_weak_str_fin_events_ref hw (ref_strong_table_changed h)⟩
        · obtain ⟨-, -, -, h4, h5, -⟩ :=
            weak_str_fin_collision_ok cfg sbi x data b wh hw hc hs hx _ rfl
          rw [h4, h5]
          refine ⟨fun h => absurd rfl h, fun h => ?_⟩
          by_cases hi : i = strong_idx_of cfg sbi data
          · rw [hi]
            exact mem_weak_str_fin_events_collision hw hc (collision_events_lock cfg sbi x data _)
          · unfold add_head at h
            rw [upd_other _ _ hi] at h
            exact mem_weak_str_fin_events_ref hw (ref_strong_table_changed h)

/-! ## Stores and flushes of one call -/

/-- Every path of `nova_dedup_str_fin` flushes the entry it stored to. -/
theorem str_fin_unflushed (cfg : Config) (sbi : nova_sb_info) (x : Ext) (data : Chunk) :
    unflushed (str_fin_events cfg sbi x data) = [] := by
  unfold str_fin_events
  cases str_fin_match cfg sbi data with
  | some e => simp [unflushed]
  | none => by_cases hx : x.allocated < 0 <;> simp [hx, unflushed]

/-- The paths of `nova_dedup_weak_str_fin` flush every entry they stored to, except the exit
at lines 355-358 (allocation failure after a weak collision) when lines 298-316 upgraded the
entry found by the weak lookup: that entry is then left without a flush. -/
theorem weak_str_fin_unflushed (cfg : Config) (sbi : nova_sb_info) (x : Ext) (data : Chunk) :
    unflushed (weak_str_fin_events cfg sbi x data)
      = match weak_lookup cfg sbi data with
        | none => []
        | some wh =>
          if ref_upgrades cfg sbi wh.entrynr = true ∧
              cmp_fp_strong (cfg.nova_fp_strong_calc data) (ref_fp cfg sbi wh.entrynr) = false ∧
              collision_lookup cfg sbi data wh.entrynr = none ∧ x.allocated < 0
          then [wh.entrynr] else [] := by
  unfold weak_str_fin_events collision_events ref_events ref_flush
  cases weak_lookup cfg sbi data with
  | none => by_cases hx : x.allocated < 0 <;> simp [hx, unflushed]
  | some wh =>
    cases hu : ref_upgrades cfg sbi wh.entrynr <;>
    cases hc : cmp_fp_strong (cfg.nova_fp_strong_calc data) (ref_fp cfg sbi wh.entrynr) <;>
    cases hs : collision_lookup cfg sbi data wh.entrynr <;>
    by_cases hx : x.allocated < 0 <;>
    simp [hx, hu, hc, hs, unflushed]

/-! ## The entries the index references after a write -/

theorem referenced_step {s t : nova_sb_info} {P : Nat → Prop}
    (hw : ∀ b n, n ∈ t.weak_hash_table b → n ∈ s.weak_hash_table b ∨ P n.entrynr)
    (hs : ∀ b n, n ∈ t.strong_hash_table b → n ∈ s.strong_hash_table b ∨ P n.entrynr)
    (e : Nat) (h : referenced t e) : referenced s e ∨ P e := by
  obtain ⟨b, n, hn, he⟩ := h
  rcases hn with hn | hn
  · rcases hw b n hn with h1 | h1
    · exact Or.inl ⟨b, n, Or.inl h1, he⟩
    · exact Or.inr (he ▸ h1)
  · rcases hs b n hn with h1 | h1
    · exact Or.inl ⟨b, n, Or.inr h1, he⟩
    · exact Or.inr (he ▸ h1)

theorem mem_weak_table_after {w : Option nova_hentry} {tbl : Nat → List nova_hentry}
    {idx e b : Nat} {n : nova_hentry} (h : n ∈ weak_table_after w tbl idx e b) :
    n ∈ tbl b ∨ n.entrynr = e := by
  cases w with
  | some _ => exact Or.inl h
  | none =>
    rcases mem_add_head h with h | ⟨-, h⟩
    · exact Or.inl h
    · exact Or.inr (by rw [h])

theorem mem_add_head_entry {tbl : Nat → List nova_hentry} {idx e b : Nat} {n : nova_hentry}
    (h : n ∈ add_head tbl idx e b) : n ∈ tbl b ∨ n.entrynr = e := by
  rcases mem_add_head h with h | ⟨-, h⟩
  · exact Or.inl h
  · exact Or.inr (by rw [h])

theorem mem_ref_strong_table_entry {cfg : Config} {sbi : nova_sb_info} {e b : Nat}
    {n : nova_hentry} (h : n ∈ ref_strong_table cfg sbi e b) :
    n ∈ sbi.strong_hash_table b ∨ n.entrynr = e := by
  rcases mem_ref_strong_table h with h | ⟨-, h⟩
  · exact Or.inl h
  · exact Or.inr (by rw [h])

theorem weak_lookup_referenced {cfg : Config} {sbi : nova_sb_info} {data : Chunk}
    {wh : nova_hentry} (h : weak_lookup cfg sbi data = some wh) :
    referenced sbi wh.entrynr := by
  unfold weak_lookup at h
  exact ⟨_, wh, Or.inl (find_weak_mem h).1, rfl⟩

theorem strong_lookup_referenced {cfg : Config} {sbi : nova_sb_info} {data : Chunk}
    {sh : nova_hentry} (h : strong_lookup cfg sbi data = some sh) :
    referenced sbi sh.entrynr := by
  unfold strong_lookup at h
  exact ⟨_, sh, Or.inr (find_strong_mem h).1, rfl⟩

/-- After a write through `nova_dedup_str_fin` the index references the entries it referenced
before and, when the write allocated with success, the new entry. -/
theorem str_fin_referenced (cfg : Config) (sbi : nova_sb_info) (x : Ext) (data : Chunk)
    (b e : Nat) (h : referenced (nova_dedup_str_fin cfg sbi x data b).sbi e) :
    referenced sbi e ∨
      (str_fin_match cfg sbi data = none ∧ ¬ x.allocated < 0 ∧ e = x.alloc_entry) := by
  cases hs : strong_lookup cfg sbi data with
  | some sh =>
    obtain ⟨-, -, -, h4, h5, -⟩ := str_fin_strong_hit cfg sbi x data b sh hs _ rfl
    have hr := strong_lookup_referenced hs
    have := @referenced_step sbi (nova_dedup_str_fin cfg sbi x data b).sbi (referenced sbi)
      (fun b n hn => by
        rw [h4] at hn
        rcases mem_weak_table_after hn with h1 | h1
        · exact Or.inl h1
        · exact Or.inr (h1 ▸ hr))
      (fun b n hn => by rw [h5] at hn; exact Or.inl hn) e h
    exact Or.inl (this.elim id id)
  | none =>
    by_cases hm : str_fin_match cfg sbi data = none
    · by_cases hx : x.allocated < 0
      · obtain ⟨-, -, -, h4, h5, -⟩ := str_fin_alloc_fail cfg sbi x data b hm hx _ rfl
        exact Or.inl (referenced_of_tables h4 h5 e h)
      · obtain ⟨-, -, -, h4, h5, -⟩ := str_fin_alloc_ok cfg sbi x data b hm hx _ rfl
        have := @referenced_step sbi (nova_dedup_str_fin cfg sbi x data b).sbi
          (fun k => k = x.alloc_entry)
          (fun b n hn => by rw [h4] at hn; exact mem_weak_table_after hn)
          (fun b n hn => by rw [h5] at hn; exact mem_add_head_entry hn) e h
        exact this.elim Or.inl (fun h1 => Or.inr ⟨hm, hx, h1⟩)
    · unfold str_fin_match at hm
      simp only [hs] at hm
      cases hw : weak_lookup cfg sbi data with
      | none => simp [hw] at hm
      | some wh =>
        simp only [hw] at hm
        by_cases hc : cmp_fp_strong
            (cfg.nova_fp_strong_calc (sbi.blocks (sbi.pentries wh.entrynr).blocknr))
            (cfg.nova_fp_strong_calc data) = true
        · obtain ⟨-, -, -, h4, h5, -⟩ :=
            str_fin_weak_verified cfg sbi x data b wh hs hw hc _ rfl
          have hr := weak_lookup_referenced hw
          have := @referenced_step sbi (nova_dedup_str_fin cfg sbi x data b).sbi
            (referenced sbi)
            (fun b n hn => by rw [h4] at hn; exact Or.inl hn)
            (fun b n hn => by
              rw [h5] at hn
              rcases mem_add_head_entry hn with h1 | h1
              · exact Or.inl h1
              · exact Or.inr (h1 ▸ hr)) e h
          exact Or.inl (this.elim id id)
        · simp [hc] at hm

/-- The same for `nova_dedup_weak_str_fin`. -/
theorem weak_str_fin_referenced (cfg : Config) (sbi : nova_sb_info) (x : Ext) (data : Chunk)
    (b e : Nat) (h : referenced (nova_dedup_weak_str_fin cfg sbi x data b).sbi e) :
    referenced sbi e ∨
      (weak_str_fin_match cfg sbi data = none ∧ ¬ x.allocated < 0 ∧ e = x.alloc_entry) := by
  cases hw : weak_lookup cfg sbi data with
  | none =>
    have hm : weak_str_fin_match cfg sbi data = none := by
      unfold weak_str_fin_match
      rw [hw]
    by_cases hx : x.allocated < 0
    · obtain ⟨-, -, -, h4, h5, -⟩ := weak_str_fin_miss_fail cfg sbi x data b hw hx _ rfl
      exact Or.inl (referenced_of_tables h4 h5 e h)
    · obtain ⟨-, -, -, h4, h5, -⟩ := weak_str_fin_miss_ok cfg sbi x data b hw hx _ rfl
      have := @referenced_step sbi (nova_dedup_weak_str_fin cfg sbi x data b).sbi
        (fun k => k = x.alloc_entry)
        (fun b n hn => by rw [h4] at hn; exact mem_add_head_entry hn)
        (fun b n hn => by rw [h5] at hn; exact Or.inl hn) e h
      exact this.elim Or.inl (fun h1 => Or.inr ⟨hm, hx, h1⟩)
  | some wh =>
    have hr := weak_lookup_referenced hw
    have href : ∀ b n, n ∈ ref_strong_table cfg sbi wh.entrynr b →
        n ∈ sbi.strong_hash_table b ∨ referenced sbi n.entrynr := by
      intro b n hn
      rcases mem_ref_strong_table_entry hn with h1 | h1
      · exact Or.inl h1
      · exact Or.inr (h1 ▸ hr)
    by_cases hc : cmp_fp_strong (cfg.nova_fp_strong_calc data) (ref_fp cfg sbi wh.entrynr) = true
    · obtain ⟨-, -, -, h4, h5, -⟩ := weak_str_fin_dup cfg sbi x data b wh hw hc _ rfl
      have := @referenced_step sbi (nova_dedup_weak_str_fin cfg sbi x data b).sbi
        (referenced sbi)
        (fun b n hn => by rw [h4] at hn; exact Or.inl hn)
        (fun b n hn => by rw [h5] at hn; exact href b n hn) e h
      exact Or.inl (this.elim id id)
    · simp only [Bool.not_eq_true] at hc
      cases hs : collision_lookup cfg sbi data wh.entrynr with
      | some sh =>
        obtain ⟨-, -, -, h4, h5, -⟩ :=
          weak_str_fin_collision_hit cfg sbi x data b wh sh hw hc hs _ rfl
        have := @referenced_step sbi (nova_dedup_weak_str_fin cfg sbi x data b).sbi
          (referenced sbi)
          (fun b n hn => by rw [h4] at hn; exact Or.inl hn)
          (fun b n hn => by rw [h5] at hn; exact href b n hn) e h
        exact Or.inl (this.elim id id)
      | none =>
        have hm : weak_str_fin_match cfg sbi data = none := by
          unfold weak_str_fin_match
          rw [hw]
          simp [hc, hs]
        by_cases hx : x.allocated < 0
        · obtain ⟨-, -, -, h4, h5, -⟩ :=
            weak_str_fin_collision_fail cfg sbi x data b wh hw hc hs hx _ rfl
          have := @referenced_step sbi (nova_dedup_weak_str_fin cfg sbi x data b).sbi
            (referenced sbi)
            (fun b n hn => by rw [h4] at hn; exact Or.inl hn)
            (fun b n hn => by rw [h5] at hn; exact href b n hn) e h
          exact Or.inl (this.elim id id)
        · obtain ⟨-, -, -, h4, h5, -⟩ :=
            weak_str_fin_collision_ok cfg sbi x data b wh hw hc hs hx _ rfl
          have := @referenced_step sbi (nova_dedup_weak_str_fin cfg sbi x data b).sbi
            (fun k => referenced sbi k ∨ k = x.alloc_entry)
            (fun b n hn => by rw [h4] at hn; exact Or.inl hn)
            (fun b n hn => by
              rw [h5] at hn
              rcases mem_add_head_entry hn with h1 | h1
              · exact (href b n h1).elim Or.inl (fun h2 => Or.inr (Or.inl h2))
              · exact Or.inr (Or.inr h1)) e h
          rcases this with h1 | h1 | h1
          · exact Or.inl h1
          · exact Or.inl h1
          · exact Or.inr ⟨hm, hx, h1⟩

/-- The same for any of the three algorithms. -/
theorem algo_referenced (cfg : Config) (a : Algo) (sbi : nova_sb_info) (x : Ext)
    (data : Chunk) (b e : Nat) (h : referenced (run_algo cfg a sbi x data b).sbi e) :
    referenced sbi e ∨
      (algo_match cfg a sbi data = none ∧ ¬ x.allocated < 0 ∧ e = x.alloc_entry) := by
  cases a with
  | non_fin =>
    left
    by_cases hx : x.allocated < 0
    · obtain ⟨-, -, -, h4, h5, -⟩ := non_fin_fail cfg sbi x data b hx _ rfl
      exact referenced_of_tables h4 h5 e h
    · obtain ⟨-, -, -, h4, h5, -⟩ := non_fin_ok cfg sbi x data b hx _ rfl
      exact referenced_of_tables h4 h5 e h
  | weak_str_fin => exact weak_str_fin_referenced cfg sbi x data b e h
  | str_fin => exact str_fin_referenced cfg sbi x data b e h

theorem algo_match_referenced {cfg : Config} {a : Algo} {sbi : nova_sb_info} {data : Chunk}
    {e : Nat} (h : algo_match cfg a sbi data = some e) : referenced sbi e := by
  cases a with
  | non_fin => simp [algo_match] at h
  | weak_str_fin => exact weak_str_fin_match_referenced h
  | str_fin => exact str_fin_match_referenced h

/-! ## Reference counts account for the writes -/

theorem returns_of_append (H : List (Nat × Int)) (r : Nat × Int) (k : Nat) :
    returns_of (H ++ [r]) k = returns_of H k + (if 0 ≤ r.2 ∧ r.1 = k then 1 else 0) := by
  unfold returns_of
  rw [List.countP_append, List.countP_cons, List.countP_nil]
  by_cases h1 : 0 ≤ r.2 <;> by_cases h2 : r.1 = k <;> simp [h1, h2]

theorem successes_append (H : List (Nat × Int)) (r : Nat × Int) :
    successes (H ++ [r]) = successes H + (if 0 ≤ r.2 then 1 else 0) := by
  unfold successes
  rw [List.countP_append, List.countP_cons, List.countP_nil]
  by_cases h1 : 0 ≤ r.2 <;> simp [h1]

theorem returns_of_eq_zero {H : List (Nat × Int)} {k : Nat}
    (h : ∀ r ∈ H, 0 ≤ r.2 → r.1 ≠ k) : returns_of H k = 0 := by
  unfold returns_of
  rw [List.countP_eq_zero]
  intro r hr
  by_cases h1 : 0 ≤ r.2
  · simp [h1, h r hr h1]
  · simp [h1]

/-- A dedup hit keeps the accounting. -/
theorem accounted_hit {sbi : nova_sb_info} {E K : List Nat} {H : List (Nat × Int)}
    {e0 k0 : Nat} {r : Ret} (h : accounted sbi E K H) (he0 : e0 ∈ E)
    (hr : hit_effect sbi e0 r) (href : ∀ e, referenced r.sbi e → referenced sbi e) :
    accounted r.sbi E (K ++ [k0]) (H ++ [(r.blocknr, r.allocated)]) := by
  obtain ⟨a1, a2, a3, a4, a5, a6⟩ := h
  obtain ⟨h1, h2, h3, h4, h5, -, -⟩ := hr
  refine ⟨a1, fun e he => a2 e (href e he), fun e he => ?_, fun e he e' he' hb => ?_,
    fun e he => ?_, fun q hq hok => ?_⟩
  · rw [h5]
    exact List.mem_append_left _ (a3 e he)
  · rw [h5, h5] at hb
    exact a4 e he e' he' hb
  · rw [returns_of_append, h5, h1, h2]
    by_cases hee : e = e0
    · subst hee
      rw [h3, a5 e he, if_pos ⟨Int.one_nonneg, rfl⟩, Nat.add_mod, Nat.mod_mod, ← Nat.add_mod,
        Nat.add_mod]
    · have hne : ¬ ((0 : Int) ≤ 1 ∧ (sbi.pentries e0).blocknr = (sbi.pentries e).blocknr) :=
        fun hb => hee (a4 e he e0 he0 hb.2.symm)
      rw [h4 e hee, a5 e he, if_neg hne, Nat.add_zero]
  · rcases List.mem_append.1 hq with hq | hq
    · obtain ⟨e, he, hb⟩ := a6 q hq hok
      exact ⟨e, he, by rw [h5]; exact hb⟩
    · rw [List.mem_singleton] at hq
      subst hq
      exact ⟨e0, he0, by rw [h5]; exact h2.symm⟩

/-- A write whose block allocation fails keeps the accounting. -/
theorem accounted_fail {sbi : nova_sb_info} {E K : List Nat} {H : List (Nat × Int)}
    {x : Ext} {r : Ret} (h : accounted sbi E K H) (hx : x.allocated < 0)
    (hr : fail_effect sbi x r) (href : ∀ e, referenced r.sbi e → referenced sbi e) :
    accounted r.sbi E (K ++ [x.blocknr]) (H ++ [(r.blocknr, r.allocated)]) := by
  obtain ⟨a1, a2, a3, a4, a5, a6⟩ := h
  obtain ⟨h1, h2, -, -⟩ := hr
  have hno : ¬ (0 : Int) ≤ r.allocated := by
    rw [h1]
    omega
  refine ⟨a1, fun e he => a2 e (href e he), fun e he => ?_, fun e he e' he' hb => ?_,
    fun e he => ?_, fun q hq hok => ?_⟩
  · rw [(h2 e).2]
    exact List.mem_append_left _ (a3 e he)
  · rw [(h2 e).2, (h2 e').2] at hb
    exact a4 e he e' he' hb
  · rw [returns_of_append, (h2 e).1, (h2 e).2, a5 e he, if_neg (fun hb => hno hb.1),
      Nat.add_zero]
  · rcases List.mem_append.1 hq with hq | hq
    · obtain ⟨e, he, hb⟩ := a6 q hq hok
      exact ⟨e, he, by rw [(h2 e).2]; exact hb⟩
    · rw [List.mem_singleton] at hq
      subst hq
      exact absurd hok hno

/-- A write that allocates with success, the allocators returning unused numbers, extends the
accounting by the entry it creates. -/
theorem accounted_create {sbi : nova_sb_info} {E K : List Nat} {H : List (Nat × Int)}
    {x : Ext} {data : Chunk} {r : Ret} (h : accounted sbi E K H) (hx : ¬ x.allocated < 0)
    (hE : x.alloc_entry ∉ E) (hK : x.blocknr ∉ K)
    (hr : create_effect sbi x data r)
    (href : ∀ e, referenced r.sbi e → referenced sbi e ∨ e = x.alloc_entry) :
    accounted r.sbi (E ++ [x.alloc_entry]) (K ++ [x.blocknr])
      (H ++ [(r.blocknr, r.allocated)]) := by
  obtain ⟨a1, a2, a3, a4, a5, a6⟩ := h
  obtain ⟨h1, h2, h3, h4, h5, -, -⟩ := hr
  have hok : (0 : Int) ≤ r.allocated := by
    rw [h1]
    omega
  have hne : ∀ e ∈ E, e ≠ x.alloc_entry := fun e he hee => hE (hee ▸ he)
  have hblk : ∀ e ∈ E, (r.sbi.pentries e).blocknr = (sbi.pentries e).blocknr :=
    fun e he => (h5 e (hne e he)).2
  have hnb : ∀ e ∈ E, (sbi.pentries e).blocknr ≠ x.blocknr :=
    fun e he hb => hK (hb ▸ a3 e he)
  have hzero : returns_of H x.blocknr = 0 := by
    apply returns_of_eq_zero
    intro q hq hqok hqb
    obtain ⟨e, he, hb⟩ := a6 q hq hqok
    exact hnb e he (hb.trans hqb)
  refine ⟨?_, fun e he => ?_, fun e he => ?_, fun e he e' he' hb => ?_,
    fun e he => ?_, fun q hq hqok => ?_⟩
  · rw [List.nodup_append]
    refine ⟨a1, List.nodup_singleton _, ?_⟩
    intro e he he'
    rw [List.mem_singleton] at he'
    exact hne e he he'
  · rcases href e he with h' | h'
    · exact List.mem_append_left _ (a2 e h')
    · rw [h']
      exact List.mem_append_right _ (List.mem_singleton_self _)
  · rcases List.mem_append.1 he with he | he
    · rw [hblk e he]
      exact List.mem_append_left _ (a3 e he)
    · rw [List.mem_singleton] at he
      rw [he, h4]
      exact List.mem_append_right _ (List.mem_singleton_self _)
  · rcases List.mem_append.1 he with he | he <;> rcases List.mem_append.1 he' with he' | he'
    · rw [hblk e he, hblk e' he'] at hb
      exact a4 e he e' he' hb
    · rw [List.mem_singleton] at he'
      rw [he', h4, hblk e he] at hb
      exact absurd hb (hnb e he)
    · rw [List.mem_singleton] at he
      rw [he, h4, hblk e' he'] at hb
      exact absurd hb.symm (hnb e' he')
    · rw [List.mem_singleton] at he he'
      rw [he, he']
  · rw [returns_of_append, h1, h2]
    rcases List.mem_append.1 he with he | he
    · have hn : ¬ (0 ≤ x.allocated ∧ x.blocknr = (r.sbi.pentries e).blocknr) := by
        rw [hblk e he]
        exact fun hb => hnb e he hb.2.symm
      rw [if_neg hn, Nat.add_zero, hblk e he, (h5 e (hne e he)).1, a5 e he]
    · rw [List.mem_singleton] at he
      rw [he, h3, h4, hzero, if_pos ⟨by omega, rfl⟩]
      exact one_mod_u32
  · rcases List.mem_append.1 hq with hq | hq
    · obtain ⟨e, he, hb⟩ := a6 q hq hqok
      exact ⟨e, List.mem_append_left _ he, by rw [hblk e he]; exact hb⟩
    · rw [List.mem_singleton] at hq
      subst hq
      exact ⟨x.alloc_entry, List.mem_append_right _ (List.mem_singleton_self _),
        h4.trans h2.symm⟩

theorem mem_write_creates {cfg : Config} {a : Algo} {sbi : nova_sb_info} {x : Ext}
    {data : Chunk} {e : Nat} (h : e ∈ write_creates cfg a sbi x data) : e = x.alloc_entry := by
  unfold write_creates at h
  split at h
  · exact List.mem_singleton.1 h
  · cases h

/-- Any write, the allocators returning unused numbers, keeps the accounting, extended by the
entry the write creates. -/
theorem algo_accounted (cfg : Config) (a : Algo) (sbi : nova_sb_info) (x : Ext)
    (data : Chunk) (b : Nat) (E K : List Nat) (H : List (Nat × Int))
    (h : accounted sbi E K H) (hE : x.alloc_entry ∉ E) (hK : x.blocknr ∉ K) :
    accounted (run_algo cfg a sbi x data b).sbi (E ++ write_creates cfg a sbi x data)
      (K ++ [x.blocknr])
      (H ++ [((run_algo cfg a sbi x data b).blocknr, (run_algo cfg a sbi x data b).allocated)]) := by
  obtain ⟨hh, hc, hf⟩ := algo_effect cfg a sbi x data b
  have href := algo_referenced cfg a sbi x data b
  unfold write_creates
  cases hm : algo_match cfg a sbi data with
  | some e0 =>
    rw [if_neg (by simp), List.append_nil]
    refine accounted_hit h (h.2.1 e0 (algo_match_referenced hm)) (hh e0 hm) (fun e he => ?_)
    rcases href e he with h1 | ⟨h1, -⟩
    · exact h1
    · rw [hm] at h1
      cases h1
  | none =>
    by_cases hx : x.allocated < 0
    · rw [if_neg (by simp [hx]), List.append_nil]
      refine accounted_fail h hx (hf hm hx) (fun e he => ?_)
      rcases href e he with h1 | ⟨-, h1, -⟩
      · exact h1
      · exact absurd hx h1
    · rw [if_pos ⟨rfl, hx⟩]
      refine accounted_create h hx hE hK (hc hm hx) (fun e he => ?_)
      rcases href e he with h1 | ⟨-, -, h1⟩
      · exact Or.inl h1
      · exact Or.inr h1

/-- The accounting after any sequence of writes whose allocators return pairwise distinct,
unused numbers. -/
theorem mixed_accounted (cfg : Config) (ws : List (Algo × Ext × Chunk)) :
    ∀ (sbi : nova_sb_info) (b : Nat) (E K : List Nat) (H : List (Nat × Int)),
      accounted sbi E K H →
      (ws.map (fun w => w.2.1.alloc_entry)).Nodup → (∀ w ∈ ws, w.2.1.alloc_entry ∉ E) →
      (ws.map (fun w => w.2.1.blocknr)).Nodup → (∀ w ∈ ws, w.2.1.blocknr ∉ K) →
      accounted (mixed_state cfg sbi b ws) (E ++ mixed_created cfg sbi b ws)
        (K ++ ws.map (fun w => w.2.1.blocknr)) (H ++ mixed_rets cfg sbi b ws) := by
  induction ws with
  | nil =>
    intro sbi b E K H h _ _ _ _
    simp only [mixed_state, mixed_created, mixed_rets, List.map_nil, List.append_nil]
    exact h
  | cons w rest ih =>
    intro sbi b E K H h hE hE' hK hK'
    rw [List.map_cons, List.nodup_cons] at hE hK
    have h1 := algo_accounted cfg w.1 sbi w.2.1 w.2.2 b E K H h
      (hE' w (List.mem_cons_self _ _)) (hK' w (List.mem_cons_self _ _))
    have h2 := ih _ (run_algo cfg w.1 sbi w.2.1 w.2.2 b).blocknr _ _ _ h1 hE.2
      (by
        intro w' hw' hmem
        rcases List.mem_append.1 hmem with hm | hm
        · exact hE' w' (List.mem_cons_of_mem _ hw') hm
        · exact hE.1 (List.mem_map.2 ⟨w', hw', mem_write_creates hm⟩))
      hK.2
      (by
        intro w' hw' hmem
        rcases List.mem_append.1 hmem with hm | hm
        · exact hK' w' (List.mem_cons_of_mem _ hw') hm
        · rw [List.mem_singleton] at hm
          exact hK.1 (List.mem_map.2 ⟨w', hw', hm⟩))
    simp only [mixed_state, mixed_created, mixed_rets, List.map_cons]
    simp only [List.append_assoc, List.singleton_append] at h2
    exact h2

theorem accounted_of_empty (sbi : nova_sb_info) (h : index_empty sbi) :
    accounted sbi [] [] [] := by
  refine ⟨List.nodup_nil, ?_, ?_, ?_, ?_, ?_⟩
  · rintro e ⟨b, n, hn, -⟩
    rw [(h b).1, (h b).2] at hn
    simp at hn
  · intro e he; cases he
  · intro e he; cases he
  · intro e he; cases he
  · intro r hr; cases hr

theorem sum_indicator (E : List Nat) (p : Nat → Prop) [DecidablePred p] :
    (E.map (fun e => if p e then 1 else 0)).sum = E.countP (fun e => decide (p e)) := by
  induction E with
  | nil => rfl
  | cons a rest ih =>
    rw [List.map_cons, List.sum_cons, ih, List.countP_cons]
    by_cases ha : p a <;> simp [ha, Nat.add_comm]

/-- The successful writes of a history are shared out among the entries by the block number
returned. -/
theorem sum_returns_of (E : List Nat) (blk : Nat → Nat) (hE : E.Nodup)
    (hinj : ∀ e ∈ E, ∀ e' ∈ E, blk e = blk e' → e = e') (H : List (Nat × Int))
    (hcov : ∀ r ∈ H, 0 ≤ r.2 → ∃ e ∈ E, blk e = r.1) :
    (E.map (fun e => returns_of H (blk e))).sum = successes H := by
  induction H with
  | nil => simp [returns_of, successes]
  | cons r rest ih =>
    have ih' := ih (fun q hq => hcov q (List.mem_cons_of_mem _ hq))
    have hstep : ∀ e, returns_of (r :: rest) (blk e)
        = returns_of rest (blk e) + (if 0 ≤ r.2 ∧ r.1 = blk e then 1 else 0) := by
      intro e
      unfold returns_of
      rw [List.countP_cons]
      by_cases h1 : 0 ≤ r.2 <;> by_cases h2 : r.1 = blk e <;> simp [h1, h2]
    simp only [hstep]
    rw [List.sum_map_add, ih']
    unfold successes
    rw [List.countP_cons]
    congr 1
    by_cases hok : 0 ≤ r.2
    · obtain ⟨e0, he0, hb0⟩ := hcov r (List.mem_cons_self _ _) hok
      rw [sum_indicator]
      have hcongr : E.countP (fun e => decide (0 ≤ r.2 ∧ r.1 = blk e))
          = E.countP (fun e => e == e0) := by
        apply List.countP_congr
        intro e he
        simp only [decide_eq_true_eq, beq_iff_eq]
        constructor
        · intro hh
          exact hinj e he e0 he0 (hh.2.symm.trans hb0.symm)
        · intro hh
          rw [hh]
          exact ⟨hok, hb0.symm⟩
      rw [hcongr]
      have := List.count_eq_one_of_mem hE he0
      unfold List.count at this
      rw [this]
      simp [hok]
    · have : ∀ e, (if 0 ≤ r.2 ∧ r.1 = blk e then 1 else 0) = 0 := by
        intro e
        rw [if_neg (fun hh => hok hh.1)]
      simp [this, hok]

/-! ## The strong-index invariant -/

theorem mem_add_head_self (tbl : Nat → List nova_hentry) (idx e : Nat) :
    (⟨e⟩ : nova_hentry) ∈ add_head tbl idx e idx := by
  unfold add_head
  rw [upd_same]
  exact List.mem_cons_self _ _

theorem mem_add_head_of_mem {tbl : Nat → List nova_hentry} {idx e b : Nat} {n : nova_hentry}
    (h : n ∈ tbl b) : n ∈ add_head tbl idx e b := by
  unfold add_head
  rw [upd_apply]
  split
  · rename_i hb
    rw [← hb]
    exact List.mem_cons_of_mem _ h
  · exact h

theorem strong_inv_mono {cfg : Config} {bits : Nat} {p : Nat → nova_pmm_entry}
    {w s : Nat → List nova_hentry} {blk : Nat → Chunk} {E K E' K' : List Nat}
    (h : strong_inv cfg bits p w s blk E K) (hE : ∀ e, e ∈ E → e ∈ E')
    (hK : ∀ k, k ∈ K → k ∈ K') : strong_inv cfg bits p w s blk E' K' :=
  ⟨h.1, h.2.1, h.2.2.1, fun b n hn => ⟨hE _ (h.2.2.2 b n hn).1, hK _ (h.2.2.2 b n hn).2⟩⟩

/-- Stores to an entry that leave its flag, strong fingerprint and block number as they were
keep the invariant. -/
theorem strong_inv_touch {cfg : Config} {bits : Nat} {p : Nat → nova_pmm_entry}
    {w s : Nat → List nova_hentry} {blk : Nat → Chunk} {E K : List Nat}
    (h : strong_inv cfg bits p w s blk E K) (e : Nat) (q : nova_pmm_entry)
    (hf : q.flag = (p e).flag) (hs : q.fp_strong = (p e).fp_strong)
    (hb : q.blocknr = (p e).blocknr) :
    strong_inv cfg bits (upd p e q) w s blk E K := by
  have hk : ∀ k, (upd p e q k).flag = (p k).flag ∧ (upd p e q k).fp_strong = (p k).fp_strong ∧
      (upd p e q k).blocknr = (p k).blocknr := by
    intro k
    rw [upd_apply]
    split
    · rename_i hke
      rw [hke]
      exact ⟨hf, hs, hb⟩
    · exact ⟨rfl, rfl, rfl⟩
  obtain ⟨a1, a2, a3, a4⟩ := h
  refine ⟨fun b n hn => ?_, fun k hkf => ?_, fun k hkf => ?_, fun b n hn => ?_⟩
  · rw [(hk _).1, (hk _).2.1]
    exact a1 b n hn
  · rw [(hk k).1] at hkf
    rw [(hk k).2.1]
    exact a2 k hkf
  · rw [(hk k).1] at hkf
    unfold fp_valid
    rw [(hk k).2.1, (hk k).2.2]
    exact a3 k hkf
  · rw [(hk _).2.2]
    exact a4 b n hn

/-- An entry that a node references and whose flag is not `FP_STRONG_FLAG` is given that flag,
the fingerprint of the content of its block, and a node in the strong bucket of that
fingerprint. -/
theorem strong_inv_make_strong {cfg : Config} {bits : Nat} {p : Nat → nova_pmm_entry}
    {w s : Nat → List nova_hentry} {blk : Nat → Chunk} {E K : List Nat}
    (h : strong_inv cfg bits p w s blk E K) (e : Nat) (q : nova_pmm_entry)
    (hne : (p e).flag ≠ cfg.FP_STRONG_FLAG) (hE : e ∈ E) (hK : (p e).blocknr ∈ K)
    (hf : q.flag = cfg.FP_STRONG_FLAG)
    (hs : q.fp_strong = cfg.nova_fp_strong_calc (blk (p e).blocknr))
    (hb : q.blocknr = (p e).blocknr) :
    strong_inv cfg bits (upd p e q) w (add_head s (bucket_of bits q.fp_strong.u64s0) e) blk
      E K := by
  obtain ⟨a1, a2, a3, a4⟩ := h
  have hold : ∀ b n, n ∈ s b → n.entrynr ≠ e := by
    intro b n hn hne'
    exact hne (hne' ▸ (a1 b n hn).1)
  refine ⟨fun b n hn => ?_, fun k hkf => ?_, fun k hkf => ?_, fun b n hn => ?_⟩
  · rcases mem_add_head hn with h1 | ⟨h1, h2⟩
    · rw [upd_other _ _ (hold b n h1)]
      exact a1 b n h1
    · rw [h2, upd_same, h1]
      exact ⟨hf, rfl⟩
  · by_cases hke : k = e
    · rw [hke, upd_same]
      exact ⟨⟨e⟩, mem_add_head_self _ _ _, rfl⟩
    · rw [upd_other _ _ hke] at hkf ⊢
      obtain ⟨n, hn, hne'⟩ := a2 k hkf
      exact ⟨n, mem_add_head_of_mem hn, hne'⟩
  · unfold fp_valid
    by_cases hke : k = e
    · rw [hke, upd_same, hs, hb]
    · rw [upd_other _ _ hke] at hkf ⊢
      exact a3 k hkf
  · have hblk : ∀ k, k ∈ E → (p k).blocknr ∈ K → (upd p e q k).blocknr ∈ K := by
      intro k _ hk2
      rw [upd_apply]
      split
      · rw [hb]
        exact hK
      · exact hk2
    rcases hn with hn | hn
    · obtain ⟨h1, h2⟩ := a4 b n (Or.inl hn)
      exact ⟨h1, hblk _ h1 h2⟩
    · rcases mem_add_head hn with h1 | ⟨-, h2⟩
      · obtain ⟨h3, h4⟩ := a4 b n (Or.inr h1)
        exact ⟨h3, hblk _ h3 h4⟩
      · rw [h2]
        exact ⟨hE, hblk _ hE hK⟩

/-- A node for an entry already accounted for is added to the weak table. -/
theorem strong_inv_weak_add {cfg : Config} {bits : Nat} {p : Nat → nova_pmm_entry}
    {w s : Nat → List nova_hentry} {blk : Nat → Chunk} {E K : List Nat}
    (h : strong_inv cfg bits p w s blk E K) (wi e : Nat) (hE : e ∈ E)
    (hK : (p e).blocknr ∈ K) :
    strong_inv cfg bits p (add_head w wi e) s blk E K := by
  obtain ⟨a1, a2, a3, a4⟩ := h
  refine ⟨a1, a2, a3, fun b n hn => ?_⟩
  rcases hn with hn | hn
  · rcases mem_add_head hn with h1 | ⟨-, h2⟩
    · exact a4 b n (Or.inl h1)
    · rw [h2]
      exact ⟨hE, hK⟩
  · exact a4 b n (Or.inr hn)

theorem strong_inv_weak_after {cfg : Config} {bits : Nat} {p : Nat → nova_pmm_entry}
    {w s : Nat → List nova_hentry} {blk : Nat → Chunk} {E K : List Nat}
    (h : strong_inv cfg bits p w s blk E K) (wl : Option nova_hentry) (wi e : Nat)
    (hE : e ∈ E) (hK : (p e).blocknr ∈ K) :
    strong_inv cfg bits p (weak_table_after wl w wi e) s blk E K := by
  cases wl with
  | some _ => exact h
  | none => exact strong_inv_weak_add h wi e hE hK

/-- A new entry is written to an unused entry number with an unused block; when its flag is
`FP_STRONG_FLAG` it carries the fingerprint of the data and gets a strong node in the bucket of
that fingerprint. -/
theorem strong_inv_create {cfg : Config} {bits : Nat} {p : Nat → nova_pmm_entry}
    {w s : Nat → List nova_hentry} {blk : Nat → Chunk} {E K : List Nat}
    (h : strong_inv cfg bits p w s blk E K) (e0 k0 : Nat) (q : nova_pmm_entry) (data : Chunk)
    (s' : Nat → List nova_hentry) (hE : e0 ∉ E) (hK : k0 ∉ K) (hb : q.blocknr = k0)
    (hq : (q.flag = cfg.FP_STRONG_FLAG ∧ q.fp_strong = cfg.nova_fp_strong_calc data ∧
        s' = add_head s (bucket_of bits q.fp_strong.u64s0) e0) ∨
      (q.flag ≠ cfg.FP_STRONG_FLAG ∧ s' = s)) :
    strong_inv cfg bits (upd p e0 q) w s' (upd blk k0 data) (e0 :: E) (k0 :: K) := by
  obtain ⟨a1, a2, a3, a4⟩ := h
  have hnode : ∀ b n, n ∈ w b ∨ n ∈ s b → n.entrynr ≠ e0 := by
    intro b n hn hne'
    exact hE (hne' ▸ (a4 b n hn).1)
  have hstrongK : ∀ k, (p k).flag = cfg.FP_STRONG_FLAG → k ≠ e0 ∧ (p k).blocknr ≠ k0 := by
    intro k hk
    obtain ⟨n, hn, hne'⟩ := a2 k hk
    obtain ⟨h1, h2⟩ := a4 _ n (Or.inr hn)
    rw [hne'] at h1 h2
    exact ⟨fun hh => hE (hh ▸ h1), fun hh => hK (hh ▸ h2)⟩
  have hs' : ∀ b n, n ∈ s' b → n ∈ s b ∨
      (n = ⟨e0⟩ ∧ q.flag = cfg.FP_STRONG_FLAG ∧ b = bucket_of bits q.fp_strong.u64s0) := by
    intro b n hn
    rcases hq with ⟨h1, -, h3⟩ | ⟨-, h3⟩
    · rw [h3] at hn
      rcases mem_add_head hn with h4 | ⟨h4, h5⟩
      · exact Or.inl h4
      · exact Or.inr ⟨h5, h1, h4⟩
    · rw [h3] at hn
      exact Or.inl hn
  have hs'' : ∀ b n, n ∈ s b → n ∈ s' b := by
    intro b n hn
    rcases hq with ⟨-, -, h3⟩ | ⟨-, h3⟩
    · rw [h3]
      exact mem_add_head_of_mem hn
    · rw [h3]
      exact hn
  refine ⟨fun b n hn => ?_, fun k hkf => ?_, fun k hkf => ?_, fun b n hn => ?_⟩
  · rcases hs' b n hn with h1 | ⟨h1, h2, h3⟩
    · rw [upd_other _ _ (hnode b n (Or.inr h1))]
      exact a1 b n h1
    · rw [h1, upd_same, h3]
      exact ⟨h2, rfl⟩
  · by_cases hke : k = e0
    · rw [hke, upd_same] at hkf ⊢
      rcases hq with ⟨-, -, h3⟩ | ⟨h1, -⟩
      · rw [h3]
        exact ⟨⟨e0⟩, mem_add_head_self _ _ _, rfl⟩
      · exact absurd hkf h1
    · rw [upd_other _ _ hke] at hkf ⊢
      obtain ⟨n, hn, hne'⟩ := a2 k hkf
      exact ⟨n, hs'' _ n hn, hne'⟩
  · unfold fp_valid
    by_cases hke : k = e0
    · rw [hke, upd_same] at hkf ⊢
      rcases hq with ⟨-, h2, -⟩ | ⟨h1, -⟩
      · rw [hb, upd_same, h2]
      · exact absurd hkf h1
    · rw [upd_other _ _ hke] at hkf ⊢
      rw [upd_other _ _ (hstrongK k hkf).2]
      exact a3 k hkf
  · have hnew : (⟨e0⟩ : nova_hentry).entrynr ∈ e0 :: E ∧
        (upd p e0 q (⟨e0⟩ : nova_hentry).entrynr).blocknr ∈ k0 :: K := by
      refine ⟨List.mem_cons_self _ _, ?_⟩
      show (upd p e0 q e0).blocknr ∈ k0 :: K
      rw [upd_same, hb]
      exact List.mem_cons_self _ _
    have hold : ∀ b n, n ∈ w b ∨ n ∈ s b →
        n.entrynr ∈ e0 :: E ∧ (upd p e0 q n.entrynr).blocknr ∈ k0 :: K := by
      intro b n hn'
      rw [upd_other _ _ (hnode b n hn')]
      exact ⟨List.mem_cons_of_mem _ (a4 b n hn').1, List.mem_cons_of_mem _ (a4 b n hn').2⟩
    rcases hn with hn | hn
    · exact hold b n (Or.inl hn)
    · rcases hs' b n hn with h1 | ⟨h1, -, -⟩
      · exact hold b n (Or.inr h1)
      · rw [h1]
        exact hnew
theorem strong_inv_ref {cfg : Config} {sbi : nova_sb_info} {E K : List Nat} {data : Chunk}
    {wh : nova_hentry}
    (h : strong_inv cfg sbi.num_entries_bits sbi.pentries sbi.weak_hash_table
      sbi.strong_hash_table sbi.blocks E K)
    (hw : weak_lookup cfg sbi data = some wh) :
    strong_inv cfg sbi.num_entries_bits (ref_pentries cfg sbi wh.entrynr) sbi.weak_hash_table
      (ref_strong_table cfg sbi wh.entrynr) sbi.blocks E K := by
  unfold ref_pentries ref_strong_table
  by_cases hu : ref_upgrades cfg sbi wh.entrynr = true
  · rw [if_pos hu, if_pos hu]
    have hmem : wh ∈ sbi.weak_hash_table (weak_idx_of cfg sbi data) := by
      unfold weak_lookup at hw
      exact (find_weak_mem hw).1
    obtain ⟨hE, hK⟩ := h.2.2.2 _ wh (Or.inl hmem)
    unfold ref_upgrades at hu
    simp only [decide_eq_true_eq] at hu
    exact strong_inv_make_strong h wh.entrynr _ hu.1 hE hK rfl rfl rfl
  · rw [if_neg hu, if_neg hu]
    exact h

theorem non_fin_strong_inv (cfg : Config) (sbi : nova_sb_info) (x : Ext) (data : Chunk)
    (b : Nat) (E K : List Nat) (hN : cfg.NON_FIN_FLAG ≠ cfg.FP_STRONG_FLAG)
    (h : strong_inv cfg sbi.num_entries_bits sbi.pentries sbi.weak_hash_table
      sbi.strong_hash_table sbi.blocks E K)
    (hE : x.alloc_entry ∉ E) (hK : x.blocknr ∉ K) :
    strong_inv cfg (nova_dedup_non_fin cfg sbi x data b).sbi.num_entries_bits
      (nova_dedup_non_fin cfg sbi x data b).sbi.pentries
      (nova_dedup_non_fin cfg sbi x data b).sbi.weak_hash_table
      (nova_dedup_non_fin cfg sbi x data b).sbi.strong_hash_table
      (nova_dedup_non_fin cfg sbi x data b).sbi.blocks (x.alloc_entry :: E) (x.blocknr :: K) := by
  rw [(non_fin_ctrl cfg sbi x data b).2.2]
  by_cases hx : x.allocated < 0
  · obtain ⟨-, -, h3, h4, h5, h6, -⟩ := non_fin_fail cfg sbi x data b hx _ rfl
    rw [h3, h4, h5, h6]
    exact strong_inv_mono h (fun _ => List.mem_cons_of_mem _) (fun _ => List.mem_cons_of_mem _)
  · obtain ⟨-, -, h3, h4, h5, h6, -⟩ := non_fin_ok cfg sbi x data b hx _ rfl
    rw [h3, h4, h5, h6]
    exact strong_inv_create h _ _ _ data _ hE hK rfl (Or.inr ⟨hN, rfl⟩)

theorem str_fin_strong_inv (cfg : Config) (sbi : nova_sb_info) (x : Ext) (data : Chunk)
    (b : Nat) (E K : List Nat)
    (h : strong_inv cfg sbi.num_entries_bits sbi.pentries sbi.weak_hash_table
      sbi.strong_hash_table sbi.blocks E K)
    (hE : x.alloc_entry ∉ E) (hK : x.blocknr ∉ K) :
    strong_inv cfg (nova_dedup_str_fin cfg sbi x data b).sbi.num_entries_bits
      (nova_dedup_str_fin cfg sbi x data b).sbi.pentries
      (nova_dedup_str_fin cfg sbi x data b).sbi.weak_hash_table
      (nova_dedup_str_fin cfg sbi x data b).sbi.strong_hash_table
      (nova_dedup_str_fin cfg sbi x data b).sbi.blocks (x.alloc_entry :: E) (x.blocknr :: K) := by
  rw [(str_fin_ctrl cfg sbi x data b).2.2]
  have hmono : ∀ {p w s blk}, strong_inv cfg sbi.num_entries_bits p w s blk E K →
      strong_inv cfg sbi.num_entries_bits p w s blk (x.alloc_entry :: E) (x.blocknr :: K) :=
    fun hh => strong_inv_mono hh (fun _ => List.mem_cons_of_mem _)
      (fun _ => List.mem_cons_of_mem _)
  cases hs : strong_lookup cfg sbi data with
  | some sh =>
    obtain ⟨-, -, h3, h4, h5, h6, -⟩ := str_fin_strong_hit cfg sbi x data b sh hs _ rfl
    rw [h3, h4, h5, h6]
    have hmem : sh ∈ sbi.strong_hash_table (strong_idx_of cfg sbi data) := by
      unfold strong_lookup at hs
      exact (find_strong_mem hs).1
    have h1 := strong_inv_touch h sh.entrynr
      { sbi.pentries sh.entrynr with
        refcount := ((sbi.pentries sh.entrynr).refcount + 1) % U32_MOD,
        fp_weak := cfg.nova_fp_weak_calc data, flag := cfg.FP_STRONG_FLAG }
      (h.1 _ sh hmem).1.symm rfl rfl
    obtain ⟨hE', hK'⟩ := h1.2.2.2 _ sh (Or.inr hmem)
    exact hmono (strong_inv_weak_after h1 _ _ _ hE' hK')
  | none =>
    by_cases hm : str_fin_match cfg sbi data = none
    · by_cases hx : x.allocated < 0
      · obtain ⟨-, -, h3, h4, h5, h6, -⟩ := str_fin_alloc_fail cfg sbi x data b hm hx _ rfl
        rw [h3, h4, h5, h6]
        exact hmono h
      · obtain ⟨-, -, h3, h4, h5, h6, -⟩ := str_fin_alloc_ok cfg sbi x data b hm hx _ rfl
        rw [h3, h4, h5, h6]
        have h1 := strong_inv_create h x.alloc_entry x.blocknr
          ⟨cfg.FP_STRONG_FLAG, x.blocknr, 1, cfg.nova_fp_weak_calc data,
            cfg.nova_fp_strong_calc data⟩ data
          (add_head sbi.strong_hash_table (strong_idx_of cfg sbi data) x.alloc_entry)
          hE hK rfl (Or.inl ⟨rfl, rfl, rfl⟩)
        refine strong_inv_weak_after h1 _ _ _ (List.mem_cons_self _ _) ?_
        rw [upd_same]
        exact List.mem_cons_self _ _
    · unfold str_fin_match at hm
      simp only [hs] at hm
      cases hw : weak_lookup cfg sbi data with
      | none => simp [hw] at hm
      | some wh =>
        simp only [hw] at hm
        by_cases hc : cmp_fp_strong
            (cfg.nova_fp_strong_calc (sbi.blocks (sbi.pentries wh.entrynr).blocknr))
            (cfg.nova_fp_strong_calc data) = true
        · obtain ⟨-, -, h3, h4, h5, h6, -⟩ :=
            str_fin_weak_verified cfg sbi x data b wh hs hw hc _ rfl
          rw [h3, h4, h5, h6]
          have hceq := (cmp_fp_strong_eq _ _).1 hc
          have hmem : wh ∈ sbi.weak_hash_table (weak_idx_of cfg sbi data) := by
            unfold weak_lookup at hw
            exact (find_weak_mem hw).1
          obtain ⟨hE', hK'⟩ := h.2.2.2 _ wh (Or.inl hmem)
          have hne : (sbi.pentries wh.entrynr).flag ≠ cfg.FP_STRONG_FLAG := by
            intro hfl
            have hv := h.2.2.1 _ hfl
            unfold fp_valid at hv
            obtain ⟨n, hn, hne'⟩ := h.2.1 _ hfl
            rw [hv, hceq] at hn
            unfold strong_lookup at hs
            have := (find_strong_none.1 hs) n hn
            rw [hne', hv, hceq] at this
            exact this rfl
          have h1 := strong_inv_make_strong h wh.entrynr
            { sbi.pentries wh.entrynr with
              fp_strong :=
                cfg.nova_fp_strong_calc (sbi.blocks (sbi.pentries wh.entrynr).blocknr),
              refcount := ((sbi.pentries wh.entrynr).refcount + 1) % U32_MOD,
              flag := cfg.FP_STRONG_FLAG }
            hne hE' hK' rfl rfl rfl
          simp only [hceq] at h1 ⊢
          exact hmono h1
        · simp [hc] at hm

theorem weak_str_fin_strong_inv (cfg : Config) (sbi : nova_sb_info) (x : Ext) (data : Chunk)
    (b : Nat) (E K : List Nat) (hW : cfg.FP_WEAK_FLAG ≠ cfg.FP_STRONG_FLAG)
    (h : strong_inv cfg sbi.num_entries_bits sbi.pentries sbi.weak_hash_table
      sbi.strong_hash_table sbi.blocks E K)
    (hE : x.alloc_entry ∉ E) (hK : x.blocknr ∉ K) :
    strong_inv cfg (nova_dedup_weak_str_fin cfg sbi x data b).sbi.num_entries_bits
      (nova_dedup_weak_str_fin cfg sbi x data b).sbi.pentries
      (nova_dedup_weak_str_fin cfg sbi x data b).sbi.weak_hash_table
      (nova_dedup_weak_str_fin cfg sbi x data b).sbi.strong_hash_table
      (nova_dedup_weak_str_fin cfg sbi x data b).sbi.blocks (x.alloc_entry :: E)
      (x.blocknr :: K) := by
  rw [(weak_str_fin_ctrl cfg sbi x data b).2.2]
  have hmono : ∀ {p w s blk}, strong_inv cfg sbi.num_entries_bits p w s blk E K →
      strong_inv cfg sbi.num_entries_bits p w s blk (x.alloc_entry :: E) (x.blocknr :: K) :=
    fun hh => strong_inv_mono hh (fun _ => List.mem_cons_of_mem _)
      (fun _ => List.mem_cons_of_mem _)
  cases hw : weak_lookup cfg sbi data with
  | none =>
    by_cases hx : x.allocated < 0
    · obtain ⟨-, -, h3, h4, h5, h6, -⟩ := weak_str_fin_miss_fail cfg sbi x data b hw hx _ rfl
      rw [h3, h4, h5, h6]
      exact hmono h
    · obtain ⟨-, -, h3, h4, h5, h6, -⟩ := weak_str_fin_miss_ok cfg sbi x data b hw hx _ rfl
      rw [h3, h4, h5, h6]
      have h1 := strong_inv_create h x.alloc_entry x.blocknr
        ⟨cfg.FP_WEAK_FLAG, x.blocknr, 1, cfg.nova_fp_weak_calc data, nova_fp_strong.zero⟩ data
        sbi.strong_hash_table hE hK rfl (Or.inr ⟨hW, rfl⟩)
      refine strong_inv_weak_add h1 _ _ (List.mem_cons_self _ _) ?_
      rw [upd_same]
      exact List.mem_cons_self _ _
  | some wh =>
    have href := strong_inv_ref h hw
    by_cases hc : cmp_fp_strong (cfg.nova_fp_strong_calc data) (ref_fp cfg sbi wh.entrynr) = true
    · obtain ⟨-, -, h3, h4, h5, h6, -⟩ := weak_str_fin_dup cfg sbi x data b wh hw hc _ rfl
      rw [h3, h4, h5, h6]
      exact hmono (strong_inv_touch href wh.entrynr _ rfl rfl rfl)
    · simp only [Bool.not_eq_true] at hc
      cases hs : collision_lookup cfg sbi data wh.entrynr with
      | some sh =>
        obtain ⟨-, -, h3, h4, h5, h6, -⟩ :=
          weak_str_fin_collision_hit cfg sbi x data b wh sh hw hc hs _ rfl
        rw [h3, h4, h5, h6]
        exact hmono (strong_inv_touch href sh.entrynr _ rfl rfl rfl)
      | none =>
        by_cases hx : x.allocated < 0
        · obtain ⟨-, -, h3, h4, h5, h6, -⟩ :=
            weak_str_fin_collision_fail cfg sbi x data b wh hw hc hs hx _ rfl
          rw [h3, h4, h5, h6]
          exact hmono href
        · obtain ⟨-, -, h3, h4, h5, h6, -⟩ :=
            weak_str_fin_collision_ok cfg sbi x data b wh hw hc hs hx _ rfl
          rw [h3, h4, h5, h6]
          exact strong_inv_create href x.alloc_entry x.blocknr
            ⟨cfg.FP_STRONG_FLAG, x.blocknr, 1, cfg.nova_fp_weak_calc data,
              cfg.nova_fp_strong_calc data⟩ data _ hE hK rfl (Or.inl ⟨rfl, rfl, rfl⟩)
theorem algo_strong_inv (cfg : Config) (a : Algo) (sbi : nova_sb_info) (x : Ext)
    (data : Chunk) (b : Nat) (E K : List Nat)
    (hW : cfg.FP_WEAK_FLAG ≠ cfg.FP_STRONG_FLAG) (hN : cfg.NON_FIN_FLAG ≠ cfg.FP_STRONG_FLAG)
    (h : strong_inv cfg sbi.num_entries_bits sbi.pentries sbi.weak_hash_table
      sbi.strong_hash_table sbi.blocks E K)
    (hE : x.alloc_entry ∉ E) (hK : x.blocknr ∉ K) :
    strong_inv cfg (run_algo cfg a sbi x data b).sbi.num_entries_bits
      (run_algo cfg a sbi x data b).sbi.pentries
      (run_algo cfg a sbi x data b).sbi.weak_hash_table
      (run_algo cfg a sbi x data b).sbi.strong_hash_table
      (run_algo cfg a sbi x data b).sbi.blocks (x.alloc_entry :: E) (x.blocknr :: K) := by
  cases a with
  | non_fin => exact non_fin_strong_inv cfg sbi x data b E K hN h hE hK
  | weak_str_fin => exact weak_str_fin_strong_inv cfg sbi x data b E K hW h hE hK
  | str_fin => exact str_fin_strong_inv cfg sbi x data b E K h hE hK

/-- The invariant after any sequence of writes whose allocators return pairwise distinct,
unused numbers. -/
theorem mixed_strong_inv (cfg : Config) (hW : cfg.FP_WEAK_FLAG ≠ cfg.FP_STRONG_FLAG)
    (hN : cfg.NON_FIN_FLAG ≠ cfg.FP_STRONG_FLAG) (ws : List (Algo × Ext × Chunk)) :
    ∀ (sbi : nova_sb_info) (b : Nat) (E K : List Nat),
      strong_inv cfg sbi.num_entries_bits sbi.pentries sbi.weak_hash_table
        sbi.strong_hash_table sbi.blocks E K →
      (ws.map (fun w => w.2.1.alloc_entry)).Nodup → (∀ w ∈ ws, w.2.1.alloc_entry ∉ E) →
      (ws.map (fun w => w.2.1.blocknr)).Nodup → (∀ w ∈ ws, w.2.1.blocknr ∉ K) →
      ∃ E' K', strong_inv cfg (mixed_state cfg sbi b ws).num_entries_bits
        (mixed_state cfg sbi b ws).pentries (mixed_state cfg sbi b ws).weak_hash_table
        (mixed_state cfg sbi b ws).strong_hash_table (mixed_state cfg sbi b ws).blocks
        E' K' := by
  induction ws with
  | nil =>
    intro sbi b E K h _ _ _ _
    exact ⟨E, K, h⟩
  | cons w rest ih =>
    intro sbi b E K h hE hE' hK hK'
    rw [List.map_cons, List.nodup_cons] at hE hK
    have h1 := algo_strong_inv cfg w.1 sbi w.2.1 w.2.2 b E K hW hN h
      (hE' w (List.mem_cons_self _ _)) (hK' w (List.mem_cons_self _ _))
    exact ih _ (run_algo cfg w.1 sbi w.2.1 w.2.2 b).blocknr _ _ h1 hE.2
      (by
        intro w' hw' hmem
        rcases List.mem_cons.1 hmem with hm | hm
        · exact hE.1 (List.mem_map.2 ⟨w', hw', hm⟩)
        · exact hE' w' (List.mem_cons_of_mem _ hw') hm)
      hK.2
      (by
        intro w' hw' hmem
        rcases List.mem_cons.1 hmem with hm | hm
        · exact hK.1 (List.mem_map.2 ⟨w', hw', hm⟩)
        · exact hK' w' (List.mem_cons_of_mem _ hw') hm)

theorem strong_inv_of_empty (cfg : Config) (sbi : nova_sb_info) (h : index_empty sbi)
    (hinit : ∀ e, (sbi.pentries e).flag ≠ cfg.FP_STRONG_FLAG) :
    strong_inv cfg sbi.num_entries_bits sbi.pentries sbi.weak_hash_table
      sbi.strong_hash_table sbi.blocks [] [] := by
  refine ⟨fun b n hn => ?_, fun e he => absurd he (hinit e), fun e he => absurd he (hinit e),
    fun b n hn => ?_⟩
  · rw [(h b).2] at hn
    cases hn
  · rw [(h b).1, (h b).2] at hn
    simp at hn

/-! ## The weak-index invariant -/

theorem weak_inv_mono {cfg : Config} {bits : Nat} {p : Nat → nova_pmm_entry}
    {w s : Nat → List nova_hentry} {blk : Nat → Chunk} {E K E' K' : List Nat}
    {C C' : List Chunk} (h : weak_inv cfg bits p w s blk E K C) (hE : ∀ e, e ∈ E → e ∈ E')
    (hK : ∀ k, k ∈ K → k ∈ K') (hC : ∀ c, c ∈ C → c ∈ C') :
    weak_inv cfg bits p w s blk E' K' C' :=
  ⟨h.1, h.2.1, h.2.2.1, h.2.2.2.1, fun b n hn =>
    ⟨hE _ (h.2.2.2.2 b n hn).1, hK _ (h.2.2.2.2 b n hn).2.1, hC _ (h.2.2.2.2 b n hn).2.2⟩⟩

/-- Stores to an entry that leave its weak fingerprint and block number as they were, and its
strong fingerprint as it was or set to the fingerprint of the content of its block, keep the
invariant. -/
theorem weak_inv_touch {cfg : Config} {bits : Nat} {p : Nat → nova_pmm_entry}
    {w s : Nat → List nova_hentry} {blk : Nat → Chunk} {E K : List Nat} {C : List Chunk}
    (h : weak_inv cfg bits p w s blk E K C) (e : Nat) (q : nova_pmm_entry)
    (hw : q.fp_weak = (p e).fp_weak) (hb : q.blocknr = (p e).blocknr)
    (hs : q.fp_strong = (p e).fp_strong ∨
      q.fp_strong = cfg.nova_fp_strong_calc (blk (p e).blocknr)) :
    weak_inv cfg bits (upd p e q) w s blk E K C := by
  have hk : ∀ k, (upd p e q k).fp_weak = (p k).fp_weak ∧
      (upd p e q k).blocknr = (p k).blocknr := by
    intro k
    rw [upd_apply]
    split
    · rename_i hke
      rw [hke]
      exact ⟨hw, hb⟩
    · exact ⟨rfl, rfl⟩
  obtain ⟨a1, a2, a3, a4, a5⟩ := h
  refine ⟨fun b n hn => ?_, fun b => ?_, fun b n hn => ?_, fun b n hn => ?_, fun b n hn => ?_⟩
  · rw [(hk _).1]
    exact a1 b n hn
  · have : (fun n : nova_hentry => (upd p e q n.entrynr).fp_weak)
        = (fun n : nova_hentry => (p n.entrynr).fp_weak) := by
      funext n
      exact (hk _).1
    rw [this]
    exact a2 b
  · rw [(hk _).1, (hk _).2]
    exact a3 b n hn
  · unfold fp_valid
    rw [(hk _).2]
    by_cases hne : n.entrynr = e
    · rw [hne, upd_same]
      rcases hs with hs | hs
      · rw [hs]
        have := a4 b n hn
        unfold fp_valid at this
        rw [hne] at this
        exact this
      · exact hs
    · rw [upd_other _ _ hne]
      exact a4 b n hn
  · unfold entry_backed
    rw [(hk _).2]
    exact a5 b n hn

/-- A strong node is added for an entry that is backed and whose two stored fingerprints are
those of the content of its block. -/
theorem weak_inv_strong_add {cfg : Config} {bits : Nat} {p : Nat → nova_pmm_entry}
    {w s : Nat → List nova_hentry} {blk : Nat → Chunk} {E K : List Nat} {C : List Chunk}
    (h : weak_inv cfg bits p w s blk E K C) (idx e : Nat)
    (hb : entry_backed p blk E K C e)
    (hwv : (p e).fp_weak = cfg.nova_fp_weak_calc (blk (p e).blocknr))
    (hv : fp_valid cfg p blk e) :
    weak_inv cfg bits p w (add_head s idx e) blk E K C := by
  obtain ⟨a1, a2, a3, a4, a5⟩ := h
  refine ⟨a1, a2, fun b n hn => ?_, fun b n hn => ?_, fun b n hn => ?_⟩
  · rcases hn with hn | hn
    · exact a3 b n (Or.inl hn)
    · rcases mem_add_head hn with h1 | ⟨-, h2⟩
      · exact a3 b n (Or.inr h1)
      · rw [h2]
        exact hwv
  · rcases mem_add_head hn with h1 | ⟨-, h2⟩
    · exact a4 b n h1
    · rw [h2]
      exact hv
  · rcases hn with hn | hn
    · exact a5 b n (Or.inl hn)
    · rcases mem_add_head hn with h1 | ⟨-, h2⟩
      · exact a5 b n (Or.inr h1)
      · rw [h2]
        exact hb

/-- A weak node is added, in the bucket of its weak fingerprint, for a backed entry whose
weak fingerprint no node of that bucket carries. -/
theorem weak_inv_weak_add {cfg : Config} {bits : Nat} {p : Nat → nova_pmm_entry}
    {w s : Nat → List nova_hentry} {blk : Nat → Chunk} {E K : List Nat} {C : List Chunk}
    (h : weak_inv cfg bits p w s blk E K C) (wi e : Nat)
    (hb : entry_backed p blk E K C e)
    (hwv : (p e).fp_weak = cfg.nova_fp_weak_calc (blk (p e).blocknr))
    (hidx : bucket_of bits (p e).fp_weak = wi)
    (hnew : ∀ n ∈ w wi, (p n.entrynr).fp_weak ≠ (p e).fp_weak) :
    weak_inv cfg bits p (add_head w wi e) s blk E K C := by
  obtain ⟨a1, a2, a3, a4, a5⟩ := h
  refine ⟨fun b n hn => ?_, fun b => ?_, fun b n hn => ?_, a4, fun b n hn => ?_⟩
  · rcases mem_add_head hn with h1 | ⟨h1, h2⟩
    · exact a1 b n h1
    · rw [h2, h1]
      exact hidx
  · unfold add_head
    rw [upd_apply]
    split
    · rename_i hbw
      rw [List.map_cons, List.nodup_cons]
      refine ⟨?_, a2 wi⟩
      intro hmem
      obtain ⟨n, hn, hfp⟩ := List.mem_map.1 hmem
      exact hnew n hn hfp
    · exact a2 b
  · rcases hn with hn | hn
    · rcases mem_add_head hn with h1 | ⟨-, h2⟩
      · exact a3 b n (Or.inl h1)
      · rw [h2]
        exact hwv
    · exact a3 b n (Or.inr hn)
  · rcases hn with hn | hn
    · rcases mem_add_head hn with h1 | ⟨-, h2⟩
      · exact a5 b n (Or.inl h1)
      · rw [h2]
        exact hb
    · exact a5 b n (Or.inr hn)

/-- A new entry is written to an unused entry number, with an unused block that receives the
data; no node references it yet. -/
theorem weak_inv_create {cfg : Config} {bits : Nat} {p : Nat → nova_pmm_entry}
    {w s : Nat → List nova_hentry} {blk : Nat → Chunk} {E K : List Nat} {C : List Chunk}
    (h : weak_inv cfg bits p w s blk E K C) (e0 k0 : Nat) (q : nova_pmm_entry) (data : Chunk)
    (hE : e0 ∉ E) (hK : k0 ∉ K) :
    weak_inv cfg bits (upd p e0 q) w s (upd blk k0 data) (e0 :: E) (k0 :: K) (data :: C) := by
  obtain ⟨a1, a2, a3, a4, a5⟩ := h
  have hnode : ∀ b n, n ∈ w b ∨ n ∈ s b →
      upd p e0 q n.entrynr = p n.entrynr ∧
      upd blk k0 data (p n.entrynr).blocknr = blk (p n.entrynr).blocknr := by
    intro b n hn
    obtain ⟨h1, h2, -⟩ := a5 b n hn
    exact ⟨upd_other _ _ (fun hh => hE (hh ▸ h1)), upd_other _ _ (fun hh => hK (hh ▸ h2))⟩
  refine ⟨fun b n hn => ?_, fun b => ?_, fun b n hn => ?_, fun b n hn => ?_, fun b n hn => ?_⟩
  · rw [(hnode b n (Or.inl hn)).1]
    exact a1 b n hn
  · have : (w b).map (fun n => (upd p e0 q n.entrynr).fp_weak)
        = (w b).map (fun n => (p n.entrynr).fp_weak) := by
      apply List.map_congr_left
      intro n hn
      rw [(hnode b n (Or.inl hn)).1]
    rw [this]
    exact a2 b
  · rw [(hnode b n hn).1, (hnode b n hn).2]
    exact a3 b n hn
  · unfold fp_valid
    rw [(hnode b n (Or.inr hn)).1, (hnode b n (Or.inr hn)).2]
    exact a4 b n hn
  · unfold entry_backed
    rw [(hnode b n hn).1, (hnode b n hn).2]
    obtain ⟨h1, h2, h3⟩ := a5 b n hn
    exact ⟨List.mem_cons_of_mem _ h1, List.mem_cons_of_mem _ h2, List.mem_cons_of_mem _ h3⟩
theorem weak_inv_ref {cfg : Config} {sbi : nova_sb_info} {E K : List Nat} {C : List Chunk}
    {data : Chunk} {wh : nova_hentry}
    (h : weak_inv cfg sbi.num_entries_bits sbi.pentries sbi.weak_hash_table
      sbi.strong_hash_table sbi.blocks E K C)
    (hw : weak_lookup cfg sbi data = some wh) :
    weak_inv cfg sbi.num_entries_bits (ref_pentries cfg sbi wh.entrynr) sbi.weak_hash_table
      (ref_strong_table cfg sbi wh.entrynr) sbi.blocks E K C := by
  unfold ref_pentries ref_strong_table
  by_cases hu : ref_upgrades cfg sbi wh.entrynr = true
  · rw [if_pos hu, if_pos hu]
    have hmem : wh ∈ sbi.weak_hash_table (weak_idx_of cfg sbi data) := by
      unfold weak_lookup at hw
      exact (find_weak_mem hw).1
    have h1 := weak_inv_touch h wh.entrynr
      { sbi.pentries wh.entrynr with
        flag := cfg.FP_STRONG_FLAG,
        fp_strong := cfg.nova_fp_strong_calc (sbi.blocks (sbi.pentries wh.entrynr).blocknr) }
      rfl rfl (Or.inr rfl)
    exact weak_inv_strong_add h1 _ wh.entrynr (h1.2.2.2.2 _ wh (Or.inl hmem))
      (h1.2.2.1 _ wh (Or.inl hmem)) (fp_valid_set _ rfl rfl)
  · rw [if_neg hu, if_neg hu]
    exact h

theorem non_fin_weak_inv (cfg : Config) (sbi : nova_sb_info) (x : Ext) (data : Chunk)
    (b : Nat) (E K : List Nat) (C : List Chunk)
    (h : weak_inv cfg sbi.num_entries_bits sbi.pentries sbi.weak_hash_table
      sbi.strong_hash_table sbi.blocks E K C)
    (hE : x.alloc_entry ∉ E) (hK : x.blocknr ∉ K) :
    weak_inv cfg (nova_dedup_non_fin cfg sbi x data b).sbi.num_entries_bits
      (nova_dedup_non_fin cfg sbi x data b).sbi.pentries
      (nova_dedup_non_fin cfg sbi x data b).sbi.weak_hash_table
      (nova_dedup_non_fin cfg sbi x data b).sbi.strong_hash_table
      (nova_dedup_non_fin cfg sbi x data b).sbi.blocks (x.alloc_entry :: E) (x.blocknr :: K)
      (data :: C) := by
  rw [(non_fin_ctrl cfg sbi x data b).2.2]
  by_cases hx : x.allocated < 0
  · obtain ⟨-, -, h3, h4, h5, h6, -⟩ := non_fin_fail cfg sbi x data b hx _ rfl
    rw [h3, h4, h5, h6]
    exact weak_inv_mono h (fun _ => List.mem_cons_of_mem _) (fun _ => List.mem_cons_of_mem _)
      (fun _ => List.mem_cons_of_mem _)
  · obtain ⟨-, -, h3, h4, h5, h6, -⟩ := non_fin_ok cfg sbi x data b hx _ rfl
    rw [h3, h4, h5, h6]
    exact weak_inv_create h _ _ _ data hE hK

theorem str_fin_weak_inv (cfg : Config) (sbi : nova_sb_info) (x : Ext) (data : Chunk)
    (b : Nat) (E K : List Nat) (C : List Chunk)
    (h : weak_inv cfg sbi.num_entries_bits sbi.pentries sbi.weak_hash_table
      sbi.strong_hash_table sbi.blocks E K C)
    (hE : x.alloc_entry ∉ E) (hK : x.blocknr ∉ K)
    (hpol : ∀ c ∈ C, cfg.nova_fp_strong_calc c = cfg.nova_fp_strong_calc data → c = data) :
    weak_inv cfg (nova_dedup_str_fin cfg sbi x data b).sbi.num_entries_bits
      (nova_dedup_str_fin cfg sbi x data b).sbi.pentries
      (nova_dedup_str_fin cfg sbi x data b).sbi.weak_hash_table
      (nova_dedup_str_fin cfg sbi x data b).sbi.strong_hash_table
      (nova_dedup_str_fin cfg sbi x data b).sbi.blocks (x.alloc_entry :: E) (x.blocknr :: K)
      (data :: C) := by
  rw [(str_fin_ctrl cfg sbi x data b).2.2]
  have hmono : ∀ {p w s blk}, weak_inv cfg sbi.num_entries_bits p w s blk E K C →
      weak_inv cfg sbi.num_entries_bits p w s blk (x.alloc_entry :: E) (x.blocknr :: K)
        (data :: C) :=
    fun hh => weak_inv_mono hh (fun _ => List.mem_cons_of_mem _)
      (fun _ => List.mem_cons_of_mem _) (fun _ => List.mem_cons_of_mem _)
  have hwnone : weak_lookup cfg sbi data = none →
      ∀ n ∈ sbi.weak_hash_table (weak_idx_of cfg sbi data),
        (sbi.pentries n.entrynr).fp_weak ≠ cfg.nova_fp_weak_calc data := by
    intro hw
    unfold weak_lookup at hw
    exact find_weak_none.1 hw
  cases hs : strong_lookup cfg sbi data with
  | some sh =>
    obtain ⟨-, -, h3, h4, h5, h6, -⟩ := str_fin_strong_hit cfg sbi x data b sh hs _ rfl
    rw [h3, h4, h5, h6]
    have hfind : sh ∈ sbi.strong_hash_table (strong_idx_of cfg sbi data) ∧
        (sbi.pentries sh.entrynr).fp_strong = cfg.nova_fp_strong_calc data := by
      unfold strong_lookup at hs
      exact find_strong_mem hs
    have hval := h.2.2.2.1 _ sh hfind.1
    unfold fp_valid at hval
    have hcont : sbi.blocks (sbi.pentries sh.entrynr).blocknr = data :=
      hpol _ (h.2.2.2.2 _ sh (Or.inr hfind.1)).2.2 (hval.symm.trans hfind.2)
    have hfw : (sbi.pentries sh.entrynr).fp_weak = cfg.nova_fp_weak_calc data := by
      rw [h.2.2.1 _ sh (Or.inr hfind.1), hcont]
    have h1 := weak_inv_touch h sh.entrynr
      { sbi.pentries sh.entrynr with
        refcount := ((sbi.pentries sh.entrynr).refcount + 1) % U32_MOD,
        fp_weak := cfg.nova_fp_weak_calc data, flag := cfg.FP_STRONG_FLAG }
      hfw.symm rfl (Or.inl rfl)
    cases hw : weak_lookup cfg sbi data with
    | some wh => exact hmono h1
    | none =>
      refine hmono (weak_inv_weak_add h1 _ sh.entrynr (h1.2.2.2.2 _ sh (Or.inr hfind.1))
        (h1.2.2.1 _ sh (Or.inr hfind.1)) (by rw [upd_same]; rfl) ?_)
      intro n hn
      rw [upd_same]
      rw [upd_apply]
      split
      · rename_i hne
        intro _
        exact hwnone hw n hn (hne ▸ hfw)
      · exact hwnone hw n hn
  | none =>
    by_cases hm : str_fin_match cfg sbi data = none
    · by_cases hx : x.allocated < 0
      · obtain ⟨-, -, h3, h4, h5, h6, -⟩ := str_fin_alloc_fail cfg sbi x data b hm hx _ rfl
        rw [h3, h4, h5, h6]
        exact hmono h
      · obtain ⟨-, -, h3, h4, h5, h6, -⟩ := str_fin_alloc_ok cfg sbi x data b hm hx _ rfl
        rw [h3, h4, h5, h6]
        have h1 := weak_inv_create h x.alloc_entry x.blocknr
          ⟨cfg.FP_STRONG_FLAG, x.blocknr, 1, cfg.nova_fp_weak_calc data,
            cfg.nova_fp_strong_calc data⟩ data hE hK
        obtain ⟨hb1, hb2⟩ := fresh_entry_backed sbi.pentries sbi.blocks E K C x.alloc_entry
          x.blocknr ⟨cfg.FP_STRONG_FLAG, x.blocknr, 1, cfg.nova_fp_weak_calc data,
            cfg.nova_fp_strong_calc data⟩ data rfl
        have hwv : (upd sbi.pentries x.alloc_entry
            ⟨cfg.FP_STRONG_FLAG, x.blocknr, 1, cfg.nova_fp_weak_calc data,
              cfg.nova_fp_strong_calc data⟩ x.alloc_entry).fp_weak
            = cfg.nova_fp_weak_calc (upd sbi.blocks x.blocknr data
                (upd sbi.pentries x.alloc_entry
                  ⟨cfg.FP_STRONG_FLAG, x.blocknr, 1, cfg.nova_fp_weak_calc data,
                    cfg.nova_fp_strong_calc data⟩ x.alloc_entry).blocknr) := by
          rw [hb2, upd_same]
        have hv : fp_valid cfg (upd sbi.pentries x.alloc_entry
            ⟨cfg.FP_STRONG_FLAG, x.blocknr, 1, cfg.nova_fp_weak_calc data,
              cfg.nova_fp_strong_calc data⟩) (upd sbi.blocks x.blocknr data) x.alloc_entry := by
          unfold fp_valid
          rw [hb2, upd_same]
        have h2 := weak_inv_strong_add h1 (strong_idx_of cfg sbi data) x.alloc_entry hb1 hwv hv
        cases hw : weak_lookup cfg sbi data with
        | some wh => exact h2
        | none =>
          refine weak_inv_weak_add h2 _ x.alloc_entry hb1 hwv (by rw [upd_same]; rfl) ?_
          intro n hn
          rw [upd_same]
          have hne : n.entrynr ≠ x.alloc_entry :=
            fun hh => hE (hh ▸ (h.2.2.2.2 _ n (Or.inl hn)).1)
          rw [upd_other _ _ hne]
          exact hwnone hw n hn
    · unfold str_fin_match at hm
      simp only [hs] at hm
      cases hw : weak_lookup cfg sbi data with
      | none => simp [hw] at hm
      | some wh =>
        simp only [hw] at hm
        by_cases hc : cmp_fp_strong
            (cfg.nova_fp_strong_calc (sbi.blocks (sbi.pentries wh.entrynr).blocknr))
            (cfg.nova_fp_strong_calc data) = true
        · obtain ⟨-, -, h3, h4, h5, h6, -⟩ :=
            str_fin_weak_verified cfg sbi x data b wh hs hw hc _ rfl
          rw [h3, h4, h5, h6]
          have hmem : wh ∈ sbi.weak_hash_table (weak_idx_of cfg sbi data) := by
            unfold weak_lookup at hw
            exact (find_weak_mem hw).1
          have h1 := weak_inv_touch h wh.entrynr
            { sbi.pentries wh.entrynr with
              fp_strong :=
                cfg.nova_fp_strong_calc (sbi.blocks (sbi.pentries wh.entrynr).blocknr),
              refcount := ((sbi.pentries wh.entrynr).refcount + 1) % U32_MOD,
              flag := cfg.FP_STRONG_FLAG }
            rfl rfl (Or.inr rfl)
          exact hmono (weak_inv_strong_add h1 _ wh.entrynr (h1.2.2.2.2 _ wh (Or.inl hmem))
            (h1.2.2.1 _ wh (Or.inl hmem)) (fp_valid_set _ rfl rfl))
        · simp [hc] at hm
theorem weak_str_fin_weak_inv (cfg : Config) (sbi : nova_sb_info) (x : Ext) (data : Chunk)
    (b : Nat) (E K : List Nat) (C : List Chunk)
    (h : weak_inv cfg sbi.num_entries_bits sbi.pentries sbi.weak_hash_table
      sbi.strong_hash_table sbi.blocks E K C)
    (hE : x.alloc_entry ∉ E) (hK : x.blocknr ∉ K) :
    weak_inv cfg (nova_dedup_weak_str_fin cfg sbi x data b).sbi.num_entries_bits
      (nova_dedup_weak_str_fin cfg sbi x data b).sbi.pentries
      (nova_dedup_weak_str_fin cfg sbi x data b).sbi.weak_hash_table
      (nova_dedup_weak_str_fin cfg sbi x data b).sbi.strong_hash_table
      (nova_dedup_weak_str_fin cfg sbi x data b).sbi.blocks (x.alloc_entry :: E)
      (x.blocknr :: K) (data :: C) := by
  rw [(weak_str_fin_ctrl cfg sbi x data b).2.2]
  have hmono : ∀ {p w s blk}, weak_inv cfg sbi.num_entries_bits p w s blk E K C →
      weak_inv cfg sbi.num_entries_bits p w s blk (x.alloc_entry :: E) (x.blocknr :: K)
        (data :: C) :=
    fun hh => weak_inv_mono hh (fun _ => List.mem_cons_of_mem _)
      (fun _ => List.mem_cons_of_mem _) (fun _ => List.mem_cons_of_mem _)
  cases hw : weak_lookup cfg sbi data with
  | none =>
    by_cases hx : x.allocated < 0
    · obtain ⟨-, -, h3, h4, h5, h6, -⟩ := weak_str_fin_miss_fail cfg sbi x data b hw hx _ rfl
      rw [h3, h4, h5, h6]
      exact hmono h
    · obtain ⟨-, -, h3, h4, h5, h6, -⟩ := weak_str_fin_miss_ok cfg sbi x data b hw hx _ rfl
      rw [h3, h4, h5, h6]
      have h1 := weak_inv_create h x.alloc_entry x.blocknr
        ⟨cfg.FP_WEAK_FLAG, x.blocknr, 1, cfg.nova_fp_weak_calc data, nova_fp_strong.zero⟩
        data hE hK
      obtain ⟨hb1, hb2⟩ := fresh_entry_backed sbi.pentries sbi.blocks E K C x.alloc_entry
        x.blocknr
        ⟨cfg.FP_WEAK_FLAG, x.blocknr, 1, cfg.nova_fp_weak_calc data, nova_fp_strong.zero⟩
        data rfl
      refine weak_inv_weak_add h1 _ x.alloc_entry hb1 (by rw [hb2, upd_same])
        (by rw [upd_same]; rfl) ?_
      intro n hn
      rw [upd_same]
      have hne : n.entrynr ≠ x.alloc_entry :=
        fun hh => hE (hh ▸ (h.2.2.2.2 _ n (Or.inl hn)).1)
      rw [upd_other _ _ hne]
      unfold weak_lookup at hw
      exact find_weak_none.1 hw n hn
  | some wh =>
    have href := weak_inv_ref h hw
    by_cases hc : cmp_fp_strong (cfg.nova_fp_strong_calc data) (ref_fp cfg sbi wh.entrynr) = true
    · obtain ⟨-, -, h3, h4, h5, h6, -⟩ := weak_str_fin_dup cfg sbi x data b wh hw hc _ rfl
      rw [h3, h4, h5, h6]
      exact hmono (weak_inv_touch href wh.entrynr _ rfl rfl (Or.inl rfl))
    · simp only [Bool.not_eq_true] at hc
      cases hs : collision_lookup cfg sbi data wh.entrynr with
      | some sh =>
        obtain ⟨-, -, h3, h4, h5, h6, -⟩ :=
          weak_str_fin_collision_hit cfg sbi x data b wh sh hw hc hs _ rfl
        rw [h3, h4, h5, h6]
        exact hmono (weak_inv_touch href sh.entrynr _ rfl rfl (Or.inl rfl))
      | none =>
        by_cases hx : x.allocated < 0
        · obtain ⟨-, -, h3, h4, h5, h6, -⟩ :=
            weak_str_fin_collision_fail cfg sbi x data b wh hw hc hs hx _ rfl
          rw [h3, h4, h5, h6]
          exact hmono href
        · obtain ⟨-, -, h3, h4, h5, h6, -⟩ :=
            weak_str_fin_collision_ok cfg sbi x data b wh hw hc hs hx _ rfl
          rw [h3, h4, h5, h6]
          have h1 := weak_inv_create href x.alloc_entry x.blocknr
            ⟨cfg.FP_STRONG_FLAG, x.blocknr, 1, cfg.nova_fp_weak_calc data,
              cfg.nova_fp_strong_calc data⟩ data hE hK
          obtain ⟨hb1, hb2⟩ := fresh_entry_backed (ref_pentries cfg sbi wh.entrynr) sbi.blocks
            E K C x.alloc_entry x.blocknr
            ⟨cfg.FP_STRONG_FLAG, x.blocknr, 1, cfg.nova_fp_weak_calc data,
              cfg.nova_fp_strong_calc data⟩ data rfl
          exact weak_inv_strong_add h1 _ x.alloc_entry hb1 (by rw [hb2, upd_same])
            (by unfold fp_valid; rw [hb2, upd_same])

theorem algo_weak_inv (cfg : Config) (a : Algo) (sbi : nova_sb_info) (x : Ext)
    (data : Chunk) (b : Nat) (E K : List Nat) (C : List Chunk)
    (h : weak_inv cfg sbi.num_entries_bits sbi.pentries sbi.weak_hash_table
      sbi.strong_hash_table sbi.blocks E K C)
    (hE : x.alloc_entry ∉ E) (hK : x.blocknr ∉ K)
    (hpol : ∀ c ∈ C, cfg.nova_fp_strong_calc c = cfg.nova_fp_strong_calc data → c = data) :
    weak_inv cfg (run_algo cfg a sbi x data b).sbi.num_entries_bits
      (run_algo cfg a sbi x data b).sbi.pentries
      (run_algo cfg a sbi x data b).sbi.weak_hash_table
      (run_algo cfg a sbi x data b).sbi.strong_hash_table
      (run_algo cfg a sbi x data b).sbi.blocks (x.alloc_entry :: E) (x.blocknr :: K)
      (data :: C) := by
  cases a with
  | non_fin => exact non_fin_weak_inv cfg sbi x data b E K C h hE hK
  | weak_str_fin => exact weak_str_fin_weak_inv cfg sbi x data b E K C h hE hK
  | str_fin => exact str_fin_weak_inv cfg sbi x data b E K C h hE hK hpol

/-- The invariant after any sequence of writes whose allocators return pairwise distinct,
unused numbers and whose chunks, with those written before, have pairwise distinct strong
fingerprints unless they are equal. -/
theorem mixed_weak_inv (cfg : Config) (ws : List (Algo × Ext × Chunk)) :
    ∀ (sbi : nova_sb_info) (b : Nat) (E K : List Nat) (C : List Chunk),
      weak_inv cfg sbi.num_entries_bits sbi.pentries sbi.weak_hash_table
        sbi.strong_hash_table sbi.blocks E K C →
      (ws.map (fun w => w.2.1.alloc_entry)).Nodup → (∀ w ∈ ws, w.2.1.alloc_entry ∉ E) →
      (ws.map (fun w => w.2.1.blocknr)).Nodup → (∀ w ∈ ws, w.2.1.blocknr ∉ K) →
      (∀ c, c ∈ C ∨ c ∈ ws.map (fun w => w.2.2) →
        ∀ d, d ∈ C ∨ d ∈ ws.map (fun w => w.2.2) →
        cfg.nova_fp_strong_calc c = cfg.nova_fp_strong_calc d → c = d) →
      ∃ E' K' C', weak_inv cfg (mixed_state cfg sbi b ws).num_entries_bits
        (mixed_state cfg sbi b ws).pentries (mixed_state cfg sbi b ws).weak_hash_table
        (mixed_state cfg sbi b ws).strong_hash_table (mixed_state cfg sbi b ws).blocks
        E' K' C' := by
  induction ws with
  | nil =>
    intro sbi b E K C h _ _ _ _ _
    exact ⟨E, K, C, h⟩
  | cons w rest ih =>
    intro sbi b E K C h hE hE' hK hK' hpol
    rw [List.map_cons, List.nodup_cons] at hE hK
    have h1 := algo_weak_inv cfg w.1 sbi w.2.1 w.2.2 b E K C h
      (hE' w (List.mem_cons_self _ _)) (hK' w (List.mem_cons_self _ _))
      (fun c hc => hpol c (Or.inl hc) w.2.2 (Or.inr (by simp)))
    exact ih _ (run_algo cfg w.1 sbi w.2.1 w.2.2 b).blocknr _ _ _ h1 hE.2
      (by
        intro w' hw' hmem
        rcases List.mem_cons.1 hmem with hm | hm
        · exact hE.1 (List.mem_map.2 ⟨w', hw', hm⟩)
        · exact hE' w' (List.mem_cons_of_mem _ hw') hm)
      hK.2
      (by
        intro w' hw' hmem
        rcases List.mem_cons.1 hmem with hm | hm
        · exact hK.1 (List.mem_map.2 ⟨w', hw', hm⟩)
        · exact hK' w' (List.mem_cons_of_mem _ hw') hm)
      (by
        intro c hc d hd
        apply hpol
        · rcases hc with hc | hc
          · rcases List.mem_cons.1 hc with hc | hc
            · exact Or.inr (by rw [hc]; simp)
            · exact Or.inl hc
          · exact Or.inr (by
              rw [List.map_cons]
              exact List.mem_cons_of_mem _ hc)
        · rcases hd with hd | hd
          · rcases List.mem_cons.1 hd with hd | hd
            · exact Or.inr (by rw [hd]; simp)
            · exact Or.inl hd
          · exact Or.inr (by
              rw [List.map_cons]
              exact List.mem_cons_of_mem _ hd))

theorem weak_inv_of_empty (cfg : Config) (sbi : nova_sb_info) (h : index_empty sbi) :
    weak_inv cfg sbi.num_entries_bits sbi.pentries sbi.weak_hash_table
      sbi.strong_hash_table sbi.blocks [] [] [] := by
  have hno : ∀ b n, n ∈ sbi.weak_hash_table b ∨ n ∈ sbi.strong_hash_table b → False := by
    intro b n hn
    rw [(h b).1, (h b).2] at hn
    simp at hn
  refine ⟨fun b n hn => (hno b n (Or.inl hn)).elim, fun b => ?_,
    fun b n hn => (hno b n hn).elim, fun b n hn => (hno b n (Or.inr hn)).elim,
    fun b n hn => (hno b n hn).elim⟩
  rw [(h b).1]
  exact List.nodup_nil

/-- A lookup in a list in which no two nodes reference entries of the same weak fingerprint
gives the same result on every reordering of the list. -/
theorem find_weak_perm {p : Nat → nova_pmm_entry} {l l' : List nova_hentry}
    (hperm : l'.Perm l) (hnd : (l.map (fun n => (p n.entrynr).fp_weak)).Nodup) (fp : Nat) :
    nova_find_in_weak_hlist p l' fp = nova_find_in_weak_hlist p l fp := by
  cases hf : nova_find_in_weak_hlist p l fp with
  | none =>
    rw [find_weak_none] at hf ⊢
    intro h hh
    exact hf h (hperm.mem_iff.1 hh)
  | some n =>
    obtain ⟨hn, hfp⟩ := find_weak_mem hf
    cases hf' : nova_find_in_weak_hlist p l' fp with
    | none =>
      exact absurd hfp ((find_weak_none.1 hf') n (hperm.mem_iff.2 hn))
    | some n' =>
      obtain ⟨hn', hfp'⟩ := find_weak_mem hf'
      have := List.inj_on_of_nodup_map hnd (hperm.mem_iff.1 hn') hn (hfp'.trans hfp.symm)
      rw [this]
theorem nodup_index_unique {α : Type} {l : List α} (h : l.Nodup) {i j : Nat} {a : α}
    (hi : l[i]? = some a) (hj : l[j]? = some a) : i = j := by
  have hil : i < l.length := by
    by_contra hn
    rw [List.getElem?_eq_none (Nat.le_of_not_lt hn)] at hi
    cases hi
  exact (List.getElem?_inj hil h (hi.trans hj.symm))

/-! ## The claims -/

/-- What a write through `nova_dedup_str_fin` or `nova_dedup_weak_str_fin` returns, by kind of
write. A dedup hit (it reuses an entry that the index already references, calls the block
allocator zero times and leaves every block as it was) returns the block number of that entry
and the value 1, although it allocated no block; a write that is not a hit calls the block
allocator exactly once and returns what the allocator returned, with the allocator's block
number. In particular, through `nova_dedup_str_fin`, a chunk written into an empty index and
then written again gets the same block number and the returned value 1 on the second
write. -/
theorem blocks_allocated_is_one_on_hit (cfg : Config) (sbi : nova_sb_info) (x : Ext)
    (data : Chunk) (b : Nat) :
    (∀ e, str_fin_match cfg sbi data = some e →
      referenced sbi e ∧
      (nova_dedup_str_fin cfg sbi x data b).allocated = 1 ∧
      (nova_dedup_str_fin cfg sbi x data b).blocknr = (sbi.pentries e).blocknr ∧
      (nova_dedup_str_fin cfg sbi x data b).sbi.blocks = sbi.blocks ∧
      allocator_calls (nova_dedup_str_fin cfg sbi x data b).sbi.trace
        = allocator_calls sbi.trace) ∧
    (str_fin_match cfg sbi data = none →
      (nova_dedup_str_fin cfg sbi x data b).allocated = x.allocated ∧
      (nova_dedup_str_fin cfg sbi x data b).blocknr = x.blocknr ∧
      allocator_calls (nova_dedup_str_fin cfg sbi x data b).sbi.trace
        = allocator_calls sbi.trace + 1) ∧
    (∀ e, weak_str_fin_match cfg sbi data = some e →
      referenced sbi e ∧
      (nova_dedup_weak_str_fin cfg sbi x data b).allocated = 1 ∧
      (nova_dedup_weak_str_fin cfg sbi x data b).blocknr = (sbi.pentries e).blocknr ∧
      (nova_dedup_weak_str_fin cfg sbi x data b).sbi.blocks = sbi.blocks ∧
      allocator_calls (nova_dedup_weak_str_fin cfg sbi x data b).sbi.trace
        = allocator_calls sbi.trace) ∧
    (weak_str_fin_match cfg sbi data = none →
      (nova_dedup_weak_str_fin cfg sbi x data b).allocated = x.allocated ∧
      (nova_dedup_weak_str_fin cfg sbi x data b).blocknr = x.blocknr ∧
      allocator_calls (nova_dedup_weak_str_fin cfg sbi x data b).sbi.trace
        = allocator_calls sbi.trace + 1) ∧
    (index_empty sbi → 0 ≤ x.allocated → ∀ (x2 : Ext) (b2 : Nat),
      (nova_dedup_str_fin cfg (nova_dedup_str_fin cfg sbi x data b).sbi x2 data b2).allocated
        = 1 ∧
      (nova_dedup_str_fin cfg (nova_dedup_str_fin cfg sbi x data b).sbi x2 data b2).blocknr
        = (nova_dedup_str_fin cfg sbi x data b).blocknr) := by
  refine ⟨?_, ?_, ?_, ?_, ?_⟩
  · intro e he
    obtain ⟨h1, h2, h3⟩ := (str_fin_returns cfg sbi x data b).1 e he
    refine ⟨str_fin_match_referenced he, h1, h2, h3, ?_⟩
    rw [str_fin_allocator_calls, he]; rfl
  · intro hm
    obtain ⟨h1, h2⟩ := (str_fin_returns cfg sbi x data b).2 hm
    refine ⟨h1, h2, ?_⟩
    rw [str_fin_allocator_calls, hm]; rfl
  · intro e he
    obtain ⟨h1, h2, h3⟩ := (weak_str_fin_returns cfg sbi x data b).1 e he
    refine ⟨weak_str_fin_match_referenced he, h1, h2, h3, ?_⟩
    rw [weak_str_fin_allocator_calls, he]; rfl
  · intro hm
    obtain ⟨h1, h2⟩ := (weak_str_fin_returns cfg sbi x data b).2 hm
    refine ⟨h1, h2, ?_⟩
    rw [weak_str_fin_allocator_calls, hm]; rfl
  · intro hempty hx x2 b2
    obtain ⟨-, h2, h3, h4, -⟩ :=
      str_fin_first cfg sbi x data b (hempty _).2 (hempty _).1 (by omega)
    obtain ⟨a1, a2, -⟩ := str_fin_again cfg _ x2 data b2 _ h3
    rw [h4] at a2
    exact ⟨a1, a2.trans h2.symm⟩

/-- C1, the code at the failing input: in StrFin mode, chunk A is written twice from the empty
index. The second write is a dedup hit: it matches entry 1, returns the block number 11 of the
first write and calls the block allocator zero times (the trace holds one call, that of the
first write), so it allocates no block; yet the value it returns is 1, not 0. This holds
through `nova_dedup_str_fin` and through `nova_dedup_new_write`, whose comment in the source
gives the returned value as the number of blocks allocated. -/
theorem blocks_allocated_zero_on_hit_fails :
    str_fin_match exampleConfig
        (nova_dedup_str_fin exampleConfig (exampleState 4 0 0) (exampleExt 1) chunkA 0).sbi
        chunkA = some 1 ∧
      (nova_dedup_str_fin exampleConfig (exampleState 4 0 0) (exampleExt 1) chunkA 0).blocknr
        = 11 ∧
      allocator_calls
        (nova_dedup_str_fin exampleConfig (exampleState 4 0 0) (exampleExt 1) chunkA
          0).sbi.trace = 1 ∧
      (nova_dedup_str_fin exampleConfig
        (nova_dedup_str_fin exampleConfig (exampleState 4 0 0) (exampleExt 1) chunkA 0).sbi
        (exampleExt 2) chunkA 11).blocknr = 11 ∧
      allocator_calls (nova_dedup_str_fin exampleConfig
        (nova_dedup_str_fin exampleConfig (exampleState 4 0 0) (exampleExt 1) chunkA 0).sbi
        (exampleExt 2) chunkA 11).sbi.trace = 1 ∧
      (nova_dedup_str_fin exampleConfig
        (nova_dedup_str_fin exampleConfig (exampleState 4 0 0) (exampleExt 1) chunkA 0).sbi
        (exampleExt 2) chunkA 11).allocated = 1 ∧
      ¬ (nova_dedup_str_fin exampleConfig
        (nova_dedup_str_fin exampleConfig (exampleState 4 0 0) (exampleExt 1) chunkA 0).sbi
        (exampleExt 2) chunkA 11).allocated = 0 ∧
      allocator_calls
        (nova_dedup_new_write exampleConfig (exampleState 4 0 0) (exampleExt 1) chunkA
          0).sbi.trace = 1 ∧
      (nova_dedup_new_write exampleConfig
        (nova_dedup_new_write exampleConfig (exampleState 4 0 0) (exampleExt 1) chunkA 0).sbi
        (exampleExt 2) chunkA 11).blocknr = 11 ∧
      allocator_calls (nova_dedup_new_write exampleConfig
        (nova_dedup_new_write exampleConfig (exampleState 4 0 0) (exampleExt 1) chunkA 0).sbi
        (exampleExt 2) chunkA 11).sbi.trace = 1 ∧
      (nova_dedup_new_write exampleConfig
        (nova_dedup_new_write exampleConfig (exampleState 4 0 0) (exampleExt 1) chunkA 0).sbi
        (exampleExt 2) chunkA 11).allocated = 1 := by
  decide

/-- C2 (as the code has it): starting from an empty fingerprint index, for every chunk and
every N >= 1 (here N = `xs.length + 1`), N consecutive writes of that chunk, all through
`nova_dedup_str_fin` or all through `nova_dedup_weak_str_fin`, the allocation of the first
write succeeding and `FP_WEAK_FLAG` differing from `FP_STRONG_FLAG`, all succeed and return
the same block number, that of the first allocation, and leave the entry of that block (the
one the block-to-entry map gives) with that block number and with refcount N modulo 2^32:
exactly N when N < 2^32. -/
theorem idempotent_dedup (cfg : Config) (sbi : nova_sb_info) (b : Nat) (data : Chunk)
    (x : Ext) (xs : List Ext) (hempty : index_empty sbi) (hx : 0 ≤ x.allocated)
    (hflag : cfg.FP_WEAK_FLAG ≠ cfg.FP_STRONG_FLAG) :
    ((∀ r ∈ run_rets (nova_dedup_str_fin cfg) sbi b ((x :: xs).map (fun y => (y, data))),
        r.1 = x.blocknr ∧ 0 ≤ r.2) ∧
      ((run_state (nova_dedup_str_fin cfg) sbi b
        ((x :: xs).map (fun y => (y, data)))).pentries x.alloc_entry).refcount
          = (xs.length + 1) % 2 ^ 32 ∧
      (xs.length + 1 < 2 ^ 32 →
        ((run_state (nova_dedup_str_fin cfg) sbi b
          ((x :: xs).map (fun y => (y, data)))).pentries x.alloc_entry).refcount
            = xs.length + 1) ∧
      ((run_state (nova_dedup_str_fin cfg) sbi b
        ((x :: xs).map (fun y => (y, data)))).pentries x.alloc_entry).blocknr = x.blocknr ∧
      (run_state (nova_dedup_str_fin cfg) sbi b
        ((x :: xs).map (fun y => (y, data)))).blocknr_to_entry x.blocknr = x.alloc_entry) ∧
    ((∀ r ∈ run_rets (nova_dedup_weak_str_fin cfg) sbi b
          ((x :: xs).map (fun y => (y, data))),
        r.1 = x.blocknr ∧ 0 ≤ r.2) ∧
      ((run_state (nova_dedup_weak_str_fin cfg) sbi b
        ((x :: xs).map (fun y => (y, data)))).pentries x.alloc_entry).refcount
          = (xs.length + 1) % 2 ^ 32 ∧
      (xs.length + 1 < 2 ^ 32 →
        ((run_state (nova_dedup_weak_str_fin cfg) sbi b
          ((x :: xs).map (fun y => (y, data)))).pentries x.alloc_entry).refcount
            = xs.length + 1) ∧
      ((run_state (nova_dedup_weak_str_fin cfg) sbi b
        ((x :: xs).map (fun y => (y, data)))).pentries x.alloc_entry).blocknr = x.blocknr ∧
      (run_state (nova_dedup_weak_str_fin cfg) sbi b
        ((x :: xs).map (fun y => (y, data)))).blocknr_to_entry x.blocknr = x.alloc_entry) := by
  obtain ⟨s1, s2, s3, s4⟩ := str_fin_same_chunk cfg sbi b data x xs (hempty _).2 (hempty _).1 hx
  obtain ⟨w1, w2, w3, w4⟩ :=
    weak_str_fin_same_chunk cfg sbi b data x xs hflag (hempty _).1 hx
  have hM : U32_MOD = 2 ^ 32 := rfl
  rw [hM] at s2 w2
  refine ⟨⟨s1, s2, ?_, s3, s4⟩, ⟨w1, w2, ?_, w3, w4⟩⟩
  · intro hlt
    rw [s2, Nat.mod_eq_of_lt hlt]
  · intro hlt
    rw [w2, Nat.mod_eq_of_lt hlt]

/-- C2, witness: chunk A written three times through each algorithm from the empty example
state; entry 1 ends with refcount 3. -/
theorem idempotent_dedup_witness :
    ((run_state (nova_dedup_str_fin exampleConfig) (exampleState 4 0 0) 0
        ((exampleExt 1 :: [exampleExt 2, exampleExt 3]).map
          (fun y => (y, chunkA)))).pentries (exampleExt 1).alloc_entry).refcount = 3 ∧
    ((run_state (nova_dedup_weak_str_fin exampleConfig) (exampleState 4 0 0) 0
        ((exampleExt 1 :: [exampleExt 2, exampleExt 3]).map
          (fun y => (y, chunkA)))).pentries (exampleExt 1).alloc_entry).refcount = 3 :=
  ⟨(idempotent_dedup exampleConfig (exampleState 4 0 0) 0 chunkA (exampleExt 1)
      [exampleExt 2, exampleExt 3] (fun _ => ⟨rfl, rfl⟩) (by decide) (by decide)).1.2.2.1
      (by decide),
    (idempotent_dedup exampleConfig (exampleState 4 0 0) 0 chunkA (exampleExt 1)
      [exampleExt 2, exampleExt 3] (fun _ => ⟨rfl, rfl⟩) (by decide) (by decide)).2.2.2.1
      (by decide)⟩

/-- C2, counterexample: chunk A written N = 2^32 times through `nova_dedup_str_fin` from the
empty example state. Every write succeeds and returns block 11, and the refcount of the entry
of that block, a `u32` incremented 2^32 - 1 times from 1, is 0 and not N. -/
theorem idempotent_dedup_refcount_wraps :
    (exampleExt 1 :: List.replicate (2 ^ 32 - 1) (exampleExt 2)).length = 2 ^ 32 ∧
    (∀ r ∈ run_rets (nova_dedup_str_fin exampleConfig) (exampleState 4 0 0) 0
        ((exampleExt 1 :: List.replicate (2 ^ 32 - 1) (exampleExt 2)).map
          (fun y => (y, chunkA))),
      r.1 = 11 ∧ 0 ≤ r.2) ∧
    (run_state (nova_dedup_str_fin exampleConfig) (exampleState 4 0 0) 0
        ((exampleExt 1 :: List.replicate (2 ^ 32 - 1) (exampleExt 2)).map
          (fun y => (y, chunkA)))).blocknr_to_entry 11 = 1 ∧
    ((run_state (nova_dedup_str_fin exampleConfig) (exampleState 4 0 0) 0
        ((exampleExt 1 :: List.replicate (2 ^ 32 - 1) (exampleExt 2)).map
          (fun y => (y, chunkA)))).pentries 1).refcount = 0 ∧
    ¬ ((run_state (nova_dedup_str_fin exampleConfig) (exampleState 4 0 0) 0
        ((exampleExt 1 :: List.replicate (2 ^ 32 - 1) (exampleExt 2)).map
          (fun y => (y, chunkA)))).pentries 1).refcount = 2 ^ 32 := by
  obtain ⟨s1, s2, -, s4⟩ := str_fin_same_chunk exampleConfig (exampleState 4 0 0) 0 chunkA
    (exampleExt 1) (List.replicate (2 ^ 32 - 1) (exampleExt 2)) rfl rfl (by decide)
  have hlen : (List.replicate (2 ^ 32 - 1) (exampleExt 2)).length + 1 = 2 ^ 32 := by
    rw [List.length_replicate]
    norm_num
  have hmod : 2 ^ 32 % U32_MOD = 0 := by
    unfold U32_MOD
    exact Nat.mod_self _
  have e : (exampleExt 1).alloc_entry = 1 := rfl
  have e' : (exampleExt 1).blocknr = 11 := rfl
  rw [e, hlen, hmod] at s2
  rw [e, e'] at s4
  rw [e'] at s1
  refine ⟨?_, s1, s4, s2, ?_⟩
  · rw [List.length_cons, hlen]
  · rw [s2]
    norm_num

/-- C3: round trip. From a state with an empty index, after any sequence `ws` of calls of
`nova_dedup_new_write` (each with its chunk and with the values its allocator calls return),
whatever the mode in force at each call, for every chunk: if a further call of
`nova_dedup_new_write` does not fail, the block whose number it returns holds the chunk
written. The allocators hand out numbers not handed out before (which makes a block read
back return what was written to it), `FP_WEAK_FLAG` differs from `FP_STRONG_FLAG`, and among
the chunks written equal strong fingerprints imply equal content. -/
theorem round_trip (cfg : Config) (hflag : cfg.FP_WEAK_FLAG ≠ cfg.FP_STRONG_FLAG)
    (sbi : nova_sb_info) (hempty : index_empty sbi) (b0 : Nat) (ws : List (Ext × Chunk))
    (x : Ext) (data : Chunk) (b : Nat)
    (hE : ((ws ++ [(x, data)]).map (fun w => w.1.alloc_entry)).Nodup)
    (hK : ((ws ++ [(x, data)]).map (fun w => w.1.blocknr)).Nodup)
    (hpolicy : ∀ c ∈ (ws ++ [(x, data)]).map Prod.snd,
      ∀ d ∈ (ws ++ [(x, data)]).map Prod.snd,
        cfg.nova_fp_strong_calc c = cfg.nova_fp_strong_calc d → c = d)
    (hsucc : 0 ≤ (nova_dedup_new_write cfg
      (run_state (nova_dedup_new_write cfg) sbi b0 ws) x data b).allocated) :
    (nova_dedup_new_write cfg
        (run_state (nova_dedup_new_write cfg) sbi b0 ws) x data b).sbi.blocks
      (nova_dedup_new_write cfg
        (run_state (nova_dedup_new_write cfg) sbi b0 ws) x data b).blocknr = data := by
  rw [List.map_append, List.nodup_append] at hE hK
  have hs := run_sound cfg hflag ws sbi b0 [] [] [] (index_sound_of_empty cfg sbi hempty)
    hE.1 (fun _ _ => List.not_mem_nil _) hK.1 (fun _ _ => List.not_mem_nil _)
    (by
      intro c hc d hd
      apply hpolicy
      · rcases hc with hc | hc
        · cases hc
        · rw [List.map_append]
          exact List.mem_append_left _ hc
      · rcases hd with hd | hd
        · cases hd
        · rw [List.map_append]
          exact List.mem_append_left _ hd)
  refine (new_write_sound cfg _ x data b _ _ _ hflag hs ?_ ?_ ?_).2 hsucc
  · intro hmem
    rw [List.append_nil] at hmem
    exact hE.2.2 hmem (by simp)
  · intro hmem
    rw [List.append_nil] at hmem
    exact hK.2.2 hmem (by simp)
  · intro c hc
    rw [List.append_nil] at hc
    apply hpolicy
    · rw [List.map_append]
      exact List.mem_append_left _ hc
    · simp

/-- C3, witness: in the example configuration, after chunk A and chunk B were written in
StrFin mode, writing chunk A again is a dedup hit that returns block 11, which holds A. -/
theorem round_trip_witness :
    (nova_dedup_new_write exampleConfig
        (run_state (nova_dedup_new_write exampleConfig) (exampleState 4 0 0) 0
          [(exampleExt 1, chunkA), (exampleExt 2, chunkB)])
        (exampleExt 3) chunkA 0).sbi.blocks 11 = chunkA ∧
    (nova_dedup_new_write exampleConfig
        (run_state (nova_dedup_new_write exampleConfig) (exampleState 4 0 0) 0
          [(exampleExt 1, chunkA), (exampleExt 2, chunkB)])
        (exampleExt 3) chunkA 0).blocknr = 11 :=
  ⟨round_trip exampleConfig (by decide) (exampleState 4 0 0) (fun _ => ⟨rfl, rfl⟩) 0
      [(exampleExt 1, chunkA), (exampleExt 2, chunkB)] (exampleExt 3) chunkA 0
      (by decide) (by decide) (by decide) (by decide),
    by decide⟩

/-- C4: for every two chunks A and B with equal weak fingerprints and different strong
fingerprints, written A then B from an empty index, both through `nova_dedup_str_fin` or both
through `nova_dedup_weak_str_fin` (allocations succeeding with distinct entry numbers and
distinct block numbers, `FP_WEAK_FLAG` differing from `FP_STRONG_FLAG`): the index ends
with two distinct entries, and only these, that have distinct block numbers and distinct
strong fingerprints (those of A and of B); the write of B leaves the block number and the
refcount 1 of A's entry unchanged; and in any sequence of later writes of A or of B through
the same algorithm every write returns the block number of its own entry. -/
theorem weak_collision_safety (cfg : Config) (sbi : nova_sb_info) (b : Nat) (A B : Chunk)
    (xA xB : Ext) (later : List (Ext × Chunk)) (hempty : index_empty sbi)
    (hweak : cfg.nova_fp_weak_calc A = cfg.nova_fp_weak_calc B)
    (hstrong : cfg.nova_fp_strong_calc A ≠ cfg.nova_fp_strong_calc B)
    (hA : 0 ≤ xA.allocated) (hB : 0 ≤ xB.allocated)
    (hE : xA.alloc_entry ≠ xB.alloc_entry) (hK : xA.blocknr ≠ xB.blocknr)
    (hflag : cfg.FP_WEAK_FLAG ≠ cfg.FP_STRONG_FLAG)
    (hlater : ∀ w ∈ later, w.2 = A ∨ w.2 = B) :
    collision_safe cfg (nova_dedup_str_fin cfg) sbi b A B xA xB later ∧
    collision_safe cfg (nova_dedup_weak_str_fin cfg) sbi b A B xA xB later := by
  have hAB : A ≠ B := fun h => hstrong (h ▸ rfl)
  constructor
  · obtain ⟨h1, h2, -, h4, h5, -, -⟩ :=
      str_fin_two_chunks cfg sbi b A B xA xB hempty hweak hstrong hA hB
    obtain ⟨hpA, hpB, lA, lB⟩ :=
      str_fin_two_chunks_lookups cfg sbi b A B xA xB hempty hweak hstrong hA hB hE
    have hl := str_fin_later_writes cfg A B xA.alloc_entry xB.alloc_entry hAB later
      (run_state (nova_dedup_str_fin cfg) sbi b [(xA, A), (xB, B)])
      (run_blocknr (nova_dedup_str_fin cfg) sbi b [(xA, A), (xB, B)]) hlater lA lB
    rw [hpA, hpB] at hl
    refine ⟨h1, hE, ?_, ?_, ?_, ?_,
      referenced_two (fun k => (hempty k).1) (fun k => (hempty k).2) h4 h5,
      ?_, ?_, ?_, ?_, ?_, ?_, hl⟩
    · rw [hpA, hpB]; exact hK
    · rw [hpA, hpB]; exact hstrong
    · rw [hpA]
    · rw [hpB]
    · rw [h2, upd_same]
    · rw [h2, upd_same]
    · rw [hpA]
    · rw [hpA]
    · rw [hpB]
    · rw [hpB]
  · obtain ⟨h1, h2, -, h4, h5, -, -⟩ :=
      weak_str_fin_two_chunks cfg sbi b A B xA xB hempty hweak hstrong hA hB hflag
    obtain ⟨hpA, hpB, lA, lB, lS⟩ :=
      weak_str_fin_two_chunks_lookups cfg sbi b A B xA xB hempty hweak hstrong hA hB hflag hE
    have hl := weak_str_fin_later_writes cfg A B xA.alloc_entry xB.alloc_entry hstrong later
      (run_state (nova_dedup_weak_str_fin cfg) sbi b [(xA, A), (xB, B)])
      (run_blocknr (nova_dedup_weak_str_fin cfg) sbi b [(xA, A), (xB, B)]) hlater lA lB
      (by rw [hpA]) (by rw [hpA]) lS
    rw [hpA, hpB] at hl
    refine ⟨h1, hE, ?_, ?_, ?_, ?_,
      referenced_two (fun k => (hempty k).1) (fun k => (hempty k).2) h4 h5,
      ?_, ?_, ?_, ?_, ?_, ?_, hl⟩
    · rw [hpA, hpB]; exact hK
    · rw [hpA, hpB]; exact hstrong
    · rw [hpA]
    · rw [hpB]
    · rw [h2, upd_same]
    · rw [h2, upd_same]
    · rw [hpA]
    · rw [hpA]
    · rw [hpB]
    · rw [hpB]

/-- C4, witness: chunks `[1, 2]` and `[2, 1]` of the example configuration have the weak
fingerprint 3 and the strong fingerprints (1, 3, 2, 0) and (2, 3, 2, 0); later B, A and B are
written again. -/
theorem weak_collision_safety_witness :
    collision_safe exampleConfig (nova_dedup_str_fin exampleConfig) (exampleState 4 0 0) 0
      chunkA chunkB (exampleExt 1) (exampleExt 2)
      [(exampleExt 3, chunkB), (exampleExt 4, chunkA), (exampleExt 5, chunkB)] ∧
    collision_safe exampleConfig (nova_dedup_weak_str_fin exampleConfig) (exampleState 4 0 0) 0
      chunkA chunkB (exampleExt 1) (exampleExt 2)
      [(exampleExt 3, chunkB), (exampleExt 4, chunkA), (exampleExt 5, chunkB)] :=
  weak_collision_safety exampleConfig (exampleState 4 0 0) 0 chunkA chunkB
    (exampleExt 1) (exampleExt 2)
    [(exampleExt 3, chunkB), (exampleExt 4, chunkA), (exampleExt 5, chunkB)]
    (fun _ => ⟨rfl, rfl⟩)
    (by decide) (by decide) (by decide) (by decide) (by decide) (by decide) (by decide)
    (by decide)

/-- C5: for every chunk and every number N of writes of that chunk through
`nova_dedup_non_fin`, the block allocations succeeding and the two allocators returning
numbers that are pairwise distinct, the N writes succeed and return N pairwise distinct block
numbers (those of the block allocator), and afterwards each of the N entries created has flag
`NON_FIN_FLAG`, refcount 1 and the block number of its own write, and is the entry that the
block-to-entry map gives for that block. -/
theorem non_fin_isolation (cfg : Config) (sbi : nova_sb_info) (b : Nat) (data : Chunk)
    (xs : List Ext) (hsucc : ∀ x ∈ xs, 0 ≤ x.allocated)
    (hE : (xs.map (fun x => x.alloc_entry)).Nodup)
    (hB : (xs.map (fun x => x.blocknr)).Nodup) :
    (run_rets (nova_dedup_non_fin cfg) sbi b (xs.map (fun x => (x, data)))).length
      = xs.length ∧
    (run_rets (nova_dedup_non_fin cfg) sbi b (xs.map (fun x => (x, data)))).map Prod.fst
      = xs.map (fun x => x.blocknr) ∧
    ((run_rets (nova_dedup_non_fin cfg) sbi b
      (xs.map (fun x => (x, data)))).map Prod.fst).Nodup ∧
    (∀ r ∈ run_rets (nova_dedup_non_fin cfg) sbi b (xs.map (fun x => (x, data))), 0 ≤ r.2) ∧
    (∀ x ∈ xs,
      ((run_state (nova_dedup_non_fin cfg) sbi b (xs.map (fun x => (x, data)))).pentries
        x.alloc_entry).refcount = 1 ∧
      ((run_state (nova_dedup_non_fin cfg) sbi b (xs.map (fun x => (x, data)))).pentries
        x.alloc_entry).blocknr = x.blocknr ∧
      ((run_state (nova_dedup_non_fin cfg) sbi b (xs.map (fun x => (x, data)))).pentries
        x.alloc_entry).flag = cfg.NON_FIN_FLAG ∧
      (run_state (nova_dedup_non_fin cfg) sbi b
        (xs.map (fun x => (x, data)))).blocknr_to_entry x.blocknr = x.alloc_entry) := by
  obtain ⟨h1, h2, -, -⟩ := non_fin_run cfg data xs sbi b hsucc hE hB
  have hfst : (xs.map (fun x => (x.blocknr, x.allocated))).map Prod.fst
      = xs.map (fun x => x.blocknr) := by
    rw [List.map_map]; rfl
  refine ⟨?_, ?_, ?_, ?_, ?_⟩
  · rw [h1, List.length_map]
  · rw [h1, hfst]
  · rw [h1, hfst]; exact hB
  · intro r hr
    rw [h1] at hr
    obtain ⟨y, hy, rfl⟩ := List.mem_map.1 hr
    exact hsucc y hy
  · intro x hx
    obtain ⟨e1, e2⟩ := h2 x hx
    rw [e1]
    exact ⟨rfl, rfl, rfl, e2⟩

/-- C5, witness: three writes of chunk A through `nova_dedup_non_fin` with entries 1, 2, 3 and
blocks 11, 12, 13. -/
theorem non_fin_isolation_witness :
    (run_rets (nova_dedup_non_fin exampleConfig) (exampleState 1 0 0) 0
      ([exampleExt 1, exampleExt 2, exampleExt 3].map (fun x => (x, chunkA)))).map Prod.fst
      = [11, 12, 13] :=
  (non_fin_isolation exampleConfig (exampleState 1 0 0) 0 chunkA
    [exampleExt 1, exampleExt 2, exampleExt 3] (by decide) (by decide) (by decide)).2.1

/-- C6: on every call of `nova_dedup_new_write` that brings `cur_block` to at least
`SAMPLE_BLOCK`, with `d` the value of `dup_block` at that moment, the sampling step sets the
mode to `STR_FIN` if `d > STR_FIN_THRESH`, to `WEAK_STR_FIN` if
`NON_FIN_THRESH < d <= STR_FIN_THRESH`, and otherwise to `NON_FIN` or `WEAK_STR_FIN` according
to the low bit of the random value (set: `NON_FIN`), and resets `cur_block` and `dup_block`
to 0; the write is dispatched on the state the sampling step leaves, and the mode and
`cur_block` after the call are those of that state. On every other call the mode is
unchanged. -/
theorem mode_transition (cfg : Config) (sbi : nova_sb_info) (x : Ext) (data : Chunk)
    (b : Nat) :
    (cfg.SAMPLE_BLOCK ≤ (sbi.cur_block + 1) % U32_MOD →
      (sbi.dup_block > cfg.STR_FIN_THRESH →
        (nova_dedup_new_write_sample cfg sbi x).dedup_mode = cfg.STR_FIN) ∧
      (cfg.NON_FIN_THRESH < sbi.dup_block ∧ sbi.dup_block ≤ cfg.STR_FIN_THRESH →
        (nova_dedup_new_write_sample cfg sbi x).dedup_mode = cfg.WEAK_STR_FIN) ∧
      (¬ sbi.dup_block > cfg.STR_FIN_THRESH ∧
          ¬ (cfg.NON_FIN_THRESH < sbi.dup_block ∧ sbi.dup_block ≤ cfg.STR_FIN_THRESH) →
        (x.randomNum % 2 = 1 →
          (nova_dedup_new_write_sample cfg sbi x).dedup_mode = cfg.NON_FIN) ∧
        (x.randomNum % 2 = 0 →
          (nova_dedup_new_write_sample cfg sbi x).dedup_mode = cfg.WEAK_STR_FIN)) ∧
      (nova_dedup_new_write_sample cfg sbi x).cur_block = 0 ∧
      (nova_dedup_new_write_sample cfg sbi x).dup_block = 0) ∧
    nova_dedup_new_write cfg sbi x data b =
      nova_dedup_new_write_dispatch cfg (nova_dedup_new_write_sample cfg sbi x) x data b ∧
    (nova_dedup_new_write cfg sbi x data b).sbi.dedup_mode
      = (nova_dedup_new_write_sample cfg sbi x).dedup_mode ∧
    (nova_dedup_new_write cfg sbi x data b).sbi.cur_block
      = (nova_dedup_new_write_sample cfg sbi x).cur_block ∧
    (¬ cfg.SAMPLE_BLOCK ≤ (sbi.cur_block + 1) % U32_MOD →
      (nova_dedup_new_write_sample cfg sbi x).dedup_mode = sbi.dedup_mode ∧
      (nova_dedup_new_write cfg sbi x data b).sbi.dedup_mode = sbi.dedup_mode) := by
  have hd := dispatch_ctrl cfg (nova_dedup_new_write_sample cfg sbi x) x data b
  refine ⟨?_, rfl, hd.1, hd.2.1, ?_⟩
  · intro h
    obtain ⟨hm, hc, hdup⟩ := sample_window cfg sbi x h
    refine ⟨?_, ?_, ?_, hc, hdup⟩
    · intro h1
      rw [hm, if_pos h1]
    · rintro ⟨h1, h2⟩
      rw [hm, if_neg (by omega), if_pos h1]
    · rintro ⟨h1, h2⟩
      have h3 : ¬ sbi.dup_block > cfg.NON_FIN_THRESH := by
        intro h3
        exact h2 ⟨h3, by omega⟩
      rw [hm, if_neg h1, if_neg h3]
      have hbit : x.randomNum &&& 1 = x.randomNum % 2 := Nat.and_one_is_mod x.randomNum
      constructor
      · intro hr
        rw [if_pos (by rw [hbit, hr]; decide)]
      · intro hr
        rw [if_neg (by rw [hbit, hr]; decide)]
  · intro h
    have hs := sample_no_window cfg sbi x h
    have hmode : (nova_dedup_new_write_sample cfg sbi x).dedup_mode = sbi.dedup_mode := by
      rw [hs]
    exact ⟨hmode, hd.1.trans hmode⟩

/-- C7: with the three mode constants non-zero and pairwise without a common bit, for every
write `nova_dedup_new_write` is exactly one finalization algorithm run once on the state the
sampling step leaves, namely the one of the mode in force there (`nova_dedup_non_fin` for
`NON_FIN`, `nova_dedup_weak_str_fin` for `WEAK_STR_FIN`, `nova_dedup_str_fin` for `STR_FIN`),
and it returns that algorithm's result. That mode is the one the sampling step of this call
chose if the call closes a window, the mode left by the previous call otherwise, and no
algorithm changes it. For every mode value whatever the dispatch is one of the three
algorithms alone or the error return: it never runs two of them. -/
theorem dispatch_by_mode (cfg : Config) (sbi : nova_sb_info) (x : Ext) (data : Chunk)
    (b : Nat) (hN : cfg.NON_FIN ≠ 0) (hW : cfg.WEAK_STR_FIN ≠ 0) (hS : cfg.STR_FIN ≠ 0)
    (hWN : cfg.WEAK_STR_FIN &&& cfg.NON_FIN = 0) (hSN : cfg.STR_FIN &&& cfg.NON_FIN = 0)
    (hSW : cfg.STR_FIN &&& cfg.WEAK_STR_FIN = 0) :
    ((nova_dedup_new_write_sample cfg sbi x).dedup_mode = cfg.NON_FIN →
      nova_dedup_new_write cfg sbi x data b
        = nova_dedup_non_fin cfg (nova_dedup_new_write_sample cfg sbi x) x data b) ∧
    ((nova_dedup_new_write_sample cfg sbi x).dedup_mode = cfg.WEAK_STR_FIN →
      nova_dedup_new_write cfg sbi x data b
        = nova_dedup_weak_str_fin cfg (nova_dedup_new_write_sample cfg sbi x) x data b) ∧
    ((nova_dedup_new_write_sample cfg sbi x).dedup_mode = cfg.STR_FIN →
      nova_dedup_new_write cfg sbi x data b
        = nova_dedup_str_fin cfg (nova_dedup_new_write_sample cfg sbi x) x data b) ∧
    (¬ cfg.SAMPLE_BLOCK ≤ (sbi.cur_block + 1) % U32_MOD →
      (nova_dedup_new_write_sample cfg sbi x).dedup_mode = sbi.dedup_mode) ∧
    (nova_dedup_new_write cfg sbi x data b).sbi.dedup_mode
      = (nova_dedup_new_write_sample cfg sbi x).dedup_mode ∧
    (nova_dedup_new_write cfg sbi x data b
        = nova_dedup_non_fin cfg (nova_dedup_new_write_sample cfg sbi x) x data b ∨
      nova_dedup_new_write cfg sbi x data b
        = nova_dedup_weak_str_fin cfg (nova_dedup_new_write_sample cfg sbi x) x data b ∨
      nova_dedup_new_write cfg sbi x data b
        = nova_dedup_str_fin cfg (nova_dedup_new_write_sample cfg sbi x) x data b ∨
      nova_dedup_new_write cfg sbi x data b
        = ⟨nova_dedup_new_write_sample cfg sbi x, b, -ESRCH⟩) := by
  refine ⟨?_, ?_, ?_, ?_, (dispatch_ctrl cfg _ x data b).1, dispatch_cases cfg _ x data b⟩
  · intro hm
    unfold nova_dedup_new_write nova_dedup_new_write_dispatch
    simp only [hm, Nat.and_self]
    rw [if_pos hN]
  · intro hm
    unfold nova_dedup_new_write nova_dedup_new_write_dispatch
    simp only [hm, Nat.and_self, hWN]
    rw [if_neg (by simp), if_pos hW]
  · intro hm
    unfold nova_dedup_new_write nova_dedup_new_write_dispatch
    simp only [hm, Nat.and_self, hSN, hSW]
    rw [if_neg (by simp), if_neg (by simp), if_pos hS]
  · intro h
    rw [sample_no_window cfg sbi x h]

/-- C7, witness: the example configuration has mode bits 1, 2 and 4. -/
theorem dispatch_by_mode_witness :
    ((nova_dedup_new_write_sample exampleConfig (exampleState 2 0 0) (exampleExt 1)).dedup_mode
        = exampleConfig.WEAK_STR_FIN →
      nova_dedup_new_write exampleConfig (exampleState 2 0 0) (exampleExt 1) chunkA 0
        = nova_dedup_weak_str_fin exampleConfig
            (nova_dedup_new_write_sample exampleConfig (exampleState 2 0 0) (exampleExt 1))
            (exampleExt 1) chunkA 0) ∧
    (nova_dedup_new_write_sample exampleConfig (exampleState 2 0 0) (exampleExt 1)).dedup_mode
        = exampleConfig.WEAK_STR_FIN :=
  ⟨(dispatch_by_mode exampleConfig (exampleState 2 0 0) (exampleExt 1) chunkA 0
      (by decide) (by decide) (by decide) (by decide) (by decide) (by decide)).2.1,
    by decide⟩

/-- C8 (as the code has it): when the mode in force at the dispatch (the mode the sampling
step of the call leaves) has none of the bits of `NON_FIN`, `WEAK_STR_FIN` and `STR_FIN` set,
as the value 0 has, `nova_dedup_new_write` returns `-ESRCH`, leaves `*blocknr` alone and runs
none of the three algorithms: the state it returns is the one the sampling step left, so no
entry, bucket, block or block-to-entry mapping changes and no allocator is called. On a call
that does not close a sampling window that mode is the mode the call found. -/
theorem unknown_mode_is_an_error (cfg : Config) (sbi : nova_sb_info) (x : Ext) (data : Chunk)
    (b : Nat)
    (hN : (nova_dedup_new_write_sample cfg sbi x).dedup_mode &&& cfg.NON_FIN = 0)
    (hW : (nova_dedup_new_write_sample cfg sbi x).dedup_mode &&& cfg.WEAK_STR_FIN = 0)
    (hS : (nova_dedup_new_write_sample cfg sbi x).dedup_mode &&& cfg.STR_FIN = 0) :
    nova_dedup_new_write cfg sbi x data b
      = ⟨nova_dedup_new_write_sample cfg sbi x, b, -ESRCH⟩ ∧
    (nova_dedup_new_write cfg sbi x data b).allocated = -ESRCH ∧
    (nova_dedup_new_write cfg sbi x data b).blocknr = b ∧
    (nova_dedup_new_write cfg sbi x data b).sbi.pentries = sbi.pentries ∧
    (nova_dedup_new_write cfg sbi x data b).sbi.weak_hash_table = sbi.weak_hash_table ∧
    (nova_dedup_new_write cfg sbi x data b).sbi.strong_hash_table = sbi.strong_hash_table ∧
    (nova_dedup_new_write cfg sbi x data b).sbi.blocks = sbi.blocks ∧
    (nova_dedup_new_write cfg sbi x data b).sbi.blocknr_to_entry = sbi.blocknr_to_entry ∧
    allocator_calls (nova_dedup_new_write cfg sbi x data b).sbi.trace
      = allocator_calls sbi.trace ∧
    (nova_dedup_new_write cfg sbi x data b).sbi.trace.count Event.alloc_entry
      = sbi.trace.count Event.alloc_entry ∧
    (¬ cfg.SAMPLE_BLOCK ≤ (sbi.cur_block + 1) % U32_MOD →
      (nova_dedup_new_write_sample cfg sbi x).dedup_mode = sbi.dedup_mode) := by
  have he : nova_dedup_new_write cfg sbi x data b
      = ⟨nova_dedup_new_write_sample cfg sbi x, b, -ESRCH⟩ := by
    unfold nova_dedup_new_write nova_dedup_new_write_dispatch
    simp only [hN, hW, hS]
    rw [if_neg (by simp), if_neg (by simp), if_neg (by simp)]
  obtain ⟨h1, h2, h3, h4, h5, -, h7⟩ := sample_frame cfg sbi x
  refine ⟨he, ?_, ?_, ?_, ?_, ?_, ?_, ?_, ?_, ?_, ?_⟩
  · rw [he]
  · rw [he]
  · rw [he]; exact h1
  · rw [he]; exact h2
  · rw [he]; exact h3
  · rw [he]; exact h4
  · rw [he]; exact h5
  · rw [he]; exact h7
  · rw [he]; exact sample_entry_calls cfg sbi x
  · intro h
    rw [sample_no_window cfg sbi x h]

/-- C8, witness: mode 0 in the example configuration, on a call that closes no window. -/
theorem unknown_mode_is_an_error_witness :
    (nova_dedup_new_write exampleConfig (exampleState 0 0 0) (exampleExt 1) chunkA 7).allocated
        = -ESRCH ∧
    (nova_dedup_new_write exampleConfig (exampleState 0 0 0) (exampleExt 1) chunkA 7).blocknr
        = 7 :=
  ⟨(unknown_mode_is_an_error exampleConfig (exampleState 0 0 0) (exampleExt 1) chunkA 7
      (by decide) (by decide) (by decide)).2.1,
    (unknown_mode_is_an_error exampleConfig (exampleState 0 0 0) (exampleExt 1) chunkA 7
      (by decide) (by decide) (by decide)).2.2.1⟩

/-- C8, counterexample: in the example configuration (mode bits 1, 2, 4) the mode value 3 is
none of `NON_FIN`, `WEAK_STR_FIN`, `STR_FIN` and has two mode bits set; a write in that mode
does not return `-ESRCH`: it runs `nova_dedup_non_fin`, returns 1 and block 11 and creates
entry 1. Likewise a write that finds mode 0 but closes a sampling window (`cur_block` 3 of
4) has its mode replaced before the dispatch and is carried out. -/
theorem unknown_mode_runs_an_algorithm :
    (3 ≠ exampleConfig.NON_FIN ∧ 3 ≠ exampleConfig.WEAK_STR_FIN ∧ 3 ≠ exampleConfig.STR_FIN) ∧
    nova_dedup_new_write exampleConfig (exampleState 3 0 0) (exampleExt 1) chunkA 0
      = nova_dedup_non_fin exampleConfig
          (nova_dedup_new_write_sample exampleConfig (exampleState 3 0 0) (exampleExt 1))
          (exampleExt 1) chunkA 0 ∧
    ¬ (nova_dedup_new_write exampleConfig (exampleState 3 0 0) (exampleExt 1) chunkA 0).allocated
      = -ESRCH ∧
    (nova_dedup_new_write exampleConfig (exampleState 3 0 0) (exampleExt 1) chunkA 0).allocated
      = 1 ∧
    (nova_dedup_new_write exampleConfig (exampleState 3 0 0) (exampleExt 1) chunkA 0).blocknr
      = 11 ∧
    ((nova_dedup_new_write exampleConfig (exampleState 3 0 0) (exampleExt 1) chunkA
      0).sbi.pentries 1).refcount = 1 ∧
    (nova_dedup_new_write exampleConfig (exampleState 0 3 0) (exampleExt 1) chunkA 0).allocated
      = 1 := by
  refine ⟨by decide, rfl, by decide, by decide, by decide, by decide, by decide⟩

/-- C9: when block allocation fails (the allocator returns a negative value), each of
`nova_dedup_non_fin`, `nova_dedup_str_fin` and `nova_dedup_weak_str_fin` (the last two on a
write that is not a dedup hit, the only ones that reach the allocator) returns exactly that
value after a single call of the block allocator, and at its return the weak table is as it
was, no entry number came to be referenced by the index, so that the entry number it had
reserved is referenced by no node, no entry changed its refcount or block number, and
`dup_block`, the block-to-entry map and the blocks are as they were. -/
theorem allocation_failure (cfg : Config) (sbi : nova_sb_info) (x : Ext) (data : Chunk)
    (b : Nat) (hx : x.allocated < 0) (hfresh : ¬ referenced sbi x.alloc_entry) :
    (unchanged_on_failure sbi x (nova_dedup_non_fin cfg sbi x data b) ∧
      ¬ referenced (nova_dedup_non_fin cfg sbi x data b).sbi x.alloc_entry) ∧
    (str_fin_match cfg sbi data = none →
      unchanged_on_failure sbi x (nova_dedup_str_fin cfg sbi x data b) ∧
      ¬ referenced (nova_dedup_str_fin cfg sbi x data b).sbi x.alloc_entry) ∧
    (weak_str_fin_match cfg sbi data = none →
      unchanged_on_failure sbi x (nova_dedup_weak_str_fin cfg sbi x data b) ∧
      ¬ referenced (nova_dedup_weak_str_fin cfg sbi x data b).sbi x.alloc_entry) := by
  refine ⟨?_, ?_, ?_⟩
  · have h := non_fin_failure cfg sbi x data b hx
    exact ⟨h, fun hr => hfresh (h.2.2.2.1 _ hr)⟩
  · intro hm
    have h := str_fin_failure cfg sbi x data b hx hm
    exact ⟨h, fun hr => hfresh (h.2.2.2.1 _ hr)⟩
  · intro hm
    have h := weak_str_fin_failure cfg sbi x data b hx hm
    exact ⟨h, fun hr => hfresh (h.2.2.2.1 _ hr)⟩

/-- C9, witness: chunk A written through `nova_dedup_weak_str_fin` into the empty index, then
chunk B (same weak fingerprint) with a failing allocator: entry 1 is upgraded, the strong
lookup misses, the allocation fails and `-28` is returned. -/
theorem allocation_failure_witness :
    unchanged_on_failure
      (nova_dedup_weak_str_fin exampleConfig (exampleState 2 0 0) (exampleExt 1) chunkA 0).sbi
      (failingExt 2)
      (nova_dedup_weak_str_fin exampleConfig
        (nova_dedup_weak_str_fin exampleConfig (exampleState 2 0 0) (exampleExt 1) chunkA 0).sbi
        (failingExt 2) chunkB 0) ∧
    (nova_dedup_weak_str_fin exampleConfig
      (nova_dedup_weak_str_fin exampleConfig (exampleState 2 0 0) (exampleExt 1) chunkA 0).sbi
      (failingExt 2) chunkB 0).allocated = -28 :=
  ⟨((allocation_failure exampleConfig
      (nova_dedup_weak_str_fin exampleConfig (exampleState 2 0 0) (exampleExt 1) chunkA 0).sbi
      (failingExt 2) chunkB 0 (by decide)
      (by
        rintro ⟨b, n, hn, he⟩
        have hw : (nova_dedup_weak_str_fin exampleConfig (exampleState 2 0 0) (exampleExt 1)
            chunkA 0).sbi.weak_hash_table = upd (fun _ => []) 3 [⟨1⟩] := rfl
        have hs : (nova_dedup_weak_str_fin exampleConfig (exampleState 2 0 0) (exampleExt 1)
            chunkA 0).sbi.strong_hash_table = fun _ => [] := rfl
        rw [hw, hs] at hn
        rcases hn with hn | hn
        · unfold upd at hn
          split at hn
          · simp only [List.mem_singleton] at hn
            subst hn
            exact absurd he (by decide)
          · cases hn
        · cases hn)).2.2 (by decide)).1,
    by decide⟩

/-- C10: for every entry table, bucket list and fingerprint, `nova_find_in_weak_hlist`
returns a node `h` exactly when `h` stands at the first position of the list whose referenced
entry has the given weak fingerprint, and returns no node exactly when no node of the bucket
references such an entry; `nova_find_in_strong_hlist` does the same with equality of the
strong fingerprint, where `cmp_fp_strong` is true exactly when the four words are pairwise
equal. Both lookups are functions of the entry table and the bucket that return a node only:
they have no state to return, as the C functions store nothing. -/
theorem lookup_contract (pentries : Nat → nova_pmm_entry) (hlist : List nova_hentry)
    (fp_weak : Nat) (fp_strong : nova_fp_strong) :
    (∀ h : nova_hentry, nova_find_in_weak_hlist pentries hlist fp_weak = some h ↔
      ∃ i : Nat, hlist[i]? = some h ∧ (pentries h.entrynr).fp_weak = fp_weak ∧
        ∀ j : Nat, j < i → ∀ h' : nova_hentry, hlist[j]? = some h' →
          (pentries h'.entrynr).fp_weak ≠ fp_weak) ∧
    (nova_find_in_weak_hlist pentries hlist fp_weak = none ↔
      ∀ h ∈ hlist, (pentries h.entrynr).fp_weak ≠ fp_weak) ∧
    (∀ h : nova_hentry, nova_find_in_strong_hlist pentries hlist fp_strong = some h ↔
      ∃ i : Nat, hlist[i]? = some h ∧
        cmp_fp_strong (pentries h.entrynr).fp_strong fp_strong = true ∧
        ∀ j : Nat, j < i → ∀ h' : nova_hentry, hlist[j]? = some h' →
          cmp_fp_strong (pentries h'.entrynr).fp_strong fp_strong = false) ∧
    (nova_find_in_strong_hlist pentries hlist fp_strong = none ↔
      ∀ h ∈ hlist, cmp_fp_strong (pentries h.entrynr).fp_strong fp_strong = false) ∧
    (∀ dst src : nova_fp_strong, cmp_fp_strong dst src = true ↔
      dst.u64s0 = src.u64s0 ∧ dst.u64s1 = src.u64s1 ∧
        dst.u64s2 = src.u64s2 ∧ dst.u64s3 = src.u64s3) := by
  refine ⟨fun h => find_weak_some pentries hlist fp_weak h, find_weak_none,
    fun h => find_strong_some pentries hlist fp_strong h, ?_, cmp_fp_strong_iff⟩
  rw [find_strong_none]
  constructor
  · intro hn h hh
    exact cmp_fp_strong_false (hn h hh)
  · intro hn h hh he
    have := hn h hh
    rw [(cmp_fp_strong_eq _ _).2 he] at this
    cases this

/-- C11: duplicate counter. A write through any of the three algorithms that is a dedup hit on
an entry `e` (strong hit or verified weak hit in StrFin, verified weak hit or strong hit after a
weak collision in WeakStrFin; NonFin never hits) succeeds, returns the block of `e`, increments
the reference count of `e`, and increments the u32 counter `dup_block` exactly once: its new
value is `dup_block + 1` reduced modulo 2^32, that is `dup_block + 1` whenever the counter was
below 2^32 - 1. A successful write that is no hit returns the newly allocated block and leaves
`dup_block` unchanged. -/
theorem duplicate_counter (cfg : Config) (a : Algo) (sbi : nova_sb_info) (x : Ext)
    (data : Chunk) (b : Nat) :
    (∀ e, algo_match cfg a sbi data = some e →
      0 ≤ (run_algo cfg a sbi x data b).allocated ∧
      (run_algo cfg a sbi x data b).blocknr = (sbi.pentries e).blocknr ∧
      ((run_algo cfg a sbi x data b).sbi.pentries e).refcount
        = ((sbi.pentries e).refcount + 1) % U32_MOD ∧
      (run_algo cfg a sbi x data b).sbi.dup_block = (sbi.dup_block + 1) % U32_MOD ∧
      (sbi.dup_block + 1 < U32_MOD →
        (run_algo cfg a sbi x data b).sbi.dup_block = sbi.dup_block + 1)) ∧
    (algo_match cfg a sbi data = none → 0 ≤ (run_algo cfg a sbi x data b).allocated →
      (run_algo cfg a sbi x data b).blocknr = x.blocknr ∧
      (run_algo cfg a sbi x data b).sbi.blocks = upd sbi.blocks x.blocknr data ∧
      (run_algo cfg a sbi x data b).sbi.dup_block = sbi.dup_block) ∧
    algo_match cfg Algo.non_fin sbi data = none := by
  obtain ⟨hh, hc, hf⟩ := algo_effect cfg a sbi x data b
  refine ⟨fun e he => ?_, fun hm hs => ?_, rfl⟩
  · obtain ⟨h1, h2, h3, -, -, -, h7⟩ := hh e he
    refine ⟨by rw [h1]; exact Int.one_nonneg, h2, h3, h7, fun hlt => ?_⟩
    rw [h7, Nat.mod_eq_of_lt hlt]
  · by_cases hx : x.allocated < 0
    · obtain ⟨h1, -⟩ := hf hm hx
      rw [h1] at hs
      omega
    · obtain ⟨-, h2, -, -, -, h6, h7⟩ := hc hm hx
      exact ⟨h2, h6, h7⟩

/-- C12, the code at the failing input: chunk A is written through `nova_dedup_weak_str_fin`
into the empty example index (entry 1, flag `FP_WEAK_FLAG`), then chunk B, of the same weak
and another strong fingerprint, is written while the block allocator fails. The second call
upgrades entry 1 (flag `FP_STRONG_FLAG`, strong fingerprint of A stored), returns the error of
the allocator through `goto out` and skips the flush of line 378: its events hold a store to
entry 1 and no flush of it. With a succeeding allocator the same call flushes entry 1. -/
theorem upgraded_entry_is_not_flushed :
    ((nova_dedup_weak_str_fin exampleConfig (exampleState 2 0 0) (exampleExt 1) chunkA
      0).sbi.pentries 1).flag = exampleConfig.FP_WEAK_FLAG ∧
    (nova_dedup_weak_str_fin exampleConfig
      (nova_dedup_weak_str_fin exampleConfig (exampleState 2 0 0) (exampleExt 1) chunkA 0).sbi
      (failingExt 2) chunkB 11).allocated = -28 ∧
    (nova_dedup_weak_str_fin exampleConfig
      (nova_dedup_weak_str_fin exampleConfig (exampleState 2 0 0) (exampleExt 1) chunkA 0).sbi
      (failingExt 2) chunkB 11).sbi.pentries 1
      = ⟨exampleConfig.FP_STRONG_FLAG, 11, 1, 3, ⟨1, 3, 2, 0⟩⟩ ∧
    call_events
      (nova_dedup_weak_str_fin exampleConfig (exampleState 2 0 0) (exampleExt 1) chunkA 0).sbi
      (nova_dedup_weak_str_fin exampleConfig
        (nova_dedup_weak_str_fin exampleConfig (exampleState 2 0 0) (exampleExt 1) chunkA 0).sbi
        (failingExt 2) chunkB 11)
      = [Event.weak_lock 1, Event.store 1, Event.strong_lock 1, Event.strong_unlock 1,
         Event.strong_lock 0, Event.alloc_entry, Event.alloc_block, Event.strong_unlock 0,
         Event.weak_unlock 1] ∧
    unflushed (call_events
      (nova_dedup_weak_str_fin exampleConfig (exampleState 2 0 0) (exampleExt 1) chunkA 0).sbi
      (nova_dedup_weak_str_fin exampleConfig
        (nova_dedup_weak_str_fin exampleConfig (exampleState 2 0 0) (exampleExt 1) chunkA 0).sbi
        (failingExt 2) chunkB 11)) = [1] ∧
    unflushed (call_events
      (nova_dedup_weak_str_fin exampleConfig (exampleState 2 0 0) (exampleExt 1) chunkA 0).sbi
      (nova_dedup_weak_str_fin exampleConfig
        (nova_dedup_weak_str_fin exampleConfig (exampleState 2 0 0) (exampleExt 1) chunkA 0).sbi
        (exampleExt 2) chunkB 11)) = [] := by
  decide

/-- C13: weak convergence in StrFin. For every successful write of a chunk through
`nova_dedup_str_fin`: if the weak lookup at the start of the call found nothing, one node is
prepended to the weak bucket of the chunk's weak fingerprint, and it refers to the entry whose
block number is returned, which is the entry found by the strong lookup or else the newly
allocated one; if the weak lookup found a node, the weak table is unchanged; and in both cases
`nova_find_in_weak_hlist` on that bucket with that fingerprint returns a node after the call. -/
theorem weak_convergence (cfg : Config) (sbi : nova_sb_info) (x : Ext) (data : Chunk)
    (b : Nat) (hok : 0 ≤ (nova_dedup_str_fin cfg sbi x data b).allocated) :
    (weak_lookup cfg sbi data = none →
      ∃ e,
        ((∃ sh, strong_lookup cfg sbi data = some sh ∧ e = sh.entrynr) ∨
          (strong_lookup cfg sbi data = none ∧ e = x.alloc_entry)) ∧
        (nova_dedup_str_fin cfg sbi x data b).sbi.weak_hash_table
          = upd sbi.weak_hash_table (weak_idx_of cfg sbi data)
              (⟨e⟩ :: sbi.weak_hash_table (weak_idx_of cfg sbi data)) ∧
        ((nova_dedup_str_fin cfg sbi x data b).sbi.pentries e).blocknr
          = (nova_dedup_str_fin cfg sbi x data b).blocknr) ∧
    (weak_lookup cfg sbi data ≠ none →
      (nova_dedup_str_fin cfg sbi x data b).sbi.weak_hash_table = sbi.weak_hash_table) ∧
    (∃ n, nova_find_in_weak_hlist (nova_dedup_str_fin cfg sbi x data b).sbi.pentries
      ((nova_dedup_str_fin cfg sbi x data b).sbi.weak_hash_table
        (bucket_idx (nova_dedup_str_fin cfg sbi x data b).sbi (cfg.nova_fp_weak_calc data)))
      (cfg.nova_fp_weak_calc data) = some n) := by
  obtain ⟨e, hk, h4, hb, hfp, hkeep⟩ := str_fin_weak_after cfg sbi x data b hok
  have hidx : bucket_idx (nova_dedup_str_fin cfg sbi x data b).sbi (cfg.nova_fp_weak_calc data)
      = weak_idx_of cfg sbi data :=
    weak_idx_of_eq data (str_fin_ctrl cfg sbi x data b).2.2
  refine ⟨fun hw => ?_, fun hw => ?_, ?_⟩
  · refine ⟨e, ?_, ?_, hb⟩
    · rcases hk with hk | ⟨wh, hwh, -⟩ | ⟨hm, he⟩
      · exact Or.inl hk
      · rw [hw] at hwh
        cases hwh
      · exact Or.inr ⟨(str_fin_match_none hm).1, he⟩
    · rw [h4, hw]
      rfl
  · rw [h4]
    cases hw' : weak_lookup cfg sbi data with
    | none => exact absurd hw' hw
    | some wh => rfl
  · rw [hidx, h4]
    cases hw : weak_lookup cfg sbi data with
    | none =>
      exact ⟨⟨e⟩, find_weak_add_head_hit hfp⟩
    | some wh =>
      have hne := find_weak_still (by unfold weak_lookup at hw; exact hw) hkeep
      cases hf : nova_find_in_weak_hlist (nova_dedup_str_fin cfg sbi x data b).sbi.pentries
          (sbi.weak_hash_table (weak_idx_of cfg sbi data)) (cfg.nova_fp_weak_calc data) with
      | none => exact absurd hf hne
      | some n => exact ⟨n, hf⟩

/-- C13, witness: chunk A written through `nova_dedup_str_fin` into the empty example index;
the write succeeds, and the weak lookup for the fingerprint of A finds a node afterwards. -/
theorem weak_convergence_witness :
    0 ≤ (nova_dedup_str_fin exampleConfig (exampleState 4 0 0) (exampleExt 1) chunkA 0).allocated ∧
    ∃ n, nova_find_in_weak_hlist
      (nova_dedup_str_fin exampleConfig (exampleState 4 0 0) (exampleExt 1) chunkA 0).sbi.pentries
      ((nova_dedup_str_fin exampleConfig (exampleState 4 0 0) (exampleExt 1) chunkA
          0).sbi.weak_hash_table
        (bucket_idx
          (nova_dedup_str_fin exampleConfig (exampleState 4 0 0) (exampleExt 1) chunkA 0).sbi
          (exampleConfig.nova_fp_weak_calc chunkA)))
      (exampleConfig.nova_fp_weak_calc chunkA) = some n :=
  ⟨by decide,
    (weak_convergence exampleConfig (exampleState 4 0 0) (exampleExt 1) chunkA 0
      (by decide)).2.2⟩
/-- C14: WeakStrFin miss. For every state and chunk whose weak fingerprint is carried by the
entry of no node of its weak bucket, a successful write through `nova_dedup_weak_str_fin`
returns the newly allocated block, creates the entry `alloc_entry` with flag `FP_WEAK_FLAG`,
that block number, refcount 1, the weak fingerprint of the chunk and an all-zero strong
fingerprint, prepends one node for it to that weak bucket (the other weak buckets are
unchanged), and leaves the strong table, every other entry and `dup_block` unchanged. -/
theorem weak_str_fin_miss_frame (cfg : Config) (sbi : nova_sb_info) (x : Ext) (data : Chunk)
    (b : Nat)
    (hmiss : ∀ n ∈ sbi.weak_hash_table (bucket_idx sbi (cfg.nova_fp_weak_calc data)),
      (sbi.pentries n.entrynr).fp_weak ≠ cfg.nova_fp_weak_calc data)
    (hok : 0 ≤ (nova_dedup_weak_str_fin cfg sbi x data b).allocated) :
    (nova_dedup_weak_str_fin cfg sbi x data b).blocknr = x.blocknr ∧
    (nova_dedup_weak_str_fin cfg sbi x data b).sbi.blocks x.blocknr = data ∧
    (nova_dedup_weak_str_fin cfg sbi x data b).sbi.pentries x.alloc_entry
      = ⟨cfg.FP_WEAK_FLAG, x.blocknr, 1, cfg.nova_fp_weak_calc data, ⟨0, 0, 0, 0⟩⟩ ∧
    (∀ k, k ≠ x.alloc_entry →
      (nova_dedup_weak_str_fin cfg sbi x data b).sbi.pentries k = sbi.pentries k) ∧
    (nova_dedup_weak_str_fin cfg sbi x data b).sbi.weak_hash_table
        (bucket_idx sbi (cfg.nova_fp_weak_calc data))
      = ⟨x.alloc_entry⟩ :: sbi.weak_hash_table (bucket_idx sbi (cfg.nova_fp_weak_calc data)) ∧
    (∀ i, i ≠ bucket_idx sbi (cfg.nova_fp_weak_calc data) →
      (nova_dedup_weak_str_fin cfg sbi x data b).sbi.weak_hash_table i
        = sbi.weak_hash_table i) ∧
    (nova_dedup_weak_str_fin cfg sbi x data b).sbi.strong_hash_table = sbi.strong_hash_table ∧
    (nova_dedup_weak_str_fin cfg sbi x data b).sbi.dup_block = sbi.dup_block := by
  have hw : weak_lookup cfg sbi data = none := by
    unfold weak_lookup weak_idx_of
    exact find_weak_none.2 hmiss
  by_cases hx : x.allocated < 0
  · obtain ⟨h1, -⟩ := weak_str_fin_miss_fail cfg sbi x data b hw hx _ rfl
    rw [h1] at hok
    omega
  · obtain ⟨-, h2, h3, h4, h5, h6, -, h8⟩ := weak_str_fin_miss_ok cfg sbi x data b hw hx _ rfl
    refine ⟨h2, ?_, ?_, ?_, ?_, ?_, h5, h8⟩
    · rw [h6, upd_same]
    · rw [h3, upd_same]
      rfl
    · intro k hk
      rw [h3, upd_other _ _ hk]
    · rw [h4]
      unfold add_head weak_idx_of
      rw [upd_same]
    · intro i hi
      rw [h4]
      unfold add_head weak_idx_of
      rw [upd_other _ _ hi]

/-- C14, witness: chunk A written through `nova_dedup_weak_str_fin` into the empty example
index with entry 1 and block 11. -/
theorem weak_str_fin_miss_frame_witness :
    (nova_dedup_weak_str_fin exampleConfig (exampleState 2 0 0) (exampleExt 1) chunkA
      0).sbi.pentries 1 = ⟨1, 11, 1, 3, ⟨0, 0, 0, 0⟩⟩ :=
  (weak_str_fin_miss_frame exampleConfig (exampleState 2 0 0) (exampleExt 1) chunkA 0
    (by decide) (by decide)).2.2.1
/-- C15: NonFin frame. For every state and chunk, a successful write through
`nova_dedup_non_fin` returns the newly allocated block, in which the chunk is stored, creates
the entry `alloc_entry` with flag `NON_FIN_FLAG`, that block number, refcount 1 and all-zero
weak and strong fingerprints, records that entry for the block in the block-to-entry map
(all other mappings unchanged), and leaves the weak table, the strong table, every other
entry, `dup_block` and the mode unchanged. -/
theorem non_fin_frame (cfg : Config) (sbi : nova_sb_info) (x : Ext) (data : Chunk) (b : Nat)
    (hok : 0 ≤ (nova_dedup_non_fin cfg sbi x data b).allocated) :
    (nova_dedup_non_fin cfg sbi x data b).blocknr = x.blocknr ∧
    (nova_dedup_non_fin cfg sbi x data b).sbi.blocks x.blocknr = data ∧
    (nova_dedup_non_fin cfg sbi x data b).sbi.pentries x.alloc_entry
      = ⟨cfg.NON_FIN_FLAG, x.blocknr, 1, 0, ⟨0, 0, 0, 0⟩⟩ ∧
    (∀ k, k ≠ x.alloc_entry →
      (nova_dedup_non_fin cfg sbi x data b).sbi.pentries k = sbi.pentries k) ∧
    (nova_dedup_non_fin cfg sbi x data b).sbi.blocknr_to_entry x.blocknr = x.alloc_entry ∧
    (∀ k, k ≠ x.blocknr →
      (nova_dedup_non_fin cfg sbi x data b).sbi.blocknr_to_entry k = sbi.blocknr_to_entry k) ∧
    (nova_dedup_non_fin cfg sbi x data b).sbi.weak_hash_table = sbi.weak_hash_table ∧
    (nova_dedup_non_fin cfg sbi x data b).sbi.strong_hash_table = sbi.strong_hash_table ∧
    (nova_dedup_non_fin cfg sbi x data b).sbi.dup_block = sbi.dup_block ∧
    (nova_dedup_non_fin cfg sbi x data b).sbi.dedup_mode = sbi.dedup_mode := by
  by_cases hx : x.allocated < 0
  · obtain ⟨h1, -⟩ := non_fin_fail cfg sbi x data b hx _ rfl
    rw [h1] at hok
    omega
  · obtain ⟨-, h2, h3, h4, h5, h6, h7, h8⟩ := non_fin_ok cfg sbi x data b hx _ rfl
    refine ⟨h2, ?_, ?_, ?_, ?_, ?_, h4, h5, h8, (non_fin_ctrl cfg sbi x data b).1⟩
    · rw [h6, upd_same]
    · rw [h3, upd_same]
      rfl
    · intro k hk
      rw [h3, upd_other _ _ hk]
    · rw [h7, upd_same]
    · intro k hk
      rw [h7, upd_other _ _ hk]

/-- C15, witness: chunk A written through `nova_dedup_non_fin` with entry 1 and block 11. -/
theorem non_fin_frame_witness :
    (nova_dedup_non_fin exampleConfig (exampleState 1 0 0) (exampleExt 1) chunkA
      0).sbi.pentries 1 = ⟨4, 11, 1, 0, ⟨0, 0, 0, 0⟩⟩ :=
  (non_fin_frame exampleConfig (exampleState 1 0 0) (exampleExt 1) chunkA 0 (by decide)).2.2.1

/-- C16: lock discipline of one call, read off the events the call adds to the trace. For
every state, chunk and allocator result (so on every path, the allocation failures included),
with `w` the index of the call's weak bucket lock: running the events of
`nova_dedup_str_fin`, and those of `nova_dedup_weak_str_fin`, from no lock held never acquires
a lock that is held, never acquires a strong bucket lock unless the weak bucket lock `w` is
held, never releases a lock that is not held, and ends with no lock held (`lock_run` gives
`some []`). The lock events are exactly: for `nova_dedup_str_fin` the weak lock of the weak
bucket, the strong lock of the strong bucket, and their releases; for
`nova_dedup_weak_str_fin` the weak lock of the weak bucket, then, if the entry found is
upgraded, lock and unlock of the strong bucket its node goes to, then, on a weak collision,
lock and unlock of the strong bucket of the incoming fingerprint, then the release of the
weak lock; each with index bucket mod `HASH_TABLE_LOCK_NUM`. A bucket whose list the call
changes is the weak bucket, or a strong bucket whose lock the call took. -/
theorem lock_discipline (cfg : Config) (sbi : nova_sb_info) (x : Ext) (data : Chunk)
    (b : Nat) :
    (lock_run (weak_idx_of cfg sbi data % cfg.HASH_TABLE_LOCK_NUM) []
        (call_events sbi (nova_dedup_str_fin cfg sbi x data b)) = some [] ∧
      lock_events (call_events sbi (nova_dedup_str_fin cfg sbi x data b))
        = [Event.weak_lock (weak_idx_of cfg sbi data % cfg.HASH_TABLE_LOCK_NUM),
           Event.strong_lock (strong_idx_of cfg sbi data % cfg.HASH_TABLE_LOCK_NUM),
           Event.weak_unlock (weak_idx_of cfg sbi data % cfg.HASH_TABLE_LOCK_NUM),
           Event.strong_unlock (strong_idx_of cfg sbi data % cfg.HASH_TABLE_LOCK_NUM)] ∧
      (∀ i, (nova_dedup_str_fin cfg sbi x data b).sbi.weak_hash_table i
          ≠ sbi.weak_hash_table i → i = weak_idx_of cfg sbi data) ∧
      (∀ i, (nova_dedup_str_fin cfg sbi x data b).sbi.strong_hash_table i
          ≠ sbi.strong_hash_table i → i = strong_idx_of cfg sbi data)) ∧
    (lock_run (weak_idx_of cfg sbi data % cfg.HASH_TABLE_LOCK_NUM) []
        (call_events sbi (nova_dedup_weak_str_fin cfg sbi x data b)) = some [] ∧
      lock_events (call_events sbi (nova_dedup_weak_str_fin cfg sbi x data b))
        = [Event.weak_lock (weak_idx_of cfg sbi data % cfg.HASH_TABLE_LOCK_NUM)] ++
          (match weak_lookup cfg sbi data with
           | none => []
           | some wh =>
             (if ref_upgrades cfg sbi wh.entrynr then
                [Event.strong_lock
                  (bucket_idx sbi
                    (cfg.nova_fp_strong_calc
                      (sbi.blocks (sbi.pentries wh.entrynr).blocknr)).u64s0
                    % cfg.HASH_TABLE_LOCK_NUM),
                 Event.strong_unlock
                  (bucket_idx sbi
                    (cfg.nova_fp_strong_calc
                      (sbi.blocks (sbi.pentries wh.entrynr).blocknr)).u64s0
                    % cfg.HASH_TABLE_LOCK_NUM)]
              else []) ++
             (if cmp_fp_strong (cfg.nova_fp_strong_calc data) (ref_fp cfg sbi wh.entrynr)
              then []
              else
                [Event.strong_lock (strong_idx_of cfg sbi data % cfg.HASH_TABLE_LOCK_NUM),
                 Event.strong_unlock
                  (strong_idx_of cfg sbi data % cfg.HASH_TABLE_LOCK_NUM)])) ++
          [Event.weak_unlock (weak_idx_of cfg sbi data % cfg.HASH_TABLE_LOCK_NUM)] ∧
      (∀ i, (nova_dedup_weak_str_fin cfg sbi x data b).sbi.weak_hash_table i
          ≠ sbi.weak_hash_table i → i = weak_idx_of cfg sbi data) ∧
      (∀ i, (nova_dedup_weak_str_fin cfg sbi x data b).sbi.strong_hash_table i
          ≠ sbi.strong_hash_table i →
        Event.strong_lock (i % cfg.HASH_TABLE_LOCK_NUM)
          ∈ call_events sbi (nova_dedup_weak_str_fin cfg sbi x data b))) := by
  rw [call_events_of_trace (str_fin_trace cfg sbi x data b),
    call_events_of_trace (weak_str_fin_trace cfg sbi x data b)]
  exact ⟨⟨str_fin_lock_run cfg sbi x data, str_fin_lock_events cfg sbi x data,
      fun i => (str_fin_tables_changed cfg sbi x data b i).1,
      fun i => (str_fin_tables_changed cfg sbi x data b i).2⟩,
    ⟨weak_str_fin_lock_run cfg sbi x data, weak_str_fin_lock_events cfg sbi x data,
      fun i => (weak_str_fin_tables_changed cfg sbi x data b i).1,
      fun i => (weak_str_fin_tables_changed cfg sbi x data b i).2⟩⟩

/-- C17 (as the code has it): for every weak bucket into which nodes were inserted one after
the other, each by `hlist_add_head`, the entries they refer to all carrying the same weak
fingerprint, `nova_find_in_weak_hlist` for that fingerprint returns the node that was inserted
last: the insertion prepends and the lookup scans from the head. Here `es` then `e` are the
entries of the nodes in the order of insertion. -/
theorem lookup_returns_last_inserted (sbi : nova_sb_info) (idx fp : Nat) (es : List Nat)
    (e : Nat) (hfp : ∀ k ∈ es ++ [e], (sbi.pentries k).fp_weak = fp) :
    nova_find_in_weak_hlist (insert_weak_nodes sbi idx (es ++ [e])).pentries
      ((insert_weak_nodes sbi idx (es ++ [e])).weak_hash_table idx) fp = some ⟨e⟩ := by
  rw [insert_weak_nodes_pentries, insert_weak_nodes_bucket]
  have he : (sbi.pentries e).fp_weak = fp := hfp e (by simp)
  simp [nova_find_in_weak_hlist, he]

/-- C17, witness: nodes for the entries 1 and 2 of the example state, inserted in this order
into bucket 3; the lookup returns the node of entry 2. -/
theorem lookup_returns_last_inserted_witness :
    nova_find_in_weak_hlist (insert_weak_nodes sameWeakState 3 ([1] ++ [2])).pentries
      ((insert_weak_nodes sameWeakState 3 ([1] ++ [2])).weak_hash_table 3) 3 = some ⟨2⟩ :=
  lookup_returns_last_inserted sameWeakState 3 3 [1] 2 (by decide)

/-- C17, counterexample: nodes for the entries 1 and 2, both of weak fingerprint 3, are
inserted in this order into the empty bucket 3. The bucket then reads node 2, node 1, and the
lookup for fingerprint 3 returns the node of entry 2, inserted last, not the node of entry 1,
inserted first. -/
theorem first_inserted_is_not_returned :
    (sameWeakState.pentries 1).fp_weak = 3 ∧
    (sameWeakState.pentries 2).fp_weak = 3 ∧
    sameWeakState.weak_hash_table 3 = [] ∧
    (insert_weak_nodes sameWeakState 3 [1, 2]).weak_hash_table 3 = [⟨2⟩, ⟨1⟩] ∧
    nova_find_in_weak_hlist (insert_weak_nodes sameWeakState 3 [1, 2]).pentries
      ((insert_weak_nodes sameWeakState 3 [1, 2]).weak_hash_table 3) 3 = some ⟨2⟩ ∧
    ¬ nova_find_in_weak_hlist (insert_weak_nodes sameWeakState 3 [1, 2]).pentries
      ((insert_weak_nodes sameWeakState 3 [1, 2]).weak_hash_table 3) 3 = some ⟨1⟩ := by
  decide

/-- C19: refcount conservation. For every write through any of the three algorithms: a
successful write either is a dedup hit on an entry the index references, whose reference
count it increments by one (a u32 increment: by exactly one whenever the count is below
2^32 - 1) while no other reference count changes, or creates the entry handed out by the entry
allocator with reference count 1 while no other reference count changes; a failed write
changes no reference count. Hence, after any sequence of writes, each through any of the
algorithms, from a state with an empty index, the two allocators returning pairwise distinct
numbers and no block number having been returned 2^32 times or more: the reference counts of
the entries created sum to the number of successful writes, and the reference count of each
entry created is the number of successful writes that returned its block number. -/
theorem refcount_conservation (cfg : Config) :
    (∀ (a : Algo) (sbi : nova_sb_info) (x : Ext) (data : Chunk) (b : Nat),
      (0 ≤ (run_algo cfg a sbi x data b).allocated →
        (∃ e, algo_match cfg a sbi data = some e ∧ referenced sbi e ∧
          ((run_algo cfg a sbi x data b).sbi.pentries e).refcount
            = ((sbi.pentries e).refcount + 1) % U32_MOD ∧
          ((sbi.pentries e).refcount + 1 < U32_MOD →
            ((run_algo cfg a sbi x data b).sbi.pentries e).refcount
              = (sbi.pentries e).refcount + 1) ∧
          ∀ k, k ≠ e →
            ((run_algo cfg a sbi x data b).sbi.pentries k).refcount
              = (sbi.pentries k).refcount) ∨
        (algo_match cfg a sbi data = none ∧
          ((run_algo cfg a sbi x data b).sbi.pentries x.alloc_entry).refcount = 1 ∧
          ∀ k, k ≠ x.alloc_entry →
            ((run_algo cfg a sbi x data b).sbi.pentries k).refcount
              = (sbi.pentries k).refcount)) ∧
      ((run_algo cfg a sbi x data b).allocated < 0 →
        ∀ k, ((run_algo cfg a sbi x data b).sbi.pentries k).refcount
          = (sbi.pentries k).refcount)) ∧
    (∀ (sbi : nova_sb_info) (b : Nat) (ws : List (Algo × Ext × Chunk)),
      index_empty sbi →
      (ws.map (fun w => w.2.1.alloc_entry)).Nodup →
      (ws.map (fun w => w.2.1.blocknr)).Nodup →
      (∀ e ∈ mixed_created cfg sbi b ws,
        returns_of (mixed_rets cfg sbi b ws) ((mixed_state cfg sbi b ws).pentries e).blocknr
          < U32_MOD) →
      ((mixed_created cfg sbi b ws).map
          (fun e => ((mixed_state cfg sbi b ws).pentries e).refcount)).sum
        = successes (mixed_rets cfg sbi b ws) ∧
      ∀ e ∈ mixed_created cfg sbi b ws,
        ((mixed_state cfg sbi b ws).pentries e).refcount
          = returns_of (mixed_rets cfg sbi b ws)
              ((mixed_state cfg sbi b ws).pentries e).blocknr) := by
  constructor
  · intro a sbi x data b
    obtain ⟨hh, hc, hf⟩ := algo_effect cfg a sbi x data b
    constructor
    · intro hok
      cases hm : algo_match cfg a sbi data with
      | some e =>
        left
        obtain ⟨-, -, h3, h4, -⟩ := hh e hm
        exact ⟨e, rfl, algo_match_referenced hm, h3,
          fun hlt => by rw [h3, Nat.mod_eq_of_lt hlt], h4⟩
      | none =>
        right
        by_cases hx : x.allocated < 0
        · obtain ⟨h1, -⟩ := hf hm hx
          rw [h1] at hok
          omega
        · obtain ⟨-, -, h3, -, h5, -⟩ := hc hm hx
          exact ⟨rfl, h3, fun k hk => (h5 k hk).1⟩
    · intro hneg
      cases hm : algo_match cfg a sbi data with
      | some e =>
        obtain ⟨h1, -⟩ := hh e hm
        rw [h1] at hneg
        omega
      | none =>
        by_cases hx : x.allocated < 0
        · obtain ⟨-, h2, -⟩ := hf hm hx
          exact fun k => (h2 k).1
        · obtain ⟨h1, -⟩ := hc hm hx
          rw [h1] at hneg
          exact absurd hneg hx
  · intro sbi b ws hempty hE hK hbound
    have hacc := mixed_accounted cfg ws sbi b [] [] [] (accounted_of_empty sbi hempty) hE
      (fun _ _ h => by cases h) hK (fun _ _ h => by cases h)
    simp only [List.nil_append] at hacc
    obtain ⟨a1, -, -, a4, a5, a6⟩ := hacc
    have hrc : ∀ e ∈ mixed_created cfg sbi b ws,
        ((mixed_state cfg sbi b ws).pentries e).refcount
          = returns_of (mixed_rets cfg sbi b ws)
              ((mixed_state cfg sbi b ws).pentries e).blocknr := by
      intro e he
      rw [a5 e he, Nat.mod_eq_of_lt (hbound e he)]
    refine ⟨?_, hrc⟩
    rw [List.map_congr_left hrc]
    exact sum_returns_of _ (fun e => ((mixed_state cfg sbi b ws).pentries e).blocknr) a1 a4 _ a6

/-- C19, witness: from the empty example index, chunk A through `nova_dedup_str_fin` (entry 1,
block 11), chunk A through `nova_dedup_weak_str_fin` (a hit on entry 1), chunk B through
`nova_dedup_non_fin` (entry 3, block 13) and chunk B through `nova_dedup_str_fin` with a
failing block allocation: three successful writes, reference counts 2 and 1. -/
theorem refcount_conservation_witness :
    mixed_created exampleConfig (exampleState 4 0 0) 0
        [(Algo.str_fin, exampleExt 1, chunkA), (Algo.weak_str_fin, exampleExt 2, chunkA),
          (Algo.non_fin, exampleExt 3, chunkB), (Algo.str_fin, failingExt 4, chunkB)]
      = [1, 3] ∧
    successes (mixed_rets exampleConfig (exampleState 4 0 0) 0
        [(Algo.str_fin, exampleExt 1, chunkA), (Algo.weak_str_fin, exampleExt 2, chunkA),
          (Algo.non_fin, exampleExt 3, chunkB), (Algo.str_fin, failingExt 4, chunkB)]) = 3 ∧
    ((mixed_created exampleConfig (exampleState 4 0 0) 0
        [(Algo.str_fin, exampleExt 1, chunkA), (Algo.weak_str_fin, exampleExt 2, chunkA),
          (Algo.non_fin, exampleExt 3, chunkB), (Algo.str_fin, failingExt 4, chunkB)]).map
      (fun e => ((mixed_state exampleConfig (exampleState 4 0 0) 0
        [(Algo.str_fin, exampleExt 1, chunkA), (Algo.weak_str_fin, exampleExt 2, chunkA),
          (Algo.non_fin, exampleExt 3, chunkB),
          (Algo.str_fin, failingExt 4, chunkB)]).pentries e).refcount)).sum
      = successes (mixed_rets exampleConfig (exampleState 4 0 0) 0
        [(Algo.str_fin, exampleExt 1, chunkA), (Algo.weak_str_fin, exampleExt 2, chunkA),
          (Algo.non_fin, exampleExt 3, chunkB), (Algo.str_fin, failingExt 4, chunkB)]) :=
  ⟨by decide, by decide,
    ((refcount_conservation exampleConfig).2 (exampleState 4 0 0) 0
      [(Algo.str_fin, exampleExt 1, chunkA), (Algo.weak_str_fin, exampleExt 2, chunkA),
        (Algo.non_fin, exampleExt 3, chunkB), (Algo.str_fin, failingExt 4, chunkB)]
      (fun _ => ⟨rfl, rfl⟩) (by decide) (by decide) (by decide)).1⟩

/-- C20: strong-index invariant. After any sequence of writes, each through any of the three
algorithms (successful or not), from a state whose index is empty and none of whose entries
has flag `FP_STRONG_FLAG`, the two allocators returning pairwise distinct numbers and
`FP_WEAK_FLAG` and `NON_FIN_FLAG` differing from `FP_STRONG_FLAG`: every node of strong
bucket `b` references an entry whose flag is `FP_STRONG_FLAG` and whose stored strong
fingerprint has a first word whose low `num_entries_bits` bits are `b`; every entry whose flag
is `FP_STRONG_FLAG` is referenced by a node of the strong bucket that its stored strong
fingerprint selects; and so `nova_find_in_strong_hlist` on that bucket for the stored
fingerprint of such an entry finds a node. -/
theorem strong_index_invariant (cfg : Config)
    (hW : cfg.FP_WEAK_FLAG ≠ cfg.FP_STRONG_FLAG) (hN : cfg.NON_FIN_FLAG ≠ cfg.FP_STRONG_FLAG)
    (sbi : nova_sb_info) (b : Nat) (ws : List (Algo × Ext × Chunk))
    (hempty : index_empty sbi)
    (hinit : ∀ e, (sbi.pentries e).flag ≠ cfg.FP_STRONG_FLAG)
    (hE : (ws.map (fun w => w.2.1.alloc_entry)).Nodup)
    (hK : (ws.map (fun w => w.2.1.blocknr)).Nodup) :
    strong_index_inv cfg (mixed_state cfg sbi b ws) ∧
    ∀ e, ((mixed_state cfg sbi b ws).pentries e).flag = cfg.FP_STRONG_FLAG →
      ∃ n, nova_find_in_strong_hlist (mixed_state cfg sbi b ws).pentries
        ((mixed_state cfg sbi b ws).strong_hash_table
          (bucket_idx (mixed_state cfg sbi b ws)
            ((mixed_state cfg sbi b ws).pentries e).fp_strong.u64s0))
        ((mixed_state cfg sbi b ws).pentries e).fp_strong = some n := by
  obtain ⟨E', K', a1, a2, -, -⟩ := mixed_strong_inv cfg hW hN ws sbi b [] []
    (strong_inv_of_empty cfg sbi hempty hinit) hE (fun _ _ h => by cases h) hK
    (fun _ _ h => by cases h)
  refine ⟨⟨a1, a2⟩, fun e he => ?_⟩
  obtain ⟨n, hn, hne⟩ := a2 e he
  cases hf : nova_find_in_strong_hlist (mixed_state cfg sbi b ws).pentries
      ((mixed_state cfg sbi b ws).strong_hash_table
        (bucket_idx (mixed_state cfg sbi b ws)
          ((mixed_state cfg sbi b ws).pentries e).fp_strong.u64s0))
      ((mixed_state cfg sbi b ws).pentries e).fp_strong with
  | some m => exact ⟨m, rfl⟩
  | none =>
    exact absurd (by rw [hne]) ((find_strong_none.1 hf) n hn)

/-- C20, witness: the example index after chunk A through `nova_dedup_weak_str_fin`, chunk B
(same weak fingerprint) through `nova_dedup_weak_str_fin`, which upgrades the entry of A,
chunk A through `nova_dedup_str_fin`, chunk B through `nova_dedup_non_fin` and a failed write
through `nova_dedup_str_fin`. -/
theorem strong_index_invariant_witness :
    strong_index_inv exampleConfig
      (mixed_state exampleConfig (exampleState 2 0 0) 0
        [(Algo.weak_str_fin, exampleExt 1, chunkA), (Algo.weak_str_fin, exampleExt 2, chunkB),
          (Algo.str_fin, exampleExt 3, chunkA), (Algo.non_fin, exampleExt 4, chunkB),
          (Algo.str_fin, failingExt 5, [7])]) :=
  (strong_index_invariant exampleConfig (by decide) (by decide) (exampleState 2 0 0) 0
    [(Algo.weak_str_fin, exampleExt 1, chunkA), (Algo.weak_str_fin, exampleExt 2, chunkB),
      (Algo.str_fin, exampleExt 3, chunkA), (Algo.non_fin, exampleExt 4, chunkB),
      (Algo.str_fin, failingExt 5, [7])]
    (fun _ => ⟨rfl, rfl⟩) (fun _ => (by decide : (0 : Nat) ≠ 2)) (by decide) (by decide)).1

/-- C21: weak-index uniqueness. After any sequence of writes, each through any of the three
algorithms, from a state whose index is empty, the two allocators returning pairwise distinct
numbers and chunks of the sequence with equal strong fingerprints being equal (the
fingerprints are functions of the chunk): every node of weak bucket `i` references an entry
whose stored weak fingerprint has low `num_entries_bits` bits equal to `i`; two nodes of the
weak table, at position `k` of bucket `i` and position `l` of bucket `j`, that reference
entries of the same stored weak fingerprint are the same node (`i = j` and `k = l`); and so
`nova_find_in_weak_hlist` gives the same result on every reordering of a bucket list. -/
theorem weak_index_uniqueness (cfg : Config) (sbi : nova_sb_info) (b : Nat)
    (ws : List (Algo × Ext × Chunk)) (hempty : index_empty sbi)
    (hE : (ws.map (fun w => w.2.1.alloc_entry)).Nodup)
    (hK : (ws.map (fun w => w.2.1.blocknr)).Nodup)
    (hpol : ∀ c ∈ ws.map (fun w => w.2.2), ∀ d ∈ ws.map (fun w => w.2.2),
      cfg.nova_fp_strong_calc c = cfg.nova_fp_strong_calc d → c = d) :
    (∀ i n, n ∈ (mixed_state cfg sbi b ws).weak_hash_table i →
      bucket_idx (mixed_state cfg sbi b ws)
        ((mixed_state cfg sbi b ws).pentries n.entrynr).fp_weak = i) ∧
    (∀ (i j k l : Nat) (n m : nova_hentry),
      ((mixed_state cfg sbi b ws).weak_hash_table i)[k]? = some n →
      ((mixed_state cfg sbi b ws).weak_hash_table j)[l]? = some m →
      ((mixed_state cfg sbi b ws).pentries n.entrynr).fp_weak
        = ((mixed_state cfg sbi b ws).pentries m.entrynr).fp_weak →
      i = j ∧ k = l) ∧
    (∀ (i : Nat) (l' : List nova_hentry) (fp : Nat),
      l'.Perm ((mixed_state cfg sbi b ws).weak_hash_table i) →
      nova_find_in_weak_hlist (mixed_state cfg sbi b ws).pentries l' fp
        = nova_find_in_weak_hlist (mixed_state cfg sbi b ws).pentries
            ((mixed_state cfg sbi b ws).weak_hash_table i) fp) := by
  obtain ⟨E', K', C', a1, a2, -, -, -⟩ := mixed_weak_inv cfg ws sbi b [] [] []
    (weak_inv_of_empty cfg sbi hempty) hE (fun _ _ h => by cases h) hK
    (fun _ _ h => by cases h)
    (by
      intro c hc d hd
      rcases hc with hc | hc
      · cases hc
      · rcases hd with hd | hd
        · cases hd
        · exact hpol c hc d hd)
  refine ⟨a1, ?_, fun i l' fp hperm => find_weak_perm hperm (a2 i) fp⟩
  intro i j k l n m hn hm hfp
  have hi := a1 i n (List.getElem?_mem hn)
  have hj := a1 j m (List.getElem?_mem hm)
  have hij : i = j := by rw [← hi, ← hj, hfp]
  subst hij
  have h1 : (((mixed_state cfg sbi b ws).weak_hash_table i).map
      (fun n => ((mixed_state cfg sbi b ws).pentries n.entrynr).fp_weak))[k]?
      = some ((mixed_state cfg sbi b ws).pentries n.entrynr).fp_weak := by
    rw [List.getElem?_map, hn]
    rfl
  have h2 : (((mixed_state cfg sbi b ws).weak_hash_table i).map
      (fun n => ((mixed_state cfg sbi b ws).pentries n.entrynr).fp_weak))[l]?
      = some ((mixed_state cfg sbi b ws).pentries n.entrynr).fp_weak := by
    rw [List.getElem?_map, hm, hfp]
    rfl
  exact ⟨rfl, nodup_index_unique (a2 i) h1 h2⟩

/-- C21, witness: the example index after chunk A through `nova_dedup_weak_str_fin`, chunk B
(same weak fingerprint, another strong one) and chunk A again through `nova_dedup_str_fin`,
chunk B through `nova_dedup_non_fin` and the chunk `[11]`, whose weak fingerprint 11 selects
the bucket 3 of A, through `nova_dedup_str_fin`: bucket 3 then holds two nodes, and the lookup
for the weak fingerprint 3 gives the same result on bucket 3 and on bucket 3 reversed. -/
theorem weak_index_uniqueness_witness :
    (mixed_state exampleConfig (exampleState 2 0 0) 0
        [(Algo.weak_str_fin, exampleExt 1, chunkA), (Algo.str_fin, exampleExt 2, chunkB),
        (Algo.str_fin, exampleExt 3, chunkA), (Algo.non_fin, exampleExt 4, chunkB),
        (Algo.str_fin, exampleExt 5, [11])]).weak_hash_table 3 = [⟨5⟩, ⟨1⟩] ∧
    nova_find_in_weak_hlist
      (mixed_state exampleConfig (exampleState 2 0 0) 0
        [(Algo.weak_str_fin, exampleExt 1, chunkA), (Algo.str_fin, exampleExt 2, chunkB),
        (Algo.str_fin, exampleExt 3, chunkA), (Algo.non_fin, exampleExt 4, chunkB),
        (Algo.str_fin, exampleExt 5, [11])]).pentries
      ((mixed_state exampleConfig (exampleState 2 0 0) 0
        [(Algo.weak_str_fin, exampleExt 1, chunkA), (Algo.str_fin, exampleExt 2, chunkB),
        (Algo.str_fin, exampleExt 3, chunkA), (Algo.non_fin, exampleExt 4, chunkB),
        (Algo.str_fin, exampleExt 5, [11])]).weak_hash_table 3).reverse 3
    = nova_find_in_weak_hlist
      (mixed_state exampleConfig (exampleState 2 0 0) 0
        [(Algo.weak_str_fin, exampleExt 1, chunkA), (Algo.str_fin, exampleExt 2, chunkB),
        (Algo.str_fin, exampleExt 3, chunkA), (Algo.non_fin, exampleExt 4, chunkB),
        (Algo.str_fin, exampleExt 5, [11])]).pentries
      ((mixed_state exampleConfig (exampleState 2 0 0) 0
        [(Algo.weak_str_fin, exampleExt 1, chunkA), (Algo.str_fin, exampleExt 2, chunkB),
        (Algo.str_fin, exampleExt 3, chunkA), (Algo.non_fin, exampleExt 4, chunkB),
        (Algo.str_fin, exampleExt 5, [11])]).weak_hash_table 3) 3 :=
  ⟨by decide,
  (weak_index_uniqueness exampleConfig (exampleState 2 0 0) 0
    [(Algo.weak_str_fin, exampleExt 1, chunkA), (Algo.str_fin, exampleExt 2, chunkB),
      (Algo.str_fin, exampleExt 3, chunkA), (Algo.non_fin, exampleExt 4, chunkB),
      (Algo.str_fin, exampleExt 5, [11])]
    (fun _ => ⟨rfl, rfl⟩) (by decide) (by decide) (by decide)).2.2 3 _ 3 (List.reverse_perm _)⟩

end NvDedup
